import Mathlib

/-!
Ballot accumulator (paxos/ballotaccumulator.go), variable persistence
(txnengine/var.go), topology writer (network/topologywriter.go) and one-shot
sender (utils/senders.go).

A shallow embedding of the per-transaction ballot accumulator: the types
`BallotAccumulator`, `varBallot`, `rmBallot`, the reduction `combineVote`, the
bad-reads table and the outcome derivation; of the write path of a variable
(`SetCurFrame`, `maybeWriteFrame` and the completion callback); of
`maybeStartWrite` and `AddSelfToTopology`; and of `OneShotSender`. The
definitions of the four namespaces come first, followed by the properties
proved about them.

Conventions of the embedding:
* `VarUUId`, `TxnId` and `RMId` are natural numbers (opaque identifiers with a
  total order).
* A Go map is an association list in insertion order; a `range` over the map
  visits the list in order.  Go leaves that order unspecified.
* A Go panic is the `Except.error` result of the function that raises it.
-/

namespace Paxos

/-- Failure: the hard failures (Go panics) of the accumulator code. -/
inductive Failure where
  /-- The panic "Ballot outcome clock too short!" of determineOutcome. -/
  | clockTooShort
  /-- The panic "About to do 0 - 1 in uint64" of badReads.combine. -/
  | zeroClockElem
  /-- A nil pointer dereference, as for a VarUUId the map has no varBallot for. -/
  | nilDereference
  /-- An index outside the vBallots slice in NewBallotAccumulator. -/
  | indexOutOfRange
  /-- The panic "Expected to find %d instances" of BallotAccumulatorFromData. -/
  | instanceCountMismatch
  deriving DecidableEq, Repr

/-! ## Vector clocks -/

/-- Modelled from the spec: the vectorclock package is not among the sources.
A vector clock is a mapping from VarUUId to a 64-bit counter, default 0 for
unseen keys, held here as a list of (key, counter) entries. -/
abbrev VectorClock := List (Nat × Nat)

/-- Modelled from the spec: lookup-at-key. The counter of a key is the largest
counter listed for it (the counter listed, when keys are distinct), 0 when the
key is unseen. -/
def VectorClock.At (vc : VectorClock) (v : Nat) : Nat :=
  vc.foldr (fun e acc => if e.1 = v then max e.2 acc else acc) 0

/-- Modelled from the spec: the number of keys of the clock. -/
def VectorClock.Len (vc : VectorClock) : Nat :=
  (vc.map Prod.fst).dedup.length

/-- Modelled from the spec: set-max-at-key. A seen key keeps the larger of its
counter and `n`; an unseen key is added with counter `n`. -/
def VectorClock.SetVarIdMax : VectorClock → Nat → Nat → VectorClock
  | [], v, n => [(v, n)]
  | (k, m) :: rest, v, n =>
    if k = v then (k, max m n) :: rest
    else (k, m) :: VectorClock.SetVarIdMax rest v n

/-- Modelled from the spec: pairwise merge-max, every entry of `b` is
set-max-ed into `a`. -/
def VectorClock.MergeInMax (a b : VectorClock) : VectorClock :=
  b.foldl (fun acc e => VectorClock.SetVarIdMax acc e.1 e.2) a

/-- Modelled from the spec: vectorclock.NewVectorClock, the empty clock. -/
def NewVectorClock : VectorClock := []

/-! ## Ballots and actions -/

/-- Modelled from the spec: eng.Vote, the three votes of a ballot. -/
inductive Vote where
  | Commit
  | AbortBadRead
  | AbortDeadlock
  deriving DecidableEq, Repr

/-- Modelled from the spec: the value part of a msgs.Action, one of
Read(version), Write(value, refs), ReadWrite, Create(value, refs) or a
value-less write (missing value). -/
inductive ActionValue where
  | read (version : Nat)
  | write (value refs : Nat)
  | readWrite (version value refs : Nat)
  | create (value refs : Nat)
  | missing
  deriving DecidableEq, Repr

/-- Modelled from the spec: msgs.Action, a variable and what is done to it. -/
structure Action where
  varId : Nat
  value : ActionValue
  deriving DecidableEq, Repr

/-- Modelled from the spec: txnreader.IsReadOnly. -/
def IsReadOnly (a : Action) : Bool :=
  match a.value with
  | .read _ => true
  | _ => false

/-- Modelled from the spec: txnreader.IsWriteWithValue. -/
def IsWriteWithValue (a : Action) : Bool :=
  match a.value with
  | .write _ _ => true
  | .readWrite _ _ _ => true
  | .create _ _ => true
  | _ => false

/-- Modelled from the spec: `action.Value().Existing().Read()`, the version
read by the action (the zero TxnId when the action reads nothing). -/
def Action.existingRead (a : Action) : Nat :=
  match a.value with
  | .read v => v
  | .readWrite v _ _ => v
  | _ => 0

/-- Modelled from the spec: the abort detail of a ballot, as returned by
`VoteCap.AbortBadRead()`: the referenced TxnId and the actions as witnessed. -/
structure VoteCap where
  txnId : Nat
  txnActions : List Action
  deriving DecidableEq, Repr

/-- Modelled from the spec: eng.Ballot (and eng.BallotBuilder, which has the
same four fields): vote, voteCap, clock, subscribers. -/
structure Ballot where
  vote : Vote
  voteCap : VoteCap
  clock : VectorClock
  subscribers : List Nat
  deriving DecidableEq, Repr

/-- Modelled from the spec: Ballot.Aborted, the vote is not Commit. -/
def Ballot.Aborted (b : Ballot) : Bool :=
  b.vote != Vote.Commit

/-- The accepted ballot and round of a paxos instance, the two fields of
`instance` that BallotReceived reads. -/
structure Instance where
  accepted : Ballot
  acceptedNum : Nat
  deriving DecidableEq, Repr

/-- The struct rmBallot. -/
structure rmBallot where
  instanceRMId : Nat
  ballot : Ballot
  roundNumber : Nat
  deriving DecidableEq, Repr

/-- The struct varBallot; a nil `result` is `none`, a nil `rmToBallot` is the
empty list. -/
structure varBallot where
  vUUId : Nat
  result : Option Ballot
  rmToBallot : List rmBallot
  voters : Nat
  deriving DecidableEq, Repr

/-- The method rmBallots.Sort: sort.Sort with Less comparing instanceRMId. -/
def rmBallots.Sort (rmBals : List rmBallot) : List rmBallot :=
  rmBals.insertionSort (fun a b => a.instanceRMId ≤ b.instanceRMId)

/-! ## Bad reads -/

/-- The struct badReadAction. -/
structure badReadAction where
  rmBallot : rmBallot
  vUUId : Nat
  txnId : Nat
  clockElem : Nat
  action : Action
  deriving DecidableEq, Repr

/-- The type badReads, a map from VarUUId to badReadAction; the key of an
entry is its `vUUId`. -/
abbrev badReads := List badReadAction

/-- The constructor NewBadReads. -/
def NewBadReads : badReads := []

/-- The decrement `clockElem--` on a uint64: it wraps around at 0. -/
def u64dec (c : Nat) : Nat :=
  (c + 18446744073709551615) % 18446744073709551616

/-- The method badReadAction.set. -/
def badReadAction.set (bra : badReadAction) (action : Action) (rmBal : Paxos.rmBallot)
    (txnId clockElem : Nat) : badReadAction :=
  { bra with rmBallot := rmBal, txnId := txnId, clockElem := clockElem, action := action }

/-- The method badReadAction.combine. -/
def badReadAction.combine (bra : badReadAction) (newAction : Action) (rmBal : Paxos.rmBallot)
    (txnId clockElem : Nat) : badReadAction :=
  let braIsReadOnly := IsReadOnly bra.action
  let newIsReadOnly := IsReadOnly newAction
  if braIsReadOnly && newIsReadOnly then
    let clockElem := u64dec clockElem
    let newRead := newAction.existingRead
    if clockElem > bra.clockElem || (clockElem == bra.clockElem && decide (bra.txnId < newRead)) then
      bra.set newAction rmBal newRead clockElem
    else bra
  else if !braIsReadOnly && !newIsReadOnly then
    if clockElem > bra.clockElem || (clockElem == bra.clockElem && decide (bra.txnId < txnId)) then
      bra.set newAction rmBal txnId clockElem
    else bra
  else if braIsReadOnly then
    if bra.txnId = txnId then
      bra.set newAction rmBal txnId clockElem
    else if clockElem > bra.clockElem then
      bra.set newAction rmBal txnId clockElem
    else bra
  else
    let clockElem := u64dec clockElem
    let newRead := newAction.existingRead
    if bra.txnId ≠ newRead then
      if clockElem > bra.clockElem || (clockElem == bra.clockElem && decide (bra.txnId < newRead)) then
        bra.set newAction rmBal newRead clockElem
      else bra
    else bra

/-- The map update `br[k] = f br[k]` for the entry found under key `k`. -/
def badReads.modify (br : badReads) (k : Nat) (f : badReadAction → badReadAction) : badReads :=
  match br with
  | [] => []
  | bra :: rest => if bra.vUUId = k then f bra :: rest else bra :: badReads.modify rest k f

/-- One iteration of the loop of badReads.combine, for one witnessed action. -/
def badReads.combineAction (br : badReads) (rmBal : rmBallot) (action : Action) :
    Except Failure badReads :=
  let clock := rmBal.ballot.clock
  let txnId := rmBal.ballot.voteCap.txnId
  let vUUId := action.varId
  let clockElem := VectorClock.At clock vUUId
  if br.any (fun bra => bra.vUUId == vUUId) then
    .ok (badReads.modify br vUUId (fun bra => bra.combine action rmBal txnId clockElem))
  else if IsReadOnly action then
    if clockElem = 0 then .error Failure.zeroClockElem
    else .ok (br ++ [{ rmBallot := rmBal, vUUId := vUUId, txnId := action.existingRead,
                       clockElem := clockElem - 1, action := action }])
  else
    .ok (br ++ [{ rmBallot := rmBal, vUUId := vUUId, txnId := txnId,
                  clockElem := clockElem, action := action }])

/-- The loop of badReads.combine over a list of witnessed actions. -/
def badReads.combineActions (br : badReads) (rmBal : rmBallot) : List Action → Except Failure badReads
  | [] => .ok br
  | action :: rest =>
    match badReads.combineAction br rmBal action with
    | .error e => .error e
    | .ok br1 => badReads.combineActions br1 rmBal rest

/-- The method badReads.combine. -/
def badReads.combine (br : badReads) (rmBal : rmBallot) : Except Failure badReads :=
  badReads.combineActions br rmBal rmBal.ballot.voteCap.txnActions

/-- The wire record Update: txnId, actions, clock. -/
structure Update where
  txnId : Nat
  actions : List Action
  clock : VectorClock
  deriving DecidableEq, Repr

/-- The first loop of AddToSeg: the map from txnId to the list of its
badReadActions, groups in order of first appearance. -/
def badReads.groupByTxnId : List badReadAction → List (Nat × List badReadAction) → List (Nat × List badReadAction)
  | [], groups => groups
  | bra :: rest, groups =>
    if groups.any (fun g => g.1 == bra.txnId) then
      badReads.groupByTxnId rest
        (groups.map (fun g => if g.1 = bra.txnId then (g.1, g.2 ++ [bra]) else g))
    else
      badReads.groupByTxnId rest (groups ++ [(bra.txnId, [bra])])

/-- The action AddToSeg emits for one badReadAction: a write carrying value and
references for a write-with-value, a missing value otherwise. -/
def badReadAction.toUpdateAction (bra : badReadAction) : Action :=
  if IsReadOnly bra.action then { varId := bra.action.varId, value := ActionValue.missing }
  else if IsWriteWithValue bra.action then
    match bra.action.value with
    | .create value refs => { varId := bra.action.varId, value := ActionValue.write value refs }
    | .write value refs => { varId := bra.action.varId, value := ActionValue.write value refs }
    | .readWrite _ value refs => { varId := bra.action.varId, value := ActionValue.write value refs }
    | _ => { varId := bra.action.varId, value := ActionValue.missing }
  else { varId := bra.action.varId, value := ActionValue.missing }

/-- The method badReads.AddToSeg: one Update per txnId group. -/
def badReads.AddToSeg (br : badReads) : List Update :=
  (badReads.groupByTxnId br []).map (fun g =>
    { txnId := g.1,
      actions := g.2.map badReadAction.toUpdateAction,
      clock := g.2.foldl (fun clock bra => VectorClock.SetVarIdMax clock bra.vUUId bra.clockElem)
                 NewVectorClock })

/-! ## Ballot reduction -/

/-- The struct varBallotReducer: the variable, the embedded BallotBuilder
(Vote, VoteCap, Clock, Subscribers) and the shared bad-reads table. -/
structure varBallotReducer where
  vUUId : Nat
  Vote : Vote
  VoteCap : VoteCap
  Clock : VectorClock
  Subscribers : List Nat
  badReads : badReads
  deriving DecidableEq, Repr

/-- The switch statement of combineVote (the ballot of `rmBal` is `new`). -/
def varBallotReducer.combineSwitch (cur : varBallotReducer) (rmBal : rmBallot) : varBallotReducer :=
  let new := rmBal.ballot
  let curClock := cur.Clock
  let newClock := rmBal.ballot.clock
  if cur.Vote = Vote.Commit ∧ new.vote = Vote.Commit then
    { cur with Clock := VectorClock.MergeInMax curClock newClock,
               Subscribers := cur.Subscribers ++ new.subscribers }
  else if cur.Vote = Vote.AbortDeadlock ∧ VectorClock.Len curClock = 0 then
    cur
  else if new.vote = Vote.AbortDeadlock ∧ VectorClock.Len newClock = 0 then
    { cur with Vote := Vote.AbortDeadlock, VoteCap := new.voteCap, Clock := newClock,
               Subscribers := [] }
  else if cur.Vote = Vote.Commit then
    { cur with Vote := new.vote, VoteCap := new.voteCap, Clock := newClock, Subscribers := [] }
  else if new.vote = Vote.Commit then
    cur
  else if new.vote = Vote.AbortDeadlock ∧ cur.Vote = Vote.AbortDeadlock then
    { cur with Clock := VectorClock.MergeInMax curClock newClock }
  else if new.vote = Vote.AbortDeadlock ∧ cur.Vote = Vote.AbortBadRead ∧
      VectorClock.At newClock cur.vUUId < VectorClock.At curClock cur.vUUId then
    { cur with Clock := VectorClock.MergeInMax curClock newClock }
  else if new.vote = Vote.AbortDeadlock ∧ cur.Vote = Vote.AbortBadRead then
    { cur with Vote := Vote.AbortDeadlock, VoteCap := new.voteCap,
               Clock := VectorClock.MergeInMax curClock newClock }
  else if cur.Vote = Vote.AbortBadRead then
    { cur with Clock := VectorClock.MergeInMax curClock newClock }
  else if VectorClock.At newClock cur.vUUId > VectorClock.At curClock cur.vUUId then
    { cur with Vote := Vote.AbortBadRead, VoteCap := new.voteCap,
               Clock := VectorClock.MergeInMax curClock newClock }
  else
    { cur with Clock := VectorClock.MergeInMax curClock newClock }

/-- The method varBallotReducer.combineVote: an AbortBadRead ballot is first
added to the bad-reads table, then the switch runs. -/
def varBallotReducer.combineVote (cur : varBallotReducer) (rmBal : rmBallot) :
    Except Failure varBallotReducer :=
  if rmBal.ballot.vote = Vote.AbortBadRead then
    match badReads.combine cur.badReads rmBal with
    | .error e => .error e
    | .ok br => .ok (varBallotReducer.combineSwitch { cur with badReads := br } rmBal)
  else
    .ok (varBallotReducer.combineSwitch cur rmBal)

/-- The loop of CalculateResult: combineVote over the rmBallots in order. -/
def varBallotReducer.combineVotes (cur : varBallotReducer) : List rmBallot → Except Failure varBallotReducer
  | [] => .ok cur
  | rmBal :: rest =>
    match varBallotReducer.combineVote cur rmBal with
    | .error e => .error e
    | .ok cur1 => varBallotReducer.combineVotes cur1 rest

/-- Modelled from the spec: BallotBuilder.Aborted, the vote is not Commit. -/
def varBallotReducer.Aborted (cur : varBallotReducer) : Bool :=
  cur.Vote != Vote.Commit

/-- Modelled from the spec: BallotBuilder.ToBallot, the ballot with the
builder's vote, voteCap, clock and subscribers. -/
def varBallotReducer.ToBallot (cur : varBallotReducer) : Ballot :=
  { vote := cur.Vote, voteCap := cur.VoteCap, clock := cur.Clock, subscribers := cur.Subscribers }

/-- The map insertion `commitSubscribers[subId] = EmptyStructVal` on a set of
TxnIds held as a duplicate-free list. -/
def setInsert (s : List Nat) (subId : Nat) : List Nat :=
  if subId ∈ s then s else s ++ [subId]

/-- The loop adding every subscriber of a list to commitSubscribers. -/
def setInsertAll (s : List Nat) (subIds : List Nat) : List Nat :=
  subIds.foldl setInsert s

/-- The reducer CalculateResult starts from: vote Commit, default voteCap,
empty clock, no subscribers, and the bad-reads table handed in. -/
def newReducer (vUUId : Nat) (br : badReads) : varBallotReducer :=
  { vUUId := vUUId, Vote := Vote.Commit, VoteCap := { txnId := 0, txnActions := [] },
    Clock := NewVectorClock, Subscribers := [], badReads := br }

/-- The method varBallot.CalculateResult; it returns the varBallot with its
result set, and the updated bad reads, combined clock and commit subscribers. -/
def varBallot.CalculateResult (vb : varBallot) (br : badReads) (clock : VectorClock)
    (commitSubscribers : List Nat) :
    Except Failure (varBallot × badReads × VectorClock × List Nat) :=
  match varBallotReducer.combineVotes (newReducer vb.vUUId br) vb.rmToBallot with
  | .error e => .error e
  | .ok reducer =>
    if !reducer.Aborted then
      .ok ({ vb with result := some reducer.ToBallot }, reducer.badReads,
           VectorClock.MergeInMax clock reducer.Clock,
           setInsertAll commitSubscribers reducer.Subscribers)
    else
      .ok ({ vb with result := some reducer.ToBallot }, reducer.badReads, clock, commitSubscribers)

/-! ## The accumulator -/

/-- The wire record Allocation: rmId, active (bootcount or 0), actionIndices. -/
structure Allocation where
  rmId : Nat
  active : Nat
  actionIndices : List Nat
  deriving DecidableEq, Repr

/-- The part of txnreader.TxnReader the accumulator reads: the id, the actions
and the allocations of the transaction. -/
structure TxnReader where
  Id : Nat
  actions : List Action
  allocations : List Allocation
  deriving DecidableEq, Repr

/-- One entry of the manifest: `{rmId, vote}`. -/
structure AcceptedInstanceId where
  rmId : Nat
  vote : Vote
  deriving DecidableEq, Repr

/-- One variable of the manifest: `{varId, acceptedInstances}`. -/
structure OutcomeId where
  varId : Nat
  acceptedInstances : List AcceptedInstanceId
  deriving DecidableEq, Repr

/-- The union of the wire record Outcome: commit(clock), or abort with
resubmit or rerun(updates). -/
inductive OutcomeKind where
  | commit (clock : VectorClock)
  | abortResubmit
  | abortRerun (updates : List Update)
  deriving DecidableEq, Repr

/-- The wire record Outcome: the manifest `id`, the transaction body (here
only whether it is the deflated one) and the commit or abort part. -/
structure Outcome where
  id : List OutcomeId
  txnDeflated : Bool
  kind : OutcomeKind
  deriving DecidableEq, Repr

/-- The struct BallotAccumulator (without its logger). The map vUUIdToBallots
is the list of its varBallots, each under the key `vUUId`. -/
structure BallotAccumulator where
  txn : TxnReader
  vUUIdToBallots : List varBallot
  outcome : Option Outcome
  subscribers : List Nat
  incompleteVars : Int
  dirty : Bool
  deriving DecidableEq, Repr

/-- The map assignment `ba.vUUIdToBallots[*vUUId] = vBallot`: an entry under
the same key is replaced, a new key is added. -/
def mapSet : List varBallot → varBallot → List varBallot
  | [], vb => [vb]
  | x :: rest, vb => if x.vUUId = vb.vUUId then vb :: rest else x :: mapSet rest vb

/-- The map lookup `ba.vUUIdToBallots[*vUUId]`. -/
def mapGet (m : List varBallot) (vUUId : Nat) : Option varBallot :=
  m.find? (fun vb => vb.vUUId == vUUId)

/-- The statement `vBallots[i].voters++`; an index outside the slice panics. -/
def incVoters : List varBallot → Nat → Except Failure (List varBallot)
  | [], _ => .error Failure.indexOutOfRange
  | vb :: rest, 0 => .ok ({ vb with voters := vb.voters + 1 } :: rest)
  | vb :: rest, i + 1 =>
    match incVoters rest i with
    | .error e => .error e
    | .ok rest1 => .ok (vb :: rest1)

/-- The inner loop of NewBallotAccumulator over the action indices of one
allocation. -/
def countIndices (vBallots : List varBallot) : List Nat → Except Failure (List varBallot)
  | [] => .ok vBallots
  | i :: rest =>
    match incVoters vBallots i with
    | .error e => .error e
    | .ok vBallots1 => countIndices vBallots1 rest

/-- The loop of NewBallotAccumulator over the allocations; it breaks at the
first allocation whose Active is 0. -/
def countAllocations (vBallots : List varBallot) : List Allocation → Except Failure (List varBallot)
  | [] => .ok vBallots
  | alloc :: rest =>
    if alloc.active = 0 then .ok vBallots
    else
      match countIndices vBallots alloc.actionIndices with
      | .error e => .error e
      | .ok vBallots1 => countAllocations vBallots1 rest

/-- The constructor NewBallotAccumulator. The slice vBallots has one varBallot
per action; the map points at them, so it sees the voters counted after it was
filled. -/
def NewBallotAccumulator (txn : TxnReader) : Except Failure BallotAccumulator :=
  let vBallots : List varBallot :=
    txn.actions.map (fun action =>
      { vUUId := action.varId, result := none, rmToBallot := [], voters := 0 })
  match countAllocations vBallots txn.allocations with
  | .error e => .error e
  | .ok vBallots1 =>
    .ok { txn := txn,
          vUUIdToBallots := vBallots1.foldl mapSet [],
          outcome := none,
          subscribers := [],
          incompleteVars := (txn.actions.length : Int),
          dirty := false }

/-- The loop of BallotReceived that looks for the entry of `instanceRMId` and
overwrites its ballot; `none` when there is no such entry. -/
def rmBallots.overwrite (instanceRMId : Nat) (accepted : Ballot) : List rmBallot → Option (List rmBallot)
  | [] => none
  | rBal :: rest =>
    if rBal.instanceRMId = instanceRMId then some ({ rBal with ballot := accepted } :: rest)
    else
      match rmBallots.overwrite instanceRMId accepted rest with
      | none => none
      | some rest1 => some (rBal :: rest1)

/-- The rmBallot BallotReceived appends for a new RM (lines 147-151). -/
def newRmBallot (instanceRMId : Nat) (inst : Instance) : rmBallot :=
  { instanceRMId := instanceRMId, ballot := inst.accepted, roundNumber := inst.acceptedNum }

/-- The tail of BallotReceived (lines 160-163) for the varBallot just updated:
once the list has reached `voters` the cached result is dropped and the
accumulator is dirty; the varBallot is written back under its key. -/
def BallotAccumulator.markDirty (ba : BallotAccumulator) (vBallot : varBallot) : BallotAccumulator :=
  if vBallot.rmToBallot.length ≥ vBallot.voters then
    { ba with vUUIdToBallots := mapSet ba.vUUIdToBallots { vBallot with result := none },
              dirty := true }
  else
    { ba with vUUIdToBallots := mapSet ba.vUUIdToBallots vBallot }

/-- The body of BallotReceived before its final `return ba.determineOutcome()`
(lines 135-163). The merge `ba.txn.Combine(txn)` of two readers of the same
transaction is left out: the actions and allocations read here do not change. -/
def BallotAccumulator.recordBallot (ba : BallotAccumulator) (instanceRMId : Nat)
    (inst : Instance) (vUUId : Nat) : Except Failure BallotAccumulator :=
  match mapGet ba.vUUIdToBallots vUUId with
  | none => .error Failure.nilDereference
  | some vBallot =>
    match rmBallots.overwrite instanceRMId inst.accepted vBallot.rmToBallot with
    | some rmToBallot =>
      .ok (ba.markDirty { vBallot with rmToBallot := rmToBallot })
    | none =>
      let appended := vBallot.rmToBallot ++ [newRmBallot instanceRMId inst]
      let incompleteVars :=
        if appended.length = vBallot.voters then ba.incompleteVars - 1 else ba.incompleteVars
      let rmToBallot :=
        if appended.length ≥ vBallot.voters then rmBallots.Sort appended else appended
      .ok (BallotAccumulator.markDirty { ba with incompleteVars := incompleteVars }
            { vBallot with rmToBallot := rmToBallot })

/-- The local variables of determineOutcome that its loop over the varBallots
updates. -/
structure Gathered where
  combinedClock : VectorClock
  aborted : Bool
  deadlock : Bool
  vUUIds : List Nat
  commitSubscribers : List Nat
  br : badReads
  deriving DecidableEq, Repr

/-- The locals of determineOutcome before its loop (lines 179-184). -/
def Gathered.init : Gathered :=
  { combinedClock := NewVectorClock, aborted := false, deadlock := false, vUUIds := [],
    commitSubscribers := [], br := NewBadReads }

/-- One iteration of the loop of determineOutcome (lines 187-197). -/
def gatherStep (vBallot : varBallot) (g : Gathered) : Except Failure (varBallot × Gathered) :=
  match vBallot.result with
  | none =>
    match vBallot.CalculateResult g.br g.combinedClock g.commitSubscribers with
    | .error e => .error e
    | .ok (vBallot1, br, clock, subs) =>
      match vBallot1.result with
      | none => .error Failure.nilDereference
      | some result =>
        .ok (vBallot1,
             { combinedClock := clock,
               aborted := g.aborted || result.Aborted,
               deadlock := g.deadlock || decide (result.vote = Vote.AbortDeadlock),
               vUUIds := g.vUUIds ++ [vBallot.vUUId],
               commitSubscribers := subs,
               br := br })
  | some result =>
    if !result.Aborted then
      .ok (vBallot,
           { combinedClock := VectorClock.MergeInMax g.combinedClock result.clock,
             aborted := g.aborted || result.Aborted,
             deadlock := g.deadlock || decide (result.vote = Vote.AbortDeadlock),
             vUUIds := g.vUUIds ++ [vBallot.vUUId],
             commitSubscribers := setInsertAll g.commitSubscribers result.subscribers,
             br := g.br })
    else
      .ok (vBallot,
           { g with aborted := g.aborted || result.Aborted,
                    deadlock := g.deadlock || decide (result.vote = Vote.AbortDeadlock),
                    vUUIds := g.vUUIds ++ [vBallot.vUUId] })

/-- The loop of determineOutcome over the map (lines 186-198); it returns the
varBallots with their results set. -/
def gatherLoop : List varBallot → Gathered → Except Failure (List varBallot × Gathered)
  | [], g => .ok ([], g)
  | vBallot :: rest, g =>
    match gatherStep vBallot g with
    | .error e => .error e
    | .ok (vBallot1, g1) =>
      match gatherLoop rest g1 with
      | .error e => .error e
      | .ok (rest1, g2) => .ok (vBallot1 :: rest1, g2)

/-- The method VarUUIds.Sort, ascending. -/
def VarUUIds.Sort (vUUIds : List Nat) : List Nat :=
  vUUIds.insertionSort (fun a b => a ≤ b)

/-- The manifest entry of one variable (lines 206-215): its accepted instances
in the order of rmToBallot, each with the vote of its ballot. -/
def outcomeIdFor (m : List varBallot) (vUUId : Nat) : Except Failure OutcomeId :=
  match mapGet m vUUId with
  | none => .error Failure.nilDereference
  | some vBallot =>
    .ok { varId := vUUId,
          acceptedInstances := vBallot.rmToBallot.map (fun rmBal =>
            { rmId := rmBal.instanceRMId, vote := rmBal.ballot.vote }) }

/-- The loop building the manifest (lines 205-216). -/
def outcomeIdList (m : List varBallot) : List Nat → Except Failure (List OutcomeId)
  | [] => .ok []
  | vUUId :: rest =>
    match outcomeIdFor m vUUId with
    | .error e => .error e
    | .ok outcomeId =>
      match outcomeIdList m rest with
      | .error e => .error e
      | .ok rest1 => .ok (outcomeId :: rest1)

/-- The method BallotAccumulator.determineOutcome; it returns the accumulator
after the call and the pair (outcome, subscribers), `(nil, nil)` being
`(none, [])`. -/
def BallotAccumulator.determineOutcome (ba : BallotAccumulator) :
    Except Failure (BallotAccumulator × Option Outcome × List Nat) :=
  if !(ba.dirty && ba.incompleteVars == 0) then .ok (ba, none, [])
  else
    match gatherLoop ba.vUUIdToBallots Gathered.init with
    | .error e => .error e
    | .ok (vBallots, g) =>
      match outcomeIdList vBallots (VarUUIds.Sort g.vUUIds) with
      | .error e => .error e
      | .ok ids =>
        if g.aborted then
          let outcome : Outcome :=
            { id := ids, txnDeflated := true,
              kind := if g.deadlock then OutcomeKind.abortResubmit
                      else OutcomeKind.abortRerun (badReads.AddToSeg g.br) }
          .ok ({ ba with dirty := false, vUUIdToBallots := vBallots, subscribers := [],
                         outcome := some outcome }, some outcome, [])
        else if vBallots.length > VectorClock.Len g.combinedClock then
          .error Failure.clockTooShort
        else
          let outcome : Outcome :=
            { id := ids, txnDeflated := false, kind := OutcomeKind.commit g.combinedClock }
          .ok ({ ba with dirty := false, vUUIdToBallots := vBallots,
                         subscribers := g.commitSubscribers, outcome := some outcome },
               some outcome, g.commitSubscribers)

/-- The method BallotAccumulator.BallotReceived. -/
def BallotAccumulator.BallotReceived (ba : BallotAccumulator) (instanceRMId : Nat)
    (inst : Instance) (vUUId : Nat) :
    Except Failure (BallotAccumulator × Option Outcome × List Nat) :=
  match ba.recordBallot instanceRMId inst vUUId with
  | .error e => .error e
  | .ok ba1 => ba1.determineOutcome

/-- The arguments of one BallotReceived call. -/
structure Call where
  instanceRMId : Nat
  inst : Instance
  vUUId : Nat
  deriving DecidableEq, Repr

/-- A sequence of BallotReceived calls, each on the accumulator the previous
one left; a call that fails hard ends the run. -/
def BallotAccumulator.runCalls : BallotAccumulator → List Call → Except Failure BallotAccumulator
  | ba, [] => .ok ba
  | ba, c :: rest =>
    match ba.BallotReceived c.instanceRMId c.inst c.vUUId with
    | .error e => .error e
    | .ok (ba1, _, _) => BallotAccumulator.runCalls ba1 rest

/-! ## Notions used in the statements -/

/-- The reduced ballot of a varBallot: the switch of combineVote folded over
its rmBallots from the initial reducer, as a ballot. It is the result
CalculateResult stores when no bad-read insertion fails. -/
def varBallot.reduced (vb : varBallot) : Ballot :=
  (vb.rmToBallot.foldl varBallotReducer.combineSwitch (newReducer vb.vUUId [])).ToBallot

/-- A synthetic abort: an AbortDeadlock ballot with an empty clock, as created
by the abort proposer. -/
def Ballot.synthetic (b : Ballot) : Prop :=
  b.vote = Vote.AbortDeadlock ∧ VectorClock.Len b.clock = 0

instance (b : Ballot) : Decidable b.synthetic := by
  unfold Ballot.synthetic
  exact inferInstance

/-- The ballots a varBallot holds, in the order of rmToBallot. -/
def varBallot.ballots (vb : varBallot) : List Ballot :=
  vb.rmToBallot.map (fun rmBal => rmBal.ballot)

/-- The ballots held for all the variables of the map. -/
def heldBallots (m : List varBallot) : List Ballot :=
  m.foldr (fun vb acc => vb.ballots ++ acc) []

/-- The element-wise maximum of the clocks of a list of ballots, at key `v`. -/
def maxClockAt (bs : List Ballot) (v : Nat) : Nat :=
  bs.foldr (fun b acc => max (VectorClock.At b.clock v) acc) 0

/-- No read-only action witnessed by an AbortBadRead ballot of the list has
clock element 0 in that ballot's clock: the guard before `clockElem - 1` in
badReads.combine cannot fire. -/
def noZeroClockRead (l : List rmBallot) : Prop :=
  ∀ rmBal ∈ l, rmBal.ballot.vote = Vote.AbortBadRead →
    ∀ action ∈ rmBal.ballot.voteCap.txnActions, IsReadOnly action = true →
      VectorClock.At rmBal.ballot.clock action.varId ≠ 0

/-- The reduced ballot determineOutcome uses for a varBallot: its cached
result, or the freshly reduced one when the cache is empty. -/
def varBallot.theResult (vb : varBallot) : Ballot :=
  match vb.result with
  | some result => result
  | none => vb.reduced

/-- A varBallot after the loop of determineOutcome: an empty cache is filled
with the reduced ballot. -/
def varBallot.fillResult (vb : varBallot) : varBallot :=
  { vb with result := some vb.theResult }

/-- The keys of the map vUUIdToBallots. -/
def mapKeys (m : List varBallot) : List Nat :=
  m.map (fun vb => vb.vUUId)

/-- The RMIds of a list of rmBallots, in order. -/
def rmIds (l : List rmBallot) : List Nat :=
  l.map (fun rmBal => rmBal.instanceRMId)

/-- The ballot a list of rmBallots holds for an RM, if any. -/
def heldBallot (l : List rmBallot) (rm : Nat) : Option Ballot :=
  (l.find? (fun rmBal => rmBal.instanceRMId == rm)).map (fun rmBal => rmBal.ballot)

/-- The ballot the map holds for a variable and an RM, if any. -/
def heldFor (m : List varBallot) (v rm : Nat) : Option Ballot :=
  match mapGet m v with
  | none => none
  | some vb => heldBallot vb.rmToBallot rm

/-- The list rmToBallot of BallotReceived after lines 136-159: the ballot is
written over the entry of the RM, or appended and the list sorted once it has
reached `voters`. -/
def varBallot.receivedList (vb : varBallot) (instanceRMId : Nat) (inst : Instance) :
    List rmBallot :=
  match rmBallots.overwrite instanceRMId inst.accepted vb.rmToBallot with
  | some l => l
  | none =>
    if (vb.rmToBallot ++ [newRmBallot instanceRMId inst]).length ≥ vb.voters
    then rmBallots.Sort (vb.rmToBallot ++ [newRmBallot instanceRMId inst])
    else vb.rmToBallot ++ [newRmBallot instanceRMId inst]

/-- The varBallot of BallotReceived after lines 136-163: the new list, and the
cached result dropped once the list has reached `voters`. -/
def varBallot.received (vb : varBallot) (instanceRMId : Nat) (inst : Instance) : varBallot :=
  if (vb.receivedList instanceRMId inst).length ≥ vb.voters then
    { vb with rmToBallot := vb.receivedList instanceRMId inst, result := none }
  else { vb with rmToBallot := vb.receivedList instanceRMId inst }

/-- Whether BallotReceived decrements incompleteVars: the RM is new for the
variable and its ballot brings the list to exactly `voters`. -/
def varBallot.completes (vb : varBallot) (instanceRMId : Nat) : Bool :=
  decide (instanceRMId ∉ rmIds vb.rmToBallot) && decide (vb.rmToBallot.length + 1 = vb.voters)

/-- A variable is complete once it has voters and holds at least `voters`
ballots. -/
def varBallot.complete (vb : varBallot) : Prop :=
  1 ≤ vb.voters ∧ vb.voters ≤ vb.rmToBallot.length

instance (vb : varBallot) : Decidable vb.complete := by
  unfold varBallot.complete
  exact inferInstance

/-- The number of variables of the map that are not complete. -/
def countIncomplete (m : List varBallot) : Nat :=
  (m.filter (fun vb => !decide vb.complete)).length

/-- The invariant of a varBallot: one rmBallot per RM; a list that has reached
`voters` is strictly ascending by RMId; a cached result belongs to a list that
has reached `voters` and is the reduced ballot of that list. -/
def varBallot.WF (vb : varBallot) : Prop :=
  (rmIds vb.rmToBallot).Nodup ∧
  (vb.voters ≤ vb.rmToBallot.length → (rmIds vb.rmToBallot).Sorted (fun a b => a < b)) ∧
  (∀ r, vb.result = some r → vb.voters ≤ vb.rmToBallot.length ∧ r = vb.reduced)

/-- The invariant of an accumulator whose map has the keys `keys`: the keys
are distinct, every varBallot satisfies its invariant, and incompleteVars is
the number of variables that are not complete plus the constant `d` (the
number of actions that share their variable with a later action). -/
def BallotAccumulator.Inv (ba : BallotAccumulator) (keys : List Nat) (d : Nat) : Prop :=
  mapKeys ba.vUUIdToBallots = keys ∧ keys.Nodup ∧
  (∀ vb ∈ ba.vUUIdToBallots, vb.WF) ∧
  ba.incompleteVars = (countIncomplete ba.vUUIdToBallots : Int) + (d : Int)

/-- A varBallot as NewBallotAccumulator leaves it: no ballot yet, no result. -/
def varBallot.fresh (vb : varBallot) : Prop :=
  vb.rmToBallot = [] ∧ vb.result = none

/-- The variables of a transaction, one per action. -/
def TxnReader.vars (txn : TxnReader) : List Nat :=
  txn.actions.map (fun action => action.varId)

/-- Every variable of the map has voters, and holds at least `voters` ballots
from distinct RMs. -/
def BallotAccumulator.quorate (ba : BallotAccumulator) : Prop :=
  ∀ vb ∈ ba.vUUIdToBallots,
    1 ≤ vb.voters ∧ vb.voters ≤ vb.rmToBallot.length ∧ (rmIds vb.rmToBallot).Nodup

/-- The ballot of the most recent call of the sequence for a variable and an
RM, if any; the calls are in the order they were made. -/
def lastBallot : List Call → Nat → Nat → Option Ballot
  | [], _, _ => none
  | c :: rest, v, rm =>
    match lastBallot rest v rm with
    | some b => some b
    | none => if c.vUUId = v ∧ c.instanceRMId = rm then some c.inst.accepted else none

/-- The manifest entries of a list of rmBallots: RMId and vote of each. -/
def acceptedInstanceIds (l : List rmBallot) : List AcceptedInstanceId :=
  l.map (fun rmBal => { rmId := rmBal.instanceRMId, vote := rmBal.ballot.vote })

/-- The tag of an outcome: Commit, Abort with Resubmit, or Abort with Rerun. -/
inductive OutcomeTag where
  | commit
  | abortResubmit
  | abortRerun
  deriving DecidableEq, Repr

/-- The tag of the commit or abort part of an outcome. -/
def OutcomeKind.tag : OutcomeKind → OutcomeTag
  | .commit _ => OutcomeTag.commit
  | .abortResubmit => OutcomeTag.abortResubmit
  | .abortRerun _ => OutcomeTag.abortRerun

/-- The reduced votes of the variables of the map, in order (`none` for a
variable without result). -/
def reducedVotes (m : List varBallot) : List (Option Vote) :=
  m.map (fun vb => vb.result.map (fun r => r.vote))

/-- The tag the reduced votes call for: Resubmit if some vote is
AbortDeadlock, else Commit if every vote is Commit, else Rerun. -/
def tagOfVotes (votes : List (Option Vote)) : OutcomeTag :=
  if some Vote.AbortDeadlock ∈ votes then OutcomeTag.abortResubmit
  else if ∀ x ∈ votes, x = some Vote.Commit then OutcomeTag.commit
  else OutcomeTag.abortRerun

/-! ## Concrete scenarios -/

/-- Scenario "two-RM commit": one variable (10), RM 1 and RM 2 active, RM 3
passive, so `voters` is 2. -/
def scenarioTxn : TxnReader :=
  { Id := 7, actions := [{ varId := 10, value := ActionValue.read 1 }],
    allocations := [{ rmId := 1, active := 1, actionIndices := [0] },
                    { rmId := 2, active := 1, actionIndices := [0] },
                    { rmId := 3, active := 0, actionIndices := [0] }] }

/-- The Commit ballot of RM 1, clock {10:2, 11:2}, subscribers 6 and 5. -/
def scenarioBallot1 : Ballot :=
  { vote := Vote.Commit, voteCap := { txnId := 0, txnActions := [] },
    clock := [(10, 2), (11, 2)], subscribers := [6, 5] }

/-- The Commit ballot of RM 2, clock {10:3, 11:1}, subscriber 5. -/
def scenarioBallot2 : Ballot :=
  { vote := Vote.Commit, voteCap := { txnId := 0, txnActions := [] },
    clock := [(10, 3), (11, 1)], subscribers := [5] }

/-- The first call: the ballot of RM 2 for variable 10. -/
def scenarioCall1 : Call :=
  { instanceRMId := 2, inst := { accepted := scenarioBallot2, acceptedNum := 1 }, vUUId := 10 }

/-- The second call: the ballot of RM 1 for variable 10. -/
def scenarioCall2 : Call :=
  { instanceRMId := 1, inst := { accepted := scenarioBallot1, acceptedNum := 1 }, vUUId := 10 }

/-- The accumulator NewBallotAccumulator builds for the scenario. -/
def scenarioBa0 : BallotAccumulator :=
  { txn := scenarioTxn,
    vUUIdToBallots := [{ vUUId := 10, result := none, rmToBallot := [], voters := 2 }],
    outcome := none, subscribers := [], incompleteVars := 1, dirty := false }

/-- The accumulator after the first call. -/
def scenarioBa1 : BallotAccumulator :=
  { txn := scenarioTxn,
    vUUIdToBallots := [{ vUUId := 10, result := none,
                         rmToBallot := [{ instanceRMId := 2, ballot := scenarioBallot2,
                                          roundNumber := 1 }],
                         voters := 2 }],
    outcome := none, subscribers := [], incompleteVars := 1, dirty := false }

/-- The outcome of the second call: Commit with clock {10:3, 11:2}. -/
def scenarioOutcome : Outcome :=
  { id := [{ varId := 10,
             acceptedInstances := [{ rmId := 1, vote := Vote.Commit },
                                   { rmId := 2, vote := Vote.Commit }] }],
    txnDeflated := false,
    kind := OutcomeKind.commit [(10, 3), (11, 2)] }

/-- The accumulator after the second call. -/
def scenarioBa2 : BallotAccumulator :=
  { txn := scenarioTxn,
    vUUIdToBallots := [{ vUUId := 10,
                         result := some { vote := Vote.Commit,
                                          voteCap := { txnId := 0, txnActions := [] },
                                          clock := [(10, 3), (11, 2)],
                                          subscribers := [6, 5, 5] },
                         rmToBallot := [{ instanceRMId := 1, ballot := scenarioBallot1,
                                          roundNumber := 1 },
                                        { instanceRMId := 2, ballot := scenarioBallot2,
                                          roundNumber := 1 }],
                         voters := 2 }],
    outcome := some scenarioOutcome, subscribers := [6, 5], incompleteVars := 0,
    dirty := false }

/-- The accumulator of the second call between recording the ballot and
determineOutcome: both ballots held and sorted, no result, dirty. -/
def scenarioRecorded : BallotAccumulator :=
  { txn := scenarioTxn,
    vUUIdToBallots := [{ vUUId := 10, result := none,
                         rmToBallot := [{ instanceRMId := 1, ballot := scenarioBallot1,
                                          roundNumber := 1 },
                                        { instanceRMId := 2, ballot := scenarioBallot2,
                                          roundNumber := 1 }],
                         voters := 2 }],
    outcome := none, subscribers := [], incompleteVars := 0, dirty := true }

instance (ba : BallotAccumulator) : Decidable ba.quorate := by
  unfold BallotAccumulator.quorate
  exact inferInstance

/-- Scenario "single RM": one variable (10), one active RM, so `voters` is 1. -/
def soloTxn : TxnReader :=
  { Id := 9, actions := [{ varId := 10, value := ActionValue.read 1 }],
    allocations := [{ rmId := 1, active := 1, actionIndices := [0] }] }

/-- A paxos instance whose accepted ballot votes Commit with an empty clock. -/
def soloInst : Instance :=
  { accepted := { vote := Vote.Commit, voteCap := { txnId := 0, txnActions := [] },
                  clock := [], subscribers := [] },
    acceptedNum := 1 }

/-- The accumulator NewBallotAccumulator builds for the single-RM scenario. -/
def soloBa0 : BallotAccumulator :=
  { txn := soloTxn,
    vUUIdToBallots := [{ vUUId := 10, result := none, rmToBallot := [], voters := 1 }],
    outcome := none, subscribers := [], incompleteVars := 1, dirty := false }

/-- The single-RM accumulator once the ballot of RM 1 is recorded. -/
def soloRecorded : BallotAccumulator :=
  { txn := soloTxn,
    vUUIdToBallots := [{ vUUId := 10, result := none,
                         rmToBallot := [{ instanceRMId := 1, ballot := soloInst.accepted,
                                          roundNumber := 1 }],
                         voters := 1 }],
    outcome := none, subscribers := [], incompleteVars := 0, dirty := true }

/-- A synthetic abort: AbortDeadlock with an empty clock. -/
def syntheticBallot : Ballot :=
  { vote := Vote.AbortDeadlock, voteCap := { txnId := 0, txnActions := [] }, clock := [],
    subscribers := [] }

/-- An AbortBadRead ballot witnessing a read-only action on variable 10 whose
clock has no entry for that variable (clock element 0). -/
def zeroReadBallot : Ballot :=
  { vote := Vote.AbortBadRead,
    voteCap := { txnId := 20, txnActions := [{ varId := 10, value := ActionValue.read 3 }] },
    clock := [(11, 4)], subscribers := [] }

/-- A varBallot holding a Commit ballot and then a synthetic abort. -/
def syntheticLast : varBallot :=
  { vUUId := 10, result := none,
    rmToBallot := [{ instanceRMId := 1, ballot := scenarioBallot1, roundNumber := 1 },
                   { instanceRMId := 2, ballot := syntheticBallot, roundNumber := 1 }],
    voters := 2 }

/-- A varBallot holding a synthetic abort and then the bad read with clock
element 0. -/
def syntheticFirst : varBallot :=
  { vUUId := 10, result := none,
    rmToBallot := [{ instanceRMId := 1, ballot := syntheticBallot, roundNumber := 1 },
                   { instanceRMId := 2, ballot := zeroReadBallot, roundNumber := 1 }],
    voters := 2 }

/-- Scenario "late ballot": one variable (10), RM 1 and RM 2 active, RM 3
passive. -/
def lateTxn : TxnReader :=
  { Id := 8, actions := [{ varId := 10, value := ActionValue.read 1 }],
    allocations := [{ rmId := 1, active := 1, actionIndices := [0] },
                    { rmId := 2, active := 1, actionIndices := [0] },
                    { rmId := 3, active := 0, actionIndices := [0] }] }

/-- The AbortBadRead ballot of RM 1 and RM 2: a write of transaction 20 on
variable 10 at clock element 5. -/
def lateBallot20 : Ballot :=
  { vote := Vote.AbortBadRead,
    voteCap := { txnId := 20, txnActions := [{ varId := 10, value := ActionValue.write 1 0 }] },
    clock := [(10, 5)], subscribers := [] }

/-- The AbortBadRead ballot of RM 3: a write of transaction 22 on variable 10
at clock element 7. -/
def lateBallot22 : Ballot :=
  { vote := Vote.AbortBadRead,
    voteCap := { txnId := 22, txnActions := [{ varId := 10, value := ActionValue.write 2 0 }] },
    clock := [(10, 7)], subscribers := [] }

/-- The three calls of the late-ballot scenario. -/
def lateCall1 : Call :=
  { instanceRMId := 1, inst := { accepted := lateBallot20, acceptedNum := 1 }, vUUId := 10 }

/-- The call of RM 2, which completes the quorum. -/
def lateCall2 : Call :=
  { instanceRMId := 2, inst := { accepted := lateBallot20, acceptedNum := 1 }, vUUId := 10 }

/-- The late call of RM 3. -/
def lateCall3 : Call :=
  { instanceRMId := 3, inst := { accepted := lateBallot22, acceptedNum := 3 }, vUUId := 10 }

/-- The accumulator NewBallotAccumulator builds for the late-ballot scenario. -/
def lateBa0 : BallotAccumulator :=
  { txn := lateTxn,
    vUUIdToBallots := [{ vUUId := 10, result := none, rmToBallot := [], voters := 2 }],
    outcome := none, subscribers := [], incompleteVars := 1, dirty := false }

/-- The late-ballot accumulator after the call of RM 1. -/
def lateBa1 : BallotAccumulator :=
  { txn := lateTxn,
    vUUIdToBallots := [{ vUUId := 10, result := none,
                         rmToBallot := [{ instanceRMId := 1, ballot := lateBallot20,
                                          roundNumber := 1 }],
                         voters := 2 }],
    outcome := none, subscribers := [], incompleteVars := 1, dirty := false }

/-- The outcome at quorum: Abort with Rerun, one update for transaction 20. -/
def lateOutcome2 : Outcome :=
  { id := [{ varId := 10,
             acceptedInstances := [{ rmId := 1, vote := Vote.AbortBadRead },
                                   { rmId := 2, vote := Vote.AbortBadRead }] }],
    txnDeflated := true,
    kind := OutcomeKind.abortRerun
      [{ txnId := 20, actions := [{ varId := 10, value := ActionValue.write 1 0 }],
         clock := [(10, 5)] }] }

/-- The late-ballot accumulator after the call of RM 2. -/
def lateBa2 : BallotAccumulator :=
  { txn := lateTxn,
    vUUIdToBallots := [{ vUUId := 10,
                         result := some { vote := Vote.AbortBadRead,
                                          voteCap := lateBallot20.voteCap,
                                          clock := [(10, 5)], subscribers := [] },
                         rmToBallot := [{ instanceRMId := 1, ballot := lateBallot20,
                                          roundNumber := 1 },
                                        { instanceRMId := 2, ballot := lateBallot20,
                                          roundNumber := 1 }],
                         voters := 2 }],
    outcome := some lateOutcome2, subscribers := [], incompleteVars := 0, dirty := false }

/-- The outcome after the late ballot: Abort with Rerun, one update for
transaction 22. -/
def lateOutcome3 : Outcome :=
  { id := [{ varId := 10,
             acceptedInstances := [{ rmId := 1, vote := Vote.AbortBadRead },
                                   { rmId := 2, vote := Vote.AbortBadRead },
                                   { rmId := 3, vote := Vote.AbortBadRead }] }],
    txnDeflated := true,
    kind := OutcomeKind.abortRerun
      [{ txnId := 22, actions := [{ varId := 10, value := ActionValue.write 2 0 }],
         clock := [(10, 7)] }] }

/-- The late-ballot accumulator after the call of RM 3. -/
def lateBa3 : BallotAccumulator :=
  { txn := lateTxn,
    vUUIdToBallots := [{ vUUId := 10,
                         result := some { vote := Vote.AbortBadRead,
                                          voteCap := lateBallot20.voteCap,
                                          clock := [(10, 7)], subscribers := [] },
                         rmToBallot := [{ instanceRMId := 1, ballot := lateBallot20,
                                          roundNumber := 1 },
                                        { instanceRMId := 2, ballot := lateBallot20,
                                          roundNumber := 1 },
                                        { instanceRMId := 3, ballot := lateBallot22,
                                          roundNumber := 3 }],
                         voters := 2 }],
    outcome := some lateOutcome3, subscribers := [], incompleteVars := 0, dirty := false }

/-! ## Restoring an accumulator -/

/-- The wire record AcceptedInstance read by BallotAccumulatorFromData: RmId,
RoundNumber and the ballot (after `eng.BallotFromData`). -/
structure AcceptedInstance where
  rmId : Nat
  roundNumber : Nat
  ballot : Ballot
  deriving DecidableEq, Repr

/-- The wire record InstancesForVar: VarId, the accepted instances and the
reduced result (after `eng.BallotFromData`). -/
structure InstancesForVar where
  varId : Nat
  instances : List AcceptedInstance
  result : Ballot
  deriving DecidableEq, Repr

/-- The rmBallot built in the inner loop of BallotAccumulatorFromData. -/
def restoredRmBallot (acceptedInstance : AcceptedInstance) : rmBallot :=
  { instanceRMId := acceptedInstance.rmId, ballot := acceptedInstance.ballot,
    roundNumber := acceptedInstance.roundNumber }

/-- The varBallot after one iteration of the outer loop of
BallotAccumulatorFromData wrote rmToBallot and result. -/
def varBallot.restored (vBallot : varBallot) (instancesForVar : InstancesForVar) : varBallot :=
  { vBallot with rmToBallot := instancesForVar.instances.map restoredRmBallot,
                 result := some instancesForVar.result }

/-- One iteration of the outer loop of BallotAccumulatorFromData; a VarId the
map has no varBallot for gives a nil pointer, and the assignment through it
panics. -/
def restoreVar (m : List varBallot) (instancesForVar : InstancesForVar) :
    Except Failure (List varBallot) :=
  match mapGet m instancesForVar.varId with
  | none => .error Failure.nilDereference
  | some vBallot => .ok (mapSet m (vBallot.restored instancesForVar))

/-- The outer loop of BallotAccumulatorFromData over the persisted records. -/
def restoreVars (m : List varBallot) : List InstancesForVar → Except Failure (List varBallot)
  | [] => .ok m
  | instancesForVar :: rest =>
    match restoreVar m instancesForVar with
    | .error e => .error e
    | .ok m1 => restoreVars m1 rest

/-- The constructor BallotAccumulatorFromData; `subsCap` holds the subscriber
ids already decoded by MakeTxnId. -/
def BallotAccumulatorFromData (txn : TxnReader) (outcome : Option Outcome) (subsCap : List Nat)
    (instances : List InstancesForVar) : Except Failure BallotAccumulator :=
  match NewBallotAccumulator txn with
  | .error e => .error e
  | .ok ba =>
    if ba.incompleteVars ≠ (instances.length : Int) then .error Failure.instanceCountMismatch
    else
      match restoreVars ba.vUUIdToBallots instances with
      | .error e => .error e
      | .ok m =>
        .ok { ba with outcome := outcome, incompleteVars := 0, vUUIdToBallots := m,
                      subscribers := subsCap }

/-- The last persisted record for a variable, if any. -/
def lastRecord : List InstancesForVar → Nat → Option InstancesForVar
  | [], _ => none
  | r :: rest, v =>
    match lastRecord rest v with
    | some x => some x
    | none => if r.varId = v then some r else none

/-- A persisted record for variable 10 of soloTxn: one accepted instance. -/
def soloRecord : InstancesForVar :=
  { varId := 10,
    instances := [{ rmId := 1, roundNumber := 4, ballot := soloInst.accepted }],
    result := soloInst.accepted }

/-- A persisted record for variable 11, which soloTxn does not have. -/
def strayRecord : InstancesForVar :=
  { varId := 11, instances := [], result := soloInst.accepted }

/-! ## Notions for the constructors, starved variables and bad reads -/

/-- The allocations NewBallotAccumulator counts: the longest prefix of the
allocation list whose Active bootcount is non-zero. -/
def activeAllocations (allocs : List Allocation) : List Allocation :=
  allocs.takeWhile (fun alloc => alloc.active != 0)

/-- The number of times action index `i` occurs in the action indices of the
counted allocations. -/
def votersAt (allocs : List Allocation) (i : Nat) : Nat :=
  ((activeAllocations allocs).map (fun alloc => alloc.actionIndices.count i)).sum

/-- The number of counted allocations whose action indices include `i`. -/
def allocationsWith (allocs : List Allocation) (i : Nat) : Nat :=
  ((activeAllocations allocs).filter (fun alloc => decide (i ∈ alloc.actionIndices))).length

/-- A varBallot with `n` more voters. -/
def varBallot.addVoters (vb : varBallot) (n : Nat) : varBallot :=
  { vb with voters := vb.voters + n }

/-- The slice vBallots of NewBallotAccumulator before the allocations are
counted: one varBallot per action, no voters. -/
def initialBallots (txn : TxnReader) : List varBallot :=
  txn.actions.map (fun action =>
    { vUUId := action.varId, result := none, rmToBallot := [], voters := 0 })

/-- A transaction whose single active allocation lists action index 0 twice. -/
def doubledTxn : TxnReader :=
  { Id := 11, actions := [{ varId := 10, value := ActionValue.read 1 }],
    allocations := [{ rmId := 1, active := 1, actionIndices := [0, 0] }] }

/-- Some variable of the map has voters == 0. -/
def BallotAccumulator.starved (ba : BallotAccumulator) : Prop :=
  ∃ vb ∈ ba.vUUIdToBallots, vb.voters = 0

/-- A transaction whose second variable is in no counted allocation. -/
def starvedTxn : TxnReader :=
  { Id := 12,
    actions := [{ varId := 10, value := ActionValue.read 1 },
                { varId := 11, value := ActionValue.read 1 }],
    allocations := [{ rmId := 1, active := 1, actionIndices := [0] }] }

/-- The accumulator NewBallotAccumulator returns for starvedTxn. -/
def starvedBa0 : BallotAccumulator :=
  { txn := starvedTxn,
    vUUIdToBallots := [{ vUUId := 10, result := none, rmToBallot := [], voters := 1 },
                       { vUUId := 11, result := none, rmToBallot := [], voters := 0 }],
    outcome := none, subscribers := [], incompleteVars := 2, dirty := false }

/-- An AbortBadRead ballot witnessing a read-only action on variable 10, with
clock element 3 for that variable. -/
def firstReadBallot : Ballot :=
  { vote := Vote.AbortBadRead,
    voteCap := { txnId := 20, txnActions := [{ varId := 10, value := ActionValue.read 7 }] },
    clock := [(10, 3)], subscribers := [] }

/-- The bad-reads table after the ballot of RM 1, firstReadBallot, was added to
the empty table: one entry, for variable 10. -/
def firstReadTable : badReads :=
  [{ rmBallot := { instanceRMId := 1, ballot := firstReadBallot, roundNumber := 1 },
     vUUId := 10, txnId := 7, clockElem := 2,
     action := { varId := 10, value := ActionValue.read 7 } }]

/-- The table after the ballot of RM 2, zeroReadBallot, went through
badReadAction.combine: the entry holds 0 - 1 in uint64. -/
def wrappedReadTable : badReads :=
  [{ rmBallot := { instanceRMId := 2, ballot := zeroReadBallot, roundNumber := 1 },
     vUUId := 10, txnId := 3, clockElem := 18446744073709551615,
     action := { varId := 10, value := ActionValue.read 3 } }]


/-! ## Notions and scenarios for the reducer, the bad-read table and the wire records -/

/-- Scenario "bad read vs stale deadlock": a reducer for variable 10 that
holds an AbortBadRead with clock element 5 for the variable. -/
def badReadReducer : varBallotReducer :=
  { vUUId := 10, Vote := Vote.AbortBadRead, VoteCap := { txnId := 20, txnActions := [] },
    Clock := [(10, 5), (11, 1)], Subscribers := [], badReads := [] }

/-- The rmBallot of RM 2 in the scenario: an AbortDeadlock with clock element
4 for variable 10. -/
def staleDeadlock : rmBallot :=
  { instanceRMId := 2,
    ballot := { vote := Vote.AbortDeadlock, voteCap := { txnId := 0, txnActions := [] },
                clock := [(10, 4), (12, 7)], subscribers := [] },
    roundNumber := 1 }

/-- The strict lexicographic order on pairs (clockElem, txnId): the clock
element first, then the TxnId. -/
def pairLt (a b : Nat × Nat) : Prop :=
  a.1 < b.1 ∨ (a.1 = b.1 ∧ a.2 < b.2)

instance (a b : Nat × Nat) : Decidable (pairLt a b) := by
  unfold pairLt
  exact inferInstance

/-- The witness clock element of an action in a ballot: the ballot's clock at
the variable of the action. -/
def witnessClockElem (rmBal : rmBallot) (action : Action) : Nat :=
  VectorClock.At rmBal.ballot.clock action.varId

/-- Whether the table has an entry for a variable. -/
def badReads.has (br : badReads) (vUUId : Nat) : Bool :=
  br.any (fun bra => bra.vUUId == vUUId)

/-- The rmBallot of RM 1 holding firstReadBallot. -/
def firstReadRmBallot : rmBallot :=
  { instanceRMId := 1, ballot := firstReadBallot, roundNumber := 1 }

/-- A read-only action on variable 10 reading version 7. -/
def readOf7 : Action := { varId := 10, value := ActionValue.read 7 }

/-- A read-only action on variable 10 reading version 8. -/
def readOf8 : Action := { varId := 10, value := ActionValue.read 8 }

/-- A write with a value on variable 10. -/
def writeOf10 : Action := { varId := 10, value := ActionValue.write 1 0 }

/-- An entry for variable 10 recording a read of version 7 at clock element
2. -/
def readEntry : badReadAction :=
  { rmBallot := firstReadRmBallot, vUUId := 10, txnId := 7, clockElem := 2,
    action := readOf7 }

/-- An entry for variable 10 recording a write by transaction 7 at clock
element 3. -/
def writeEntry : badReadAction :=
  { rmBallot := firstReadRmBallot, vUUId := 10, txnId := 7, clockElem := 3,
    action := writeOf10 }

/-- A bad-read candidate: an action and the rmBallot that witnesses it. -/
structure Candidate where
  rmBal : rmBallot
  action : Action
  deriving DecidableEq, Repr

/-- The witness clock element of a candidate. -/
def Candidate.clockElem (c : Candidate) : Nat :=
  witnessClockElem c.rmBal c.action

/-- The effective clock element of a candidate: one less than the witness
clock element for a read-only action, the witness clock element otherwise. -/
def Candidate.effClock (c : Candidate) : Nat :=
  if IsReadOnly c.action then c.clockElem - 1 else c.clockElem

/-- The effective TxnId of a candidate: the version read for a read-only
action, the TxnId of the witness ballot otherwise. -/
def Candidate.effTxnId (c : Candidate) : Nat :=
  if IsReadOnly c.action then c.action.existingRead else c.rmBal.ballot.voteCap.txnId

/-- The entry a candidate makes in the table. -/
def Candidate.entry (c : Candidate) : badReadAction :=
  { rmBallot := c.rmBal, vUUId := c.action.varId, txnId := c.effTxnId,
    clockElem := c.effClock, action := c.action }

/-- The table after the first candidate, then the second, went through the
loop body of badReads.combine, starting from the empty table. -/
def insertBoth (a b : Candidate) : Except Failure badReads :=
  match badReads.combineAction NewBadReads a.rmBal a.action with
  | .error e => .error e
  | .ok br => badReads.combineAction br b.rmBal b.action

/-- The pairs of candidates of which the one inserted first stays: two of the
same kind with the same effective pair, and a read-only one and a write with
the same effective clock element where the version read is below the TxnId of
the write. -/
def Candidate.firstStays (a b : Candidate) : Prop :=
  (IsReadOnly a.action = IsReadOnly b.action ∧ a.effClock = b.effClock ∧
    a.effTxnId = b.effTxnId) ∨
  (IsReadOnly a.action = true ∧ IsReadOnly b.action = false ∧ a.effClock = b.effClock ∧
    a.effTxnId < b.effTxnId) ∨
  (IsReadOnly a.action = false ∧ IsReadOnly b.action = true ∧ a.effClock = b.effClock ∧
    b.effTxnId < a.effTxnId)

instance (a b : Candidate) : Decidable (a.firstStays b) := by
  unfold Candidate.firstStays
  exact inferInstance

/-- The choice badReadAction.combine makes between the entry `x` of a first
candidate (read-only or not, with its effective pair) and the entry `y` of a
second one. -/
def tieBreak {α : Type} (ra rb : Bool) (ca ta cb tb : Nat) (x y : α) : α :=
  if ra = rb then (if pairLt (ca, ta) (cb, tb) then y else x)
  else if ra = true then (if ta = tb ∨ ca < cb then y else x)
  else (if ta = tb then x else if pairLt (ca, ta) (cb, tb) then y else x)

/-- The candidate "read of version 5 witnessed at clock element 4". -/
def readCandidate : Candidate :=
  { rmBal := { instanceRMId := 1,
               ballot := { vote := Vote.AbortBadRead,
                           voteCap := { txnId := 20,
                                        txnActions := [{ varId := 10, value := ActionValue.read 5 }] },
                           clock := [(10, 4)], subscribers := [] },
               roundNumber := 1 },
    action := { varId := 10, value := ActionValue.read 5 } }

/-- The candidate "write by transaction 7 witnessed at clock element 3". -/
def writeCandidate : Candidate :=
  { rmBal := { instanceRMId := 2,
               ballot := { vote := Vote.AbortBadRead,
                           voteCap := { txnId := 7,
                                        txnActions := [{ varId := 10, value := ActionValue.write 1 0 }] },
                           clock := [(10, 3)], subscribers := [] },
               roundNumber := 1 },
    action := { varId := 10, value := ActionValue.write 1 0 } }

/-- The candidate "write by transaction 7 witnessed at clock element 5". -/
def laterWriteCandidate : Candidate :=
  { rmBal := { instanceRMId := 3,
               ballot := { vote := Vote.AbortBadRead,
                           voteCap := { txnId := 7,
                                        txnActions := [{ varId := 10, value := ActionValue.write 1 0 }] },
                           clock := [(10, 5)], subscribers := [] },
               roundNumber := 1 },
    action := { varId := 10, value := ActionValue.write 1 0 } }

/-- The entries of a table recorded under one txnId, in table order. -/
def badReads.groupOf (br : badReads) (txnId : Nat) : List badReadAction :=
  br.filter (fun bra => bra.txnId == txnId)

/-- The group a list of groups holds for a txnId, empty when it has none. -/
def lookupGroup (groups : List (Nat × List badReadAction)) (txnId : Nat) : List badReadAction :=
  match groups.find? (fun g => g.1 == txnId) with
  | some g => g.2
  | none => []

/-- The Update AddToSeg builds from one group. -/
def groupUpdate (g : Nat × List badReadAction) : Update :=
  { txnId := g.1,
    actions := g.2.map badReadAction.toUpdateAction,
    clock := g.2.foldl (fun clock bra => VectorClock.SetVarIdMax clock bra.vUUId bra.clockElem)
               NewVectorClock }

/-- A table with three entries: variables 10 and 12 under txnId 5 (a read and
a create), variable 11 under txnId 7 (a value-less write). -/
def threeEntryTable : badReads :=
  [{ rmBallot := firstReadRmBallot, vUUId := 10, txnId := 5, clockElem := 3,
     action := { varId := 10, value := ActionValue.read 5 } },
   { rmBallot := firstReadRmBallot, vUUId := 11, txnId := 7, clockElem := 2,
     action := { varId := 11, value := ActionValue.missing } },
   { rmBallot := firstReadRmBallot, vUUId := 12, txnId := 5, clockElem := 4,
     action := { varId := 12, value := ActionValue.create 8 9 } }]

/-- What the switch of combineVote reads of a clock, for the variable `v` of
the reducer and one more key `w`: nothing when the clock is empty, the two
clock elements otherwise. -/
def clockView (v w : Nat) (clock : VectorClock) : Option (Nat × Nat) :=
  if clock = [] then none else some (VectorClock.At clock v, VectorClock.At clock w)

/-- The clock element for the variable in a view; 0 for the empty clock. -/
def viewAt (c : Option (Nat × Nat)) : Nat :=
  match c with
  | none => 0
  | some p => p.1

/-- The view of the merge of two clocks. -/
def viewMerge (a b : Option (Nat × Nat)) : Option (Nat × Nat) :=
  match a, b with
  | none, b => b
  | a, none => a
  | some p, some q => some (max p.1 q.1, max p.2 q.2)

/-- The switch of combineVote on votes and clock views. -/
def viewSwitch (cur new : Vote × Option (Nat × Nat)) : Vote × Option (Nat × Nat) :=
  if cur.1 = Vote.Commit ∧ new.1 = Vote.Commit then (cur.1, viewMerge cur.2 new.2)
  else if cur.1 = Vote.AbortDeadlock ∧ cur.2 = none then cur
  else if new.1 = Vote.AbortDeadlock ∧ new.2 = none then (Vote.AbortDeadlock, new.2)
  else if cur.1 = Vote.Commit then (new.1, new.2)
  else if new.1 = Vote.Commit then cur
  else if new.1 = Vote.AbortDeadlock ∧ cur.1 = Vote.AbortDeadlock then
    (cur.1, viewMerge cur.2 new.2)
  else if new.1 = Vote.AbortDeadlock ∧ cur.1 = Vote.AbortBadRead ∧
      viewAt new.2 < viewAt cur.2 then
    (cur.1, viewMerge cur.2 new.2)
  else if new.1 = Vote.AbortDeadlock ∧ cur.1 = Vote.AbortBadRead then
    (Vote.AbortDeadlock, viewMerge cur.2 new.2)
  else if cur.1 = Vote.AbortBadRead then (cur.1, viewMerge cur.2 new.2)
  else if viewAt new.2 > viewAt cur.2 then (Vote.AbortBadRead, viewMerge cur.2 new.2)
  else (cur.1, viewMerge cur.2 new.2)

/-- The vote the switch of combineVote leaves when both the current and the
new vote are aborts that were not created by the abort proposer; `zm` and `xm`
are the clock elements of the current and the new clock for the variable. -/
def abortVote (zv : Vote) (zm : Nat) (xv : Vote) (xm : Nat) : Vote :=
  match zv, xv with
  | Vote.AbortBadRead, Vote.AbortDeadlock => if xm < zm then Vote.AbortBadRead else Vote.AbortDeadlock
  | Vote.AbortDeadlock, Vote.AbortBadRead => if xm > zm then Vote.AbortBadRead else Vote.AbortDeadlock
  | _, _ => zv

/-- An abort that was created by the abort proposer: AbortDeadlock with an
empty clock. -/
def viewSynthetic (p : Vote × Option (Nat × Nat)) : Prop :=
  p.1 = Vote.AbortDeadlock ∧ p.2 = none

/-- An abort that was not created by the abort proposer. -/
def viewAbort (p : Vote × Option (Nat × Nat)) : Prop :=
  p.1 ≠ Vote.Commit ∧ ¬ viewSynthetic p

/-- The view of a reducer. -/
def varBallotReducer.view (w : Nat) (cur : varBallotReducer) :
    Paxos.Vote × Option (Nat × Nat) :=
  (cur.Vote, clockView cur.vUUId w cur.Clock)

/-- The view of the ballot of an rmBallot, for the variable `v`. -/
def rmBallot.view (v w : Nat) (rmBal : rmBallot) : Paxos.Vote × Option (Nat × Nat) :=
  (rmBal.ballot.vote, clockView v w rmBal.ballot.clock)

/-- Scenario "three votes": the ballots of three RMs for variable 10, a commit,
a bad read with clock element 5 and a deadlock with clock element 4. -/
def threeVotes : varBallot :=
  { vUUId := 10, result := none,
    rmToBallot := [{ instanceRMId := 1, ballot := scenarioBallot1, roundNumber := 1 },
                   { instanceRMId := 2,
                     ballot := { vote := Vote.AbortBadRead,
                                 voteCap := { txnId := 20, txnActions := [readOf7] },
                                 clock := [(10, 5)], subscribers := [] },
                     roundNumber := 1 },
                   staleDeadlock],
    voters := 3 }

/-- The same ballots in another order. -/
def threeVotesShuffled : varBallot :=
  { vUUId := 10, result := none,
    rmToBallot := [staleDeadlock,
                   { instanceRMId := 2,
                     ballot := { vote := Vote.AbortBadRead,
                                 voteCap := { txnId := 20, txnActions := [readOf7] },
                                 clock := [(10, 5)], subscribers := [] },
                     roundNumber := 1 },
                   { instanceRMId := 1, ballot := scenarioBallot1, roundNumber := 1 }],
    voters := 3 }

/-- The value of the local `combinedClock` of determineOutcome after its loop
over the map: from the empty clock, the clock of the result of every variable
that is not aborted is merged in, in the order of the map. -/
def commitClock (m : List varBallot) : VectorClock :=
  m.foldl (fun clock vBallot =>
    if vBallot.theResult.Aborted then clock
    else VectorClock.MergeInMax clock vBallot.theResult.clock) NewVectorClock

/-- A varBallot holding the bad read with clock element 3 and then the bad
read with clock element 0. -/
def zeroReadLast : varBallot :=
  { vUUId := 10, result := none,
    rmToBallot := [{ instanceRMId := 1, ballot := firstReadBallot, roundNumber := 1 },
                   { instanceRMId := 2, ballot := zeroReadBallot, roundNumber := 1 }],
    voters := 2 }

/-- The same two rmBallots in the other order. -/
def zeroReadFirst : varBallot :=
  { vUUId := 10, result := none,
    rmToBallot := [{ instanceRMId := 2, ballot := zeroReadBallot, roundNumber := 1 },
                   { instanceRMId := 1, ballot := firstReadBallot, roundNumber := 1 }],
    voters := 2 }

/-! ## AddInstancesToSeg -/

/-- The round number the list holds for an RM, if any. -/
def heldRound (l : List rmBallot) (rm : Nat) : Option Nat :=
  (l.find? (fun rmBal => rmBal.instanceRMId == rm)).map (fun rmBal => rmBal.roundNumber)

/-- The round number the map holds for a variable and an RM, if any. -/
def roundFor (m : List varBallot) (v rm : Nat) : Option Nat :=
  match mapGet m v with
  | none => none
  | some vb => heldRound vb.rmToBallot rm

/-- The accepted round of the first call of the sequence for a variable and an
RM, if any; the calls are in the order they were made. -/
def firstRound : List Call → Nat → Nat → Option Nat
  | [], _, _ => none
  | c :: rest, v, rm =>
    if c.vUUId = v ∧ c.instanceRMId = rm then some c.inst.acceptedNum
    else firstRound rest v rm

/-- The wire record the inner loop of AddInstancesToSeg fills for one rmBallot
(lines 259-264). -/
def rmBallot.toAcceptedInstance (rmBal : rmBallot) : AcceptedInstance :=
  { rmId := rmBal.instanceRMId, roundNumber := rmBal.roundNumber, ballot := rmBal.ballot }

/-- The wire record one iteration of the outer loop of AddInstancesToSeg fills
(lines 252-264); `vBallot.result.Data` of a nil result is a nil dereference. -/
def varBallot.toInstancesForVar (vBallot : varBallot) : Except Failure InstancesForVar :=
  match vBallot.result with
  | none => .error Failure.nilDereference
  | some result =>
    .ok { varId := vBallot.vUUId,
          instances := vBallot.rmToBallot.map rmBallot.toAcceptedInstance,
          result := result }

/-- The outer loop of AddInstancesToSeg over a list of `size` records, from
slot `idx` on. The slot `instances.At(idx)` of an index beyond the list cannot
be written: the run is taken to fail hard there. -/
def addInstancesLoop (size : Int) : Nat → List varBallot → Except Failure (List InstancesForVar)
  | _, [] => .ok []
  | idx, vBallot :: rest =>
    if (idx : Int) < size then
      match vBallot.toInstancesForVar with
      | .error e => .error e
      | .ok instancesForVar =>
        match addInstancesLoop size (idx + 1) rest with
        | .error e => .error e
        | .ok instances => .ok (instancesForVar :: instances)
    else .error Failure.indexOutOfRange

/-- The method BallotAccumulator.AddInstancesToSeg: a list of
`len(ba.vUUIdToBallots) - ba.incompleteVars` records, one filled per varBallot
of the map (here in the order of the association list); a record of the list
that no iteration writes is `none`. -/
def BallotAccumulator.AddInstancesToSeg (ba : BallotAccumulator) :
    Except Failure (List (Option InstancesForVar)) :=
  let size : Int := (ba.vUUIdToBallots.length : Int) - ba.incompleteVars
  match addInstancesLoop size 0 ba.vUUIdToBallots with
  | .error e => .error e
  | .ok instances =>
    .ok (instances.map some ++ List.replicate (size.toNat - instances.length) none)

/-- A second ballot of RM 2 for variable 10, accepted in round 2. -/
def laterBallot2 : Ballot :=
  { vote := Vote.Commit, voteCap := { txnId := 0, txnActions := [] },
    clock := [(10, 4), (11, 1)], subscribers := [] }

/-- The call that delivers the round-2 ballot of RM 2. -/
def laterCall2 : Call :=
  { instanceRMId := 2, inst := { accepted := laterBallot2, acceptedNum := 2 }, vUUId := 10 }

/-- The accumulator after the two calls of the scenario and the round-2 ballot
of RM 2: the entry of RM 2 holds the new ballot beside round number 1. -/
def laterBa3 : BallotAccumulator :=
  { txn := scenarioTxn,
    vUUIdToBallots := [{ vUUId := 10,
                         result := some { vote := Vote.Commit,
                                          voteCap := { txnId := 0, txnActions := [] },
                                          clock := [(10, 4), (11, 2)],
                                          subscribers := [6, 5] },
                         rmToBallot := [{ instanceRMId := 1, ballot := scenarioBallot1,
                                          roundNumber := 1 },
                                        { instanceRMId := 2, ballot := laterBallot2,
                                          roundNumber := 1 }],
                         voters := 2 }],
    outcome := some { id := [{ varId := 10,
                               acceptedInstances := [{ rmId := 1, vote := Vote.Commit },
                                                     { rmId := 2, vote := Vote.Commit }] }],
                      txnDeflated := false,
                      kind := OutcomeKind.commit [(10, 4), (11, 2)] },
    subscribers := [6, 5], incompleteVars := 0, dirty := false }

/-- The record AddInstancesToSeg writes for variable 10 of `laterBa3`. -/
def laterRecord : InstancesForVar :=
  { varId := 10,
    instances := [{ rmId := 1, roundNumber := 1, ballot := scenarioBallot1 },
                  { rmId := 2, roundNumber := 1, ballot := laterBallot2 }],
    result := { vote := Vote.Commit, voteCap := { txnId := 0, txnActions := [] },
                clock := [(10, 4), (11, 2)], subscribers := [6, 5] } }

end Paxos

namespace TxnEngine

/-! ## Variables and their persistence (txnengine/var.go) -/

/-- What ends a step of the model without a new state. -/
inductive Failure where
  /-- A nil pointer dereference: a nil varCap or a nil frameTxnId. -/
  | nilDereference
  /-- The call `v.writeInProgress()` of a nil func. -/
  | nilFunc
  /-- Not a panic: the completion callback of a storage write cannot run when
  no storage write is in flight. -/
  | noWriteInFlight
  deriving DecidableEq, Repr

/-- Modelled from the spec: the three fields of a frame that maybeWriteFrame
reads; the TxnId of the root frame NewVar builds is nil. -/
structure frame where
  frameTxnId : Option Nat
  frameTxnClock : Paxos.VectorClock
  frameWritesClock : Paxos.VectorClock
  deriving DecidableEq, Repr

/-- Modelled from the spec: the constructor NewFrame, as far as these three
fields go. -/
def NewFrame (txnId : Option Nat) (clock written : Paxos.VectorClock) : frame :=
  { frameTxnId := txnId, frameTxnClock := clock, frameWritesClock := written }

/-- Modelled from the spec: a localAction, of which maybeWriteFrame reads the
bytes of the transaction, `action.TxnReader.Data`. -/
structure localAction where
  data : Nat
  deriving DecidableEq, Repr

/-- The wire record msgs.Var: Id, Positions, WriteTxnId, WriteTxnClock and
WritesClock; unset positions read as the empty list. -/
structure VarCap where
  id : Nat
  positions : List Nat
  writeTxnId : Nat
  writeTxnClock : Paxos.VectorClock
  writesClock : Paxos.VectorClock
  deriving DecidableEq, Repr

/-- The two closures maybeWriteFrame stores in writeInProgress: the one that
calls maybeMakeInactive, and the one that calls maybeWriteFrame again with the
captured arguments. Both first set writeInProgress to nil. -/
inductive continuation where
  | makeInactive
  | writeFrame (f : frame) (action : localAction) (positions : Option (List Nat))
  deriving DecidableEq, Repr

/-- The storage write maybeWriteFrame schedules: the frame it is for, the
transaction written under the frame's TxnId, the Var record put under the
variable's key, and the transaction it deletes (that of curFrameOnDisk, which
is the same at the launch and at the run of the write), if any. -/
structure storageWrite where
  f : frame
  txnId : Nat
  txnBytes : Nat
  key : Nat
  varData : VarCap
  deletes : Option frame
  deriving DecidableEq, Repr

/-- The struct Var, without the fields persistence does not touch (poisson,
subscribers, exe, db, vm, rng), and with two lists that stand for the storage:
the writes scheduled and not yet completed, and every write ever scheduled. -/
structure Var where
  UUId : Nat
  positions : Option (List Nat)
  curFrame : Option frame
  curFrameOnDisk : Option frame
  writeInProgress : Option continuation
  varCap : Option VarCap
  inFlight : List storageWrite
  launched : List storageWrite
  deriving DecidableEq, Repr

/-- The constructor newVar. -/
def newVar (uuid : Nat) : Var :=
  { UUId := uuid, positions := none, curFrame := none, curFrameOnDisk := none,
    writeInProgress := none, varCap := none, inFlight := [], launched := [] }

/-- The constructor NewVar: the root frame has a nil TxnId and both clocks
with the variable at 1; the record has the Id only. -/
def NewVar (uuid : Nat) : Var :=
  let v := newVar uuid
  { v with
    curFrame := some (NewFrame none [(v.UUId, 1)] [(v.UUId, 1)]),
    varCap := some { id := v.UUId, positions := [], writeTxnId := 0, writeTxnClock := [],
                     writesClock := [] } }

/-- The constructor VarFromData on the decoded record (`none` when the bytes
do not decode) and the bytes of the transaction WriteTxnId read from disk
(`none` when the read fails or finds nothing); `none` is its `(nil, err)`. -/
def VarFromData (data : Option VarCap) (txnOnDisk : Option Nat) : Option Var :=
  match data with
  | none => none
  | some varCap =>
    let v := newVar varCap.id
    let v1 := if varCap.positions.length ≠ 0 then { v with positions := some varCap.positions }
              else v
    match txnOnDisk with
    | none => none
    | some _ =>
      let curFrame := NewFrame (some varCap.writeTxnId) varCap.writeTxnClock varCap.writesClock
      some { v1 with curFrame := some curFrame, curFrameOnDisk := some curFrame,
                     varCap := some varCap }

/-- The method maybeMakeInactive: it may tell the VarManager that the variable
is idle, and changes no field of the variable. -/
def Var.maybeMakeInactive (v : Var) : Var := v

/-- The positions maybeWriteFrame puts in the record: the argument when it is
not nil, the positions of the old record otherwise. -/
def recordPositions (positions : Option (List Nat)) (oldVarCap : VarCap) : List Nat :=
  match positions with
  | some p => p
  | none => oldVarCap.positions

/-- The method maybeWriteFrame up to the scheduling of the storage write. -/
def Var.maybeWriteFrame (v : Var) (f : frame) (action : localAction)
    (positions : Option (List Nat)) : Except Failure Var :=
  match v.writeInProgress with
  | some _ => .ok { v with writeInProgress := some (continuation.writeFrame f action positions) }
  | none =>
    match v.varCap, f.frameTxnId with
    | none, _ => .error Failure.nilDereference
    | _, none => .error Failure.nilDereference
    | some oldVarCap, some frameTxnId =>
      let varCap : VarCap :=
        { id := oldVarCap.id, positions := recordPositions positions oldVarCap,
          writeTxnId := frameTxnId, writeTxnClock := f.frameTxnClock,
          writesClock := f.frameWritesClock }
      let write : storageWrite :=
        { f := f, txnId := frameTxnId, txnBytes := action.data, key := v.UUId,
          varData := varCap, deletes := v.curFrameOnDisk }
      .ok { v with writeInProgress := some continuation.makeInactive,
                   varCap := some varCap,
                   inFlight := v.inFlight ++ [write],
                   launched := v.launched ++ [write] }

/-- The body of a closure stored in writeInProgress. -/
def continuation.run (k : continuation) (v : Var) : Except Failure Var :=
  match k with
  | .makeInactive => .ok (Var.maybeMakeInactive { v with writeInProgress := none })
  | .writeFrame f action positions =>
    Var.maybeWriteFrame { v with writeInProgress := none } f action positions

/-- The callback maybeWriteFrame hands to applyToSelf, run on the executor
once the oldest storage write in flight has completed without an error, for a
variable that is still the registered one: curFrameOnDisk becomes the frame of
the write, then the stored closure is called. -/
def Var.writeCompleted (v : Var) : Except Failure Var :=
  match v.inFlight with
  | [] => .error Failure.noWriteInFlight
  | write :: rest =>
    let v1 := { v with inFlight := rest, curFrameOnDisk := some write.f }
    match v1.writeInProgress with
    | none => .error Failure.nilFunc
    | some k => k.run v1

/-- The method SetCurFrame. -/
def Var.SetCurFrame (v : Var) (f : frame) (action : localAction)
    (positions : Option (List Nat)) : Except Failure Var :=
  let v1 := { v with curFrame := some f }
  let v2 := match positions with
            | some p => { v1 with positions := some p }
            | none => v1
  v2.maybeWriteFrame f action positions

/-- The steps of a variable's persistence: a call of SetCurFrame, a call of
maybeWriteFrame, and the completion of the storage write in flight together
with its callback. -/
inductive Event where
  | setCurFrame (f : frame) (action : localAction) (positions : Option (List Nat))
  | maybeWriteFrame (f : frame) (action : localAction) (positions : Option (List Nat))
  | writeCompleted
  deriving DecidableEq, Repr

/-- The frame an event passes in has a TxnId, as the frame of a transaction
does. -/
def Event.hasTxnId : Event → Bool
  | .setCurFrame f _ _ => f.frameTxnId.isSome
  | .maybeWriteFrame f _ _ => f.frameTxnId.isSome
  | .writeCompleted => true

/-- One step of a variable. -/
def Var.step (v : Var) : Event → Except Failure Var
  | .setCurFrame f action positions => v.SetCurFrame f action positions
  | .maybeWriteFrame f action positions => v.maybeWriteFrame f action positions
  | .writeCompleted => v.writeCompleted

/-- A sequence of steps, each on the variable the previous one left. -/
def Var.run : Var → List Event → Except Failure Var
  | v, [] => .ok v
  | v, e :: rest =>
    match v.step e with
    | .error err => .error err
    | .ok v1 => Var.run v1 rest

/-- The record maybeWriteFrame builds for a frame with the TxnId `frameTxnId`. -/
def launchedRecord (oldVarCap : VarCap) (f : frame) (frameTxnId : Nat)
    (positions : Option (List Nat)) : VarCap :=
  { id := oldVarCap.id, positions := recordPositions positions oldVarCap,
    writeTxnId := frameTxnId, writeTxnClock := f.frameTxnClock,
    writesClock := f.frameWritesClock }

/-- The storage write maybeWriteFrame schedules for that record. -/
def launchedWrite (v : Var) (oldVarCap : VarCap) (f : frame) (frameTxnId : Nat)
    (action : localAction) (positions : Option (List Nat)) : storageWrite :=
  { f := f, txnId := frameTxnId, txnBytes := action.data, key := v.UUId,
    varData := launchedRecord oldVarCap f frameTxnId positions, deletes := v.curFrameOnDisk }

/-- The variable once maybeWriteFrame has scheduled a storage write. -/
def Var.launch (v : Var) (varCap : VarCap) (write : storageWrite) : Var :=
  { v with writeInProgress := some continuation.makeInactive, varCap := some varCap,
           inFlight := v.inFlight ++ [write], launched := v.launched ++ [write] }

/-- The invariant of a variable: it has a record; at most one storage write is
in flight; writeInProgress is non-nil exactly while one is; a stored write
intent is for a frame with a TxnId. -/
def Var.Inv (v : Var) : Prop :=
  v.varCap.isSome = true ∧ v.inFlight.length ≤ 1 ∧
  (v.writeInProgress.isSome = true ↔ v.inFlight.length = 1) ∧
  (∀ f action positions, v.writeInProgress = some (continuation.writeFrame f action positions) →
    f.frameTxnId.isSome = true)

/-- A sequence of maybeWriteFrame calls, one per element, in order. -/
def Var.writeFrames : Var → List (frame × localAction × Option (List Nat)) → Except Failure Var
  | v, [] => .ok v
  | v, (f, action, positions) :: rest =>
    match v.maybeWriteFrame f action positions with
    | .error err => .error err
    | .ok v1 => Var.writeFrames v1 rest

/-- The frame of transaction 1, 2 and 3 in the scenarios. -/
def frameOf (txnId : Nat) : frame :=
  NewFrame (some txnId) [(1, txnId + 1)] [(1, txnId + 1)]

/-- The action of transaction `txnId` in the scenarios. -/
def actionOf (txnId : Nat) : localAction :=
  { data := 100 + txnId }

/-- Scenario "coalesced": on a new variable, SetCurFrame for frame 1, then for
frames 2 and 3 while the write of frame 1 is in flight, then two completions. -/
def coalescedEvents : List Event :=
  [Event.setCurFrame (frameOf 1) (actionOf 1) none,
   Event.setCurFrame (frameOf 2) (actionOf 2) none,
   Event.setCurFrame (frameOf 3) (actionOf 3) none,
   Event.writeCompleted, Event.writeCompleted]

/-- The variable of the scenario "coalesced" while the write of frame 1 is in
flight. -/
def busyVar : Var :=
  { UUId := 1, positions := none, curFrame := some (frameOf 1), curFrameOnDisk := none,
    writeInProgress := some continuation.makeInactive,
    varCap := some (launchedRecord { id := 1, positions := [], writeTxnId := 0,
                                     writeTxnClock := [], writesClock := [] }
                      (frameOf 1) 1 none),
    inFlight := [launchedWrite (NewVar 1)
                   { id := 1, positions := [], writeTxnId := 0, writeTxnClock := [],
                     writesClock := [] } (frameOf 1) 1 (actionOf 1) none],
    launched := [launchedWrite (NewVar 1)
                   { id := 1, positions := [], writeTxnId := 0, writeTxnClock := [],
                     writesClock := [] } (frameOf 1) 1 (actionOf 1) none] }

/-- Scenario "stale positions": SetCurFrame for frame 1 with positions [1];
while its write is in flight, SetCurFrame for frame 2 with positions [2] and
then for frame 3 with nil positions; then the write of frame 1 completes. -/
def stalePositionsEvents : List Event :=
  [Event.setCurFrame (frameOf 1) (actionOf 1) (some [1]),
   Event.setCurFrame (frameOf 2) (actionOf 2) (some [2]),
   Event.setCurFrame (frameOf 3) (actionOf 3) none,
   Event.writeCompleted]

/-- The record of the write launched for frame 3 in "stale positions". -/
def stalePositionsRecord : VarCap :=
  { id := 1, positions := [1], writeTxnId := 3, writeTxnClock := [(1, 4)],
    writesClock := [(1, 4)] }

/-- The variable "stale positions" ends in. -/
def stalePositionsVar : Var :=
  { UUId := 1, positions := some [2], curFrame := some (frameOf 3),
    curFrameOnDisk := some (frameOf 1),
    writeInProgress := some continuation.makeInactive,
    varCap := some stalePositionsRecord,
    inFlight := [{ f := frameOf 3, txnId := 3, txnBytes := 103, key := 1,
                   varData := stalePositionsRecord, deletes := some (frameOf 1) }],
    launched := [{ f := frameOf 1, txnId := 1, txnBytes := 101, key := 1,
                   varData := { id := 1, positions := [1], writeTxnId := 1,
                                writeTxnClock := [(1, 2)], writesClock := [(1, 2)] },
                   deletes := none },
                 { f := frameOf 3, txnId := 3, txnBytes := 103, key := 1,
                   varData := stalePositionsRecord, deletes := some (frameOf 1) }] }

end TxnEngine

namespace Network

/-! ## The topology writer (network/topologywriter.go) -/

/-- What ends maybeStartWrite without a return. -/
inductive Failure where
  /-- The runtime panic of `make` with a negative capacity. -/
  | negativeCap
  deriving DecidableEq, Repr

/-- Modelled from the spec: a reference to a variable with its positions
(msgs.VarIdPos, and the Root of a topology). -/
structure VarIdPos where
  id : Nat
  positions : List Nat
  deriving DecidableEq, Repr

/-- Modelled from the spec: configuration.Topology, with the fields the
topology writer reads; a nil `Root.VarUUId` is `none`. -/
structure Topology where
  Hosts : List String
  AllRMs : List Nat
  DBVersion : Nat
  Root : Option VarIdPos
  Version : Nat
  deriving DecidableEq, Repr

/-- Modelled from the spec: Topology.Clone, a copy of the value. -/
def Topology.Clone (topology : Topology) : Topology := topology

/-- The fields of ConnectionManager the topology writer reads. -/
structure ConnectionManager where
  RMId : Nat
  BootCount : Nat
  remoteTopology : Option Topology
  deriving DecidableEq, Repr

/-- The struct TopologyWriter, without localConnection. -/
structure TopologyWriter where
  toWrite : Topology
  connectionManager : ConnectionManager
  finished : Bool
  deriving DecidableEq, Repr

/-- The map `conns` from RMId to connection, as the list of its entries in
iteration order; of a connection only its BootCount is kept. -/
abbrev Conns := List (Nat × Nat)

/-- The lookup `_, found := conns[rmId]`. -/
def Conns.found (conns : Conns) (rmId : Nat) : Bool :=
  conns.any (fun entry => entry.1 == rmId)

/-- The write quorum size `(len(toWrite.Hosts) >> 1) + 1`. -/
def Topology.fInc (toWrite : Topology) : Nat :=
  (toWrite.Hosts.length >>> 1) + 1

/-- The loop of maybeStartWrite over toWrite.AllRMs that places every RM other
than the local one: active if it is connected and the active slice, whose
capacity is `capActive`, is not full, passive otherwise. -/
def placeRMs (self : Nat) (conns : Conns) (capActive : Nat) :
    List Nat → List Nat × List Nat → List Nat × List Nat
  | [], placed => placed
  | rmId :: rest, (activeRMs, passiveRMs) =>
    if rmId = self then placeRMs self conns capActive rest (activeRMs, passiveRMs)
    else if conns.found rmId && decide (activeRMs.length < capActive) then
      placeRMs self conns capActive rest (activeRMs ++ [rmId], passiveRMs)
    else placeRMs self conns capActive rest (activeRMs, passiveRMs ++ [rmId])

/-- What the goroutine started by maybeStartWrite is given: the topology to
write, fInc, and the active and passive RMs. -/
structure StartedWrite where
  toWrite : Topology
  fInc : Nat
  activeRMs : List Nat
  passiveRMs : List Nat
  deriving DecidableEq, Repr

/-- The method maybeStartWrite up to the start of its goroutine. It returns
the writer after the call, whether RemoveSenderAsync was called, and the write
started, if any. -/
def TopologyWriter.maybeStartWrite (tw : TopologyWriter) (conns : Conns) :
    Except Failure (TopologyWriter × Bool × Option StartedWrite) :=
  if tw.finished then .ok (tw, false, none)
  else
    match tw.connectionManager.remoteTopology with
    | none =>
      let fInc := tw.toWrite.fInc
      if conns.length < fInc then .ok (tw, false, none)
      else
        let rmIds := conns.map (fun entry => entry.1)
        let toWrite := { tw.toWrite with AllRMs := rmIds }
        .ok ({ tw with toWrite := toWrite, finished := true }, true,
             some { toWrite := toWrite, fInc := fInc, activeRMs := rmIds, passiveRMs := [] })
    | some remoteTopology =>
      let toWrite := remoteTopology.Clone
      let fInc := toWrite.fInc
      let self := tw.connectionManager.RMId
      let foundSelf := toWrite.AllRMs.contains self
      let toWrite := if foundSelf then toWrite
                     else { toWrite with AllRMs := toWrite.AllRMs ++ [self] }
      if toWrite.AllRMs.length < fInc then .error Failure.negativeCap
      else
        let placed := placeRMs self conns fInc toWrite.AllRMs
          (if foundSelf then ([self], []) else ([], [self]))
        if placed.1.length < fInc then .ok (tw, false, none)
        else
          .ok ({ tw with finished := true }, true,
               some { toWrite := toWrite, fInc := fInc, activeRMs := placed.1,
                      passiveRMs := placed.2 })

/-- The list toWrite.AllRMs of the remote branch of maybeStartWrite: the remote
AllRMs, with the local RM appended when it is not among them. -/
def allRMsWithSelf (self : Nat) (remoteTopology : Topology) : List Nat :=
  if remoteTopology.AllRMs.contains self then remoteTopology.AllRMs
  else remoteTopology.AllRMs ++ [self]

/-- The active and passive slices of the remote branch before the loop over
AllRMs: the local RM is active if it was in the remote AllRMs, passive if
not. -/
def initialPlaced (self : Nat) (remoteTopology : Topology) : List Nat × List Nat :=
  if remoteTopology.AllRMs.contains self then ([self], []) else ([], [self])

/-- The number of RMs that can be placed in the active set in the remote
branch: the local RM if it was already in the remote AllRMs, and every other
member of AllRMs that is in the connection map. -/
def placeable (self : Nat) (conns : Conns) (remoteTopology : Topology) : Nat :=
  (if remoteTopology.AllRMs.contains self then 1 else 0) +
  ((allRMsWithSelf self remoteTopology).filter
    (fun rmId => rmId != self && conns.found rmId)).length

/-- Scenario "short remote topology": three hosts, so fInc is 2; the remote
topology lists no RM, so with the local RM added AllRMs has one member. -/
def shortRemoteWriter : TopologyWriter :=
  { toWrite := { Hosts := ["a", "b", "c"], AllRMs := [], DBVersion := 0, Root := none,
                 Version := 1 },
    connectionManager :=
      { RMId := 1, BootCount := 1,
        remoteTopology := some { Hosts := ["a", "b", "c"], AllRMs := [], DBVersion := 5,
                                 Root := none, Version := 1 } },
    finished := false }

/-- The constant configuration.TopologyVarUUId. -/
def TopologyVarUUId : Nat := 0

/-- Modelled from the spec: the kinds of a msgs.Action in an update (the union
read by `Which()`), a write with its value and references. -/
inductive ActionKind where
  | read (version : Nat)
  | write (value : List Nat) (references : List VarIdPos)
  | readwrite (version : Nat) (value : List Nat) (references : List VarIdPos)
  | create (value : List Nat) (references : List VarIdPos)
  | missing
  deriving DecidableEq, Repr

/-- Modelled from the spec: msgs.Action, a variable and what is done to it. -/
structure Action where
  varId : Nat
  kind : ActionKind
  deriving DecidableEq, Repr

/-- Modelled from the spec: msgs.Update, as far as AddSelfToTopology reads it. -/
structure Update where
  txnId : Nat
  actions : List Action
  deriving DecidableEq, Repr

/-- Modelled from the spec: msgs.Outcome, the result of the transaction. -/
inductive Outcome where
  | commit (txnId : Nat)
  | abortResubmit (txnId : Nat)
  | abortRerun (txnId : Nat) (updates : List Update)
  deriving DecidableEq, Repr

/-- The errors AddSelfToTopology returns. -/
inductive Error where
  /-- The error lc.RunTransaction returned. -/
  | runTransaction (code : Nat)
  /-- "readwrite of topology gave %v updates (1 expected)". -/
  | updateCount (n : Nat)
  /-- "readwrite of topology gave multiple actions: %v". -/
  | actionCount (n : Nat)
  /-- "unable to find action for topology from readwrite". -/
  | noTopologyAction
  /-- "readwrite of topology gave non-write action". -/
  | nonWriteAction
  /-- "readwrite of topology had wrong references: %v". -/
  | wrongReferences (n : Nat)
  /-- The error configuration.TopologyDeserialize returned. -/
  | deserialize (code : Nat)
  deriving DecidableEq, Repr

/-- The function AddSelfToTopology from the return of lc.RunTransaction on:
`result` and `err` are what RunTransaction returned for the transaction built
from the topology, and `deserialize` stands for
configuration.TopologyDeserialize. The return is (topology, restart, err). -/
def AddSelfToTopology (cm : ConnectionManager) (topology : Topology)
    (deserialize : Nat → Option VarIdPos → List Nat → Except Nat Topology)
    (result : Option Outcome) (err : Option Error) : Option Topology × Bool × Option Error :=
  match err, result with
  | some e, _ => (none, false, some e)
  | none, none => (none, false, none)
  | none, some (Outcome.commit txnId) => (some { topology with DBVersion := txnId }, false, none)
  | none, some (Outcome.abortResubmit _) => (none, true, none)
  | none, some (Outcome.abortRerun _ abortUpdates) =>
    match abortUpdates with
    | [update] =>
      let dbversion := update.txnId
      let updateActions := update.actions
      if updateActions.length ≠ 1 ∧ updateActions.length ≠ 2 then
        (none, false, some (Error.actionCount updateActions.length))
      else
        match updateActions.find? (fun action => action.varId == TopologyVarUUId) with
        | none => (none, false, some Error.noTopologyAction)
        | some updateAction =>
          match updateAction.kind with
          | ActionKind.write value refs =>
            if refs.length > 1 then (none, false, some (Error.wrongReferences refs.length))
            else
              match deserialize dbversion refs.head? value with
              | .error code => (none, false, some (Error.deserialize code))
              | .ok topology1 =>
                if topology1.AllRMs.contains cm.RMId then (some topology1, false, none)
                else (some topology1, true, none)
          | _ => (none, false, some Error.nonWriteAction)
    | _ => (none, false, some (Error.updateCount abortUpdates.length))

/-- Scenario "three-action rerun": the write of another writer, with the RMs 1
and 2. -/
def rerunTopology : Topology :=
  { Hosts := ["a", "b", "c"], AllRMs := [1, 2], DBVersion := 9, Root := none, Version := 1 }

/-- A deserialiser that yields rerunTopology for every value. -/
def rerunDeserialize (_dbversion : Nat) (_root : Option VarIdPos) (_value : List Nat) :
    Except Nat Topology :=
  .ok rerunTopology

/-- An Abort/Rerun outcome with exactly one update; the update holds a write
on TopologyVarUUId and two more actions. -/
def threeActionRerun : Outcome :=
  Outcome.abortRerun 8
    [{ txnId := 9,
       actions := [{ varId := TopologyVarUUId, kind := ActionKind.write [7] [] },
                   { varId := 3, kind := ActionKind.missing },
                   { varId := 4, kind := ActionKind.missing }] }]

/-- An Abort/Rerun outcome with one update of one action, the write on
TopologyVarUUId. -/
def oneActionRerun : Outcome :=
  Outcome.abortRerun 8
    [{ txnId := 9, actions := [{ varId := TopologyVarUUId, kind := ActionKind.write [7] [] }] }]


/-! ## The allocations of AddSelfToTopology -/

/-- What ends the allocation loop of AddSelfToTopology without a return. -/
inductive AllocFailure where
  /-- The call `conns[rmId].BootCount()` for an RM the map has no connection
  for. -/
  | nilConnection
  /-- A slot `allocs.At(idx)` beyond the allocation list. -/
  | slotOutOfRange
  deriving DecidableEq, Repr

/-- The wire record msgs.Allocation as AddSelfToTopology fills it. -/
structure Allocation where
  rmId : Nat
  active : Nat
  actionIndices : List Nat
  deriving DecidableEq, Repr

/-- The lookup `conns[rmId].BootCount()`; `none` when the map has no
connection for the RM. -/
def Conns.bootCount (conns : Conns) (rmId : Nat) : Option Nat :=
  (conns.find? (fun entry => entry.1 == rmId)).map (fun entry => entry.2)

/-- The allocation the inner loop of AddSelfToTopology fills for one RM (lines
45-55): the boot count of its connection for an RM of the first list, 0 for an
RM of the second, and the single action index 0. -/
def allocationFor (conns : Conns) (listIdx : Nat) (rmId : Nat) : Except AllocFailure Allocation :=
  if listIdx = 0 then
    match conns.bootCount rmId with
    | none => .error AllocFailure.nilConnection
    | some bootCount => .ok { rmId := rmId, active := bootCount, actionIndices := [0] }
  else .ok { rmId := rmId, active := 0, actionIndices := [0] }

/-- The inner loop of AddSelfToTopology over one of the two lists, from slot
`idx` of a list of `size` allocations on. A slot beyond the list cannot be
written: the run is taken to fail hard there. -/
def allocLoop (conns : Conns) (size : Nat) (listIdx : Nat) :
    Nat → List Nat → Except AllocFailure (List Allocation)
  | _, [] => .ok []
  | idx, rmId :: rest =>
    if idx < size then
      match allocationFor conns listIdx rmId with
      | .error e => .error e
      | .ok alloc =>
        match allocLoop conns size listIdx (idx + 1) rest with
        | .error e => .error e
        | .ok allocs => .ok (alloc :: allocs)
    else .error AllocFailure.slotOutOfRange

/-- The allocation list AddSelfToTopology builds (lines 40-57): a list of
`len(topology.AllRMs)` allocations, filled from slot 0 on for the active RMs
and then the passive RMs; an allocation no iteration writes is `none`. -/
def AddSelfToTopology.allocs (conns : Conns) (topology : Topology)
    (active passive : List Nat) : Except AllocFailure (List (Option Allocation)) :=
  let size := topology.AllRMs.length
  match allocLoop conns size 0 0 active with
  | .error e => .error e
  | .ok activeAllocs =>
    match allocLoop conns size 1 activeAllocs.length passive with
    | .error e => .error e
    | .ok passiveAllocs =>
      .ok ((activeAllocs ++ passiveAllocs).map some
            ++ List.replicate (size - (activeAllocs.length + passiveAllocs.length)) none)

/-- Scenario "joined writer": three hosts, so fInc is 2; the remote topology
lists the RMs 1, 2 and 3, and the local RM is 1. -/
def joinedWriter : TopologyWriter :=
  { toWrite := { Hosts := ["a", "b", "c"], AllRMs := [], DBVersion := 0, Root := none,
                 Version := 1 },
    connectionManager :=
      { RMId := 1, BootCount := 5,
        remoteTopology := some { Hosts := ["a", "b", "c"], AllRMs := [1, 2, 3], DBVersion := 5,
                                 Root := none, Version := 1 } },
    finished := false }

/-- The connection map of the scenario: the local RM with boot count 5 and
RM 2 with boot count 7. -/
def joinedConns : Conns := [(1, 5), (2, 7)]

/-- The write the scenario starts: RMs 1 and 2 active, RM 3 passive. -/
def joinedWrite : StartedWrite :=
  { toWrite := { Hosts := ["a", "b", "c"], AllRMs := [1, 2, 3], DBVersion := 5, Root := none,
                 Version := 1 },
    fInc := 2, activeRMs := [1, 2], passiveRMs := [3] }

end Network

namespace Utils

/-! ## The one-shot sender (utils/senders.go) -/

/-- The struct OneShotSender, without the logger; the map `remaining` is the
list of its keys in iteration order. Of the connection publisher and the
connections the model keeps what the sender did to them: the RMs whose
connection was sent `msg`, in order, and the number of calls of
RemoveServerConnectionSubscriber. -/
structure OneShotSender where
  msg : List Nat
  remaining : List Nat
  sent : List Nat
  removed : Nat
  deriving DecidableEq, Repr

/-- The map insert `remaining[rmId] = types.EmptyStructVal`. -/
def insertKey (remaining : List Nat) (rmId : Nat) : List Nat :=
  if remaining.contains rmId then remaining else remaining ++ [rmId]

/-- The constructor NewOneShotSender. -/
def NewOneShotSender (msg : List Nat) (recipients : List Nat) : OneShotSender :=
  { msg := msg, remaining := recipients.foldl insertKey [], sent := [], removed := 0 }

/-- The two statements `delete(oss.remaining, recipient)` and
`conn.Send(oss.msg)`. -/
def OneShotSender.sendTo (oss : OneShotSender) (recipient : Nat) : OneShotSender :=
  { oss with remaining := oss.remaining.erase recipient, sent := oss.sent ++ [recipient] }

/-- The statement that removes the sender from the connection publisher once
`remaining` is empty. -/
def OneShotSender.removeIfDone (oss : OneShotSender) : OneShotSender :=
  if oss.remaining.length = 0 then { oss with removed := oss.removed + 1 } else oss

/-- The loop of ConnectedRMs over the keys of `remaining`; `conns` is the list
of the RMIds the connection map has a connection for. -/
def connectedLoop (conns : List Nat) : List Nat → OneShotSender → OneShotSender
  | [], oss => oss
  | recipient :: rest, oss =>
    if conns.contains recipient then connectedLoop conns rest (oss.sendTo recipient)
    else connectedLoop conns rest oss

/-- The method ConnectedRMs. -/
def OneShotSender.ConnectedRMs (oss : OneShotSender) (conns : List Nat) : OneShotSender :=
  (connectedLoop conns oss.remaining oss).removeIfDone

/-- The method ConnectionLost. -/
def OneShotSender.ConnectionLost (oss : OneShotSender) (_rmId : Nat) (_conns : List Nat) :
    OneShotSender := oss

/-- The method ConnectionEstablished; `conn` is the connection of `rmId`, and
the deferred `done()` does not touch the sender. -/
def OneShotSender.ConnectionEstablished (oss : OneShotSender) (rmId : Nat) (_conns : List Nat) :
    OneShotSender :=
  if oss.remaining.contains rmId then (oss.sendTo rmId).removeIfDone else oss

/-- The events the connection publisher delivers to a subscriber. -/
inductive Event where
  | connectedRMs (conns : List Nat)
  | connectionLost (rmId : Nat) (conns : List Nat)
  | connectionEstablished (rmId : Nat) (conns : List Nat)
  deriving DecidableEq, Repr

/-- One event delivered to the sender. -/
def OneShotSender.step (oss : OneShotSender) : Event → OneShotSender
  | .connectedRMs conns => oss.ConnectedRMs conns
  | .connectionLost rmId conns => oss.ConnectionLost rmId conns
  | .connectionEstablished rmId conns => oss.ConnectionEstablished rmId conns

/-- A sequence of events, each delivered to the sender the previous one left. -/
def OneShotSender.run (oss : OneShotSender) (events : List Event) : OneShotSender :=
  events.foldl OneShotSender.step oss

/-- An RM appears connected in an event: it has a connection in the map of
ConnectedRMs, or it is the RM whose connection ConnectionEstablished
announces. -/
def Event.connects : Event → Nat → Prop
  | .connectedRMs conns, r => r ∈ conns
  | .connectionLost _ _, _ => False
  | .connectionEstablished rmId _, r => r = rmId

/-- The invariant of a sender created for the recipients `R`: no RM twice in
`remaining` or in `sent`; every recipient is in exactly one of them, and
nothing else is; the sender was not removed while `remaining` is not empty. -/
def OneShotSender.Inv (oss : OneShotSender) (R : List Nat) : Prop :=
  oss.remaining.Nodup ∧ oss.sent.Nodup ∧
  (∀ r, r ∈ R ↔ r ∈ oss.remaining ∨ r ∈ oss.sent) ∧
  (∀ r, r ∈ oss.remaining → r ∉ oss.sent) ∧
  (oss.remaining ≠ [] → oss.removed = 0)

end Utils

namespace Paxos

/-! ## Lemmas and theorems -/

theorem VectorClock.At_nil (v : Nat) : VectorClock.At [] v = 0 := rfl

theorem VectorClock.At_cons (e : Nat × Nat) (vc : VectorClock) (v : Nat) :
    VectorClock.At (e :: vc) v
      = if e.1 = v then max e.2 (VectorClock.At vc v) else VectorClock.At vc v := rfl

theorem VectorClock.At_SetVarIdMax (vc : VectorClock) (k n w : Nat) :
    VectorClock.At (VectorClock.SetVarIdMax vc k n) w
      = if k = w then max (VectorClock.At vc w) n else VectorClock.At vc w := by
  induction vc with
  | nil =>
    by_cases h : k = w <;> simp [VectorClock.SetVarIdMax, VectorClock.At_cons, VectorClock.At_nil, h]
  | cons e rest ih =>
    obtain ⟨k1, m⟩ := e
    by_cases h1 : k1 = k
    · subst h1
      by_cases h : k1 = w
      · simp [VectorClock.SetVarIdMax, VectorClock.At_cons, h]
        omega
      · simp [VectorClock.SetVarIdMax, VectorClock.At_cons, h]
    · by_cases h : k = w
      · subst h
        simp [VectorClock.SetVarIdMax, VectorClock.At_cons, h1, ih]
      · by_cases h2 : k1 = w
        · subst h2
          simp [VectorClock.SetVarIdMax, VectorClock.At_cons, h1, h, ih]
        · simp [VectorClock.SetVarIdMax, VectorClock.At_cons, h1, h, h2, ih]

theorem VectorClock.At_MergeInMax (a b : VectorClock) (w : Nat) :
    VectorClock.At (VectorClock.MergeInMax a b) w
      = max (VectorClock.At a w) (VectorClock.At b w) := by
  unfold VectorClock.MergeInMax
  induction b generalizing a with
  | nil => simp [VectorClock.At_nil]
  | cons e rest ih =>
    rw [List.foldl_cons, ih, VectorClock.At_SetVarIdMax, VectorClock.At_cons]
    by_cases h : e.1 = w <;> simp [h]
    omega

theorem VectorClock.Len_eq_zero (vc : VectorClock) : VectorClock.Len vc = 0 ↔ vc = [] := by
  unfold VectorClock.Len
  constructor
  · intro h
    have h1 : (List.map Prod.fst vc).dedup = [] := List.length_eq_zero.mp h
    have h2 : List.map Prod.fst vc = [] := (List.dedup_eq_nil _).mp h1
    exact List.map_eq_nil_iff.mp h2
  · intro h
    subst h
    rfl

theorem ite_apply_both {α : Type} (c : Prop) [Decidable c] (f : α → α) (a b a2 b2 : α)
    (ha : a2 = f a) (hb : b2 = f b) :
    (if c then a2 else b2) = f (if c then a else b) := by
  split_ifs <;> assumption

theorem combineSwitch_withBadReads (cur : varBallotReducer) (rmBal : rmBallot) (br : badReads) :
    varBallotReducer.combineSwitch { cur with badReads := br } rmBal
      = { varBallotReducer.combineSwitch cur rmBal with badReads := br } := by
  unfold varBallotReducer.combineSwitch
  dsimp only
  repeat (first | rfl | apply ite_apply_both _ (fun x : varBallotReducer => { x with badReads := br }))

theorem foldl_combineSwitch_withBadReads (l : List rmBallot) (cur : varBallotReducer)
    (br : badReads) :
    l.foldl varBallotReducer.combineSwitch { cur with badReads := br }
      = { l.foldl varBallotReducer.combineSwitch cur with badReads := br } := by
  induction l generalizing cur with
  | nil => rfl
  | cons rmBal rest ih =>
    rw [List.foldl_cons, List.foldl_cons, combineSwitch_withBadReads, ih]

theorem combineVote_ok (cur cur1 : varBallotReducer) (rmBal : rmBallot)
    (h : varBallotReducer.combineVote cur rmBal = .ok cur1) :
    cur1 = { varBallotReducer.combineSwitch cur rmBal with badReads := cur1.badReads } := by
  unfold varBallotReducer.combineVote at h
  split_ifs at h with hv
  · cases hbr : badReads.combine cur.badReads rmBal with
    | error e => rw [hbr] at h; cases h
    | ok br =>
      rw [hbr] at h
      injection h with h
      subst h
      rw [combineSwitch_withBadReads]
  · injection h with h
    subst h
    rfl

theorem combineVotes_ok (l : List rmBallot) (cur cur1 : varBallotReducer)
    (h : varBallotReducer.combineVotes cur l = .ok cur1) :
    cur1 = { l.foldl varBallotReducer.combineSwitch cur with badReads := cur1.badReads } := by
  induction l generalizing cur with
  | nil =>
    simp only [varBallotReducer.combineVotes] at h
    injection h with h
    subst h
    rfl
  | cons rmBal rest ih =>
    simp only [varBallotReducer.combineVotes] at h
    cases hc : varBallotReducer.combineVote cur rmBal with
    | error e => rw [hc] at h; cases h
    | ok cur2 =>
      rw [hc] at h
      have h1 := ih cur2 h
      have h2 := combineVote_ok cur cur2 rmBal hc
      rw [List.foldl_cons]
      rw [h2, foldl_combineSwitch_withBadReads] at h1
      exact h1

theorem toBallot_withBadReads (cur : varBallotReducer) (br : badReads) :
    varBallotReducer.ToBallot { cur with badReads := br } = cur.ToBallot := rfl

theorem combineVotes_toBallot (vb : varBallot) (br : badReads) (cur1 : varBallotReducer)
    (h : varBallotReducer.combineVotes (newReducer vb.vUUId br) vb.rmToBallot = .ok cur1) :
    cur1.ToBallot = vb.reduced := by
  have h1 := combineVotes_ok _ _ _ h
  have h2 : newReducer vb.vUUId br = { newReducer vb.vUUId [] with badReads := br } := rfl
  rw [h2, foldl_combineSwitch_withBadReads] at h1
  rw [h1]
  rfl

/-- What a successful CalculateResult returns: the varBallot with its reduced
ballot as result, and clock and subscribers merged in when it is a commit. -/
theorem CalculateResult_ok (vb vb1 : varBallot) (br br1 : badReads) (clock clock1 : VectorClock)
    (subs subs1 : List Nat)
    (h : vb.CalculateResult br clock subs = .ok (vb1, br1, clock1, subs1)) :
    vb1 = { vb with result := some vb.reduced } ∧
    clock1 = (if vb.reduced.Aborted then clock else VectorClock.MergeInMax clock vb.reduced.clock) ∧
    subs1 = (if vb.reduced.Aborted then subs else setInsertAll subs vb.reduced.subscribers) := by
  unfold varBallot.CalculateResult at h
  cases hc : varBallotReducer.combineVotes (newReducer vb.vUUId br) vb.rmToBallot with
  | error e => rw [hc] at h; cases h
  | ok cur1 =>
    rw [hc] at h
    have hb := combineVotes_toBallot vb br cur1 hc
    have ha : cur1.Aborted = vb.reduced.Aborted := by
      rw [← hb]; rfl
    have hclock : cur1.Clock = vb.reduced.clock := by rw [← hb]; rfl
    have hsubs : cur1.Subscribers = vb.reduced.subscribers := by rw [← hb]; rfl
    simp only at h
    split_ifs at h with hab
    · injection h with h
      simp only [Prod.mk.injEq] at h
      obtain ⟨h1, _, h3, h4⟩ := h
      rw [ha] at hab
      simp only [Bool.not_eq_true_eq_eq_false] at hab
      simp [hab, ← h1, ← h3, ← h4, hb, hclock, hsubs]
    · injection h with h
      simp only [Prod.mk.injEq] at h
      obtain ⟨h1, _, h3, h4⟩ := h
      rw [ha] at hab
      simp only [Bool.not_eq_true, Bool.not_eq_false_eq_eq_true] at hab
      simp [hab, ← h1, ← h3, ← h4, hb]

theorem combineSwitch_vUUId (cur : varBallotReducer) (rmBal : rmBallot) :
    (varBallotReducer.combineSwitch cur rmBal).vUUId = cur.vUUId := by
  obtain ⟨vu, cv, cc, ck, cs, cb⟩ := cur
  obtain ⟨rm, ⟨nv, nc, nk, ns⟩, rn⟩ := rmBal
  cases cv <;> cases nv <;> simp [varBallotReducer.combineSwitch] <;> split_ifs <;> simp_all

theorem combineSwitch_commit_commit (cur : varBallotReducer) (rmBal : rmBallot)
    (hc : cur.Vote = Vote.Commit) (hn : rmBal.ballot.vote = Vote.Commit) :
    varBallotReducer.combineSwitch cur rmBal
      = { cur with Clock := VectorClock.MergeInMax cur.Clock rmBal.ballot.clock,
                   Subscribers := cur.Subscribers ++ rmBal.ballot.subscribers } := by
  unfold varBallotReducer.combineSwitch
  dsimp only
  rw [if_pos ⟨hc, hn⟩]

theorem combineSwitch_aborted (cur : varBallotReducer) (rmBal : rmBallot)
    (hc : cur.Vote ≠ Vote.Commit) :
    (varBallotReducer.combineSwitch cur rmBal).Vote ≠ Vote.Commit ∧
    (varBallotReducer.combineSwitch cur rmBal).Subscribers
      = (if rmBal.ballot.vote = Vote.AbortDeadlock ∧ VectorClock.Len rmBal.ballot.clock = 0 ∧
            ¬ (cur.Vote = Vote.AbortDeadlock ∧ VectorClock.Len cur.Clock = 0)
         then [] else cur.Subscribers) := by
  obtain ⟨vu, cv, cc, ck, cs, cb⟩ := cur
  obtain ⟨rm, ⟨nv, nc, nk, ns⟩, rn⟩ := rmBal
  cases cv <;> cases nv <;> simp [varBallotReducer.combineSwitch] at hc ⊢ <;> split_ifs <;> simp_all

theorem combineSwitch_commit_abort (cur : varBallotReducer) (rmBal : rmBallot)
    (hc : cur.Vote = Vote.Commit) (hn : rmBal.ballot.vote ≠ Vote.Commit) :
    varBallotReducer.combineSwitch cur rmBal
      = { cur with Vote := rmBal.ballot.vote, VoteCap := rmBal.ballot.voteCap,
                   Clock := rmBal.ballot.clock, Subscribers := [] } := by
  obtain ⟨vu, cv, cc, ck, cs, cb⟩ := cur
  obtain ⟨rm, ⟨nv, nc, nk, ns⟩, rn⟩ := rmBal
  cases cv <;> cases nv <;> simp [varBallotReducer.combineSwitch] at hc hn ⊢

theorem combineSwitch_ignore_commit (cur : varBallotReducer) (rmBal : rmBallot)
    (hc : cur.Vote ≠ Vote.Commit) (hn : rmBal.ballot.vote = Vote.Commit) :
    varBallotReducer.combineSwitch cur rmBal = cur := by
  obtain ⟨vu, cv, cc, ck, cs, cb⟩ := cur
  obtain ⟨rm, ⟨nv, nc, nk, ns⟩, rn⟩ := rmBal
  cases cv <;> cases nv <;> simp [varBallotReducer.combineSwitch] at hc hn ⊢

theorem combineSwitch_synthetic_cur (cur : varBallotReducer) (rmBal : rmBallot)
    (hc : cur.Vote = Vote.AbortDeadlock) (hl : VectorClock.Len cur.Clock = 0) :
    varBallotReducer.combineSwitch cur rmBal = cur := by
  obtain ⟨vu, cv, cc, ck, cs, cb⟩ := cur
  obtain ⟨rm, ⟨nv, nc, nk, ns⟩, rn⟩ := rmBal
  cases cv <;> cases nv <;> simp [varBallotReducer.combineSwitch] at hc hl ⊢ <;> simp [hl]

theorem combineSwitch_synthetic_new (cur : varBallotReducer) (rmBal : rmBallot)
    (hn : rmBal.ballot.vote = Vote.AbortDeadlock) (hl : VectorClock.Len rmBal.ballot.clock = 0)
    (hc : ¬ (cur.Vote = Vote.AbortDeadlock ∧ VectorClock.Len cur.Clock = 0)) :
    varBallotReducer.combineSwitch cur rmBal
      = { cur with Vote := Vote.AbortDeadlock, VoteCap := rmBal.ballot.voteCap,
                   Clock := rmBal.ballot.clock, Subscribers := [] } := by
  obtain ⟨vu, cv, cc, ck, cs, cb⟩ := cur
  obtain ⟨rm, ⟨nv, nc, nk, ns⟩, rn⟩ := rmBal
  cases cv <;> cases nv <;> simp [varBallotReducer.combineSwitch] at hc hn hl ⊢ <;> simp [hl, hc]

theorem maxClockAt_nil (v : Nat) : maxClockAt [] v = 0 := rfl

theorem maxClockAt_cons (b : Ballot) (bs : List Ballot) (v : Nat) :
    maxClockAt (b :: bs) v = max (VectorClock.At b.clock v) (maxClockAt bs v) := rfl

theorem maxClockAt_append (as bs : List Ballot) (v : Nat) :
    maxClockAt (as ++ bs) v = max (maxClockAt as v) (maxClockAt bs v) := by
  induction as with
  | nil => simp [maxClockAt_nil]
  | cons a rest ih => simp [maxClockAt_cons, ih, max_assoc]

theorem le_maxClockAt (bs : List Ballot) (b : Ballot) (hb : b ∈ bs) (v : Nat) :
    VectorClock.At b.clock v ≤ maxClockAt bs v := by
  induction bs with
  | nil => cases hb
  | cons a rest ih =>
    rw [maxClockAt_cons]
    rcases List.mem_cons.mp hb with h | h
    · subst h; exact le_max_left _ _
    · exact le_trans (ih h) (le_max_right _ _)

/-- Folding the switch over ballots that all vote Commit, from a Commit state,
keeps the vote, max-merges the clocks and appends the subscribers. -/
theorem foldl_combineSwitch_commit (l : List rmBallot) (cur : varBallotReducer)
    (hc : cur.Vote = Vote.Commit) (hl : ∀ rmBal ∈ l, rmBal.ballot.vote = Vote.Commit) :
    (l.foldl varBallotReducer.combineSwitch cur).Vote = Vote.Commit ∧
    (∀ v, VectorClock.At (l.foldl varBallotReducer.combineSwitch cur).Clock v
        = max (VectorClock.At cur.Clock v) (maxClockAt (l.map (fun rmBal => rmBal.ballot)) v)) ∧
    (∀ s, s ∈ (l.foldl varBallotReducer.combineSwitch cur).Subscribers
        ↔ s ∈ cur.Subscribers ∨ ∃ rmBal ∈ l, s ∈ rmBal.ballot.subscribers) := by
  induction l generalizing cur with
  | nil => simp [hc, maxClockAt_nil]
  | cons rmBal rest ih =>
    have hn : rmBal.ballot.vote = Vote.Commit := hl rmBal (List.mem_cons_self _ _)
    have hrest : ∀ r ∈ rest, r.ballot.vote = Vote.Commit :=
      fun r hr => hl r (List.mem_cons_of_mem _ hr)
    have hstep := combineSwitch_commit_commit cur rmBal hc hn
    have hv : (varBallotReducer.combineSwitch cur rmBal).Vote = Vote.Commit := by
      rw [hstep]; exact hc
    have hck : (varBallotReducer.combineSwitch cur rmBal).Clock
        = VectorClock.MergeInMax cur.Clock rmBal.ballot.clock := by rw [hstep]
    have hsb : (varBallotReducer.combineSwitch cur rmBal).Subscribers
        = cur.Subscribers ++ rmBal.ballot.subscribers := by rw [hstep]
    rw [List.foldl_cons]
    obtain ⟨h1, h2, h3⟩ := ih (varBallotReducer.combineSwitch cur rmBal) hv hrest
    refine ⟨h1, ?_, ?_⟩
    · intro v
      rw [h2 v, hck]
      simp only [List.map_cons, maxClockAt_cons, VectorClock.At_MergeInMax]
      rw [max_assoc]
    · intro s
      rw [h3 s, hsb]
      simp only [List.mem_append, List.mem_cons]
      constructor
      · rintro ((h | h) | ⟨r, hr, hs⟩)
        · exact Or.inl h
        · exact Or.inr ⟨rmBal, Or.inl rfl, h⟩
        · exact Or.inr ⟨r, Or.inr hr, hs⟩
      · rintro (h | ⟨r, hr | hr, hs⟩)
        · exact Or.inl (Or.inl h)
        · subst hr; exact Or.inl (Or.inr hs)
        · exact Or.inr ⟨r, hr, hs⟩

/-- An aborted state stays aborted under the fold, and its subscriber list
stays empty. -/
theorem foldl_combineSwitch_aborted (l : List rmBallot) (cur : varBallotReducer)
    (hc : cur.Vote ≠ Vote.Commit) (hs : cur.Subscribers = []) :
    (l.foldl varBallotReducer.combineSwitch cur).Vote ≠ Vote.Commit ∧
    (l.foldl varBallotReducer.combineSwitch cur).Subscribers = [] := by
  induction l generalizing cur with
  | nil => exact ⟨hc, hs⟩
  | cons rmBal rest ih =>
    rw [List.foldl_cons]
    obtain ⟨h1, h2⟩ := combineSwitch_aborted cur rmBal hc
    apply ih _ h1
    rw [h2, hs]
    simp

/-- The vote after the fold is Commit exactly when the state it starts from
and every ballot vote Commit; an aborted result has no subscribers. -/
theorem foldl_combineSwitch_vote (l : List rmBallot) (cur : varBallotReducer)
    (hs : cur.Vote ≠ Vote.Commit → cur.Subscribers = []) :
    ((l.foldl varBallotReducer.combineSwitch cur).Vote = Vote.Commit
      ↔ cur.Vote = Vote.Commit ∧ ∀ rmBal ∈ l, rmBal.ballot.vote = Vote.Commit) ∧
    ((l.foldl varBallotReducer.combineSwitch cur).Vote ≠ Vote.Commit →
      (l.foldl varBallotReducer.combineSwitch cur).Subscribers = []) := by
  induction l generalizing cur with
  | nil => simpa using hs
  | cons rmBal rest ih =>
    rw [List.foldl_cons]
    by_cases hc : cur.Vote = Vote.Commit
    · by_cases hn : rmBal.ballot.vote = Vote.Commit
      · have hstep := combineSwitch_commit_commit cur rmBal hc hn
        have hv : (varBallotReducer.combineSwitch cur rmBal).Vote = Vote.Commit := by
          rw [hstep]; exact hc
        obtain ⟨h1, h2⟩ := ih (varBallotReducer.combineSwitch cur rmBal) (fun h => absurd hv h)
        refine ⟨?_, h2⟩
        rw [h1]
        simp [hv, hc, hn]
      · have hstep := combineSwitch_commit_abort cur rmBal hc hn
        have hv : (varBallotReducer.combineSwitch cur rmBal).Vote ≠ Vote.Commit := by
          rw [hstep]; exact hn
        have hsub : (varBallotReducer.combineSwitch cur rmBal).Subscribers = [] := by
          rw [hstep]
        obtain ⟨h1, h2⟩ := foldl_combineSwitch_aborted rest _ hv hsub
        refine ⟨?_, fun _ => h2⟩
        constructor
        · intro h; exact absurd h h1
        · rintro ⟨_, h⟩
          exact absurd (h rmBal (List.mem_cons_self _ _)) hn
    · obtain ⟨hv, hsub⟩ := combineSwitch_aborted cur rmBal hc
      have hsub2 : (varBallotReducer.combineSwitch cur rmBal).Subscribers = [] := by
        rw [hsub, hs hc]; simp
      obtain ⟨h1, h2⟩ := foldl_combineSwitch_aborted rest _ hv hsub2
      refine ⟨?_, fun _ => h2⟩
      constructor
      · intro h; exact absurd h h1
      · rintro ⟨h, _⟩
        exact absurd h hc

/-- A synthetic abort anywhere in the list decides the fold: the vote is
AbortDeadlock, the clock empty, the subscriber list empty. -/
theorem foldl_combineSwitch_synthetic (l : List rmBallot) (cur : varBallotReducer)
    (hs : cur.Vote ≠ Vote.Commit → cur.Subscribers = [])
    (h : (cur.Vote = Vote.AbortDeadlock ∧ VectorClock.Len cur.Clock = 0) ∨
         ∃ rmBal ∈ l, rmBal.ballot.synthetic) :
    (l.foldl varBallotReducer.combineSwitch cur).Vote = Vote.AbortDeadlock ∧
    (l.foldl varBallotReducer.combineSwitch cur).Clock = [] ∧
    (l.foldl varBallotReducer.combineSwitch cur).Subscribers = [] := by
  induction l generalizing cur with
  | nil =>
    rcases h with ⟨hv, hl⟩ | ⟨r, hr, _⟩
    · refine ⟨hv, (VectorClock.Len_eq_zero _).mp hl, hs ?_⟩
      rw [hv]; decide
    · cases hr
  | cons rmBal rest ih =>
    rw [List.foldl_cons]
    by_cases hcur : cur.Vote = Vote.AbortDeadlock ∧ VectorClock.Len cur.Clock = 0
    · rw [combineSwitch_synthetic_cur cur rmBal hcur.1 hcur.2]
      exact ih cur hs (Or.inl hcur)
    · rcases h with h | ⟨r, hr, hsyn⟩
      · exact absurd h hcur
      · rcases List.mem_cons.mp hr with hr | hr
        · subst hr
          rw [combineSwitch_synthetic_new cur r hsyn.1 hsyn.2 hcur]
          exact ih _ (fun _ => rfl) (Or.inl ⟨rfl, hsyn.2⟩)
        · apply ih _ _ (Or.inr ⟨r, hr, hsyn⟩)
          intro hv
          by_cases hc : cur.Vote = Vote.Commit
          · by_cases hn : rmBal.ballot.vote = Vote.Commit
            · rw [combineSwitch_commit_commit cur rmBal hc hn] at hv
              exact absurd hc hv
            · rw [combineSwitch_commit_abort cur rmBal hc hn]
          · obtain ⟨_, hsub⟩ := combineSwitch_aborted cur rmBal hc
            rw [hsub, hs hc]; simp

theorem combineAction_error (br : badReads) (rmBal : rmBallot) (action : Action) (e : Failure)
    (h : badReads.combineAction br rmBal action = .error e) :
    e = Failure.zeroClockElem ∧ IsReadOnly action = true ∧
      VectorClock.At rmBal.ballot.clock action.varId = 0 := by
  unfold badReads.combineAction at h
  dsimp only at h
  split_ifs at h with h1 h2 h3
  · injection h with h
    exact ⟨h.symm, h2, h3⟩

theorem combineActions_error (actions : List Action) (br : badReads) (rmBal : rmBallot)
    (e : Failure) (h : badReads.combineActions br rmBal actions = .error e) :
    e = Failure.zeroClockElem ∧ ∃ action ∈ actions, IsReadOnly action = true ∧
      VectorClock.At rmBal.ballot.clock action.varId = 0 := by
  induction actions generalizing br with
  | nil => simp [badReads.combineActions] at h
  | cons action rest ih =>
    simp only [badReads.combineActions] at h
    cases hc : badReads.combineAction br rmBal action with
    | error e1 =>
      rw [hc] at h
      injection h with h
      subst h
      obtain ⟨h1, h2, h3⟩ := combineAction_error br rmBal action e1 hc
      exact ⟨h1, action, List.mem_cons_self _ _, h2, h3⟩
    | ok br1 =>
      rw [hc] at h
      obtain ⟨h1, a, ha, h2⟩ := ih br1 h
      exact ⟨h1, a, List.mem_cons_of_mem _ ha, h2⟩

theorem combineVote_error (cur : varBallotReducer) (rmBal : rmBallot) (e : Failure)
    (h : varBallotReducer.combineVote cur rmBal = .error e) :
    e = Failure.zeroClockElem ∧ rmBal.ballot.vote = Vote.AbortBadRead ∧
      ∃ action ∈ rmBal.ballot.voteCap.txnActions, IsReadOnly action = true ∧
        VectorClock.At rmBal.ballot.clock action.varId = 0 := by
  unfold varBallotReducer.combineVote at h
  split_ifs at h with hv
  · cases hbr : badReads.combine cur.badReads rmBal with
    | error e1 =>
      rw [hbr] at h
      injection h with h
      subst h
      obtain ⟨h1, h2⟩ := combineActions_error _ _ _ _ hbr
      exact ⟨h1, hv, h2⟩
    | ok br => rw [hbr] at h; cases h

theorem combineVotes_error (l : List rmBallot) (cur : varBallotReducer) (e : Failure)
    (h : varBallotReducer.combineVotes cur l = .error e) :
    e = Failure.zeroClockElem ∧ ¬ noZeroClockRead l := by
  induction l generalizing cur with
  | nil => simp [varBallotReducer.combineVotes] at h
  | cons rmBal rest ih =>
    simp only [varBallotReducer.combineVotes] at h
    cases hc : varBallotReducer.combineVote cur rmBal with
    | error e1 =>
      rw [hc] at h
      injection h with h
      subst h
      obtain ⟨h1, h2, a, ha, h3, h4⟩ := combineVote_error cur rmBal e1 hc
      refine ⟨h1, fun hno => ?_⟩
      exact hno rmBal (List.mem_cons_self _ _) h2 a ha h3 h4
    | ok cur1 =>
      rw [hc] at h
      obtain ⟨h1, h2⟩ := ih cur1 h
      refine ⟨h1, fun hno => h2 ?_⟩
      intro r hr
      exact hno r (List.mem_cons_of_mem _ hr)

/-- The only hard failure of CalculateResult is the zero clock element of a
read-only bad read, and it needs such a read among the ballots. -/
theorem CalculateResult_error (vb : varBallot) (br : badReads) (clock : VectorClock)
    (subs : List Nat) (e : Failure) (h : vb.CalculateResult br clock subs = .error e) :
    e = Failure.zeroClockElem ∧ ¬ noZeroClockRead vb.rmToBallot := by
  unfold varBallot.CalculateResult at h
  cases hc : varBallotReducer.combineVotes (newReducer vb.vUUId br) vb.rmToBallot with
  | error e1 =>
    rw [hc] at h
    injection h with h
    subst h
    exact combineVotes_error _ _ _ hc
  | ok cur1 =>
    rw [hc] at h
    dsimp only at h
    split_ifs at h

theorem noZeroClockRead_of_commit (l : List rmBallot)
    (h : ∀ rmBal ∈ l, rmBal.ballot.vote = Vote.Commit) : noZeroClockRead l := by
  intro r hr hv
  rw [h r hr] at hv
  cases hv

/-- CalculateResult returns whenever no read-only bad read has clock element 0. -/
theorem CalculateResult_returns (vb : varBallot) (br : badReads) (clock : VectorClock)
    (subs : List Nat) (h : noZeroClockRead vb.rmToBallot) :
    ∃ br1 clock1 subs1, vb.CalculateResult br clock subs
      = .ok ({ vb with result := some vb.reduced }, br1, clock1, subs1) := by
  cases hc : vb.CalculateResult br clock subs with
  | error e => exact absurd h (CalculateResult_error vb br clock subs e hc).2
  | ok res =>
    obtain ⟨vb1, br1, clock1, subs1⟩ := res
    obtain ⟨h1, _, _⟩ := CalculateResult_ok vb vb1 br br1 clock clock1 subs subs1 hc
    exact ⟨br1, clock1, subs1, by rw [h1]⟩

theorem mem_setInsert (s : List Nat) (x y : Nat) :
    y ∈ setInsert s x ↔ y ∈ s ∨ y = x := by
  unfold setInsert
  split_ifs with h
  · constructor
    · exact Or.inl
    · rintro (h1 | h1)
      · exact h1
      · subst h1; exact h
  · simp

theorem nodup_setInsert (s : List Nat) (x : Nat) (h : s.Nodup) : (setInsert s x).Nodup := by
  unfold setInsert
  split_ifs with h1
  · exact h
  · rw [List.nodup_append]
    refine ⟨h, List.nodup_singleton x, ?_⟩
    intro a ha hb
    rw [List.mem_singleton] at hb
    subst hb
    exact h1 ha

theorem mem_setInsertAll (l s : List Nat) (y : Nat) :
    y ∈ setInsertAll s l ↔ y ∈ s ∨ y ∈ l := by
  unfold setInsertAll
  induction l generalizing s with
  | nil => simp
  | cons x rest ih =>
    rw [List.foldl_cons, ih, mem_setInsert, List.mem_cons]
    tauto

theorem nodup_setInsertAll (l s : List Nat) (h : s.Nodup) : (setInsertAll s l).Nodup := by
  unfold setInsertAll
  induction l generalizing s with
  | nil => exact h
  | cons x rest ih =>
    rw [List.foldl_cons]
    exact ih _ (nodup_setInsert s x h)

/-- One iteration of the loop of determineOutcome, when it returns. -/
theorem gatherStep_ok (vb vb1 : varBallot) (g g1 : Gathered)
    (h : gatherStep vb g = .ok (vb1, g1)) :
    vb1 = vb.fillResult ∧
    g1.aborted = (g.aborted || vb.theResult.Aborted) ∧
    g1.deadlock = (g.deadlock || decide (vb.theResult.vote = Vote.AbortDeadlock)) ∧
    g1.vUUIds = g.vUUIds ++ [vb.vUUId] ∧
    g1.combinedClock = (if vb.theResult.Aborted then g.combinedClock
                        else VectorClock.MergeInMax g.combinedClock vb.theResult.clock) ∧
    g1.commitSubscribers = (if vb.theResult.Aborted then g.commitSubscribers
                            else setInsertAll g.commitSubscribers vb.theResult.subscribers) := by
  unfold gatherStep at h
  cases hr : vb.result with
  | none =>
    have htr : vb.theResult = vb.reduced := by
      unfold varBallot.theResult; rw [hr]
    rw [hr] at h
    dsimp only at h
    cases hc : vb.CalculateResult g.br g.combinedClock g.commitSubscribers with
    | error e => rw [hc] at h; cases h
    | ok res =>
      obtain ⟨vb2, br2, clock2, subs2⟩ := res
      rw [hc] at h
      obtain ⟨h1, h2, h3⟩ := CalculateResult_ok _ _ _ _ _ _ _ _ hc
      subst h1
      dsimp only at h
      injection h with h
      simp only [Prod.mk.injEq] at h
      obtain ⟨h4, h5⟩ := h
      subst h4 h5
      refine ⟨?_, ?_, ?_, rfl, ?_, ?_⟩
      · unfold varBallot.fillResult; rw [htr]
      · rw [htr]
      · rw [htr]
      · rw [htr]; exact h2
      · rw [htr]; exact h3
  | some r =>
    have htr : vb.theResult = r := by
      unfold varBallot.theResult; rw [hr]
    rw [hr] at h
    dsimp only at h
    have hfill : vb = vb.fillResult := by
      unfold varBallot.fillResult
      rw [htr, ← hr]
    split_ifs at h with hab
    · injection h with h
      simp only [Prod.mk.injEq] at h
      obtain ⟨h4, h5⟩ := h
      subst h5
      simp only [Bool.not_eq_true_eq_eq_false] at hab
      rw [htr]
      refine ⟨?_, rfl, rfl, rfl, ?_, ?_⟩
      · rw [← h4]; exact hfill
      · simp [hab]
      · simp [hab]
    · injection h with h
      simp only [Prod.mk.injEq] at h
      obtain ⟨h4, h5⟩ := h
      subst h5
      simp only [Bool.not_eq_true, Bool.not_eq_false_eq_eq_true] at hab
      rw [htr]
      refine ⟨?_, rfl, rfl, rfl, ?_, ?_⟩
      · rw [← h4]; exact hfill
      · simp [hab]
      · simp [hab]

/-- The only hard failure of one iteration is the zero clock element. -/
theorem gatherStep_error (vb : varBallot) (g : Gathered) (e : Failure)
    (h : gatherStep vb g = .error e) :
    e = Failure.zeroClockElem ∧ ¬ noZeroClockRead vb.rmToBallot := by
  unfold gatherStep at h
  cases hr : vb.result with
  | none =>
    rw [hr] at h
    dsimp only at h
    cases hc : vb.CalculateResult g.br g.combinedClock g.commitSubscribers with
    | error e1 =>
      rw [hc] at h
      injection h with h
      subst h
      exact CalculateResult_error _ _ _ _ _ hc
    | ok res =>
      obtain ⟨vb2, br2, clock2, subs2⟩ := res
      rw [hc] at h
      obtain ⟨h1, _, _⟩ := CalculateResult_ok _ _ _ _ _ _ _ _ hc
      subst h1
      dsimp only at h
      cases h
  | some r =>
    rw [hr] at h
    dsimp only at h
    split_ifs at h

/-- The loop of determineOutcome, when it returns: every cache is filled, and
the gathered flags, clock and subscribers are those of the reduced ballots. -/
theorem gatherLoop_ok (l l1 : List varBallot) (g g1 : Gathered)
    (h : gatherLoop l g = .ok (l1, g1)) :
    l1 = l.map varBallot.fillResult ∧
    g1.aborted = (g.aborted || (l.map varBallot.theResult).any Ballot.Aborted) ∧
    g1.deadlock = (g.deadlock ||
      (l.map varBallot.theResult).any (fun r => decide (r.vote = Vote.AbortDeadlock))) ∧
    g1.vUUIds = g.vUUIds ++ l.map (fun vb => vb.vUUId) ∧
    (∀ v, VectorClock.At g1.combinedClock v
        = max (VectorClock.At g.combinedClock v)
            (maxClockAt ((l.map varBallot.theResult).filter (fun r => !r.Aborted)) v)) ∧
    (∀ s, s ∈ g1.commitSubscribers ↔ s ∈ g.commitSubscribers ∨
        ∃ r ∈ l.map varBallot.theResult, r.Aborted = false ∧ s ∈ r.subscribers) ∧
    (g.commitSubscribers.Nodup → g1.commitSubscribers.Nodup) := by
  induction l generalizing l1 g g1 with
  | nil =>
    simp only [gatherLoop] at h
    injection h with h
    simp only [Prod.mk.injEq] at h
    obtain ⟨h1, h2⟩ := h
    subst h1 h2
    simp [maxClockAt_nil]
  | cons vb rest ih =>
    simp only [gatherLoop] at h
    cases hs : gatherStep vb g with
    | error e => rw [hs] at h; cases h
    | ok res =>
      obtain ⟨vb2, g2⟩ := res
      rw [hs] at h
      dsimp only at h
      cases hl : gatherLoop rest g2 with
      | error e => rw [hl] at h; cases h
      | ok res2 =>
        obtain ⟨rest3, g3⟩ := res2
        rw [hl] at h
        dsimp only at h
        injection h with h
        simp only [Prod.mk.injEq] at h
        obtain ⟨h1, h2⟩ := h
        subst h1 h2
        obtain ⟨s1, s2, s3, s4, s5, s6⟩ := gatherStep_ok vb vb2 g g2 hs
        obtain ⟨r1, r2, r3, r4, r5, r6, r7⟩ := ih rest3 g2 g3 hl
        refine ⟨?_, ?_, ?_, ?_, ?_, ?_, ?_⟩
        · rw [s1, r1]; rfl
        · rw [r2, s2]; simp [Bool.or_assoc]
        · rw [r3, s3]; simp [Bool.or_assoc]
        · rw [r4, s4]; simp
        · intro v
          rw [r5 v, s5]
          cases hab : vb.theResult.Aborted
          · simp [hab, List.filter_cons, maxClockAt_cons, VectorClock.At_MergeInMax, max_assoc]
          · simp [hab, List.filter_cons]
        · intro s
          rw [r6 s, s6]
          cases hab : vb.theResult.Aborted
          · simp only [Bool.false_eq_true, if_false, mem_setInsertAll, List.map_cons,
              List.mem_cons]
            constructor
            · rintro ((h | h) | ⟨r, hr, hx⟩)
              · exact Or.inl h
              · exact Or.inr ⟨vb.theResult, Or.inl rfl, hab, h⟩
              · exact Or.inr ⟨r, Or.inr hr, hx⟩
            · rintro (h | ⟨r, hr | hr, hx⟩)
              · exact Or.inl (Or.inl h)
              · subst hr; exact Or.inl (Or.inr hx.2)
              · exact Or.inr ⟨r, hr, hx⟩
          · simp only [if_true, List.map_cons, List.mem_cons]
            constructor
            · rintro (h | ⟨r, hr, hx⟩)
              · exact Or.inl h
              · exact Or.inr ⟨r, Or.inr hr, hx⟩
            · rintro (h | ⟨r, hr | hr, hx⟩)
              · exact Or.inl h
              · subst hr
                rw [hab] at hx
                exact absurd hx.1 (by decide)
              · exact Or.inr ⟨r, hr, hx⟩
        · intro hn
          apply r7
          rw [s6]
          split_ifs
          · exact hn
          · exact nodup_setInsertAll _ _ hn

/-- The only hard failure of the loop is the zero clock element of a read-only
bad read of some variable. -/
theorem gatherLoop_error (l : List varBallot) (g : Gathered) (e : Failure)
    (h : gatherLoop l g = .error e) :
    e = Failure.zeroClockElem ∧ ∃ vb ∈ l, ¬ noZeroClockRead vb.rmToBallot := by
  induction l generalizing g with
  | nil => simp [gatherLoop] at h
  | cons vb rest ih =>
    simp only [gatherLoop] at h
    cases hs : gatherStep vb g with
    | error e1 =>
      rw [hs] at h
      injection h with h
      subst h
      obtain ⟨h1, h2⟩ := gatherStep_error vb g e1 hs
      exact ⟨h1, vb, List.mem_cons_self _ _, h2⟩
    | ok res =>
      obtain ⟨vb2, g2⟩ := res
      rw [hs] at h
      dsimp only at h
      cases hl : gatherLoop rest g2 with
      | error e1 =>
        rw [hl] at h
        injection h with h
        subst h
        obtain ⟨h1, v, hv, h2⟩ := ih g2 hl
        exact ⟨h1, v, List.mem_cons_of_mem _ hv, h2⟩
      | ok res2 =>
        rw [hl] at h
        cases h

theorem mapGet_of_mem (m : List varBallot) (v : Nat) (h : v ∈ m.map (fun vb => vb.vUUId)) :
    ∃ vb, mapGet m v = some vb ∧ vb ∈ m ∧ vb.vUUId = v := by
  unfold mapGet
  induction m with
  | nil => simp at h
  | cons x rest ih =>
    by_cases hx : x.vUUId = v
    · exact ⟨x, by simp [List.find?_cons, hx], List.mem_cons_self _ _, hx⟩
    · have h1 : v ∈ rest.map (fun vb => vb.vUUId) := by
        simp only [List.map_cons, List.mem_cons] at h
        rcases h with h | h
        · exact absurd h.symm hx
        · exact h
      obtain ⟨vb, h2, h3, h4⟩ := ih h1
      refine ⟨vb, ?_, List.mem_cons_of_mem _ h3, h4⟩
      simp [List.find?_cons, hx, h2]

theorem mapGet_some (m : List varBallot) (v : Nat) (vb : varBallot) (h : mapGet m v = some vb) :
    vb ∈ m ∧ vb.vUUId = v := by
  unfold mapGet at h
  have h1 := List.find?_some h
  have h2 := List.mem_of_find?_eq_some h
  simp only [beq_iff_eq] at h1
  exact ⟨h2, h1⟩

/-- The manifest loop returns one entry per VarUUId handed in, in order, each
listing the rmBallots of the varBallot found under that key. -/
theorem outcomeIdList_ok (m : List varBallot) (vs : List Nat)
    (h : ∀ v ∈ vs, v ∈ m.map (fun vb => vb.vUUId)) :
    ∃ ids, outcomeIdList m vs = .ok ids ∧ ids.map (fun i => i.varId) = vs ∧
      ∀ i ∈ ids, ∃ vb, mapGet m i.varId = some vb ∧
        i.acceptedInstances = vb.rmToBallot.map (fun rmBal =>
          ({ rmId := rmBal.instanceRMId, vote := rmBal.ballot.vote } : AcceptedInstanceId)) := by
  induction vs with
  | nil => exact ⟨[], rfl, rfl, by simp⟩
  | cons v rest ih =>
    obtain ⟨vb, hvb, _, _⟩ := mapGet_of_mem m v (h v (List.mem_cons_self _ _))
    obtain ⟨ids, h1, h2, h3⟩ := ih (fun w hw => h w (List.mem_cons_of_mem _ hw))
    refine ⟨({ varId := v, acceptedInstances := vb.rmToBallot.map (fun rmBal =>
        ({ rmId := rmBal.instanceRMId, vote := rmBal.ballot.vote } : AcceptedInstanceId)) }
        : OutcomeId) :: ids, ?_, ?_, ?_⟩
    · simp only [outcomeIdList, outcomeIdFor, hvb, h1]
    · simp [h2]
    · intro i hi
      rcases List.mem_cons.mp hi with hi | hi
      · subst hi
        exact ⟨vb, hvb, rfl⟩
      · exact h3 i hi

theorem mapKeys_fillResult (m : List varBallot) :
    mapKeys (m.map varBallot.fillResult) = mapKeys m := by
  unfold mapKeys
  rw [List.map_map]
  rfl

/-- Without `dirty && incompleteVars == 0`, determineOutcome is a no-op
returning `(nil, nil)`. -/
theorem determineOutcome_idle (ba : BallotAccumulator)
    (h : ¬ (ba.dirty = true ∧ ba.incompleteVars = 0)) :
    ba.determineOutcome = .ok (ba, none, []) := by
  unfold BallotAccumulator.determineOutcome
  have h1 : (!(ba.dirty && ba.incompleteVars == 0)) = true := by
    cases hd : ba.dirty
    · simp
    · have h2 : ba.incompleteVars ≠ 0 := fun h3 => h ⟨hd, h3⟩
      simp [h2]
  rw [if_pos h1]

/-- With `dirty && incompleteVars == 0`, a determineOutcome that returns has
run its loop over the map, stored the filled varBallots and built the outcome
from what the loop gathered. -/
theorem determineOutcome_ok (ba ba1 : BallotAccumulator) (out : Option Outcome)
    (subs : List Nat) (hd : ba.dirty = true) (hi : ba.incompleteVars = 0)
    (h : ba.determineOutcome = .ok (ba1, out, subs)) :
    ∃ o g, out = some o ∧
      gatherLoop ba.vUUIdToBallots Gathered.init
        = .ok (ba.vUUIdToBallots.map varBallot.fillResult, g) ∧
      ba1 = { ba with dirty := false,
                      vUUIdToBallots := ba.vUUIdToBallots.map varBallot.fillResult,
                      subscribers := subs, outcome := some o } ∧
      outcomeIdList (ba.vUUIdToBallots.map varBallot.fillResult)
        (VarUUIds.Sort (mapKeys ba.vUUIdToBallots)) = .ok o.id ∧
      (g.aborted = true → subs = [] ∧ o.txnDeflated = true ∧
        o.kind = (if g.deadlock then OutcomeKind.abortResubmit
                  else OutcomeKind.abortRerun (badReads.AddToSeg g.br))) ∧
      (g.aborted = false → subs = g.commitSubscribers ∧ o.txnDeflated = false ∧
        o.kind = OutcomeKind.commit g.combinedClock ∧
        ba.vUUIdToBallots.length ≤ VectorClock.Len g.combinedClock) := by
  unfold BallotAccumulator.determineOutcome at h
  have h1 : ¬ ((!(ba.dirty && ba.incompleteVars == 0)) = true) := by simp [hd, hi]
  rw [if_neg h1] at h
  dsimp only at h
  cases hg : gatherLoop ba.vUUIdToBallots Gathered.init with
  | error e => rw [hg] at h; cases h
  | ok res =>
    obtain ⟨vbs, g⟩ := res
    rw [hg] at h
    dsimp only at h
    obtain ⟨g1, _, _, g4, _⟩ := gatherLoop_ok _ _ _ _ hg
    subst g1
    have hk : g.vUUIds = mapKeys ba.vUUIdToBallots := by
      rw [g4]; rfl
    rw [hk] at h
    cases ho : outcomeIdList (ba.vUUIdToBallots.map varBallot.fillResult)
        (VarUUIds.Sort (mapKeys ba.vUUIdToBallots)) with
    | error e => rw [ho] at h; cases h
    | ok ids =>
      rw [ho] at h
      dsimp only at h
      cases hab : g.aborted
      · rw [hab] at h
        simp only [Bool.false_eq_true, if_false] at h
        split_ifs at h with hlen
        injection h with h
        simp only [Prod.mk.injEq] at h
        obtain ⟨h2, h3, h4⟩ := h
        refine ⟨_, g, h3.symm, rfl, ?_, rfl, ?_, ?_⟩
        · rw [← h2, ← h4]
        · intro hc; rw [hab] at hc; cases hc
        · intro _
          refine ⟨h4.symm, rfl, rfl, ?_⟩
          simp only [List.length_map, gt_iff_lt, not_lt] at hlen
          exact hlen
      · rw [hab] at h
        simp only [if_true] at h
        injection h with h
        simp only [Prod.mk.injEq] at h
        obtain ⟨h2, h3, h4⟩ := h
        refine ⟨_, g, h3.symm, rfl, ?_, rfl, ?_, ?_⟩
        · rw [← h2, ← h4]
        · intro _
          exact ⟨h4.symm, rfl, rfl⟩
        · intro hc; rw [hab] at hc; cases hc

theorem VarUUIds_Sort_perm (vs : List Nat) : (VarUUIds.Sort vs).Perm vs :=
  List.perm_insertionSort _ vs

theorem VarUUIds_Sort_sorted (vs : List Nat) : (VarUUIds.Sort vs).Sorted (fun a b => a ≤ b) :=
  List.sorted_insertionSort _ vs

theorem outcomeIdList_sorted_keys (m : List varBallot) :
    ∃ ids, outcomeIdList (m.map varBallot.fillResult) (VarUUIds.Sort (mapKeys m)) = .ok ids ∧
      ids.map (fun i => i.varId) = VarUUIds.Sort (mapKeys m) ∧
      ∀ i ∈ ids, ∃ vb, mapGet (m.map varBallot.fillResult) i.varId = some vb ∧
        i.acceptedInstances = vb.rmToBallot.map (fun rmBal =>
          ({ rmId := rmBal.instanceRMId, vote := rmBal.ballot.vote } : AcceptedInstanceId)) := by
  apply outcomeIdList_ok
  intro v hv
  have h1 : v ∈ mapKeys m := (VarUUIds_Sort_perm (mapKeys m)).mem_iff.mp hv
  rw [← mapKeys_fillResult] at h1
  exact h1

/-- With `dirty && incompleteVars == 0`, the only hard failures of
determineOutcome are the zero clock element of a read-only bad read and the
commit clock shorter than the number of variables. -/
theorem determineOutcome_error (ba : BallotAccumulator) (e : Failure)
    (hd : ba.dirty = true) (hi : ba.incompleteVars = 0)
    (h : ba.determineOutcome = .error e) :
    e = Failure.zeroClockElem ∨ e = Failure.clockTooShort := by
  unfold BallotAccumulator.determineOutcome at h
  have h1 : ¬ ((!(ba.dirty && ba.incompleteVars == 0)) = true) := by simp [hd, hi]
  rw [if_neg h1] at h
  dsimp only at h
  cases hg : gatherLoop ba.vUUIdToBallots Gathered.init with
  | error e1 =>
    rw [hg] at h
    injection h with h
    subst h
    exact Or.inl (gatherLoop_error _ _ _ hg).1
  | ok res =>
    obtain ⟨vbs, g⟩ := res
    rw [hg] at h
    dsimp only at h
    obtain ⟨g1, _, _, g4, _⟩ := gatherLoop_ok _ _ _ _ hg
    subst g1
    have hk : g.vUUIds = mapKeys ba.vUUIdToBallots := by
      rw [g4]; rfl
    rw [hk] at h
    obtain ⟨ids, ho, _⟩ := outcomeIdList_sorted_keys ba.vUUIdToBallots
    rw [ho] at h
    dsimp only at h
    split_ifs at h
    injection h with h
    exact Or.inr h.symm

theorem overwrite_none (rm : Nat) (b : Ballot) (l : List rmBallot) :
    rmBallots.overwrite rm b l = none ↔ rm ∉ rmIds l := by
  unfold rmIds
  induction l with
  | nil => simp [rmBallots.overwrite]
  | cons r rest ih =>
    simp only [rmBallots.overwrite]
    by_cases h : r.instanceRMId = rm
    · simp [h]
    · rw [if_neg h]
      cases ho : rmBallots.overwrite rm b rest with
      | none =>
        have := ih.mp ho
        simp only [List.map_cons, List.mem_cons, not_or, true_iff]
        exact ⟨fun h1 => h h1.symm, this⟩
      | some l1 =>
        simp only [List.map_cons, List.mem_cons, not_or]
        constructor
        · intro hc; cases hc
        · rintro ⟨_, hc⟩
          have := ih.mpr hc
          rw [ho] at this
          cases this

theorem overwrite_some (rm : Nat) (b : Ballot) (l l1 : List rmBallot)
    (h : rmBallots.overwrite rm b l = some l1) :
    rmIds l1 = rmIds l ∧ l1.length = l.length ∧
    (∀ rm1, heldBallot l1 rm1 = if rm1 = rm then some b else heldBallot l rm1) := by
  unfold rmIds heldBallot
  induction l generalizing l1 with
  | nil => simp [rmBallots.overwrite] at h
  | cons r rest ih =>
    simp only [rmBallots.overwrite] at h
    by_cases hr : r.instanceRMId = rm
    · rw [if_pos hr] at h
      injection h with h
      subst h
      refine ⟨by simp, by simp, ?_⟩
      intro rm1
      by_cases h1 : rm1 = rm
      · subst h1; simp [List.find?_cons, hr]
      · have h2 : ¬ r.instanceRMId = rm1 := fun h3 => h1 (h3.symm.trans hr)
        simp [List.find?_cons, h1, h2]
    · rw [if_neg hr] at h
      cases ho : rmBallots.overwrite rm b rest with
      | none => rw [ho] at h; cases h
      | some l2 =>
        rw [ho] at h
        injection h with h
        subst h
        obtain ⟨i1, i2, i3⟩ := ih l2 ho
        refine ⟨by simp [i1], by simp [i2], ?_⟩
        intro rm1
        by_cases h1 : r.instanceRMId = rm1
        · have h2 : rm1 ≠ rm := fun h3 => hr (h1.trans h3)
          simp [List.find?_cons, h1, h2]
        · have hne : (r.instanceRMId == rm1) = false := by simp [h1]
          have := i3 rm1
          simp only [List.find?_cons, hne]
          exact this

theorem heldBallot_eq_some (l : List rmBallot) (hn : (rmIds l).Nodup) (rm : Nat) (b : Ballot) :
    heldBallot l rm = some b ↔ ∃ r ∈ l, r.instanceRMId = rm ∧ r.ballot = b := by
  unfold heldBallot
  induction l with
  | nil => simp
  | cons x rest ih =>
    have hn1 : (rmIds rest).Nodup := (List.nodup_cons.mp hn).2
    have hx : x.instanceRMId ∉ rmIds rest := (List.nodup_cons.mp hn).1
    by_cases h : x.instanceRMId = rm
    · simp only [List.find?_cons, h, beq_self_eq_true, Option.map_some', Option.some.injEq,
        List.mem_cons]
      constructor
      · intro hb; exact ⟨x, Or.inl rfl, h, hb⟩
      · rintro ⟨r, hr | hr, h1, h2⟩
        · subst hr; exact h2
        · exfalso
          apply hx
          rw [h, ← h1]
          exact List.mem_map_of_mem _ hr
    · have hne : (x.instanceRMId == rm) = false := by simp [h]
      simp only [List.find?_cons, hne, List.mem_cons]
      rw [ih hn1]
      constructor
      · rintro ⟨r, hr, h1⟩; exact ⟨r, Or.inr hr, h1⟩
      · rintro ⟨r, hr | hr, h1, h2⟩
        · subst hr; exact absurd h1 h
        · exact ⟨r, hr, h1, h2⟩

theorem heldBallot_perm (l l1 : List rmBallot) (hp : l1.Perm l) (hn : (rmIds l).Nodup)
    (rm : Nat) : heldBallot l1 rm = heldBallot l rm := by
  have hn1 : (rmIds l1).Nodup := (hp.map _).nodup_iff.mpr hn
  apply Option.ext
  intro b
  simp only [Option.mem_def]
  rw [heldBallot_eq_some l1 hn1, heldBallot_eq_some l hn]
  constructor
  · rintro ⟨r, hr, h⟩; exact ⟨r, hp.mem_iff.mp hr, h⟩
  · rintro ⟨r, hr, h⟩; exact ⟨r, hp.mem_iff.mpr hr, h⟩

theorem heldBallot_append_new (l : List rmBallot) (r : rmBallot) (hr : r.instanceRMId ∉ rmIds l)
    (rm1 : Nat) :
    heldBallot (l ++ [r]) rm1
      = if rm1 = r.instanceRMId then some r.ballot else heldBallot l rm1 := by
  unfold heldBallot
  induction l with
  | nil =>
    by_cases h : rm1 = r.instanceRMId
    · subst h; simp [List.find?_cons]
    · have h2 : ¬ r.instanceRMId = rm1 := fun h3 => h h3.symm
      simp [List.find?_cons, h, h2]
  | cons x rest ih =>
    have hx : r.instanceRMId ≠ x.instanceRMId := by
      intro h; apply hr; rw [h]; unfold rmIds; simp
    have hrest : r.instanceRMId ∉ rmIds rest := by
      intro h; apply hr; unfold rmIds at h ⊢; simp only [List.map_cons, List.mem_cons]; exact Or.inr h
    by_cases h : x.instanceRMId = rm1
    · have h2 : rm1 ≠ r.instanceRMId := by rw [← h]; exact fun h3 => hx h3.symm
      simp [List.find?_cons, h, h2]
    · have hne : (x.instanceRMId == rm1) = false := by simp [h]
      simp only [List.cons_append, List.find?_cons, hne]
      exact ih hrest

theorem rmBallots_Sort_perm (l : List rmBallot) : (rmBallots.Sort l).Perm l :=
  List.perm_insertionSort _ l

theorem rmBallots_Sort_length (l : List rmBallot) : (rmBallots.Sort l).length = l.length :=
  (rmBallots_Sort_perm l).length_eq

theorem rmBallots_Sort_sorted (l : List rmBallot) (hn : (rmIds l).Nodup) :
    (rmIds (rmBallots.Sort l)).Sorted (fun a b => a < b) := by
  have h1 : (rmBallots.Sort l).Sorted (fun a b => a.instanceRMId ≤ b.instanceRMId) := by
    unfold rmBallots.Sort
    have : IsTotal rmBallot (fun a b => a.instanceRMId ≤ b.instanceRMId) :=
      ⟨fun a b => Nat.le_total _ _⟩
    have : IsTrans rmBallot (fun a b => a.instanceRMId ≤ b.instanceRMId) :=
      ⟨fun a b c => Nat.le_trans⟩
    exact List.sorted_insertionSort _ l
  have h2 : (rmIds (rmBallots.Sort l)).Nodup :=
    ((rmBallots_Sort_perm l).map _).nodup_iff.mpr hn
  have h3 : (rmIds (rmBallots.Sort l)).Sorted (fun a b => a ≤ b) := by
    unfold rmIds
    exact List.pairwise_map.mpr h1
  exact List.Sorted.lt_of_le h3 h2

theorem received_fields (vb : varBallot) (rm : Nat) (inst : Instance) :
    (vb.received rm inst).vUUId = vb.vUUId ∧ (vb.received rm inst).voters = vb.voters ∧
    ((vb.received rm inst).result = none ∨
      ((vb.received rm inst).result = vb.result ∧
        (vb.received rm inst).rmToBallot.length < vb.voters)) := by
  unfold varBallot.received
  by_cases h : (vb.receivedList rm inst).length ≥ vb.voters
  · rw [if_pos h]
    exact ⟨rfl, rfl, Or.inl rfl⟩
  · rw [if_neg h]
    exact ⟨rfl, rfl, Or.inr ⟨rfl, Nat.lt_of_not_le h⟩⟩

theorem received_result_none (vb : varBallot) (rm : Nat) (inst : Instance)
    (h : vb.voters ≤ (vb.received rm inst).rmToBallot.length) :
    (vb.received rm inst).result = none := by
  rcases (received_fields vb rm inst).2.2 with h1 | ⟨_, h1⟩
  · exact h1
  · omega

theorem received_list (vb : varBallot) (rm : Nat) (inst : Instance) :
    (vb.received rm inst).rmToBallot = vb.receivedList rm inst := by
  unfold varBallot.received
  split_ifs <;> rfl

/-- A ballot of an RM the variable already holds a ballot of: the RMIds, their
order and the length of the list stay as they are. -/
theorem received_old (vb : varBallot) (rm : Nat) (inst : Instance)
    (h : rm ∈ rmIds vb.rmToBallot) :
    rmIds (vb.received rm inst).rmToBallot = rmIds vb.rmToBallot ∧
    (vb.received rm inst).rmToBallot.length = vb.rmToBallot.length ∧
    (∀ rm1, heldBallot (vb.received rm inst).rmToBallot rm1
        = if rm1 = rm then some inst.accepted else heldBallot vb.rmToBallot rm1) := by
  rw [received_list]
  unfold varBallot.receivedList
  cases ho : rmBallots.overwrite rm inst.accepted vb.rmToBallot with
  | none => exact absurd h ((overwrite_none _ _ _).mp ho)
  | some l => exact overwrite_some _ _ _ _ ho

/-- A ballot of a new RM: the list grows by the new rmBallot, up to order. -/
theorem received_new (vb : varBallot) (rm : Nat) (inst : Instance)
    (h : rm ∉ rmIds vb.rmToBallot) :
    (vb.received rm inst).rmToBallot.Perm
      (vb.rmToBallot ++ [newRmBallot rm inst]) ∧
    (vb.received rm inst).rmToBallot.length = vb.rmToBallot.length + 1 ∧
    (vb.voters ≤ vb.rmToBallot.length + 1 →
      (vb.received rm inst).rmToBallot =
        rmBallots.Sort (vb.rmToBallot ++ [newRmBallot rm inst])) := by
  rw [received_list]
  unfold varBallot.receivedList
  rw [(overwrite_none _ _ _).mpr h]
  dsimp only
  split_ifs with h1
  · refine ⟨rmBallots_Sort_perm _, ?_, fun _ => rfl⟩
    rw [rmBallots_Sort_length]; simp
  · refine ⟨List.Perm.refl _, by simp, ?_⟩
    intro h2
    simp only [List.length_append, List.length_singleton, ge_iff_le] at h1
    exact absurd h2 h1

theorem rmIds_append_new (l : List rmBallot) (r : rmBallot) (hn : (rmIds l).Nodup)
    (h : r.instanceRMId ∉ rmIds l) : (rmIds (l ++ [r])).Nodup := by
  unfold rmIds at *
  rw [List.map_append, List.nodup_append]
  refine ⟨hn, by simp, ?_⟩
  intro a ha hb
  simp only [List.map_cons, List.map_nil, List.mem_singleton] at hb
  subst hb
  exact h ha

/-- The held ballots after a BallotReceived for the variable: the ballot of
the RM is the accepted one, the ballots of the other RMs are unchanged. -/
theorem received_held (vb : varBallot) (rm : Nat) (inst : Instance)
    (hn : (rmIds vb.rmToBallot).Nodup) (rm1 : Nat) :
    heldBallot (vb.received rm inst).rmToBallot rm1
      = if rm1 = rm then some inst.accepted else heldBallot vb.rmToBallot rm1 := by
  by_cases h : rm ∈ rmIds vb.rmToBallot
  · exact (received_old vb rm inst h).2.2 rm1
  · obtain ⟨hp, _, _⟩ := received_new vb rm inst h
    have hn2 := rmIds_append_new vb.rmToBallot
      (newRmBallot rm inst) hn h
    rw [heldBallot_perm _ _ hp hn2, heldBallot_append_new _ _ h]
    rfl

/-- BallotReceived keeps the invariant of the varBallot it updates. -/
theorem received_WF (vb : varBallot) (rm : Nat) (inst : Instance) (hwf : vb.WF) :
    (vb.received rm inst).WF := by
  obtain ⟨hn, hs, hc⟩ := hwf
  obtain ⟨_, hvot, hres⟩ := received_fields vb rm inst
  have hcached : ∀ r, (vb.received rm inst).result = some r →
      (vb.received rm inst).voters ≤ (vb.received rm inst).rmToBallot.length ∧
        r = (vb.received rm inst).reduced := by
    intro r hr
    rcases hres with h1 | ⟨h1, h2⟩
    · rw [h1] at hr; cases hr
    · rw [h1] at hr
      have h3 := (hc r hr).1
      by_cases h : rm ∈ rmIds vb.rmToBallot
      · have := (received_old vb rm inst h).2.1
        omega
      · have := (received_new vb rm inst h).2.1
        omega
  by_cases h : rm ∈ rmIds vb.rmToBallot
  · obtain ⟨h1, h2, _⟩ := received_old vb rm inst h
    refine ⟨by rw [h1]; exact hn, ?_, hcached⟩
    rw [h1, h2, hvot]
    exact hs
  · obtain ⟨hp, h2, h3⟩ := received_new vb rm inst h
    have hn2 := rmIds_append_new vb.rmToBallot
      (newRmBallot rm inst) hn h
    refine ⟨(hp.map _).nodup_iff.mpr hn2, ?_, hcached⟩
    rw [h2, hvot]
    intro hle
    rw [h3 hle]
    exact rmBallots_Sort_sorted _ hn2

/-- BallotReceived completes a variable exactly when it decrements
incompleteVars for it; a complete variable stays complete. -/
theorem received_complete (vb : varBallot) (rm : Nat) (inst : Instance) :
    ((vb.received rm inst).complete ↔ vb.complete ∨ vb.completes rm = true) ∧
    (vb.completes rm = true → ¬ vb.complete) := by
  obtain ⟨_, hvot, _⟩ := received_fields vb rm inst
  unfold varBallot.complete varBallot.completes
  rw [hvot]
  simp only [Bool.and_eq_true, decide_eq_true_eq]
  by_cases h : rm ∈ rmIds vb.rmToBallot
  · rw [(received_old vb rm inst h).2.1]
    constructor
    · constructor
      · intro h1; exact Or.inl h1
      · rintro (h1 | ⟨h1, _⟩)
        · exact h1
        · exact absurd h h1
    · rintro ⟨h1, _⟩; exact absurd h h1
  · rw [(received_new vb rm inst h).2.1]
    constructor
    · constructor
      · rintro ⟨h1, h2⟩
        by_cases h3 : vb.rmToBallot.length + 1 = vb.voters
        · exact Or.inr ⟨h, h3⟩
        · exact Or.inl ⟨h1, by omega⟩
      · rintro (⟨h1, h2⟩ | ⟨_, h2⟩)
        · exact ⟨h1, by omega⟩
        · exact ⟨by omega, by omega⟩
    · rintro ⟨_, h1⟩ ⟨_, h2⟩
      omega

theorem mapGet_split (m : List varBallot) (v : Nat) (vb : varBallot)
    (h : mapGet m v = some vb) :
    ∃ l1 l2, m = l1 ++ vb :: l2 ∧ (∀ x ∈ l1, x.vUUId ≠ v) ∧ vb.vUUId = v := by
  unfold mapGet at h
  induction m with
  | nil => simp at h
  | cons x rest ih =>
    by_cases hx : x.vUUId = v
    · simp only [List.find?_cons, hx, beq_self_eq_true, Option.some.injEq] at h
      subst h
      exact ⟨[], rest, rfl, by simp, hx⟩
    · have hne : (x.vUUId == v) = false := by simp [hx]
      simp only [List.find?_cons, hne] at h
      obtain ⟨l1, l2, h1, h2, h3⟩ := ih h
      refine ⟨x :: l1, l2, by rw [h1]; rfl, ?_, h3⟩
      intro y hy
      rcases List.mem_cons.mp hy with hy | hy
      · subst hy; exact hx
      · exact h2 y hy

theorem mapSet_split (l1 l2 : List varBallot) (vb w : varBallot)
    (h1 : ∀ x ∈ l1, x.vUUId ≠ w.vUUId) (h2 : vb.vUUId = w.vUUId) :
    mapSet (l1 ++ vb :: l2) w = l1 ++ w :: l2 := by
  induction l1 with
  | nil => simp [mapSet, h2]
  | cons x rest ih =>
    have hx : x.vUUId ≠ w.vUUId := h1 x (List.mem_cons_self _ _)
    have ih1 := ih (fun y hy => h1 y (List.mem_cons_of_mem _ hy))
    show mapSet (x :: (rest ++ vb :: l2)) w = x :: (rest ++ w :: l2)
    rw [mapSet, if_neg hx, ih1]

theorem mapGet_split_eq (l1 l2 : List varBallot) (vb : varBallot) (v : Nat)
    (h1 : ∀ x ∈ l1, x.vUUId ≠ vb.vUUId) :
    mapGet (l1 ++ vb :: l2) v
      = if vb.vUUId = v then some vb
        else match mapGet l1 v with
             | some x => some x
             | none => mapGet l2 v := by
  unfold mapGet
  induction l1 with
  | nil =>
    by_cases h : vb.vUUId = v
    · simp [List.find?_cons, h]
    · have hne : (vb.vUUId == v) = false := by simp [h]
      simp [List.find?_cons, hne, h]
  | cons x rest ih =>
    have hx : x.vUUId ≠ vb.vUUId := h1 x (List.mem_cons_self _ _)
    have ih1 := ih (fun y hy => h1 y (List.mem_cons_of_mem _ hy))
    by_cases h : x.vUUId = v
    · have h3 : ¬ vb.vUUId = v := fun h4 => hx (h.trans h4.symm)
      simp [List.find?_cons, h, h3]
    · have hne : (x.vUUId == v) = false := by simp [h]
      simp only [List.cons_append, List.find?_cons, hne]
      exact ih1

/-- The body of BallotReceived before determineOutcome, for a variable of the
map: the varBallot under the key is replaced by the one that received the
ballot, incompleteVars is decremented when the variable completes, and the
accumulator is dirty once the list has reached `voters`. -/
theorem recordBallot_ok (ba : BallotAccumulator) (rm : Nat) (inst : Instance) (v : Nat)
    (vb : varBallot) (h : mapGet ba.vUUIdToBallots v = some vb) :
    ba.recordBallot rm inst v = .ok
      { ba with
        vUUIdToBallots := mapSet ba.vUUIdToBallots (vb.received rm inst),
        incompleteVars := if vb.completes rm = true then ba.incompleteVars - 1
                          else ba.incompleteVars,
        dirty := ba.dirty || decide (vb.voters ≤ (vb.received rm inst).rmToBallot.length) } := by
  unfold BallotAccumulator.recordBallot
  rw [h]
  dsimp only
  cases ho : rmBallots.overwrite rm inst.accepted vb.rmToBallot with
  | some l =>
    have hmem : rm ∈ rmIds vb.rmToBallot := by
      by_contra hc
      rw [(overwrite_none _ _ _).mpr hc] at ho
      cases ho
    have hcomp : vb.completes rm = false := by
      unfold varBallot.completes
      simp [hmem]
    have hlist : vb.receivedList rm inst = l := by
      unfold varBallot.receivedList
      rw [ho]
    dsimp only
    unfold BallotAccumulator.markDirty varBallot.received
    rw [hlist, hcomp]
    dsimp only
    by_cases hlen : l.length ≥ vb.voters
    · rw [if_pos hlen, if_pos hlen]
      have : decide (vb.voters ≤ l.length) = true := by simpa using hlen
      simp [this]
    · rw [if_neg hlen, if_neg hlen]
      have : decide (vb.voters ≤ l.length) = false := by simpa using hlen
      simp [this]
  | none =>
    have hmem : rm ∉ rmIds vb.rmToBallot := (overwrite_none _ _ _).mp ho
    have hlist : vb.receivedList rm inst
        = (if (vb.rmToBallot ++ [newRmBallot rm inst]).length ≥ vb.voters
           then rmBallots.Sort (vb.rmToBallot ++ [newRmBallot rm inst])
           else vb.rmToBallot ++ [newRmBallot rm inst]) := by
      unfold varBallot.receivedList
      rw [ho]
    have hcomp : vb.completes rm
        = decide ((vb.rmToBallot ++ [newRmBallot rm inst]).length = vb.voters) := by
      unfold varBallot.completes
      simp [hmem]
    dsimp only
    unfold BallotAccumulator.markDirty varBallot.received
    rw [hlist, hcomp]
    generalize (if (vb.rmToBallot ++ [newRmBallot rm inst]).length ≥ vb.voters
           then rmBallots.Sort (vb.rmToBallot ++ [newRmBallot rm inst])
           else vb.rmToBallot ++ [newRmBallot rm inst]) = L
    dsimp only
    by_cases hlen : L.length ≥ vb.voters
    · rw [if_pos hlen, if_pos hlen]
      have : decide (vb.voters ≤ L.length) = true := by simpa using hlen
      simp [this]
    · rw [if_neg hlen, if_neg hlen]
      have : decide (vb.voters ≤ L.length) = false := by simpa using hlen
      simp [this]

/-- BallotReceived for a VarUUId the map has no varBallot for dereferences nil. -/
theorem recordBallot_none (ba : BallotAccumulator) (rm : Nat) (inst : Instance) (v : Nat)
    (h : mapGet ba.vUUIdToBallots v = none) :
    ba.recordBallot rm inst v = .error Failure.nilDereference := by
  unfold BallotAccumulator.recordBallot
  rw [h]

theorem countIncomplete_split (l1 l2 : List varBallot) (x : varBallot) :
    countIncomplete (l1 ++ x :: l2)
      = countIncomplete l1 + (if x.complete then 0 else 1) + countIncomplete l2 := by
  unfold countIncomplete
  rw [List.filter_append, List.length_append, List.filter_cons]
  by_cases h : x.complete
  · simp [h]
  · simp [h]; omega

theorem complete_of_countIncomplete (m : List varBallot) (h : countIncomplete m = 0)
    (vb : varBallot) (hvb : vb ∈ m) : vb.complete := by
  unfold countIncomplete at h
  have h1 := List.length_eq_zero.mp h
  by_contra hc
  have : vb ∈ m.filter (fun vb => !decide vb.complete) := by
    rw [List.mem_filter]
    exact ⟨hvb, by simp [hc]⟩
  rw [h1] at this
  cases this

theorem countIncomplete_zero_iff (m : List varBallot) :
    countIncomplete m = 0 ↔ ∀ vb ∈ m, vb.complete := by
  constructor
  · exact complete_of_countIncomplete m
  · intro h
    unfold countIncomplete
    rw [List.length_eq_zero, List.filter_eq_nil_iff]
    intro vb hvb
    simp [h vb hvb]

theorem mapKeys_split (l1 l2 : List varBallot) (x y : varBallot) (h : x.vUUId = y.vUUId) :
    mapKeys (l1 ++ y :: l2) = mapKeys (l1 ++ x :: l2) := by
  unfold mapKeys
  simp [h]

theorem fillResult_complete (vb : varBallot) : vb.fillResult.complete ↔ vb.complete := Iff.rfl

theorem countIncomplete_fillResult (m : List varBallot) :
    countIncomplete (m.map varBallot.fillResult) = countIncomplete m := by
  unfold countIncomplete
  induction m with
  | nil => rfl
  | cons x rest ih =>
    simp only [List.map_cons, List.filter_cons]
    have : decide x.fillResult.complete = decide x.complete := rfl
    rw [this]
    cases decide x.complete <;> simp [ih]

theorem fillResult_WF (vb : varBallot) (hwf : vb.WF) (hlen : vb.voters ≤ vb.rmToBallot.length) :
    vb.fillResult.WF := by
  obtain ⟨h1, h2, h3⟩ := hwf
  refine ⟨h1, h2, ?_⟩
  intro r hr
  refine ⟨hlen, ?_⟩
  have hr1 : r = vb.theResult := by
    unfold varBallot.fillResult at hr
    injection hr with hr
    exact hr.symm
  have hred : vb.fillResult.reduced = vb.reduced := rfl
  rw [hred, hr1]
  unfold varBallot.theResult
  cases hres : vb.result with
  | none => rfl
  | some r1 => exact (h3 r1 hres).2

/-- The body of BallotReceived before determineOutcome keeps the invariant. -/
theorem recordBallot_Inv (ba ba1 : BallotAccumulator) (keys : List Nat) (d : Nat)
    (rm : Nat) (inst : Instance) (v : Nat) (hinv : ba.Inv keys d)
    (h : ba.recordBallot rm inst v = .ok ba1) : ba1.Inv keys d := by
  cases hg : mapGet ba.vUUIdToBallots v with
  | none => rw [recordBallot_none ba rm inst v hg] at h; cases h
  | some vb =>
    rw [recordBallot_ok ba rm inst v vb hg] at h
    injection h with h
    subst h
    obtain ⟨l1, l2, hm, hl1, hv⟩ := mapGet_split _ _ _ hg
    obtain ⟨hk, hnd, hwf, hcount⟩ := hinv
    obtain ⟨rv, _, _⟩ := received_fields vb rm inst
    have hset : mapSet ba.vUUIdToBallots (vb.received rm inst)
        = l1 ++ vb.received rm inst :: l2 := by
      rw [hm]
      apply mapSet_split
      · intro x hx; rw [rv, hv]; exact hl1 x hx
      · exact rv.symm
    refine ⟨?_, hnd, ?_, ?_⟩
    · show mapKeys (mapSet ba.vUUIdToBallots (vb.received rm inst)) = keys
      rw [hset, mapKeys_split l1 l2 vb _ rv.symm, ← hm]
      exact hk
    · show ∀ x ∈ mapSet ba.vUUIdToBallots (vb.received rm inst), x.WF
      rw [hset]
      intro x hx
      rcases List.mem_append.mp hx with hx | hx
      · exact hwf x (by rw [hm]; exact List.mem_append_left _ hx)
      · rcases List.mem_cons.mp hx with hx | hx
        · subst hx
          exact received_WF vb rm inst (hwf vb (by rw [hm]; simp))
        · exact hwf x (by rw [hm]; simp [hx])
    · show (if vb.completes rm = true then ba.incompleteVars - 1 else ba.incompleteVars)
        = (countIncomplete (mapSet ba.vUUIdToBallots (vb.received rm inst)) : Int) + (d : Int)
      rw [hset, countIncomplete_split, hcount, hm, countIncomplete_split]
      obtain ⟨c1, c2⟩ := received_complete vb rm inst
      by_cases hc : vb.completes rm = true
      · have hn : ¬ vb.complete := c2 hc
        have hy : (vb.received rm inst).complete := c1.mpr (Or.inr hc)
        rw [if_pos hc, if_neg hn, if_pos hy]
        push_cast
        ring
      · rw [if_neg hc]
        by_cases hcomp : vb.complete
        · have hy : (vb.received rm inst).complete := c1.mpr (Or.inl hcomp)
          rw [if_pos hcomp, if_pos hy]
        · have hy : ¬ (vb.received rm inst).complete := by
            intro h1
            rcases c1.mp h1 with h2 | h2
            · exact hcomp h2
            · exact hc h2
          rw [if_neg hcomp, if_neg hy]

/-- The method determineOutcome keeps the invariant. -/
theorem determineOutcome_Inv (ba ba1 : BallotAccumulator) (keys : List Nat) (d : Nat)
    (out : Option Outcome) (subs : List Nat) (hinv : ba.Inv keys d)
    (h : ba.determineOutcome = .ok (ba1, out, subs)) : ba1.Inv keys d := by
  by_cases hact : ba.dirty = true ∧ ba.incompleteVars = 0
  · obtain ⟨o, g, _, _, hba1, _⟩ := determineOutcome_ok ba ba1 out subs hact.1 hact.2 h
    obtain ⟨hk, hnd, hwf, hcount⟩ := hinv
    have hzero : countIncomplete ba.vUUIdToBallots = 0 := by
      have := hact.2
      rw [hcount] at this
      omega
    subst hba1
    refine ⟨?_, hnd, ?_, ?_⟩
    · show mapKeys (ba.vUUIdToBallots.map varBallot.fillResult) = keys
      rw [mapKeys_fillResult]; exact hk
    · show ∀ x ∈ ba.vUUIdToBallots.map varBallot.fillResult, x.WF
      intro x hx
      obtain ⟨y, hy, hxy⟩ := List.mem_map.mp hx
      subst hxy
      exact fillResult_WF y (hwf y hy) (complete_of_countIncomplete _ hzero y hy).2
    · show ba.incompleteVars
        = (countIncomplete (ba.vUUIdToBallots.map varBallot.fillResult) : Int) + (d : Int)
      rw [countIncomplete_fillResult]; exact hcount
  · rw [determineOutcome_idle ba hact] at h
    injection h with h
    simp only [Prod.mk.injEq] at h
    rw [← h.1]
    exact hinv

/-- The method BallotReceived keeps the invariant. -/
theorem BallotReceived_Inv (ba ba1 : BallotAccumulator) (keys : List Nat) (d : Nat)
    (rm : Nat) (inst : Instance) (v : Nat) (out : Option Outcome) (subs : List Nat)
    (hinv : ba.Inv keys d) (h : ba.BallotReceived rm inst v = .ok (ba1, out, subs)) :
    ba1.Inv keys d := by
  unfold BallotAccumulator.BallotReceived at h
  cases hr : ba.recordBallot rm inst v with
  | error e => rw [hr] at h; cases h
  | ok ba2 =>
    rw [hr] at h
    exact determineOutcome_Inv ba2 ba1 keys d out subs
      (recordBallot_Inv ba ba2 keys d rm inst v hinv hr) h

/-- Every sequence of BallotReceived calls keeps the invariant. -/
theorem runCalls_Inv (calls : List Call) (ba ba1 : BallotAccumulator) (keys : List Nat)
    (d : Nat) (hinv : ba.Inv keys d) (h : ba.runCalls calls = .ok ba1) : ba1.Inv keys d := by
  induction calls generalizing ba with
  | nil =>
    simp only [BallotAccumulator.runCalls] at h
    injection h with h
    rw [← h]; exact hinv
  | cons c rest ih =>
    simp only [BallotAccumulator.runCalls] at h
    cases hb : ba.BallotReceived c.instanceRMId c.inst c.vUUId with
    | error e => rw [hb] at h; cases h
    | ok res =>
      obtain ⟨ba2, out, subs⟩ := res
      rw [hb] at h
      exact ih ba2 (BallotReceived_Inv ba ba2 keys d _ _ _ out subs hinv hb) h

theorem incVoters_ok (l l1 : List varBallot) (i : Nat) (h : incVoters l i = .ok l1) :
    mapKeys l1 = mapKeys l ∧ ((∀ vb ∈ l, vb.fresh) → ∀ vb ∈ l1, vb.fresh) := by
  induction l generalizing l1 i with
  | nil => simp [incVoters] at h
  | cons x rest ih =>
    cases i with
    | zero =>
      simp only [incVoters] at h
      injection h with h
      subst h
      refine ⟨rfl, ?_⟩
      intro hf vb hvb
      rcases List.mem_cons.mp hvb with hvb | hvb
      · subst hvb
        exact hf x (List.mem_cons_self _ _)
      · exact hf vb (List.mem_cons_of_mem _ hvb)
    | succ j =>
      simp only [incVoters] at h
      cases hr : incVoters rest j with
      | error e => rw [hr] at h; cases h
      | ok rest1 =>
        rw [hr] at h
        injection h with h
        subst h
        obtain ⟨h1, h2⟩ := ih rest1 j hr
        refine ⟨?_, ?_⟩
        · unfold mapKeys at h1 ⊢
          simp [h1]
        · intro hf vb hvb
          rcases List.mem_cons.mp hvb with hvb | hvb
          · subst hvb
            exact hf vb (List.mem_cons_self _ _)
          · exact h2 (fun y hy => hf y (List.mem_cons_of_mem _ hy)) vb hvb

theorem countIndices_ok (is : List Nat) (l l1 : List varBallot)
    (h : countIndices l is = .ok l1) :
    mapKeys l1 = mapKeys l ∧ ((∀ vb ∈ l, vb.fresh) → ∀ vb ∈ l1, vb.fresh) := by
  induction is generalizing l with
  | nil =>
    simp only [countIndices] at h
    injection h with h
    subst h
    exact ⟨rfl, fun hf => hf⟩
  | cons i rest ih =>
    simp only [countIndices] at h
    cases hr : incVoters l i with
    | error e => rw [hr] at h; cases h
    | ok l2 =>
      rw [hr] at h
      obtain ⟨h1, h2⟩ := incVoters_ok l l2 i hr
      obtain ⟨h3, h4⟩ := ih l2 h
      exact ⟨h3.trans h1, fun hf => h4 (h2 hf)⟩

theorem countAllocations_ok (allocs : List Allocation) (l l1 : List varBallot)
    (h : countAllocations l allocs = .ok l1) :
    mapKeys l1 = mapKeys l ∧ ((∀ vb ∈ l, vb.fresh) → ∀ vb ∈ l1, vb.fresh) := by
  induction allocs generalizing l with
  | nil =>
    simp only [countAllocations] at h
    injection h with h
    subst h
    exact ⟨rfl, fun hf => hf⟩
  | cons a rest ih =>
    simp only [countAllocations] at h
    split_ifs at h with ha
    · injection h with h
      subst h
      exact ⟨rfl, fun hf => hf⟩
    · cases hr : countIndices l a.actionIndices with
      | error e => rw [hr] at h; cases h
      | ok l2 =>
        rw [hr] at h
        obtain ⟨h1, h2⟩ := countIndices_ok _ l l2 hr
        obtain ⟨h3, h4⟩ := ih l2 h
        exact ⟨h3.trans h1, fun hf => h4 (h2 hf)⟩

theorem mapSet_keys (m : List varBallot) (w : varBallot) :
    mapKeys (mapSet m w) = if w.vUUId ∈ mapKeys m then mapKeys m else mapKeys m ++ [w.vUUId] := by
  unfold mapKeys
  induction m with
  | nil => simp [mapSet]
  | cons x rest ih =>
    by_cases hx : x.vUUId = w.vUUId
    · simp [mapSet, hx]
    · have hx2 : ¬ w.vUUId = x.vUUId := fun h => hx h.symm
      simp only [mapSet, hx, if_false, List.map_cons, ih, List.mem_cons, hx2, false_or]
      split_ifs <;> simp

theorem mapSet_mem (m : List varBallot) (w x : varBallot) (h : x ∈ mapSet m w) :
    x ∈ m ∨ x = w := by
  induction m with
  | nil =>
    simp only [mapSet, List.mem_singleton] at h
    exact Or.inr h
  | cons y rest ih =>
    simp only [mapSet] at h
    split_ifs at h with hy
    · rcases List.mem_cons.mp h with h | h
      · exact Or.inr h
      · exact Or.inl (List.mem_cons_of_mem _ h)
    · rcases List.mem_cons.mp h with h | h
      · subst h; exact Or.inl (List.mem_cons_self _ _)
      · rcases ih h with h1 | h1
        · exact Or.inl (List.mem_cons_of_mem _ h1)
        · exact Or.inr h1

theorem mapSet_new (m : List varBallot) (w : varBallot) (h : w.vUUId ∉ mapKeys m) :
    mapSet m w = m ++ [w] := by
  unfold mapKeys at h
  induction m with
  | nil => rfl
  | cons x rest ih =>
    simp only [List.map_cons, List.mem_cons, not_or] at h
    have hx : ¬ x.vUUId = w.vUUId := fun h1 => h.1 h1.symm
    rw [mapSet, if_neg hx, ih h.2]
    rfl

theorem foldl_mapSet (l acc : List varBallot) (hacc : (mapKeys acc).Nodup) :
    (mapKeys (l.foldl mapSet acc)).Nodup ∧
    (∀ x ∈ l.foldl mapSet acc, x ∈ acc ∨ x ∈ l) ∧
    (∀ v, v ∈ mapKeys (l.foldl mapSet acc) ↔ v ∈ mapKeys acc ∨ v ∈ mapKeys l) ∧
    (l.foldl mapSet acc).length ≤ acc.length + l.length ∧
    ((mapKeys (acc ++ l)).Nodup → l.foldl mapSet acc = acc ++ l) := by
  induction l generalizing acc with
  | nil =>
    refine ⟨hacc, fun x hx => Or.inl hx, ?_, by simp, fun _ => by simp⟩
    intro v
    simp [mapKeys]
  | cons w rest ih =>
    have hk := mapSet_keys acc w
    have hnd : (mapKeys (mapSet acc w)).Nodup := by
      rw [hk]
      split_ifs with hw
      · exact hacc
      · rw [List.nodup_append]
        refine ⟨hacc, List.nodup_singleton _, ?_⟩
        intro a ha hb
        rw [List.mem_singleton] at hb
        subst hb
        exact hw ha
    obtain ⟨i1, i2, i3, i4, i5⟩ := ih (mapSet acc w) hnd
    rw [List.foldl_cons]
    refine ⟨i1, ?_, ?_, ?_, ?_⟩
    · intro x hx
      rcases i2 x hx with h | h
      · rcases mapSet_mem acc w x h with h1 | h1
        · exact Or.inl h1
        · subst h1; exact Or.inr (List.mem_cons_self _ _)
      · exact Or.inr (List.mem_cons_of_mem _ h)
    · intro v
      rw [i3 v, hk]
      have hcons : v ∈ mapKeys (w :: rest) ↔ v = w.vUUId ∨ v ∈ mapKeys rest := by
        unfold mapKeys; simp
      rw [hcons]
      split_ifs with hw
      · constructor
        · rintro (h | h)
          · exact Or.inl h
          · exact Or.inr (Or.inr h)
        · rintro (h | h | h)
          · exact Or.inl h
          · subst h; exact Or.inl hw
          · exact Or.inr h
      · simp only [List.mem_append, List.mem_singleton]
        tauto
    · have hlen : (mapSet acc w).length ≤ acc.length + 1 := by
        have h1 : (mapKeys (mapSet acc w)).length ≤ acc.length + 1 := by
          rw [hk]
          split_ifs
          · simp [mapKeys]
          · simp [mapKeys]
        simpa [mapKeys] using h1
      simp only [List.length_cons]
      omega
    · intro hn
      have hw : w.vUUId ∉ mapKeys acc := by
        unfold mapKeys at hn ⊢
        rw [List.map_append, List.nodup_append] at hn
        intro hc
        exact hn.2.2 hc (by simp)
      rw [mapSet_new acc w hw] at i5 ⊢
      rw [i5 (by simpa using hn)]
      simp

theorem countIncomplete_fresh (m : List varBallot) (h : ∀ vb ∈ m, vb.fresh) :
    countIncomplete m = m.length := by
  unfold countIncomplete
  rw [List.filter_eq_self.mpr]
  intro vb hvb
  have h1 := (h vb hvb).1
  have : ¬ vb.complete := by
    unfold varBallot.complete
    rw [h1]
    simp only [List.length_nil]
    omega
  simp [this]

theorem fresh_WF (vb : varBallot) (h : vb.fresh) : vb.WF := by
  obtain ⟨h1, h2⟩ := h
  refine ⟨?_, ?_, ?_⟩
  · rw [h1]; exact List.nodup_nil
  · intro _; rw [h1]; exact List.sorted_nil
  · intro r hr; rw [h2] at hr; cases hr

/-- The accumulator NewBallotAccumulator returns: its varBallots are fresh,
its keys are the variables of the transaction without repetition, it is not
dirty, and the invariant holds with `d` the number of repeated variables. -/
theorem NewBallotAccumulator_Inv (txn : TxnReader) (ba : BallotAccumulator)
    (h : NewBallotAccumulator txn = .ok ba) :
    ∃ d, ba.Inv (mapKeys ba.vUUIdToBallots) d ∧
      (∀ vb ∈ ba.vUUIdToBallots, vb.fresh) ∧
      (∀ v, v ∈ mapKeys ba.vUUIdToBallots ↔ v ∈ txn.vars) ∧
      ba.dirty = false ∧ ba.outcome = none ∧ ba.txn = txn ∧
      (txn.vars.Nodup → d = 0 ∧ mapKeys ba.vUUIdToBallots = txn.vars) := by
  unfold NewBallotAccumulator at h
  dsimp only at h
  cases hc : countAllocations (txn.actions.map (fun action =>
      ({ vUUId := action.varId, result := none, rmToBallot := [], voters := 0 } : varBallot)))
      txn.allocations with
  | error e => rw [hc] at h; cases h
  | ok l =>
    rw [hc] at h
    injection h with h
    subst h
    obtain ⟨hk, hf⟩ := countAllocations_ok _ _ _ hc
    have hkeys : mapKeys l = txn.vars := by
      rw [hk]
      unfold mapKeys TxnReader.vars
      rw [List.map_map]
      rfl
    have hlen : l.length = txn.actions.length := by
      have := congrArg List.length hkeys
      simpa [mapKeys, TxnReader.vars] using this
    have hfresh : ∀ vb ∈ l, vb.fresh := by
      apply hf
      intro vb hvb
      obtain ⟨a, _, ha⟩ := List.mem_map.mp hvb
      subst ha
      exact ⟨rfl, rfl⟩
    obtain ⟨f1, f2, f3, f4, f5⟩ := foldl_mapSet l [] List.nodup_nil
    have hfresh2 : ∀ vb ∈ l.foldl mapSet [], vb.fresh := by
      intro vb hvb
      rcases f2 vb hvb with h1 | h1
      · cases h1
      · exact hfresh vb h1
    refine ⟨txn.actions.length - (l.foldl mapSet []).length, ⟨rfl, f1, ?_, ?_⟩, hfresh2, ?_,
      rfl, rfl, rfl, ?_⟩
    · intro vb hvb
      exact fresh_WF vb (hfresh2 vb hvb)
    · show (txn.actions.length : Int) = _
      rw [countIncomplete_fresh _ hfresh2]
      simp only [List.length_nil, Nat.zero_add] at f4
      omega
    · intro v
      show v ∈ mapKeys (l.foldl mapSet []) ↔ _
      rw [f3 v, hkeys]
      simp [mapKeys]
    · intro hn
      have h1 : l.foldl mapSet [] = l := by
        have := f5 (by simpa [hkeys] using hn)
        simpa using this
      show _ - (l.foldl mapSet []).length = 0 ∧ mapKeys (l.foldl mapSet []) = _
      rw [h1]
      exact ⟨by omega, hkeys⟩

theorem reduced_vote (vb : varBallot) :
    (vb.reduced.vote = Vote.Commit ↔ ∀ rmBal ∈ vb.rmToBallot, rmBal.ballot.vote = Vote.Commit) ∧
    (vb.reduced.vote ≠ Vote.Commit → vb.reduced.subscribers = []) := by
  have h := foldl_combineSwitch_vote vb.rmToBallot (newReducer vb.vUUId [])
    (fun hc => absurd rfl hc)
  obtain ⟨h1, h2⟩ := h
  refine ⟨?_, h2⟩
  unfold varBallot.reduced varBallotReducer.ToBallot
  dsimp only
  rw [h1]
  simp [newReducer]

theorem reduced_commit (vb : varBallot)
    (h : ∀ rmBal ∈ vb.rmToBallot, rmBal.ballot.vote = Vote.Commit) :
    (∀ v, VectorClock.At vb.reduced.clock v = maxClockAt vb.ballots v) ∧
    (∀ s, s ∈ vb.reduced.subscribers ↔ ∃ b ∈ vb.ballots, s ∈ b.subscribers) := by
  obtain ⟨_, h2, h3⟩ := foldl_combineSwitch_commit vb.rmToBallot (newReducer vb.vUUId []) rfl h
  constructor
  · intro v
    have := h2 v
    unfold varBallot.reduced varBallotReducer.ToBallot varBallot.ballots
    dsimp only
    rw [this]
    simp [newReducer, NewVectorClock, VectorClock.At_nil]
  · intro s
    have := h3 s
    unfold varBallot.reduced varBallotReducer.ToBallot varBallot.ballots
    dsimp only
    rw [this]
    simp [newReducer]

theorem reduced_synthetic (vb : varBallot)
    (h : ∃ rmBal ∈ vb.rmToBallot, rmBal.ballot.synthetic) :
    vb.reduced.vote = Vote.AbortDeadlock ∧ vb.reduced.clock = [] ∧
      vb.reduced.subscribers = [] :=
  foldl_combineSwitch_synthetic vb.rmToBallot (newReducer vb.vUUId [])
    (fun hc => absurd rfl hc) (Or.inr h)

/-- C5: the reduced vote CalculateResult computes is Commit if and only if
every ballot of the list votes Commit; combining a Commit ballot into an
aborted reducer leaves the reducer as it is, the vote of an aborted reducer
never returns to Commit, and an aborted result has no subscribers. -/
theorem calculateResult_commit_iff (vb : varBallot) (br : badReads) (clock : VectorClock)
    (subs : List Nat) :
    ((∃ vb1 br1 clock1 subs1 r, vb.CalculateResult br clock subs = .ok (vb1, br1, clock1, subs1) ∧
        vb1.result = some r ∧ r.vote = Vote.Commit)
      ↔ ∀ rmBal ∈ vb.rmToBallot, rmBal.ballot.vote = Vote.Commit) ∧
    (∀ vb1 br1 clock1 subs1 r, vb.CalculateResult br clock subs = .ok (vb1, br1, clock1, subs1) →
        vb1.result = some r → r.Aborted = true → r.subscribers = []) ∧
    (∀ cur rmBal, cur.Vote ≠ Vote.Commit → rmBal.ballot.vote = Vote.Commit →
        varBallotReducer.combineVote cur rmBal = .ok cur) ∧
    (∀ cur rmBal cur1, cur.Vote ≠ Vote.Commit →
        varBallotReducer.combineVote cur rmBal = .ok cur1 → cur1.Vote ≠ Vote.Commit) := by
  refine ⟨?_, ?_, ?_, ?_⟩
  · constructor
    · rintro ⟨vb1, br1, clock1, subs1, r, hc, hr, hv⟩
      obtain ⟨h1, _, _⟩ := CalculateResult_ok _ _ _ _ _ _ _ _ hc
      subst h1
      injection hr with hr
      subst hr
      exact (reduced_vote vb).1.mp hv
    · intro hall
      obtain ⟨br1, clock1, subs1, hc⟩ :=
        CalculateResult_returns vb br clock subs (noZeroClockRead_of_commit _ hall)
      exact ⟨_, br1, clock1, subs1, vb.reduced, hc, rfl, (reduced_vote vb).1.mpr hall⟩
  · intro vb1 br1 clock1 subs1 r hc hr hab
    obtain ⟨h1, _, _⟩ := CalculateResult_ok _ _ _ _ _ _ _ _ hc
    subst h1
    injection hr with hr
    subst hr
    apply (reduced_vote vb).2
    intro hv
    unfold Ballot.Aborted at hab
    rw [hv] at hab
    simp at hab
  · intro cur rmBal hcur hnew
    unfold varBallotReducer.combineVote
    have hne : ¬ rmBal.ballot.vote = Vote.AbortBadRead := by rw [hnew]; decide
    rw [if_neg hne, combineSwitch_ignore_commit cur rmBal hcur hnew]
  · intro cur rmBal cur1 hcur hc
    have h1 := combineVote_ok cur cur1 rmBal hc
    rw [h1]
    exact (combineSwitch_aborted cur rmBal hcur).1

/-- C4, as amended: for a list holding a synthetic abort (AbortDeadlock, empty
clock) anywhere, CalculateResult returns whenever no read-only bad read of the
list has clock element 0, every result it returns has vote AbortDeadlock, an
empty clock and no subscribers, and its only hard failure is that of the zero
clock element. -/
theorem calculateResult_synthetic (vb : varBallot) (br : badReads) (clock : VectorClock)
    (subs : List Nat) (hsyn : ∃ rmBal ∈ vb.rmToBallot, rmBal.ballot.synthetic) :
    (noZeroClockRead vb.rmToBallot →
      ∃ vb1 br1 clock1 subs1 r, vb.CalculateResult br clock subs = .ok (vb1, br1, clock1, subs1) ∧
        vb1.result = some r ∧ r.vote = Vote.AbortDeadlock ∧ VectorClock.Len r.clock = 0 ∧
        r.subscribers = []) ∧
    (∀ vb1 br1 clock1 subs1, vb.CalculateResult br clock subs = .ok (vb1, br1, clock1, subs1) →
      ∃ r, vb1.result = some r ∧ r.vote = Vote.AbortDeadlock ∧ VectorClock.Len r.clock = 0 ∧
        r.subscribers = []) ∧
    (∀ e, vb.CalculateResult br clock subs = .error e → e = Failure.zeroClockElem) := by
  obtain ⟨s1, s2, s3⟩ := reduced_synthetic vb hsyn
  have hlen : VectorClock.Len vb.reduced.clock = 0 := (VectorClock.Len_eq_zero _).mpr s2
  refine ⟨?_, ?_, ?_⟩
  · intro hno
    obtain ⟨br1, clock1, subs1, hc⟩ := CalculateResult_returns vb br clock subs hno
    exact ⟨_, br1, clock1, subs1, vb.reduced, hc, rfl, s1, hlen, s3⟩
  · intro vb1 br1 clock1 subs1 hc
    obtain ⟨h1, _, _⟩ := CalculateResult_ok _ _ _ _ _ _ _ _ hc
    subst h1
    exact ⟨vb.reduced, rfl, s1, hlen, s3⟩
  · intro e he
    exact (CalculateResult_error vb br clock subs e he).1

theorem determineOutcome_active (ba ba1 : BallotAccumulator) (o : Outcome) (subs : List Nat)
    (h : ba.determineOutcome = .ok (ba1, some o, subs)) :
    ba.dirty = true ∧ ba.incompleteVars = 0 := by
  by_contra hc
  rw [determineOutcome_idle ba hc] at h
  injection h with h
  simp only [Prod.mk.injEq] at h
  cases h.2.1

theorem mem_fillResult (m : List varBallot) (vb : varBallot)
    (h : vb ∈ m.map varBallot.fillResult) :
    ∃ x ∈ m, vb = x.fillResult ∧ vb.result = some x.theResult := by
  obtain ⟨x, hx, hxy⟩ := List.mem_map.mp h
  exact ⟨x, hx, hxy.symm, by rw [← hxy]; rfl⟩

/-- What determineOutcome gathered when it returns an outcome: every variable
has a result, the flags `aborted` and `deadlock` say whether some result is
aborted and whether some result votes AbortDeadlock, and they decide the kind
of the outcome. -/
theorem determineOutcome_flags (ba ba1 : BallotAccumulator) (o : Outcome) (subs : List Nat)
    (h : ba.determineOutcome = .ok (ba1, some o, subs)) :
    ∃ g : Gathered,
      ba1.vUUIdToBallots = ba.vUUIdToBallots.map varBallot.fillResult ∧
      (∀ vb ∈ ba1.vUUIdToBallots, ∃ r, vb.result = some r) ∧
      (g.aborted = true
        ↔ ∃ vb ∈ ba1.vUUIdToBallots, ∃ r, vb.result = some r ∧ r.Aborted = true) ∧
      (g.deadlock = true
        ↔ ∃ vb ∈ ba1.vUUIdToBallots, ∃ r, vb.result = some r ∧ r.vote = Vote.AbortDeadlock) ∧
      (g.aborted = true → o.kind = (if g.deadlock then OutcomeKind.abortResubmit
                  else OutcomeKind.abortRerun (badReads.AddToSeg g.br))) ∧
      (g.aborted = false → o.kind = OutcomeKind.commit g.combinedClock) := by
  obtain ⟨hd, hi⟩ := determineOutcome_active ba ba1 o subs h
  obtain ⟨o1, g, ho, hg, hba1, _, hab, hcm⟩ := determineOutcome_ok ba ba1 _ subs hd hi h
  injection ho with ho
  subst ho
  obtain ⟨_, ga, gd, _⟩ := gatherLoop_ok _ _ _ _ hg
  have hmap : ba1.vUUIdToBallots = ba.vUUIdToBallots.map varBallot.fillResult := by
    rw [hba1]
  simp only [Gathered.init, Bool.false_or] at ga gd
  refine ⟨g, hmap, ?_, ?_, ?_, fun hga => (hab hga).2.2, fun hga => (hcm hga).2.2.1⟩
  · intro vb hvb
    rw [hmap] at hvb
    obtain ⟨x, _, _, hres⟩ := mem_fillResult _ _ hvb
    exact ⟨_, hres⟩
  · rw [ga, List.any_eq_true, hmap]
    constructor
    · rintro ⟨r, hr, hra⟩
      obtain ⟨x, hx, hxr⟩ := List.mem_map.mp hr
      exact ⟨x.fillResult, List.mem_map_of_mem _ hx, r, by rw [← hxr]; rfl, hra⟩
    · rintro ⟨vb, hvb, r, hr, hra⟩
      obtain ⟨x, hx, _, hres⟩ := mem_fillResult _ _ hvb
      rw [hres] at hr
      injection hr with hr
      exact ⟨r, by rw [← hr]; exact List.mem_map_of_mem _ hx, hra⟩
  · rw [gd, List.any_eq_true, hmap]
    constructor
    · rintro ⟨r, hr, hra⟩
      obtain ⟨x, hx, hxr⟩ := List.mem_map.mp hr
      exact ⟨x.fillResult, List.mem_map_of_mem _ hx, r, by rw [← hxr]; rfl, by simpa using hra⟩
    · rintro ⟨vb, hvb, r, hr, hra⟩
      obtain ⟨x, hx, _, hres⟩ := mem_fillResult _ _ hvb
      rw [hres] at hr
      injection hr with hr
      exact ⟨r, by rw [← hr]; exact List.mem_map_of_mem _ hx, by simpa using hra⟩

/-- C2: whenever determineOutcome produces an outcome, every variable has a
reduced ballot (its cached result, or the one just computed), and the outcome
is Commit iff every reduced vote is Commit, Abort with Resubmit iff some
reduced vote is AbortDeadlock, and Abort with Rerun iff some reduced ballot is
aborted and none has vote AbortDeadlock. -/
theorem determineOutcome_kind (ba ba1 : BallotAccumulator) (o : Outcome) (subs : List Nat)
    (h : ba.determineOutcome = .ok (ba1, some o, subs)) :
    ba1.vUUIdToBallots = ba.vUUIdToBallots.map varBallot.fillResult ∧
    (∀ vb ∈ ba1.vUUIdToBallots, ∃ r, vb.result = some r) ∧
    ((∃ clock, o.kind = OutcomeKind.commit clock)
      ↔ ∀ vb ∈ ba1.vUUIdToBallots, ∀ r, vb.result = some r → r.vote = Vote.Commit) ∧
    (o.kind = OutcomeKind.abortResubmit
      ↔ ∃ vb ∈ ba1.vUUIdToBallots, ∃ r, vb.result = some r ∧ r.vote = Vote.AbortDeadlock) ∧
    ((∃ updates, o.kind = OutcomeKind.abortRerun updates)
      ↔ (∃ vb ∈ ba1.vUUIdToBallots, ∃ r, vb.result = some r ∧ r.Aborted = true) ∧
        ¬ ∃ vb ∈ ba1.vUUIdToBallots, ∃ r, vb.result = some r ∧ r.vote = Vote.AbortDeadlock) := by
  obtain ⟨g, hmap, hsome, haborted, hdeadlock, hab, hcm⟩ := determineOutcome_flags ba ba1 o subs h
  have hdl_ab : g.deadlock = true → g.aborted = true := by
    intro hdl
    obtain ⟨vb, hvb, r, hr, hv⟩ := hdeadlock.mp hdl
    exact haborted.mpr ⟨vb, hvb, r, hr, by unfold Ballot.Aborted; rw [hv]; decide⟩
  refine ⟨hmap, hsome, ?_, ?_, ?_⟩
  · constructor
    · rintro ⟨clock, hk⟩ vb hvb r hr
      have hna : g.aborted = false := by
        cases hga : g.aborted
        · rfl
        · rw [hab hga] at hk
          split_ifs at hk
      by_contra hv
      have : g.aborted = true := haborted.mpr ⟨vb, hvb, r, hr, by
        unfold Ballot.Aborted; simpa using hv⟩
      rw [hna] at this
      cases this
    · intro hall
      have hna : g.aborted = false := by
        cases hga : g.aborted
        · rfl
        · obtain ⟨vb, hvb, r, hr, hra⟩ := haborted.mp hga
          have := hall vb hvb r hr
          unfold Ballot.Aborted at hra
          rw [this] at hra
          simp at hra
      exact ⟨_, hcm hna⟩
  · rw [← hdeadlock]
    constructor
    · intro hk
      cases hga : g.aborted
      · rw [hcm hga] at hk
        cases hk
      · rw [hab hga] at hk
        by_contra hdl
        rw [if_neg hdl] at hk
        cases hk
    · intro hdl
      rw [hab (hdl_ab hdl), if_pos hdl]
  · rw [← hdeadlock, ← haborted]
    constructor
    · rintro ⟨updates, hk⟩
      cases hga : g.aborted
      · rw [hcm hga] at hk
        cases hk
      · refine ⟨rfl, ?_⟩
        intro hdl
        rw [hab hga, if_pos hdl] at hk
        cases hk
    · rintro ⟨hga, hdl⟩
      rw [hab hga, if_neg hdl]
      exact ⟨_, rfl⟩

/-- C8, as amended: once determineOutcome has returned a non-null outcome, a
following call with no BallotReceived in between returns `(nil, nil)` and
leaves the accumulator, with that outcome and its subscribers stored, as it
is. -/
theorem determineOutcome_again (ba ba1 : BallotAccumulator) (o : Outcome) (subs : List Nat)
    (h : ba.determineOutcome = .ok (ba1, some o, subs)) :
    ba1.determineOutcome = .ok (ba1, none, []) ∧ ba1.outcome = some o ∧
      ba1.subscribers = subs := by
  obtain ⟨hd, hi⟩ := determineOutcome_active ba ba1 o subs h
  obtain ⟨o1, g, ho, _, hba1, _⟩ := determineOutcome_ok ba ba1 _ subs hd hi h
  injection ho with ho
  subst ho
  have hdirty : ba1.dirty = false := by rw [hba1]
  refine ⟨?_, by rw [hba1], by rw [hba1]⟩
  apply determineOutcome_idle
  rintro ⟨h1, _⟩
  rw [hdirty] at h1
  cases h1

theorem theResult_eq_reduced (vb : varBallot) (hwf : vb.WF) : vb.theResult = vb.reduced := by
  unfold varBallot.theResult
  cases hr : vb.result with
  | none => rfl
  | some r => exact (hwf.2.2 r hr).2

theorem heldBallots_cons (x : varBallot) (m : List varBallot) :
    heldBallots (x :: m) = x.ballots ++ heldBallots m := rfl

theorem mem_heldBallots (m : List varBallot) (b : Ballot) :
    b ∈ heldBallots m ↔ ∃ x ∈ m, b ∈ x.ballots := by
  induction m with
  | nil => simp [heldBallots]
  | cons x rest ih =>
    rw [heldBallots_cons, List.mem_append, ih]
    simp

theorem heldBallots_fillResult (m : List varBallot) :
    heldBallots (m.map varBallot.fillResult) = heldBallots m := by
  induction m with
  | nil => rfl
  | cons x rest ih =>
    rw [List.map_cons, heldBallots_cons, heldBallots_cons, ih]
    rfl

theorem maxClockAt_results (m : List varBallot) (v : Nat)
    (h : ∀ x ∈ m, VectorClock.At x.theResult.clock v = maxClockAt x.ballots v) :
    maxClockAt (m.map varBallot.theResult) v = maxClockAt (heldBallots m) v := by
  induction m with
  | nil => rfl
  | cons x rest ih =>
    rw [List.map_cons, maxClockAt_cons, heldBallots_cons, maxClockAt_append,
      h x (List.mem_cons_self _ _), ih (fun y hy => h y (List.mem_cons_of_mem _ hy))]

theorem BallotReceived_split (ba ba2 : BallotAccumulator) (rm : Nat) (inst : Instance) (v : Nat)
    (out : Option Outcome) (subs : List Nat)
    (h : ba.BallotReceived rm inst v = .ok (ba2, out, subs)) :
    ∃ ba1, ba.recordBallot rm inst v = .ok ba1 ∧ ba1.determineOutcome = .ok (ba2, out, subs) := by
  unfold BallotAccumulator.BallotReceived at h
  cases hr : ba.recordBallot rm inst v with
  | error e => rw [hr] at h; cases h
  | ok ba1 =>
    rw [hr] at h
    exact ⟨ba1, rfl, h⟩

/-- What determineOutcome returns on an accumulator that satisfies the
invariant: for a commit, the element-wise maximum of the clocks of all held
ballots and the set of their subscribers; for an abort, no subscribers. -/
theorem determineOutcome_commit (ba ba1 : BallotAccumulator) (keys : List Nat) (d : Nat)
    (o : Outcome) (subs : List Nat) (hinv : ba.Inv keys d)
    (h : ba.determineOutcome = .ok (ba1, some o, subs)) :
    (∀ clock, o.kind = OutcomeKind.commit clock →
      (∀ v, VectorClock.At clock v = maxClockAt (heldBallots ba1.vUUIdToBallots) v) ∧
      subs.Nodup ∧
      (∀ s, s ∈ subs ↔ ∃ b ∈ heldBallots ba1.vUUIdToBallots, s ∈ b.subscribers)) ∧
    ((∀ clock, o.kind ≠ OutcomeKind.commit clock) → subs = []) := by
  obtain ⟨hd, hi⟩ := determineOutcome_active ba ba1 o subs h
  obtain ⟨o1, g, ho, hg, hba1, _, hab, hcm⟩ := determineOutcome_ok ba ba1 _ subs hd hi h
  injection ho with ho
  subst ho
  obtain ⟨_, ga, _, _, gc, gs, gn⟩ := gatherLoop_ok _ _ _ _ hg
  have hmap : ba1.vUUIdToBallots = ba.vUUIdToBallots.map varBallot.fillResult := by
    rw [hba1]
  obtain ⟨_, _, hwf, _⟩ := hinv
  constructor
  · intro clock hk
    have hna : g.aborted = false := by
      cases hga : g.aborted
      · rfl
      · rw [(hab hga).2.2] at hk
        split_ifs at hk
    obtain ⟨hsubs, _, hkind, _⟩ := hcm hna
    rw [hkind] at hk
    injection hk with hk
    subst hk
    simp only [Gathered.init, Bool.false_or] at ga
    rw [hna] at ga
    have hall : ∀ x ∈ ba.vUUIdToBallots, x.theResult.Aborted = false := by
      intro x hx
      cases hxa : x.theResult.Aborted
      · rfl
      · have : (ba.vUUIdToBallots.map varBallot.theResult).any Ballot.Aborted = true := by
          rw [List.any_eq_true]
          exact ⟨x.theResult, List.mem_map_of_mem _ hx, hxa⟩
        rw [← ga] at this
        cases this
    have hcommit : ∀ x ∈ ba.vUUIdToBallots,
        ∀ rmBal ∈ x.rmToBallot, rmBal.ballot.vote = Vote.Commit := by
      intro x hx
      apply (reduced_vote x).1.mp
      have := hall x hx
      rw [theResult_eq_reduced x (hwf x hx)] at this
      unfold Ballot.Aborted at this
      simpa using this
    have hfilter : (ba.vUUIdToBallots.map varBallot.theResult).filter (fun r => !r.Aborted)
        = ba.vUUIdToBallots.map varBallot.theResult := by
      rw [List.filter_eq_self]
      intro r hr
      obtain ⟨x, hx, hxr⟩ := List.mem_map.mp hr
      rw [← hxr, hall x hx]
      rfl
    rw [hmap, heldBallots_fillResult]
    refine ⟨?_, ?_, ?_⟩
    · intro v
      rw [gc v, hfilter]
      simp only [Gathered.init, NewVectorClock, VectorClock.At_nil]
      rw [maxClockAt_results]
      · simp
      · intro x hx
        rw [theResult_eq_reduced x (hwf x hx)]
        exact (reduced_commit x (hcommit x hx)).1 v
    · rw [hsubs]
      exact gn List.nodup_nil
    · intro s
      rw [hsubs, gs s]
      simp only [Gathered.init, List.not_mem_nil, false_or]
      constructor
      · rintro ⟨r, hr, _, hs⟩
        obtain ⟨x, hx, hxr⟩ := List.mem_map.mp hr
        rw [← hxr, theResult_eq_reduced x (hwf x hx)] at hs
        obtain ⟨b, hb, hbs⟩ := ((reduced_commit x (hcommit x hx)).2 s).mp hs
        exact ⟨b, (mem_heldBallots _ _).mpr ⟨x, hx, hb⟩, hbs⟩
      · rintro ⟨b, hb, hbs⟩
        obtain ⟨x, hx, hbx⟩ := (mem_heldBallots _ _).mp hb
        refine ⟨x.theResult, List.mem_map_of_mem _ hx, hall x hx, ?_⟩
        rw [theResult_eq_reduced x (hwf x hx)]
        exact ((reduced_commit x (hcommit x hx)).2 s).mpr ⟨b, hbx, hbs⟩
  · intro hk
    cases hga : g.aborted
    · exact absurd (hcm hga).2.2.1 (hk _)
    · exact (hab hga).1

/-- The accumulators a run of BallotReceived calls reaches from
NewBallotAccumulator satisfy the invariant. -/
theorem reachable_Inv (txn : TxnReader) (ba0 ba : BallotAccumulator) (calls : List Call)
    (hnew : NewBallotAccumulator txn = .ok ba0) (hrun : ba0.runCalls calls = .ok ba) :
    ∃ d, ba.Inv (mapKeys ba0.vUUIdToBallots) d ∧
      (∀ v, v ∈ mapKeys ba0.vUUIdToBallots ↔ v ∈ txn.vars) ∧
      (txn.vars.Nodup → d = 0 ∧ mapKeys ba0.vUUIdToBallots = txn.vars) := by
  obtain ⟨d, h1, _, h3, _, _, _, h4⟩ := NewBallotAccumulator_Inv txn ba0 hnew
  exact ⟨d, runCalls_Inv calls ba0 ba _ d h1 hrun, h3, h4⟩

/-- C3: for an accumulator built by NewBallotAccumulator and fed by
BallotReceived, the clock of a Commit outcome is the element-wise maximum of
the clocks of all ballots held for all variables, cached results included; so
it is at least the clock of every held ballot at every variable. -/
theorem commit_clock_is_max (txn : TxnReader) (ba0 ba ba2 : BallotAccumulator)
    (calls : List Call) (c : Call) (o : Outcome) (subs : List Nat) (clock : VectorClock)
    (hnew : NewBallotAccumulator txn = .ok ba0) (hrun : ba0.runCalls calls = .ok ba)
    (hcall : ba.BallotReceived c.instanceRMId c.inst c.vUUId = .ok (ba2, some o, subs))
    (hkind : o.kind = OutcomeKind.commit clock) :
    (∀ v, VectorClock.At clock v = maxClockAt (heldBallots ba2.vUUIdToBallots) v) ∧
    (∀ v, ∀ b ∈ heldBallots ba2.vUUIdToBallots, VectorClock.At b.clock v ≤ VectorClock.At clock v) := by
  obtain ⟨d, hinv, _⟩ := reachable_Inv txn ba0 ba calls hnew hrun
  obtain ⟨ba1, hrec, hdet⟩ := BallotReceived_split _ _ _ _ _ _ _ hcall
  have hinv1 := recordBallot_Inv ba ba1 _ d _ _ _ hinv hrec
  obtain ⟨h1, _⟩ := determineOutcome_commit ba1 ba2 _ d o subs hinv1 hdet
  obtain ⟨h2, _, _⟩ := h1 clock hkind
  refine ⟨h2, ?_⟩
  intro v b hb
  rw [h2 v]
  exact le_maxClockAt _ b hb v

/-- C9: for an accumulator built by NewBallotAccumulator and fed by
BallotReceived, the subscriber list returned with an Abort outcome is empty,
and the one returned with a Commit outcome holds exactly the subscriber ids of
the ballots held for the variables, each id once. -/
theorem outcome_subscribers (txn : TxnReader) (ba0 ba ba2 : BallotAccumulator)
    (calls : List Call) (c : Call) (o : Outcome) (subs : List Nat)
    (hnew : NewBallotAccumulator txn = .ok ba0) (hrun : ba0.runCalls calls = .ok ba)
    (hcall : ba.BallotReceived c.instanceRMId c.inst c.vUUId = .ok (ba2, some o, subs)) :
    ((o.kind = OutcomeKind.abortResubmit ∨ ∃ updates, o.kind = OutcomeKind.abortRerun updates) →
      subs = []) ∧
    ((∃ clock, o.kind = OutcomeKind.commit clock) →
      subs.Nodup ∧
      ∀ s, s ∈ subs ↔ ∃ b ∈ heldBallots ba2.vUUIdToBallots, s ∈ b.subscribers) ∧
    ba2.subscribers = subs := by
  obtain ⟨d, hinv, _⟩ := reachable_Inv txn ba0 ba calls hnew hrun
  obtain ⟨ba1, hrec, hdet⟩ := BallotReceived_split _ _ _ _ _ _ _ hcall
  have hinv1 := recordBallot_Inv ba ba1 _ d _ _ _ hinv hrec
  obtain ⟨h1, h2⟩ := determineOutcome_commit ba1 ba2 _ d o subs hinv1 hdet
  have hstored : ba2.subscribers = subs := by
    obtain ⟨hd, hi⟩ := determineOutcome_active ba1 ba2 o subs hdet
    obtain ⟨_, _, _, _, hba2, _⟩ := determineOutcome_ok ba1 ba2 _ subs hd hi hdet
    rw [hba2]
  refine ⟨?_, ?_, hstored⟩
  · intro hk
    apply h2
    intro clock hc
    rcases hk with hk | ⟨u, hk⟩
    · rw [hk] at hc; cases hc
    · rw [hk] at hc; cases hc
  · rintro ⟨clock, hk⟩
    exact (h1 clock hk).2

theorem quorate_iff (ba : BallotAccumulator) (keys : List Nat) (hinv : ba.Inv keys 0) :
    ba.quorate ↔ ba.incompleteVars = 0 := by
  obtain ⟨_, _, hwf, hcount⟩ := hinv
  rw [hcount]
  simp only [Nat.cast_zero, add_zero, Nat.cast_eq_zero]
  rw [countIncomplete_zero_iff]
  constructor
  · intro h vb hvb
    exact ⟨(h vb hvb).1, (h vb hvb).2.1⟩
  · intro h vb hvb
    exact ⟨(h vb hvb).1, (h vb hvb).2, (hwf vb hvb).1⟩

theorem gatherLoop_clock (l l1 : List varBallot) (g g1 : Gathered)
    (h : gatherLoop l g = .ok (l1, g1)) :
    g1.combinedClock = l.foldl (fun clock vBallot =>
      if vBallot.theResult.Aborted then clock
      else VectorClock.MergeInMax clock vBallot.theResult.clock) g.combinedClock := by
  induction l generalizing l1 g g1 with
  | nil =>
    simp only [gatherLoop] at h
    injection h with h
    simp only [Prod.mk.injEq] at h
    rw [← h.2]
    rfl
  | cons vb rest ih =>
    simp only [gatherLoop] at h
    cases hs : gatherStep vb g with
    | error e => rw [hs] at h; cases h
    | ok res =>
      obtain ⟨vb1, g2⟩ := res
      rw [hs] at h
      dsimp only at h
      cases hr : gatherLoop rest g2 with
      | error e => rw [hr] at h; cases h
      | ok res2 =>
        obtain ⟨rest1, g3⟩ := res2
        rw [hr] at h
        injection h with h
        simp only [Prod.mk.injEq] at h
        obtain ⟨_, h3⟩ := h
        subst h3
        rw [ih rest1 g2 g3 hr, List.foldl_cons, (gatherStep_ok vb vb1 g g2 hs).2.2.2.2.1]

theorem gatherStep_returns (vb : varBallot) (g : Gathered)
    (h : noZeroClockRead vb.rmToBallot) : ∃ res, gatherStep vb g = .ok res := by
  unfold gatherStep
  cases hr : vb.result with
  | some r =>
    dsimp only
    split_ifs
    · exact ⟨_, rfl⟩
    · exact ⟨_, rfl⟩
  | none =>
    dsimp only
    obtain ⟨br1, clock1, subs1, hc⟩ :=
      CalculateResult_returns vb g.br g.combinedClock g.commitSubscribers h
    rw [hc]
    exact ⟨_, rfl⟩

theorem gatherLoop_returns (l : List varBallot) (g : Gathered)
    (h : ∀ vb ∈ l, noZeroClockRead vb.rmToBallot) : ∃ res, gatherLoop l g = .ok res := by
  induction l generalizing g with
  | nil => exact ⟨_, rfl⟩
  | cons vb rest ih =>
    obtain ⟨res, hs⟩ := gatherStep_returns vb g (h vb (List.mem_cons_self _ _))
    obtain ⟨vb1, g1⟩ := res
    obtain ⟨res2, hr⟩ := ih g1 (fun x hx => h x (List.mem_cons_of_mem _ hx))
    obtain ⟨rest1, g2⟩ := res2
    refine ⟨(vb1 :: rest1, g2), ?_⟩
    simp only [gatherLoop, hs, hr]

/-- The two hard failures of determineOutcome with their causes: a read-only
bad read with clock element 0 in some list, or a loop that ends not aborted
with a combined clock of fewer keys than the map has variables. -/
theorem determineOutcome_error_cause (ba : BallotAccumulator) (e : Failure)
    (hd : ba.dirty = true) (hi : ba.incompleteVars = 0)
    (h : ba.determineOutcome = .error e) :
    (e = Failure.zeroClockElem ∧ ∃ vb ∈ ba.vUUIdToBallots, ¬ noZeroClockRead vb.rmToBallot) ∨
    (e = Failure.clockTooShort ∧ ∃ l1 g,
      gatherLoop ba.vUUIdToBallots Gathered.init = .ok (l1, g) ∧ g.aborted = false ∧
      VectorClock.Len g.combinedClock < ba.vUUIdToBallots.length) := by
  unfold BallotAccumulator.determineOutcome at h
  have h1 : ¬ ((!(ba.dirty && ba.incompleteVars == 0)) = true) := by simp [hd, hi]
  rw [if_neg h1] at h
  dsimp only at h
  cases hg : gatherLoop ba.vUUIdToBallots Gathered.init with
  | error e1 =>
    rw [hg] at h
    injection h with h
    subst h
    exact Or.inl (gatherLoop_error _ _ _ hg)
  | ok res =>
    obtain ⟨vbs, g⟩ := res
    rw [hg] at h
    dsimp only at h
    obtain ⟨g1, _, _, g4, _⟩ := gatherLoop_ok _ _ _ _ hg
    subst g1
    have hk : g.vUUIds = mapKeys ba.vUUIdToBallots := by
      rw [g4]; rfl
    rw [hk] at h
    obtain ⟨ids, ho, _⟩ := outcomeIdList_sorted_keys ba.vUUIdToBallots
    rw [ho] at h
    dsimp only at h
    cases hab : g.aborted
    · rw [hab] at h
      simp only [Bool.false_eq_true, if_false] at h
      split_ifs at h with hlen
      injection h with h
      refine Or.inr ⟨h.symm, _, g, rfl, hab, ?_⟩
      simp only [List.length_map, gt_iff_lt] at hlen
      exact hlen
    · rw [hab] at h
      simp only [if_true] at h
      cases h

theorem aborted_of_not_commit (vb : varBallot) (hwf : vb.WF)
    (h : ∃ rmBal ∈ vb.rmToBallot, rmBal.ballot.vote ≠ Vote.Commit) :
    vb.theResult.Aborted = true := by
  rw [theResult_eq_reduced vb hwf]
  unfold Ballot.Aborted
  have hne : vb.reduced.vote ≠ Vote.Commit := by
    intro hc
    obtain ⟨rmBal, hm, hv⟩ := h
    exact hv ((reduced_vote vb).1.mp hc rmBal hm)
  simp [hne]

theorem not_aborted_of_commit (vb : varBallot) (hwf : vb.WF)
    (h : ∀ rmBal ∈ vb.rmToBallot, rmBal.ballot.vote = Vote.Commit) :
    vb.theResult.Aborted = false := by
  rw [theResult_eq_reduced vb hwf]
  unfold Ballot.Aborted
  simp [(reduced_vote vb).1.mpr h]

theorem commit_of_not_aborted (vb : varBallot) (hwf : vb.WF)
    (h : vb.theResult.Aborted = false) :
    ∀ rmBal ∈ vb.rmToBallot, rmBal.ballot.vote = Vote.Commit := by
  rw [theResult_eq_reduced vb hwf] at h
  unfold Ballot.Aborted at h
  apply (reduced_vote vb).1.mp
  simpa using h

/-- C1, as amended: for an accumulator built by NewBallotAccumulator over a
transaction with pairwise distinct variables, after any sequence of
BallotReceived calls, a further call naming a variable of the transaction
records its ballot. If then some variable lacks voters or holds fewer than
`voters` ballots the call returns `(nil, nil)`. Otherwise it returns a non-null
outcome or fails hard, and which of the two is decided as follows. It fails
with the zero clock element only if some list holds a read-only bad read with
clock element 0. When no list does: if some held ballot is not a Commit it
returns an abort outcome with no subscribers; if every held ballot is a Commit
it returns a commit outcome with the combined clock when that clock has at
least as many keys as there are variables, and fails with the short clock when
it has fewer. It fails with the short clock only in that last case. -/
theorem ballotReceived_outcome_iff (txn : TxnReader) (ba0 ba : BallotAccumulator)
    (calls : List Call) (c : Call) (hvars : txn.vars.Nodup)
    (hnew : NewBallotAccumulator txn = .ok ba0) (hrun : ba0.runCalls calls = .ok ba)
    (hc : c.vUUId ∈ txn.vars) :
    ∃ ba1, ba.recordBallot c.instanceRMId c.inst c.vUUId = .ok ba1 ∧
      (¬ ba1.quorate →
        ba.BallotReceived c.instanceRMId c.inst c.vUUId = .ok (ba1, none, [])) ∧
      (ba1.quorate →
        ((∃ ba2 o subs, ba.BallotReceived c.instanceRMId c.inst c.vUUId = .ok (ba2, some o, subs)) ∨
          ba.BallotReceived c.instanceRMId c.inst c.vUUId = .error Failure.clockTooShort ∨
          ba.BallotReceived c.instanceRMId c.inst c.vUUId = .error Failure.zeroClockElem) ∧
        (ba.BallotReceived c.instanceRMId c.inst c.vUUId = .error Failure.zeroClockElem →
          ∃ vb ∈ ba1.vUUIdToBallots, ¬ noZeroClockRead vb.rmToBallot) ∧
        (ba.BallotReceived c.instanceRMId c.inst c.vUUId = .error Failure.clockTooShort →
          (∀ vb ∈ ba1.vUUIdToBallots, ∀ rmBal ∈ vb.rmToBallot,
            rmBal.ballot.vote = Vote.Commit) ∧
          VectorClock.Len (commitClock ba1.vUUIdToBallots) < ba1.vUUIdToBallots.length) ∧
        ((∀ vb ∈ ba1.vUUIdToBallots, noZeroClockRead vb.rmToBallot) →
          (∃ vb ∈ ba1.vUUIdToBallots, ∃ rmBal ∈ vb.rmToBallot,
            rmBal.ballot.vote ≠ Vote.Commit) →
          ∃ ba2 o, ba.BallotReceived c.instanceRMId c.inst c.vUUId = .ok (ba2, some o, []) ∧
            ∀ clock, o.kind ≠ OutcomeKind.commit clock) ∧
        ((∀ vb ∈ ba1.vUUIdToBallots, ∀ rmBal ∈ vb.rmToBallot,
            rmBal.ballot.vote = Vote.Commit) →
          (ba1.vUUIdToBallots.length ≤ VectorClock.Len (commitClock ba1.vUUIdToBallots) →
            ∃ ba2 o subs,
              ba.BallotReceived c.instanceRMId c.inst c.vUUId = .ok (ba2, some o, subs) ∧
              o.kind = OutcomeKind.commit (commitClock ba1.vUUIdToBallots)) ∧
          (VectorClock.Len (commitClock ba1.vUUIdToBallots) < ba1.vUUIdToBallots.length →
            ba.BallotReceived c.instanceRMId c.inst c.vUUId
              = .error Failure.clockTooShort))) := by
  obtain ⟨d, hinv, hmem, hnd⟩ := reachable_Inv txn ba0 ba calls hnew hrun
  obtain ⟨hd0, hkeys⟩ := hnd hvars
  subst hd0
  have hk : c.vUUId ∈ ba.vUUIdToBallots.map (fun vb => vb.vUUId) := by
    have h1 : mapKeys ba.vUUIdToBallots = mapKeys ba0.vUUIdToBallots := hinv.1
    have : c.vUUId ∈ mapKeys ba.vUUIdToBallots := by rw [h1, hkeys]; exact hc
    exact this
  obtain ⟨vb, hget, _, _⟩ := mapGet_of_mem _ _ hk
  have hrec := recordBallot_ok ba c.instanceRMId c.inst c.vUUId vb hget
  have hinv1 := recordBallot_Inv ba _ _ 0 _ _ _ hinv hrec
  have hwf := hinv1.2.2.1
  generalize hR : ({ ba with
      vUUIdToBallots := mapSet ba.vUUIdToBallots (vb.received c.instanceRMId c.inst),
      incompleteVars := if vb.completes c.instanceRMId = true then ba.incompleteVars - 1
                        else ba.incompleteVars,
      dirty := ba.dirty || decide (vb.voters ≤
        (vb.received c.instanceRMId c.inst).rmToBallot.length) } : BallotAccumulator) = R
    at hrec hinv1 hwf
  have hBR : ba.BallotReceived c.instanceRMId c.inst c.vUUId = R.determineOutcome := by
    unfold BallotAccumulator.BallotReceived
    rw [hrec]
  refine ⟨R, hrec, ?_, ?_⟩
  · intro hq
    rw [hBR]
    apply determineOutcome_idle
    rintro ⟨_, h0⟩
    exact hq ((quorate_iff _ _ hinv1).mpr h0)
  · intro hq
    have h0 := (quorate_iff _ _ hinv1).mp hq
    have hdirty : R.dirty = true := by
      obtain ⟨l1, l2, hm, hl1, hv⟩ := mapGet_split _ _ _ hget
      obtain ⟨rv, rvot, _⟩ := received_fields vb c.instanceRMId c.inst
      have hset : mapSet ba.vUUIdToBallots (vb.received c.instanceRMId c.inst)
          = l1 ++ vb.received c.instanceRMId c.inst :: l2 := by
        rw [hm]
        apply mapSet_split
        · intro x hx; rw [rv, hv]; exact hl1 x hx
        · exact rv.symm
      have hin : vb.received c.instanceRMId c.inst ∈ R.vUUIdToBallots := by
        rw [← hR]
        show _ ∈ mapSet ba.vUUIdToBallots (vb.received c.instanceRMId c.inst)
        rw [hset]; simp
      have hlen := (hq _ hin).2.1
      rw [rvot] at hlen
      rw [← hR]
      show (ba.dirty || decide (vb.voters ≤
        (vb.received c.instanceRMId c.inst).rmToBallot.length)) = true
      simp [hlen]
    rw [hBR]
    have hclock : ∀ l1 g, gatherLoop R.vUUIdToBallots Gathered.init = .ok (l1, g) →
        g.combinedClock = commitClock R.vUUIdToBallots := fun l1 g hg =>
      gatherLoop_clock _ _ _ _ hg
    have hflag : ∀ l1 g, gatherLoop R.vUUIdToBallots Gathered.init = .ok (l1, g) →
        g.aborted = (R.vUUIdToBallots.map varBallot.theResult).any Ballot.Aborted := by
      intro l1 g hg
      rw [(gatherLoop_ok _ _ _ _ hg).2.1]
      rfl
    have hany : (∃ vb ∈ R.vUUIdToBallots, ∃ rmBal ∈ vb.rmToBallot,
        rmBal.ballot.vote ≠ Vote.Commit) →
        (R.vUUIdToBallots.map varBallot.theResult).any Ballot.Aborted = true := by
      rintro ⟨x, hx, hb⟩
      rw [List.any_eq_true]
      exact ⟨x.theResult, List.mem_map_of_mem _ hx, aborted_of_not_commit x (hwf x hx) hb⟩
    have hnone : (∀ vb ∈ R.vUUIdToBallots, ∀ rmBal ∈ vb.rmToBallot,
        rmBal.ballot.vote = Vote.Commit) →
        (R.vUUIdToBallots.map varBallot.theResult).any Ballot.Aborted = false := by
      intro hall
      rw [List.any_eq_false]
      intro r hr
      obtain ⟨x, hx, hxr⟩ := List.mem_map.mp hr
      rw [← hxr, not_aborted_of_commit x (hwf x hx) (hall x hx)]
      simp
    have hcommit : (R.vUUIdToBallots.map varBallot.theResult).any Ballot.Aborted = false →
        ∀ vb ∈ R.vUUIdToBallots, ∀ rmBal ∈ vb.rmToBallot,
          rmBal.ballot.vote = Vote.Commit := by
      intro hf x hx
      rw [List.any_eq_false] at hf
      have := hf x.theResult (List.mem_map_of_mem _ hx)
      exact commit_of_not_aborted x (hwf x hx) (by simpa using this)
    cases hdet : R.determineOutcome with
    | error e =>
      rcases determineOutcome_error_cause R e hdirty h0 hdet with
        ⟨he, hz⟩ | ⟨he, l1, g, hg, hab, hlen⟩
      · subst he
        refine ⟨Or.inr (Or.inr rfl), fun _ => hz, ?_, ?_, ?_⟩
        · intro h; cases h
        · intro hno _
          obtain ⟨x, hx, hxz⟩ := hz
          exact absurd (hno x hx) hxz
        · intro hall
          obtain ⟨x, hx, hxz⟩ := hz
          exact absurd (noZeroClockRead_of_commit _ (hall x hx)) hxz
      · subst he
        rw [hclock l1 g hg] at hlen
        rw [hflag l1 g hg] at hab
        refine ⟨Or.inr (Or.inl rfl), ?_, fun _ => ⟨hcommit hab, hlen⟩, ?_, ?_⟩
        · intro h; cases h
        · intro _ hb
          rw [hany hb] at hab
          cases hab
        · intro _
          exact ⟨fun hle => absurd hlen (Nat.not_lt.mpr hle), fun _ => rfl⟩
    | ok res =>
      obtain ⟨ba2, out, subs⟩ := res
      obtain ⟨o, g, ho, hg, _, _, hA, hC⟩ := determineOutcome_ok R ba2 out subs hdirty h0 hdet
      subst ho
      have hclk := hclock _ g hg
      have hfl := hflag _ g hg
      refine ⟨Or.inl ⟨ba2, o, subs, rfl⟩, ?_, ?_, ?_, ?_⟩
      · intro h; cases h
      · intro h; cases h
      · intro _ hb
        have hab : g.aborted = true := by rw [hfl]; exact hany hb
        obtain ⟨hs, _, hkind⟩ := hA hab
        subst hs
        refine ⟨ba2, o, rfl, ?_⟩
        intro clock hck
        rw [hkind] at hck
        split_ifs at hck
      · intro hall
        have hab : g.aborted = false := by rw [hfl]; exact hnone hall
        obtain ⟨_, _, hkind, hlen⟩ := hC hab
        rw [hclk] at hkind hlen
        exact ⟨fun _ => ⟨ba2, o, subs, rfl, hkind⟩, fun hlt => absurd hlt (Nat.not_lt.mpr hlen)⟩

/-- C10: for an accumulator built by NewBallotAccumulator and fed by
BallotReceived, every rmToBallot list that has reached `voters` is strictly
ascending by RMId, and the manifest of every outcome lists each variable of
the transaction once, in ascending VarUUId order, each with the accepted
instances of its varBallot in strictly ascending RMId order and with the vote
of the ballot held for that RM. -/
theorem manifest_sorted (txn : TxnReader) (ba0 ba : BallotAccumulator) (calls : List Call)
    (hnew : NewBallotAccumulator txn = .ok ba0) (hrun : ba0.runCalls calls = .ok ba) :
    (∀ vb ∈ ba.vUUIdToBallots, vb.voters ≤ vb.rmToBallot.length →
      (rmIds vb.rmToBallot).Sorted (fun a b => a < b)) ∧
    (∀ (c : Call) ba2 o subs,
      ba.BallotReceived c.instanceRMId c.inst c.vUUId = .ok (ba2, some o, subs) →
      (o.id.map (fun i => i.varId)).Sorted (fun a b => a < b) ∧
      (∀ v, v ∈ o.id.map (fun i => i.varId) ↔ v ∈ txn.vars) ∧
      (∀ i ∈ o.id, ∃ vb, mapGet ba2.vUUIdToBallots i.varId = some vb ∧
        i.acceptedInstances = acceptedInstanceIds vb.rmToBallot ∧
        (i.acceptedInstances.map (fun a => a.rmId)).Sorted (fun a b => a < b))) := by
  obtain ⟨d, hinv, hmem, _⟩ := reachable_Inv txn ba0 ba calls hnew hrun
  refine ⟨fun vb hvb => (hinv.2.2.1 vb hvb).2.1, ?_⟩
  intro c ba2 o subs hcall
  obtain ⟨ba1, hrec, hdet⟩ := BallotReceived_split _ _ _ _ _ _ _ hcall
  have hinv1 := recordBallot_Inv ba ba1 _ d _ _ _ hinv hrec
  have hinv2 := determineOutcome_Inv ba1 ba2 _ d _ _ hinv1 hdet
  obtain ⟨hd, hi⟩ := determineOutcome_active ba1 ba2 o subs hdet
  obtain ⟨o1, g, ho, _, hba2, hids, _⟩ := determineOutcome_ok ba1 ba2 _ subs hd hi hdet
  injection ho with ho
  subst ho
  obtain ⟨ids, hids2, hvars, hentries⟩ := outcomeIdList_sorted_keys ba1.vUUIdToBallots
  rw [hids] at hids2
  injection hids2 with hids2
  subst hids2
  have hmap : ba2.vUUIdToBallots = ba1.vUUIdToBallots.map varBallot.fillResult := by
    rw [hba2]
  have hk1 : mapKeys ba1.vUUIdToBallots = mapKeys ba0.vUUIdToBallots := hinv1.1
  have hperm := VarUUIds_Sort_perm (mapKeys ba1.vUUIdToBallots)
  have hzero : countIncomplete ba2.vUUIdToBallots = 0 := by
    have h1 := hinv2.2.2.2
    have h2 : ba2.incompleteVars = 0 := by rw [hba2]; exact hi
    rw [h2] at h1
    omega
  refine ⟨?_, ?_, ?_⟩
  · rw [hvars]
    apply List.Sorted.lt_of_le (VarUUIds_Sort_sorted _)
    rw [hperm.nodup_iff, hk1]
    exact hinv1.2.1
  · intro v
    rw [hvars, hperm.mem_iff, hk1]
    exact hmem v
  · intro i hi
    obtain ⟨vb, hget, hacc⟩ := hentries i hi
    rw [← hmap] at hget
    refine ⟨vb, hget, hacc, ?_⟩
    obtain ⟨hvb, _⟩ := mapGet_some _ _ _ hget
    have hcomp := complete_of_countIncomplete _ hzero vb hvb
    have hs := (hinv2.2.2.1 vb hvb).2.1 hcomp.2
    rw [hacc, List.map_map]
    exact hs

theorem mapGet_fillResult (m : List varBallot) (v : Nat) :
    mapGet (m.map varBallot.fillResult) v = (mapGet m v).map varBallot.fillResult := by
  unfold mapGet
  induction m with
  | nil => rfl
  | cons x rest ih =>
    have hx : x.fillResult.vUUId = x.vUUId := rfl
    by_cases h : x.vUUId = v
    · simp [List.find?_cons, hx, h]
    · have hne : (x.vUUId == v) = false := by simp [h]
      simp only [List.map_cons, List.find?_cons, hx, hne]
      exact ih

theorem heldFor_fillResult (m : List varBallot) (v rm : Nat) :
    heldFor (m.map varBallot.fillResult) v rm = heldFor m v rm := by
  unfold heldFor
  rw [mapGet_fillResult]
  cases mapGet m v <;> rfl

theorem determineOutcome_heldFor (ba ba1 : BallotAccumulator) (out : Option Outcome)
    (subs : List Nat) (h : ba.determineOutcome = .ok (ba1, out, subs)) (v rm : Nat) :
    heldFor ba1.vUUIdToBallots v rm = heldFor ba.vUUIdToBallots v rm ∧
    ba1.incompleteVars = ba.incompleteVars ∧
    mapGet ba1.vUUIdToBallots v
      = (mapGet ba.vUUIdToBallots v).map (fun vb => { vb with result := (match out with
          | none => vb.result
          | some _ => some vb.theResult) }) := by
  by_cases hact : ba.dirty = true ∧ ba.incompleteVars = 0
  · obtain ⟨o, g, ho, _, hba1, _⟩ := determineOutcome_ok ba ba1 out subs hact.1 hact.2 h
    subst ho
    have hmap : ba1.vUUIdToBallots = ba.vUUIdToBallots.map varBallot.fillResult := by
      rw [hba1]
    refine ⟨by rw [hmap, heldFor_fillResult], by rw [hba1], ?_⟩
    rw [hmap, mapGet_fillResult]
    rfl
  · rw [determineOutcome_idle ba hact] at h
    injection h with h
    simp only [Prod.mk.injEq] at h
    obtain ⟨h1, h2, _⟩ := h
    subst h1 h2
    refine ⟨rfl, rfl, ?_⟩
    cases mapGet ba.vUUIdToBallots v <;> rfl

/-- One BallotReceived call: afterwards the ballot held for its variable and
RM is the accepted one, and every other held ballot is unchanged. -/
theorem BallotReceived_heldFor (ba ba2 : BallotAccumulator) (keys : List Nat) (d : Nat)
    (c : Call) (out : Option Outcome) (subs : List Nat) (hinv : ba.Inv keys d)
    (h : ba.BallotReceived c.instanceRMId c.inst c.vUUId = .ok (ba2, out, subs)) (v rm : Nat) :
    heldFor ba2.vUUIdToBallots v rm
      = if c.vUUId = v ∧ c.instanceRMId = rm then some c.inst.accepted
        else heldFor ba.vUUIdToBallots v rm := by
  obtain ⟨ba1, hrec, hdet⟩ := BallotReceived_split _ _ _ _ _ _ _ h
  rw [(determineOutcome_heldFor ba1 ba2 out subs hdet v rm).1]
  cases hg : mapGet ba.vUUIdToBallots c.vUUId with
  | none => rw [recordBallot_none ba _ _ _ hg] at hrec; cases hrec
  | some vb =>
    rw [recordBallot_ok ba _ _ _ vb hg] at hrec
    injection hrec with hrec
    subst hrec
    obtain ⟨l1, l2, hm, hl1, hv⟩ := mapGet_split _ _ _ hg
    obtain ⟨rv, _, _⟩ := received_fields vb c.instanceRMId c.inst
    have hl1r : ∀ x ∈ l1, x.vUUId ≠ (vb.received c.instanceRMId c.inst).vUUId := by
      intro x hx; rw [rv, hv]; exact hl1 x hx
    have hl1v : ∀ x ∈ l1, x.vUUId ≠ vb.vUUId := by
      intro x hx; rw [hv]; exact hl1 x hx
    have hset : mapSet ba.vUUIdToBallots (vb.received c.instanceRMId c.inst)
        = l1 ++ vb.received c.instanceRMId c.inst :: l2 := by
      rw [hm]
      exact mapSet_split _ _ _ _ hl1r rv.symm
    have hwf : vb.WF := hinv.2.2.1 vb (by rw [hm]; simp)
    show heldFor (mapSet ba.vUUIdToBallots (vb.received c.instanceRMId c.inst)) v rm = _
    unfold heldFor
    rw [hset, mapGet_split_eq _ _ _ _ hl1r, hm, mapGet_split_eq _ _ _ _ hl1v, rv, hv]
    by_cases hcv : c.vUUId = v
    · rw [if_pos hcv, if_pos hcv]
      dsimp only
      rw [received_held vb _ _ hwf.1 rm]
      by_cases hrm : rm = c.instanceRMId
      · subst hrm; simp [hcv]
      · have : ¬ c.instanceRMId = rm := fun h1 => hrm h1.symm
        simp [hrm, this]
    · rw [if_neg hcv, if_neg hcv]
      simp [hcv]

theorem runCalls_heldFor (calls : List Call) (ba ba1 : BallotAccumulator) (keys : List Nat)
    (d : Nat) (hinv : ba.Inv keys d) (h : ba.runCalls calls = .ok ba1) (v rm : Nat) :
    heldFor ba1.vUUIdToBallots v rm
      = match lastBallot calls v rm with
        | some b => some b
        | none => heldFor ba.vUUIdToBallots v rm := by
  induction calls generalizing ba with
  | nil =>
    simp only [BallotAccumulator.runCalls] at h
    injection h with h
    subst h
    rfl
  | cons c rest ih =>
    simp only [BallotAccumulator.runCalls] at h
    cases hb : ba.BallotReceived c.instanceRMId c.inst c.vUUId with
    | error e => rw [hb] at h; cases h
    | ok res =>
      obtain ⟨ba2, out, subs⟩ := res
      rw [hb] at h
      have hinv2 := BallotReceived_Inv ba ba2 keys d _ _ _ out subs hinv hb
      rw [ih ba2 hinv2 h, BallotReceived_heldFor ba ba2 keys d c out subs hinv hb v rm]
      simp only [lastBallot]
      cases lastBallot rest v rm with
      | some b => rfl
      | none =>
        dsimp only
        split_ifs <;> rfl

theorem heldFor_fresh (m : List varBallot) (h : ∀ vb ∈ m, vb.fresh) (v rm : Nat) :
    heldFor m v rm = none := by
  unfold heldFor
  cases hg : mapGet m v with
  | none => rfl
  | some vb =>
    obtain ⟨hvb, _⟩ := mapGet_some _ _ _ hg
    dsimp only
    rw [(h vb hvb).1]
    rfl

/-- C6: for an accumulator built by NewBallotAccumulator and fed by
BallotReceived, every rmToBallot list holds at most one entry per RMId, the
ballot held for a variable and an RMId is the one of the most recent call for
that pair, and a call whose RMId the variable already holds keeps the RMIds and
the length of the list and leaves incompleteVars as it is. -/
theorem one_ballot_per_rm (txn : TxnReader) (ba0 ba : BallotAccumulator) (calls : List Call)
    (hnew : NewBallotAccumulator txn = .ok ba0) (hrun : ba0.runCalls calls = .ok ba) :
    (∀ vb ∈ ba.vUUIdToBallots, (rmIds vb.rmToBallot).Nodup) ∧
    (∀ v rm, heldFor ba.vUUIdToBallots v rm = lastBallot calls v rm) ∧
    (∀ (c : Call) ba2 out subs vb,
      ba.BallotReceived c.instanceRMId c.inst c.vUUId = .ok (ba2, out, subs) →
      mapGet ba.vUUIdToBallots c.vUUId = some vb →
      c.instanceRMId ∈ rmIds vb.rmToBallot →
      ∃ vb2, mapGet ba2.vUUIdToBallots c.vUUId = some vb2 ∧
        rmIds vb2.rmToBallot = rmIds vb.rmToBallot ∧
        vb2.rmToBallot.length = vb.rmToBallot.length ∧
        ba2.incompleteVars = ba.incompleteVars) := by
  obtain ⟨d, hinv0, hfresh, _⟩ := NewBallotAccumulator_Inv txn ba0 hnew
  have hinv := runCalls_Inv calls ba0 ba _ d hinv0 hrun
  refine ⟨fun vb hvb => (hinv.2.2.1 vb hvb).1, ?_, ?_⟩
  · intro v rm
    rw [runCalls_heldFor calls ba0 ba _ d hinv0 hrun v rm, heldFor_fresh _ hfresh]
    cases lastBallot calls v rm <;> rfl
  · intro c ba2 out subs vb hcall hget hmem
    obtain ⟨ba1, hrec, hdet⟩ := BallotReceived_split _ _ _ _ _ _ _ hcall
    obtain ⟨_, hiv, hget2⟩ := determineOutcome_heldFor ba1 ba2 out subs hdet c.vUUId c.instanceRMId
    rw [recordBallot_ok ba _ _ _ vb hget] at hrec
    injection hrec with hrec
    subst hrec
    obtain ⟨l1, l2, hm, hl1, hv⟩ := mapGet_split _ _ _ hget
    obtain ⟨rv, _, _⟩ := received_fields vb c.instanceRMId c.inst
    have hl1r : ∀ x ∈ l1, x.vUUId ≠ (vb.received c.instanceRMId c.inst).vUUId := by
      intro x hx; rw [rv, hv]; exact hl1 x hx
    have hset : mapSet ba.vUUIdToBallots (vb.received c.instanceRMId c.inst)
        = l1 ++ vb.received c.instanceRMId c.inst :: l2 := by
      rw [hm]
      exact mapSet_split _ _ _ _ hl1r rv.symm
    have hg1 : mapGet (mapSet ba.vUUIdToBallots (vb.received c.instanceRMId c.inst)) c.vUUId
        = some (vb.received c.instanceRMId c.inst) := by
      rw [hset, mapGet_split_eq _ _ _ _ hl1r, rv, hv, if_pos rfl]
    have hcomp : vb.completes c.instanceRMId = false := by
      unfold varBallot.completes
      simp [hmem]
    obtain ⟨o1, o2, _⟩ := received_old vb c.instanceRMId c.inst hmem
    change mapGet ba2.vUUIdToBallots c.vUUId = Option.map _
      (mapGet (mapSet ba.vUUIdToBallots (vb.received c.instanceRMId c.inst)) c.vUUId) at hget2
    rw [hg1] at hget2
    refine ⟨_, hget2, o1, o2, ?_⟩
    rw [hiv]
    show (if vb.completes c.instanceRMId = true then ba.incompleteVars - 1
      else ba.incompleteVars) = ba.incompleteVars
    rw [hcomp]
    simp

/-- The tag of an outcome of determineOutcome is the one the reduced votes of
the variables call for. -/
theorem determineOutcome_tag (ba ba1 : BallotAccumulator) (o : Outcome) (subs : List Nat)
    (h : ba.determineOutcome = .ok (ba1, some o, subs)) :
    o.kind.tag = tagOfVotes (reducedVotes ba1.vUUIdToBallots) := by
  obtain ⟨g, _, hsome, haborted, hdeadlock, hab, hcm⟩ := determineOutcome_flags ba ba1 o subs h
  have hdl : some Vote.AbortDeadlock ∈ reducedVotes ba1.vUUIdToBallots ↔ g.deadlock = true := by
    rw [hdeadlock]
    unfold reducedVotes
    rw [List.mem_map]
    constructor
    · rintro ⟨vb, hvb, hx⟩
      obtain ⟨r, hres⟩ := hsome vb hvb
      rw [hres] at hx
      simp only [Option.map_some', Option.some.injEq] at hx
      exact ⟨vb, hvb, r, hres, hx⟩
    · rintro ⟨vb, hvb, r, hres, hv⟩
      exact ⟨vb, hvb, by rw [hres]; simp [hv]⟩
  have hall : (∀ x ∈ reducedVotes ba1.vUUIdToBallots, x = some Vote.Commit)
      ↔ g.aborted = false := by
    unfold reducedVotes
    constructor
    · intro hx
      cases hga : g.aborted
      · rfl
      · obtain ⟨vb, hvb, r, hres, hra⟩ := haborted.mp hga
        have := hx _ (List.mem_map_of_mem _ hvb)
        rw [hres] at this
        simp only [Option.map_some', Option.some.injEq] at this
        unfold Ballot.Aborted at hra
        rw [this] at hra
        simp at hra
    · intro hga x hmem
      obtain ⟨vb, hvb, hxv⟩ := List.mem_map.mp hmem
      obtain ⟨r, hres⟩ := hsome vb hvb
      rw [← hxv, hres]
      simp only [Option.map_some', Option.some.injEq]
      by_contra hv
      have : g.aborted = true := haborted.mpr ⟨vb, hvb, r, hres, by
        unfold Ballot.Aborted; simpa using hv⟩
      rw [hga] at this
      cases this
  unfold tagOfVotes
  cases hga : g.aborted
  · have hnd : ¬ g.deadlock = true := by
      intro hdlk
      obtain ⟨vb, hvb, r, hres, hv⟩ := hdeadlock.mp hdlk
      have : g.aborted = true := haborted.mpr ⟨vb, hvb, r, hres, by
        unfold Ballot.Aborted; rw [hv]; decide⟩
      rw [hga] at this
      cases this
    rw [if_neg (fun hm => hnd (hdl.mp hm)), if_pos (hall.mpr hga), hcm hga]
    rfl
  · have hnall : ¬ ∀ x ∈ reducedVotes ba1.vUUIdToBallots, x = some Vote.Commit := by
      intro hx
      have := hall.mp hx
      rw [hga] at this
      cases this
    rw [hab hga]
    by_cases hdlk : g.deadlock = true
    · rw [if_pos (hdl.mpr hdlk), if_pos hdlk]
      rfl
    · rw [if_neg (fun hm => hdlk (hdl.mp hm)), if_neg hnall, if_neg hdlk]
      rfl

/-- C7, as amended: for an accumulator built by NewBallotAccumulator and fed
by BallotReceived, once a call has returned an outcome every further call that
returns at all returns an outcome, and when the reduced votes of the variables
are the same after both calls the two outcomes have the same tag: both Commit,
both Abort with Resubmit, or both Abort with Rerun. -/
theorem late_ballot_same_tag (txn : TxnReader) (ba0 ba1 ba2 ba3 : BallotAccumulator)
    (calls : List Call) (c1 c2 : Call) (o1 : Outcome) (subs1 : List Nat)
    (out2 : Option Outcome) (subs2 : List Nat)
    (hnew : NewBallotAccumulator txn = .ok ba0) (hrun : ba0.runCalls calls = .ok ba1)
    (h1 : ba1.BallotReceived c1.instanceRMId c1.inst c1.vUUId = .ok (ba2, some o1, subs1))
    (h2 : ba2.BallotReceived c2.instanceRMId c2.inst c2.vUUId = .ok (ba3, out2, subs2)) :
    ∃ o2, out2 = some o2 ∧
      (reducedVotes ba3.vUUIdToBallots = reducedVotes ba2.vUUIdToBallots →
        o2.kind.tag = o1.kind.tag) := by
  obtain ⟨d, hinv1, _⟩ := reachable_Inv txn ba0 ba1 calls hnew hrun
  have hinv2 := BallotReceived_Inv ba1 ba2 _ d _ _ _ _ _ hinv1 h1
  obtain ⟨r1, _, hdet1⟩ := BallotReceived_split _ _ _ _ _ _ _ h1
  obtain ⟨hd1, hi1⟩ := determineOutcome_active r1 ba2 o1 subs1 hdet1
  obtain ⟨_, _, _, _, hba2, _⟩ := determineOutcome_ok r1 ba2 _ subs1 hd1 hi1 hdet1
  have hiv2 : ba2.incompleteVars = 0 := by rw [hba2]; exact hi1
  have hzero : countIncomplete ba2.vUUIdToBallots = 0 := by
    have := hinv2.2.2.2
    rw [hiv2] at this
    omega
  obtain ⟨r2, hrec2, hdet2⟩ := BallotReceived_split _ _ _ _ _ _ _ h2
  cases hg : mapGet ba2.vUUIdToBallots c2.vUUId with
  | none => rw [recordBallot_none ba2 _ _ _ hg] at hrec2; cases hrec2
  | some vb =>
    rw [recordBallot_ok ba2 _ _ _ vb hg] at hrec2
    injection hrec2 with hrec2
    obtain ⟨hvb, _⟩ := mapGet_some _ _ _ hg
    have hcomplete := complete_of_countIncomplete _ hzero vb hvb
    obtain ⟨c1x, c2x⟩ := received_complete vb c2.instanceRMId c2.inst
    have hnc : ¬ vb.completes c2.instanceRMId = true := fun hc => c2x hc hcomplete
    have hrc := (c1x.mpr (Or.inl hcomplete)).2
    rw [(received_fields vb c2.instanceRMId c2.inst).2.1] at hrc
    have hd2 : r2.dirty = true := by
      rw [← hrec2]
      simp [hrc]
    have hi2 : r2.incompleteVars = 0 := by
      rw [← hrec2]
      show (if vb.completes c2.instanceRMId = true then ba2.incompleteVars - 1
        else ba2.incompleteVars) = 0
      rw [if_neg hnc]
      exact hiv2
    obtain ⟨o2, _, ho2, _⟩ := determineOutcome_ok r2 ba3 out2 subs2 hd2 hi2 hdet2
    refine ⟨o2, ho2, ?_⟩
    intro hv
    subst ho2
    rw [determineOutcome_tag r2 ba3 o2 subs2 hdet2, determineOutcome_tag r1 ba2 o1 subs1 hdet1, hv]

/-- Witness of C1 on the two-RM commit scenario: the second call makes the
variable quorate, both held ballots are Commits, the combined clock
{10:3, 11:2} has two keys for one variable, and the call returns a commit
outcome with that clock. -/
theorem ballotReceived_outcome_iff_witness :
    scenarioTxn.vars.Nodup ∧ NewBallotAccumulator scenarioTxn = .ok scenarioBa0 ∧
    scenarioBa0.runCalls [scenarioCall1] = .ok scenarioBa1 ∧
    scenarioCall2.vUUId ∈ scenarioTxn.vars ∧
    scenarioBa1.recordBallot scenarioCall2.instanceRMId scenarioCall2.inst scenarioCall2.vUUId
      = .ok scenarioRecorded ∧
    scenarioRecorded.quorate ∧
    commitClock scenarioRecorded.vUUIdToBallots = [(10, 3), (11, 2)] ∧
    scenarioBa1.BallotReceived scenarioCall2.instanceRMId scenarioCall2.inst scenarioCall2.vUUId
      = .ok (scenarioBa2, some scenarioOutcome, [6, 5]) ∧
    ∃ ba2 o subs,
      scenarioBa1.BallotReceived scenarioCall2.instanceRMId scenarioCall2.inst scenarioCall2.vUUId
        = .ok (ba2, some o, subs) ∧
      o.kind = OutcomeKind.commit (commitClock scenarioRecorded.vUUIdToBallots) := by
  obtain ⟨ba1, hrec, _, hq⟩ :=
    ballotReceived_outcome_iff scenarioTxn scenarioBa0 scenarioBa1 [scenarioCall1] scenarioCall2
      (by decide) rfl rfl (by decide)
  have h1 : scenarioBa1.recordBallot scenarioCall2.instanceRMId scenarioCall2.inst
      scenarioCall2.vUUId = .ok scenarioRecorded := rfl
  rw [h1] at hrec
  injection hrec with hrec
  subst hrec
  exact ⟨by decide, rfl, rfl, by decide, rfl, by decide, rfl, rfl,
    ((hq (by decide)).2.2.2.2 (by decide)).1 (by decide)⟩

/-- Counterexample to C1 as stated: with one variable and voters = 1, the
first call records a Commit ballot with an empty clock, every variable then
holds its quorum, and yet the call returns no outcome: it fails hard, the
commit clock being shorter than the number of variables. -/
theorem ballotReceived_outcome_counterexample :
    soloTxn.vars.Nodup ∧ NewBallotAccumulator soloTxn = .ok soloBa0 ∧
    soloBa0.recordBallot 1 soloInst 10 = .ok soloRecorded ∧ soloRecorded.quorate ∧
    soloBa0.BallotReceived 1 soloInst 10 = .error Failure.clockTooShort :=
  ⟨by decide, rfl, rfl, by decide, rfl⟩

/-- Witness of C2 on the two-RM commit scenario. -/
theorem determineOutcome_kind_witness :
    scenarioRecorded.determineOutcome = .ok (scenarioBa2, some scenarioOutcome, [6, 5]) ∧
    ((∃ clock, scenarioOutcome.kind = OutcomeKind.commit clock)
      ↔ ∀ vb ∈ scenarioBa2.vUUIdToBallots, ∀ r, vb.result = some r → r.vote = Vote.Commit) :=
  ⟨rfl, (determineOutcome_kind scenarioRecorded scenarioBa2 scenarioOutcome [6, 5] rfl).2.2.1⟩

/-- Witness of C3 on the two-RM commit scenario: clocks {10:3, 11:1} and
{10:2, 11:2} give {10:3, 11:2}. -/
theorem commit_clock_is_max_witness :
    NewBallotAccumulator scenarioTxn = .ok scenarioBa0 ∧
    scenarioBa0.runCalls [scenarioCall1] = .ok scenarioBa1 ∧
    scenarioBa1.BallotReceived scenarioCall2.instanceRMId scenarioCall2.inst scenarioCall2.vUUId
      = .ok (scenarioBa2, some scenarioOutcome, [6, 5]) ∧
    scenarioOutcome.kind = OutcomeKind.commit [(10, 3), (11, 2)] ∧
    ((∀ v, VectorClock.At [(10, 3), (11, 2)] v
        = maxClockAt (heldBallots scenarioBa2.vUUIdToBallots) v) ∧
     (∀ v, ∀ b ∈ heldBallots scenarioBa2.vUUIdToBallots,
        VectorClock.At b.clock v ≤ VectorClock.At [(10, 3), (11, 2)] v)) :=
  ⟨rfl, rfl, rfl, rfl,
    commit_clock_is_max scenarioTxn scenarioBa0 scenarioBa1 scenarioBa2 [scenarioCall1]
      scenarioCall2 scenarioOutcome [6, 5] [(10, 3), (11, 2)] rfl rfl rfl rfl⟩

/-- Witness of C4: a Commit ballot followed by a synthetic abort. -/
theorem calculateResult_synthetic_witness :
    (∃ rmBal ∈ syntheticLast.rmToBallot, rmBal.ballot.synthetic) ∧
    (∀ vb1 br1 clock1 subs1,
      syntheticLast.CalculateResult NewBadReads NewVectorClock [] = .ok (vb1, br1, clock1, subs1) →
      ∃ r, vb1.result = some r ∧ r.vote = Vote.AbortDeadlock ∧ VectorClock.Len r.clock = 0 ∧
        r.subscribers = []) :=
  ⟨⟨{ instanceRMId := 2, ballot := syntheticBallot, roundNumber := 1 }, by decide, by decide⟩,
    (calculateResult_synthetic syntheticLast NewBadReads NewVectorClock []
      ⟨{ instanceRMId := 2, ballot := syntheticBallot, roundNumber := 1 },
        by decide, by decide⟩).2.1⟩

/-- Counterexample to C4 as stated: the list holds a synthetic abort, and
CalculateResult yields no reduced ballot: adding the bad read of the other
ballot (read-only, clock element 0) to the bad-reads table fails hard. -/
theorem calculateResult_synthetic_counterexample :
    (∃ rmBal ∈ syntheticFirst.rmToBallot, rmBal.ballot.synthetic) ∧
    syntheticFirst.CalculateResult NewBadReads NewVectorClock []
      = .error Failure.zeroClockElem :=
  ⟨⟨{ instanceRMId := 1, ballot := syntheticBallot, roundNumber := 1 }, by decide, by decide⟩,
    rfl⟩

/-- Witness of C6 on the two-RM commit scenario, after both calls. -/
theorem one_ballot_per_rm_witness :
    NewBallotAccumulator scenarioTxn = .ok scenarioBa0 ∧
    scenarioBa0.runCalls [scenarioCall1, scenarioCall2] = .ok scenarioBa2 ∧
    ((∀ vb ∈ scenarioBa2.vUUIdToBallots, (rmIds vb.rmToBallot).Nodup) ∧
     (∀ v rm, heldFor scenarioBa2.vUUIdToBallots v rm
        = lastBallot [scenarioCall1, scenarioCall2] v rm)) :=
  ⟨rfl, rfl,
    (one_ballot_per_rm scenarioTxn scenarioBa0 scenarioBa2 [scenarioCall1, scenarioCall2]
      rfl rfl).1,
    (one_ballot_per_rm scenarioTxn scenarioBa0 scenarioBa2 [scenarioCall1, scenarioCall2]
      rfl rfl).2.1⟩

/-- Witness of C7 on the two-RM commit scenario: the ballot of RM 1 is
delivered a second time. -/
theorem late_ballot_same_tag_witness :
    NewBallotAccumulator scenarioTxn = .ok scenarioBa0 ∧
    scenarioBa0.runCalls [scenarioCall1] = .ok scenarioBa1 ∧
    scenarioBa1.BallotReceived scenarioCall2.instanceRMId scenarioCall2.inst scenarioCall2.vUUId
      = .ok (scenarioBa2, some scenarioOutcome, [6, 5]) ∧
    scenarioBa2.BallotReceived scenarioCall2.instanceRMId scenarioCall2.inst scenarioCall2.vUUId
      = .ok (scenarioBa2, some scenarioOutcome, [6, 5]) ∧
    ∃ o2, some scenarioOutcome = some o2 ∧
      (reducedVotes scenarioBa2.vUUIdToBallots = reducedVotes scenarioBa2.vUUIdToBallots →
        o2.kind.tag = scenarioOutcome.kind.tag) :=
  ⟨rfl, rfl, rfl, rfl,
    late_ballot_same_tag scenarioTxn scenarioBa0 scenarioBa1 scenarioBa2 scenarioBa2
      [scenarioCall1] scenarioCall2 scenarioCall2 scenarioOutcome [6, 5] (some scenarioOutcome)
      [6, 5] rfl rfl rfl rfl⟩

/-- Counterexample to C7 as stated: after the outcome at quorum (Rerun with
the update of transaction 20 at clock 5), the late AbortBadRead ballot of RM 3
leaves the reduced vote of the variable AbortBadRead, and the outcome returned
carries another Rerun update list (transaction 22 at clock 7). -/
theorem late_ballot_rerun_counterexample :
    NewBallotAccumulator lateTxn = .ok lateBa0 ∧
    lateBa0.runCalls [lateCall1] = .ok lateBa1 ∧
    lateBa1.BallotReceived lateCall2.instanceRMId lateCall2.inst lateCall2.vUUId
      = .ok (lateBa2, some lateOutcome2, []) ∧
    lateBa2.BallotReceived lateCall3.instanceRMId lateCall3.inst lateCall3.vUUId
      = .ok (lateBa3, some lateOutcome3, []) ∧
    reducedVotes lateBa3.vUUIdToBallots = reducedVotes lateBa2.vUUIdToBallots ∧
    lateOutcome3.kind ≠ lateOutcome2.kind :=
  ⟨rfl, rfl, rfl, rfl, rfl, by decide⟩

/-- Witness of C8 on the two-RM commit scenario. -/
theorem determineOutcome_again_witness :
    scenarioRecorded.determineOutcome = .ok (scenarioBa2, some scenarioOutcome, [6, 5]) ∧
    (scenarioBa2.determineOutcome = .ok (scenarioBa2, none, []) ∧
      scenarioBa2.outcome = some scenarioOutcome ∧ scenarioBa2.subscribers = [6, 5]) :=
  ⟨rfl, determineOutcome_again scenarioRecorded scenarioBa2 scenarioOutcome [6, 5] rfl⟩

/-- Counterexample to C8 as stated: determineOutcome returns the Commit outcome
of the two-RM scenario, and the following call, with no BallotReceived in
between, returns `(nil, nil)` instead of that outcome. -/
theorem determineOutcome_again_counterexample :
    scenarioRecorded.determineOutcome = .ok (scenarioBa2, some scenarioOutcome, [6, 5]) ∧
    scenarioBa2.determineOutcome = .ok (scenarioBa2, none, []) ∧
    scenarioBa2.determineOutcome ≠ .ok (scenarioBa2, some scenarioOutcome, [6, 5]) :=
  ⟨rfl, rfl, by
    intro h
    have h1 : scenarioBa2.determineOutcome = .ok (scenarioBa2, none, []) := rfl
    rw [h1] at h
    injection h with h
    simp only [Prod.mk.injEq] at h
    cases h.2.1⟩

/-- Witness of C9 on the two-RM commit scenario: subscribers 5 and 6, each
once. -/
theorem outcome_subscribers_witness :
    NewBallotAccumulator scenarioTxn = .ok scenarioBa0 ∧
    scenarioBa0.runCalls [scenarioCall1] = .ok scenarioBa1 ∧
    scenarioBa1.BallotReceived scenarioCall2.instanceRMId scenarioCall2.inst scenarioCall2.vUUId
      = .ok (scenarioBa2, some scenarioOutcome, [6, 5]) ∧
    ((∃ clock, scenarioOutcome.kind = OutcomeKind.commit clock) →
      [6, 5].Nodup ∧
      ∀ s, s ∈ [6, 5] ↔ ∃ b ∈ heldBallots scenarioBa2.vUUIdToBallots, s ∈ b.subscribers) :=
  ⟨rfl, rfl, rfl,
    (outcome_subscribers scenarioTxn scenarioBa0 scenarioBa1 scenarioBa2 [scenarioCall1]
      scenarioCall2 scenarioOutcome [6, 5] rfl rfl rfl).2.1⟩

/-- Witness of C10 on the two-RM commit scenario, after the first call. -/
theorem manifest_sorted_witness :
    NewBallotAccumulator scenarioTxn = .ok scenarioBa0 ∧
    scenarioBa0.runCalls [scenarioCall1] = .ok scenarioBa1 ∧
    scenarioBa1.BallotReceived scenarioCall2.instanceRMId scenarioCall2.inst scenarioCall2.vUUId
      = .ok (scenarioBa2, some scenarioOutcome, [6, 5]) ∧
    ((scenarioOutcome.id.map (fun i => i.varId)).Sorted (fun a b => a < b) ∧
     (∀ v, v ∈ scenarioOutcome.id.map (fun i => i.varId) ↔ v ∈ scenarioTxn.vars) ∧
     (∀ i ∈ scenarioOutcome.id, ∃ vb, mapGet scenarioBa2.vUUIdToBallots i.varId = some vb ∧
        i.acceptedInstances = acceptedInstanceIds vb.rmToBallot ∧
        (i.acceptedInstances.map (fun a => a.rmId)).Sorted (fun a b => a < b))) :=
  ⟨rfl, rfl, rfl,
    (manifest_sorted scenarioTxn scenarioBa0 scenarioBa1 [scenarioCall1] rfl rfl).2
      scenarioCall2 scenarioBa2 scenarioOutcome [6, 5] rfl⟩

/-! ## The constructors, starved variables and bad reads -/

theorem incVoters_spec (l : List varBallot) (i : Nat) :
    (i < l.length → ∃ l1, incVoters l i = .ok l1 ∧ l1.length = l.length ∧
      ∀ j : Nat, l1[j]? = (l[j]?).map (fun vb : varBallot => vb.addVoters (if j = i then 1 else 0))) ∧
    (¬ i < l.length → incVoters l i = .error Failure.indexOutOfRange) := by
  induction l generalizing i with
  | nil =>
    constructor
    · intro h; simp at h
    · intro _; rfl
  | cons x rest ih =>
    cases i with
    | zero =>
      constructor
      · intro _
        refine ⟨_, rfl, rfl, ?_⟩
        intro j
        cases j with
        | zero => simp [varBallot.addVoters]
        | succ k =>
          simp only [List.getElem?_cons_succ]
          cases hk : rest[k]? with
          | none => rfl
          | some vb =>
            simp [varBallot.addVoters]
      · intro h; simp at h
    | succ k =>
      obtain ⟨ih1, ih2⟩ := ih k
      constructor
      · intro h
        have hk : k < rest.length := by simpa using h
        obtain ⟨l1, h1, h2, h3⟩ := ih1 hk
        refine ⟨x :: l1, by simp [incVoters, h1], by simp [h2], ?_⟩
        intro j
        cases j with
        | zero => simp [varBallot.addVoters]
        | succ m =>
          simp only [List.getElem?_cons_succ, h3 m]
          cases rest[m]? with
          | none => rfl
          | some vb => simp
      · intro h
        have hk : ¬ k < rest.length := by simpa using h
        simp [incVoters, ih2 hk]

theorem addVoters_addVoters (vb : varBallot) (a b : Nat) :
    (vb.addVoters a).addVoters b = vb.addVoters (a + b) := by
  simp [varBallot.addVoters, Nat.add_assoc]

theorem addVoters_zero (vb : varBallot) : vb.addVoters 0 = vb := rfl

theorem countIndices_spec (is : List Nat) (l : List varBallot) :
    ((∀ i ∈ is, i < l.length) → ∃ l1, countIndices l is = .ok l1 ∧ l1.length = l.length ∧
      ∀ j : Nat, l1[j]? = (l[j]?).map (fun vb : varBallot => vb.addVoters (is.count j))) ∧
    ((∃ i ∈ is, ¬ i < l.length) → countIndices l is = .error Failure.indexOutOfRange) := by
  induction is generalizing l with
  | nil =>
    constructor
    · intro _
      refine ⟨l, rfl, rfl, ?_⟩
      intro j
      cases l[j]? <;> simp [addVoters_zero]
    · rintro ⟨i, hi, _⟩; cases hi
  | cons i rest ih =>
    obtain ⟨s1, s2⟩ := incVoters_spec l i
    constructor
    · intro h
      obtain ⟨l1, h1, h2, h3⟩ := s1 (h i (List.mem_cons_self _ _))
      obtain ⟨ih1, _⟩ := ih l1
      obtain ⟨l2, g1, g2, g3⟩ := ih1 (fun k hk => by
        rw [h2]; exact h k (List.mem_cons_of_mem _ hk))
      refine ⟨l2, by simp [countIndices, h1, g1], by rw [g2, h2], ?_⟩
      intro j
      rw [g3 j, h3 j]
      cases l[j]? with
      | none => rfl
      | some vb =>
        simp only [Option.map_some', addVoters_addVoters, List.count_cons]
        by_cases hji : j = i
        · subst hji; simp [Nat.add_comm]
        · have : ¬ i = j := fun h => hji h.symm
          simp [hji, this]
    · rintro ⟨k, hk, hlen⟩
      by_cases hi : i < l.length
      · obtain ⟨l1, h1, h2, _⟩ := s1 hi
        obtain ⟨_, ih2⟩ := ih l1
        have hk2 : k ∈ rest := by
          rcases List.mem_cons.mp hk with h | h
          · subst h; exact absurd hi hlen
          · exact h
        simp [countIndices, h1, ih2 ⟨k, hk2, by rw [h2]; exact hlen⟩]
      · simp [countIndices, s2 hi]

theorem activeAllocations_cons (alloc : Allocation) (rest : List Allocation) :
    activeAllocations (alloc :: rest)
      = if alloc.active = 0 then [] else alloc :: activeAllocations rest := by
  unfold activeAllocations
  by_cases h : alloc.active = 0
  · simp [List.takeWhile_cons, h]
  · simp [List.takeWhile_cons, h]

theorem votersAt_cons (alloc : Allocation) (rest : List Allocation) (j : Nat) :
    votersAt (alloc :: rest) j
      = if alloc.active = 0 then 0 else alloc.actionIndices.count j + votersAt rest j := by
  unfold votersAt
  rw [activeAllocations_cons]
  split_ifs <;> simp

/-- The loop of NewBallotAccumulator over the allocations: when every action
index of the counted allocations is inside the slice, each varBallot gains as
many voters as its index occurs in them; otherwise the loop fails hard. -/
theorem countAllocations_spec (allocs : List Allocation) (l : List varBallot) :
    ((∀ alloc ∈ activeAllocations allocs, ∀ i ∈ alloc.actionIndices, i < l.length) →
      ∃ l1, countAllocations l allocs = .ok l1 ∧ l1.length = l.length ∧
        ∀ j : Nat, l1[j]? = (l[j]?).map (fun vb : varBallot => vb.addVoters (votersAt allocs j))) ∧
    ((∃ alloc ∈ activeAllocations allocs, ∃ i ∈ alloc.actionIndices, ¬ i < l.length) →
      countAllocations l allocs = .error Failure.indexOutOfRange) := by
  induction allocs generalizing l with
  | nil =>
    constructor
    · intro _
      refine ⟨l, rfl, rfl, ?_⟩
      intro j
      cases l[j]? <;> simp [votersAt, activeAllocations, addVoters_zero]
    · rintro ⟨a, ha, _⟩
      simp [activeAllocations] at ha
  | cons alloc rest ih =>
    by_cases hact : alloc.active = 0
    · constructor
      · intro _
        refine ⟨l, by simp [countAllocations, hact], rfl, ?_⟩
        intro j
        rw [votersAt_cons, if_pos hact]
        cases l[j]? <;> simp [addVoters_zero]
      · rintro ⟨a, ha, _⟩
        rw [activeAllocations_cons, if_pos hact] at ha
        cases ha
    · obtain ⟨s1, s2⟩ := countIndices_spec alloc.actionIndices l
      constructor
      · intro h
        rw [activeAllocations_cons, if_neg hact] at h
        obtain ⟨l1, h1, h2, h3⟩ := s1 (h alloc (List.mem_cons_self _ _))
        obtain ⟨ih1, _⟩ := ih l1
        obtain ⟨l2, g1, g2, g3⟩ := ih1 (fun a ha i hi => by
          rw [h2]; exact h a (List.mem_cons_of_mem _ ha) i hi)
        refine ⟨l2, by simp [countAllocations, hact, h1, g1], by rw [g2, h2], ?_⟩
        intro j
        rw [g3 j, h3 j, votersAt_cons, if_neg hact]
        cases l[j]? with
        | none => rfl
        | some vb => simp [addVoters_addVoters]
      · rintro ⟨a, ha, i, hi, hlen⟩
        rw [activeAllocations_cons, if_neg hact] at ha
        by_cases hall : ∀ i ∈ alloc.actionIndices, i < l.length
        · obtain ⟨l1, h1, h2, _⟩ := s1 hall
          obtain ⟨_, ih2⟩ := ih l1
          have ha2 : a ∈ activeAllocations rest := by
            rcases List.mem_cons.mp ha with h | h
            · subst h; exact absurd (hall i hi) hlen
            · exact h
          simp [countAllocations, hact, h1, ih2 ⟨a, ha2, i, hi, by rw [h2]; exact hlen⟩]
        · push_neg at hall
          obtain ⟨k, hk, hklen⟩ := hall
          simp [countAllocations, hact, s2 ⟨k, hk, by omega⟩]

theorem NewBallotAccumulator_eq (txn : TxnReader) :
    NewBallotAccumulator txn
      = match countAllocations (initialBallots txn) txn.allocations with
        | .error e => .error e
        | .ok vBallots1 =>
          .ok { txn := txn, vUUIdToBallots := vBallots1.foldl mapSet [], outcome := none,
                subscribers := [], incompleteVars := (txn.actions.length : Int), dirty := false } :=
  rfl

theorem count_sum_eq_filter_length (allocs : List Allocation) (i : Nat)
    (h : ∀ alloc ∈ allocs, alloc.actionIndices.Nodup) :
    (allocs.map (fun alloc => alloc.actionIndices.count i)).sum
      = (allocs.filter (fun alloc => decide (i ∈ alloc.actionIndices))).length := by
  induction allocs with
  | nil => rfl
  | cons a rest ih =>
    have ih1 := ih (fun x hx => h x (List.mem_cons_of_mem _ hx))
    have hn := h a (List.mem_cons_self _ _)
    simp only [List.map_cons, List.sum_cons, List.filter_cons, ih1]
    by_cases hi : i ∈ a.actionIndices
    · rw [List.count_eq_one_of_mem hn hi]
      simp [hi, Nat.add_comm]
    · rw [List.count_eq_zero_of_not_mem hi]
      simp [hi]

/-- C11, as amended: when every action index of the allocations before the
first zero-bootcount allocation is below the number of actions,
NewBallotAccumulator returns an accumulator whose incompleteVars is the number
of actions and whose varBallot for action index i has as many voters as i
occurs in the action indices of those allocations (the number of those
allocations that include i when no allocation lists an index twice); the
allocations at or after the first zero-bootcount one contribute nothing. When
some such index is not below the number of actions it fails hard. -/
theorem newBallotAccumulator_voters (txn : TxnReader) :
    ((∀ alloc ∈ activeAllocations txn.allocations, ∀ i ∈ alloc.actionIndices,
        i < txn.actions.length) →
      ∃ ba vBallots, NewBallotAccumulator txn = .ok ba ∧
        ba.incompleteVars = (txn.actions.length : Int) ∧
        ba.vUUIdToBallots = vBallots.foldl mapSet [] ∧
        (txn.vars.Nodup → ba.vUUIdToBallots = vBallots) ∧
        vBallots.length = txn.actions.length ∧
        ∀ (i : Nat) (action : Action), txn.actions[i]? = some action →
          vBallots[i]? = some { vUUId := action.varId, result := none, rmToBallot := [],
                                voters := votersAt txn.allocations i }) ∧
    ((∃ alloc ∈ activeAllocations txn.allocations, ∃ i ∈ alloc.actionIndices,
        ¬ i < txn.actions.length) →
      NewBallotAccumulator txn = .error Failure.indexOutOfRange) ∧
    ((∀ alloc ∈ activeAllocations txn.allocations, alloc.actionIndices.Nodup) →
      ∀ i, votersAt txn.allocations i = allocationsWith txn.allocations i) := by
  have hlen : (initialBallots txn).length = txn.actions.length := by
    simp [initialBallots]
  obtain ⟨s1, s2⟩ := countAllocations_spec txn.allocations (initialBallots txn)
  refine ⟨?_, ?_, ?_⟩
  · intro h
    obtain ⟨l1, h1, h2, h3⟩ := s1 (by rw [hlen]; exact h)
    have hkeys : mapKeys l1 = txn.vars := by
      have := (countAllocations_ok _ _ _ h1).1
      rw [this]
      simp [mapKeys, initialBallots, TxnReader.vars, List.map_map, Function.comp]
    refine ⟨_, l1, by rw [NewBallotAccumulator_eq, h1], rfl, rfl, ?_, by rw [h2, hlen], ?_⟩
    · intro hn
      have := (foldl_mapSet l1 [] List.nodup_nil).2.2.2.2 (by simpa [hkeys] using hn)
      simpa using this
    · intro i action hact
      rw [h3 i]
      simp [initialBallots, List.getElem?_map, hact, varBallot.addVoters]
  · intro h
    rw [NewBallotAccumulator_eq, s2 (by rw [hlen]; exact h)]
  · intro hn i
    exact count_sum_eq_filter_length _ i hn

theorem newBallotAccumulator_voters_witness :
    ∃ ba vBallots, NewBallotAccumulator scenarioTxn = .ok ba ∧
      ba.incompleteVars = (scenarioTxn.actions.length : Int) ∧
      ba.vUUIdToBallots = vBallots.foldl mapSet [] ∧
      (scenarioTxn.vars.Nodup → ba.vUUIdToBallots = vBallots) ∧
      vBallots.length = scenarioTxn.actions.length ∧
      ∀ (i : Nat) (action : Action), scenarioTxn.actions[i]? = some action →
        vBallots[i]? = some { vUUId := action.varId, result := none, rmToBallot := [],
                              voters := votersAt scenarioTxn.allocations i } :=
  (newBallotAccumulator_voters scenarioTxn).1 (by decide)

/-- Counterexample to C11 as stated: the single active allocation lists action
index 0 twice; one allocation includes index 0, and the variable gets two
voters. -/
theorem newBallotAccumulator_voters_counterexample :
    NewBallotAccumulator doubledTxn = .ok
      { txn := doubledTxn,
        vUUIdToBallots := [{ vUUId := 10, result := none, rmToBallot := [], voters := 2 }],
        outcome := none, subscribers := [], incompleteVars := 1, dirty := false } ∧
    allocationsWith doubledTxn.allocations 0 = 1 :=
  ⟨rfl, by decide⟩

theorem starved_pos (ba : BallotAccumulator) (keys : List Nat) (d : Nat)
    (hinv : ba.Inv keys d) (hz : ba.starved) : 0 < ba.incompleteVars := by
  obtain ⟨z, hz1, hz2⟩ := hz
  have hmem : z ∈ ba.vUUIdToBallots.filter (fun vb => !decide vb.complete) := by
    rw [List.mem_filter]
    refine ⟨hz1, ?_⟩
    have : ¬ z.complete := by
      intro hc
      have := hc.1
      omega
    simp [this]
  have hpos : 0 < countIncomplete ba.vUUIdToBallots := List.length_pos_of_mem hmem
  rw [hinv.2.2.2]
  omega

theorem starved_step (ba : BallotAccumulator) (keys : List Nat) (d : Nat)
    (hinv : ba.Inv keys d) (hz : ba.starved) (rm : Nat) (inst : Instance) (v : Nat)
    (hv : v ∈ keys) :
    ∃ ba1, ba.BallotReceived rm inst v = .ok (ba1, none, []) ∧ ba1.Inv keys d ∧ ba1.starved := by
  have hv1 : v ∈ ba.vUUIdToBallots.map (fun vb => vb.vUUId) := by
    have := hinv.1
    unfold mapKeys at this
    rw [this]; exact hv
  obtain ⟨vb, hg, _, _⟩ := mapGet_of_mem ba.vUUIdToBallots v hv1
  have hrec := recordBallot_ok ba rm inst v vb hg
  have hinv1 := recordBallot_Inv ba _ keys d rm inst v hinv hrec
  have hst : BallotAccumulator.starved
      { ba with
        vUUIdToBallots := mapSet ba.vUUIdToBallots (vb.received rm inst),
        incompleteVars := if vb.completes rm = true then ba.incompleteVars - 1
                          else ba.incompleteVars,
        dirty := ba.dirty || decide (vb.voters ≤ (vb.received rm inst).rmToBallot.length) } := by
    obtain ⟨l1, l2, hm, hl1, hvbv⟩ := mapGet_split ba.vUUIdToBallots v vb hg
    obtain ⟨hf1, hf2, _⟩ := received_fields vb rm inst
    obtain ⟨z, hz1, hz2⟩ := hz
    show ∃ x ∈ mapSet ba.vUUIdToBallots (vb.received rm inst), x.voters = 0
    rw [hm, mapSet_split l1 l2 vb (vb.received rm inst)
      (fun x hx => by rw [hf1, hvbv]; exact hl1 x hx) hf1.symm]
    rw [hm] at hz1
    rcases List.mem_append.mp hz1 with h | h
    · exact ⟨z, List.mem_append_left _ h, hz2⟩
    · rcases List.mem_cons.mp h with h | h
      · subst h
        exact ⟨_, List.mem_append_right _ (List.mem_cons_self _ _), by rw [hf2]; exact hz2⟩
      · exact ⟨z, List.mem_append_right _ (List.mem_cons_of_mem _ h), hz2⟩
  have hpos := starved_pos _ keys d hinv1 hst
  refine ⟨_, ?_, hinv1, hst⟩
  unfold BallotAccumulator.BallotReceived
  rw [hrec]
  exact determineOutcome_idle _ (fun h => by have := h.2; omega)

theorem starved_run (calls : List Call) (ba : BallotAccumulator) (keys : List Nat) (d : Nat)
    (hinv : ba.Inv keys d) (hz : ba.starved) (hcalls : ∀ c ∈ calls, c.vUUId ∈ keys) :
    ∃ ba1, ba.runCalls calls = .ok ba1 ∧ ba1.Inv keys d ∧ ba1.starved := by
  induction calls generalizing ba with
  | nil => exact ⟨ba, rfl, hinv, hz⟩
  | cons c rest ih =>
    obtain ⟨ba1, h1, h2, h3⟩ :=
      starved_step ba keys d hinv hz c.instanceRMId c.inst c.vUUId
        (hcalls c (List.mem_cons_self _ _))
    obtain ⟨ba2, h4, h5⟩ := ih ba1 h2 h3 (fun x hx => hcalls x (List.mem_cons_of_mem _ hx))
    refine ⟨ba2, ?_, h5⟩
    simp only [BallotAccumulator.runCalls, h1]
    exact h4

/-- C12: when NewBallotAccumulator leaves some variable with voters == 0,
every sequence of BallotReceived calls for variables of the transaction runs
to its end, leaves incompleteVars strictly positive, and every further call
returns the nil outcome (with no subscribers) and again leaves incompleteVars
strictly positive; as the sequence is arbitrary, this covers every call. -/
theorem zero_voters_never_completes (txn : TxnReader) (ba0 : BallotAccumulator)
    (calls : List Call) (hnew : NewBallotAccumulator txn = .ok ba0) (hz : ba0.starved)
    (hcalls : ∀ c ∈ calls, c.vUUId ∈ txn.vars) :
    ∃ ba, ba0.runCalls calls = .ok ba ∧ 0 < ba.incompleteVars ∧
      ∀ (rm : Nat) (inst : Instance) (v : Nat), v ∈ txn.vars →
        ∃ ba1, ba.BallotReceived rm inst v = .ok (ba1, none, []) ∧ 0 < ba1.incompleteVars := by
  obtain ⟨d, h1, _, h3, _⟩ := NewBallotAccumulator_Inv txn ba0 hnew
  obtain ⟨ba, h4, h5, h6⟩ :=
    starved_run calls ba0 _ d h1 hz (fun c hc => (h3 c.vUUId).mpr (hcalls c hc))
  refine ⟨ba, h4, starved_pos ba _ d h5 h6, ?_⟩
  intro rm inst v hv
  obtain ⟨ba1, h7, h8, h9⟩ := starved_step ba _ d h5 h6 rm inst v ((h3 v).mpr hv)
  exact ⟨ba1, h7, starved_pos ba1 _ d h8 h9⟩

theorem zero_voters_never_completes_witness :
    NewBallotAccumulator starvedTxn = .ok starvedBa0 ∧ starvedBa0.starved ∧
    ∃ ba, starvedBa0.runCalls [{ instanceRMId := 1, inst := soloInst, vUUId := 10 },
                               { instanceRMId := 2, inst := soloInst, vUUId := 11 }] = .ok ba ∧
      0 < ba.incompleteVars ∧
      ∀ (rm : Nat) (inst : Instance) (v : Nat), v ∈ starvedTxn.vars →
        ∃ ba1, ba.BallotReceived rm inst v = .ok (ba1, none, []) ∧ 0 < ba1.incompleteVars :=
  ⟨rfl, ⟨_, List.mem_cons_of_mem _ (List.mem_cons_self _ _), rfl⟩,
   zero_voters_never_completes starvedTxn starvedBa0 _ rfl
     ⟨_, List.mem_cons_of_mem _ (List.mem_cons_self _ _), rfl⟩
     (by decide)⟩

/-- C13: adding a read-only action whose clock element is 0 fails hard when
the table has no entry for the variable, but never fails when the table has
one: the action then goes through badReadAction.combine, which has no guard
and computes 0 - 1 in uint64. With the entry of firstReadBallot in the table,
zeroReadBallot is added without a failure and leaves clockElem = 2^64 - 1. -/
theorem zero_clock_read_combine :
    (∀ (br : badReads) (rmBal : rmBallot) (action : Action),
      IsReadOnly action = true → VectorClock.At rmBal.ballot.clock action.varId = 0 →
      br.any (fun bra => bra.vUUId == action.varId) = false →
      badReads.combineAction br rmBal action = .error Failure.zeroClockElem) ∧
    (∀ (br : badReads) (rmBal : rmBallot) (action : Action),
      br.any (fun bra => bra.vUUId == action.varId) = true →
      ∃ br1, badReads.combineAction br rmBal action = .ok br1) ∧
    badReads.combine NewBadReads { instanceRMId := 1, ballot := firstReadBallot, roundNumber := 1 }
      = .ok firstReadTable ∧
    IsReadOnly { varId := 10, value := ActionValue.read 3 } = true ∧
    VectorClock.At zeroReadBallot.clock 10 = 0 ∧
    badReads.combine firstReadTable
        { instanceRMId := 2, ballot := zeroReadBallot, roundNumber := 1 }
      = .ok wrappedReadTable := by
  refine ⟨?_, ?_, ?_, rfl, ?_, ?_⟩
  · intro br rmBal action hro hz hno
    unfold badReads.combineAction
    simp only [hno, hro, hz]
    rfl
  · intro br rmBal action hany
    unfold badReads.combineAction
    simp only [hany]
    exact ⟨_, rfl⟩
  · rfl
  · decide
  · rfl

theorem mapGet_none_of_not_mem (m : List varBallot) (v : Nat) (h : v ∉ mapKeys m) :
    mapGet m v = none := by
  unfold mapGet
  rw [List.find?_eq_none]
  intro x hx hxv
  apply h
  unfold mapKeys
  rw [List.mem_map]
  exact ⟨x, hx, by simpa using hxv⟩

theorem mapGet_mapSet (m : List varBallot) (w : varBallot) (v : Nat) :
    mapGet (mapSet m w) v = if w.vUUId = v then some w else mapGet m v := by
  unfold mapGet
  induction m with
  | nil =>
    by_cases hw : w.vUUId = v
    · simp [mapSet, hw]
    · simp [mapSet, hw]
  | cons x rest ih =>
    by_cases hx : x.vUUId = w.vUUId
    · by_cases hw : w.vUUId = v
      · simp [mapSet, hx, hw]
      · have hxv : ¬ x.vUUId = v := by rw [hx]; exact hw
        simp [mapSet, hx, hw, List.find?_cons]
    · by_cases hxv : x.vUUId = v
      · have hw : ¬ w.vUUId = v := by rw [← hxv]; exact fun h => hx h.symm
        have hb : (x.vUUId == v) = true := by simp [hxv]
        simp only [mapSet, hx, if_false, List.find?_cons, hb, hw]
      · simp only [mapSet, hx, if_false, List.find?_cons]
        have : (x.vUUId == v) = false := by simp [hxv]
        rw [this]
        exact ih

theorem restored_restored (vb : varBallot) (r x : InstancesForVar) :
    (vb.restored r).restored x = vb.restored x := rfl

theorem restoreVars_ok (rs : List InstancesForVar) (m : List varBallot)
    (h : ∀ r ∈ rs, r.varId ∈ mapKeys m) :
    ∃ m1, restoreVars m rs = .ok m1 ∧ mapKeys m1 = mapKeys m ∧
      ∀ v : Nat, mapGet m1 v = (mapGet m v).map (fun vb : varBallot =>
        match lastRecord rs v with
        | some r => vb.restored r
        | none => vb) := by
  induction rs generalizing m with
  | nil =>
    refine ⟨m, rfl, rfl, ?_⟩
    intro v
    simp [lastRecord]
  | cons r rest ih =>
    have hr : r.varId ∈ m.map (fun vb => vb.vUUId) := h r (List.mem_cons_self _ _)
    obtain ⟨vb, hg, _, hvb⟩ := mapGet_of_mem m r.varId hr
    have hkeys : mapKeys (mapSet m (vb.restored r)) = mapKeys m := by
      rw [mapSet_keys]
      have : (vb.restored r).vUUId ∈ mapKeys m := by
        show vb.vUUId ∈ mapKeys m
        rw [hvb]; exact hr
      rw [if_pos this]
    obtain ⟨m1, h1, h2, h3⟩ := ih (mapSet m (vb.restored r))
      (fun x hx => by rw [hkeys]; exact h x (List.mem_cons_of_mem _ hx))
    refine ⟨m1, ?_, by rw [h2, hkeys], ?_⟩
    · simp only [restoreVars, restoreVar, hg]
      exact h1
    · intro v
      rw [h3 v, mapGet_mapSet]
      have hrv : (vb.restored r).vUUId = r.varId := hvb
      rw [hrv]
      by_cases hv : r.varId = v
      · rw [if_pos hv, ← hv, hg]
        cases hl : lastRecord rest r.varId with
        | some x => simp [lastRecord, hl, restored_restored]
        | none => simp [lastRecord, hl]
      · rw [if_neg hv]
        cases hl : lastRecord rest v with
        | some x => simp [lastRecord, hl]
        | none => simp [lastRecord, hl, hv]

theorem restoreVars_error (rs : List InstancesForVar) (m : List varBallot)
    (h : ∃ r ∈ rs, r.varId ∉ mapKeys m) :
    restoreVars m rs = .error Failure.nilDereference := by
  induction rs generalizing m with
  | nil =>
    obtain ⟨r, hr, _⟩ := h
    cases hr
  | cons r rest ih =>
    by_cases hr : r.varId ∈ mapKeys m
    · obtain ⟨vb, hg, _, hvb⟩ := mapGet_of_mem m r.varId hr
      have hkeys : mapKeys (mapSet m (vb.restored r)) = mapKeys m := by
        rw [mapSet_keys]
        have : (vb.restored r).vUUId ∈ mapKeys m := by
          show vb.vUUId ∈ mapKeys m
          rw [hvb]; exact hr
        rw [if_pos this]
      simp only [restoreVars, restoreVar, hg]
      apply ih
      obtain ⟨x, hx, hxn⟩ := h
      rcases List.mem_cons.mp hx with hx | hx
      · subst hx; exact absurd hr hxn
      · exact ⟨x, hx, by rw [hkeys]; exact hxn⟩
    · simp only [restoreVars, restoreVar, mapGet_none_of_not_mem m r.varId hr]

theorem NewBallotAccumulator_fields (txn : TxnReader) (ba0 : BallotAccumulator)
    (h : NewBallotAccumulator txn = .ok ba0) :
    ba0.incompleteVars = (txn.actions.length : Int) ∧ ba0.subscribers = [] := by
  rw [NewBallotAccumulator_eq] at h
  cases hc : countAllocations (initialBallots txn) txn.allocations with
  | error e => rw [hc] at h; cases h
  | ok l =>
    rw [hc] at h
    injection h with h
    subst h
    exact ⟨rfl, rfl⟩

theorem BallotAccumulatorFromData_eq (txn : TxnReader) (ba0 : BallotAccumulator)
    (outcome : Option Outcome) (subsCap : List Nat) (instances : List InstancesForVar)
    (h : NewBallotAccumulator txn = .ok ba0) :
    BallotAccumulatorFromData txn outcome subsCap instances
      = if ba0.incompleteVars ≠ (instances.length : Int) then
          .error Failure.instanceCountMismatch
        else
          match restoreVars ba0.vUUIdToBallots instances with
          | .error e => .error e
          | .ok m =>
            .ok { ba0 with outcome := outcome, incompleteVars := 0, vUUIdToBallots := m,
                           subscribers := subsCap } := by
  unfold BallotAccumulatorFromData
  rw [h]

theorem lastRecord_some (rs : List InstancesForVar) (v : Nat) (y : InstancesForVar)
    (h : lastRecord rs v = some y) : y ∈ rs ∧ y.varId = v := by
  induction rs with
  | nil => simp [lastRecord] at h
  | cons z rest ih =>
    simp only [lastRecord] at h
    cases hl : lastRecord rest v with
    | some w =>
      rw [hl] at h
      injection h with h
      subst h
      exact ⟨List.mem_cons_of_mem _ (ih hl).1, (ih hl).2⟩
    | none =>
      rw [hl] at h
      by_cases hz : z.varId = v
      · rw [if_pos hz] at h
        injection h with h
        subst h
        exact ⟨List.mem_cons_self _ _, hz⟩
      · rw [if_neg hz] at h
        cases h

theorem lastRecord_of_nodup (rs : List InstancesForVar)
    (hn : (rs.map (fun r => r.varId)).Nodup) (r : InstancesForVar) (hr : r ∈ rs) :
    lastRecord rs r.varId = some r := by
  induction rs with
  | nil => cases hr
  | cons x rest ih =>
    rw [List.map_cons, List.nodup_cons] at hn
    rcases List.mem_cons.mp hr with hr | hr
    · subst hr
      have hnone : lastRecord rest r.varId = none := by
        cases hl : lastRecord rest r.varId with
        | none => rfl
        | some y =>
          exfalso
          apply hn.1
          obtain ⟨h1, h2⟩ := lastRecord_some rest r.varId y hl
          rw [← h2]
          exact List.mem_map.mpr ⟨y, h1, rfl⟩
      simp [lastRecord, hnone]
    · simp [lastRecord, ih hn.2 hr]

/-- C20, as amended: when NewBallotAccumulator returns for the transaction,
BallotAccumulatorFromData fails hard if the number of persisted records
differs from the number of actions, and also (by a nil dereference) if the
numbers agree but some record names a variable the transaction does not have.
When the numbers agree and every record names a variable of the transaction it
returns an accumulator with incompleteVars = 0, the supplied outcome, the
supplied subscribers in order, the voters NewBallotAccumulator counted, and for
each variable the rmToBallot and result of the last record that names it:
its accepted instances in persisted order (RMId, ballot, round number) and the
persisted reduction; a variable no record names keeps an empty list and no
result. With no two records for one variable, the last record naming the
variable of a record is that record. -/
theorem ballotAccumulatorFromData_restores (txn : TxnReader) (ba0 : BallotAccumulator)
    (outcome : Option Outcome) (subsCap : List Nat) (instances : List InstancesForVar)
    (hnew : NewBallotAccumulator txn = .ok ba0) :
    (txn.actions.length ≠ instances.length →
      BallotAccumulatorFromData txn outcome subsCap instances
        = .error Failure.instanceCountMismatch) ∧
    (txn.actions.length = instances.length → (∃ r ∈ instances, r.varId ∉ txn.vars) →
      BallotAccumulatorFromData txn outcome subsCap instances
        = .error Failure.nilDereference) ∧
    (txn.actions.length = instances.length → (∀ r ∈ instances, r.varId ∈ txn.vars) →
      ∃ ba, BallotAccumulatorFromData txn outcome subsCap instances = .ok ba ∧
        ba.incompleteVars = 0 ∧ ba.outcome = outcome ∧ ba.subscribers = subsCap ∧
        ba.txn = txn ∧ ba.dirty = false ∧
        mapKeys ba.vUUIdToBallots = mapKeys ba0.vUUIdToBallots ∧
        ∀ v ∈ txn.vars, ∃ vb0 vb,
          mapGet ba0.vUUIdToBallots v = some vb0 ∧ mapGet ba.vUUIdToBallots v = some vb ∧
          vb.vUUId = v ∧ vb.voters = vb0.voters ∧
          (∀ r, lastRecord instances v = some r →
            vb.rmToBallot = r.instances.map restoredRmBallot ∧ vb.result = some r.result) ∧
          (lastRecord instances v = none → vb.rmToBallot = [] ∧ vb.result = none)) ∧
    ((instances.map (fun r => r.varId)).Nodup →
      ∀ r ∈ instances, lastRecord instances r.varId = some r) := by
  obtain ⟨hcount, _⟩ := NewBallotAccumulator_fields txn ba0 hnew
  obtain ⟨d, _, hfresh, hkeys, hdirty, _, htxn, _⟩ := NewBallotAccumulator_Inv txn ba0 hnew
  have heq := BallotAccumulatorFromData_eq txn ba0 outcome subsCap instances hnew
  refine ⟨?_, ?_, ?_, fun hn r hr => lastRecord_of_nodup instances hn r hr⟩
  · intro hne
    rw [heq, if_pos]
    rw [hcount]
    exact_mod_cast hne
  · intro hlen hbad
    have hc : ¬ ba0.incompleteVars ≠ (instances.length : Int) := by
      rw [hcount]; simp [hlen]
    rw [heq, if_neg hc, restoreVars_error instances ba0.vUUIdToBallots]
    obtain ⟨r, hr, hrn⟩ := hbad
    exact ⟨r, hr, fun h => hrn ((hkeys r.varId).mp h)⟩
  · intro hlen hall
    have hc : ¬ ba0.incompleteVars ≠ (instances.length : Int) := by
      rw [hcount]; simp [hlen]
    obtain ⟨m1, h1, h2, h3⟩ := restoreVars_ok instances ba0.vUUIdToBallots
      (fun r hr => (hkeys r.varId).mpr (hall r hr))
    refine ⟨{ ba0 with outcome := outcome, incompleteVars := 0, vUUIdToBallots := m1,
                       subscribers := subsCap },
      by rw [heq, if_neg hc, h1], rfl, rfl, rfl, htxn, hdirty, h2, ?_⟩
    intro v hv
    obtain ⟨vb0, hg, hmem, hvb0⟩ := mapGet_of_mem ba0.vUUIdToBallots v ((hkeys v).mpr hv)
    have hg1 := h3 v
    rw [hg] at hg1
    refine ⟨vb0, _, hg, hg1, ?_, ?_, ?_, ?_⟩
    · cases hl : lastRecord instances v with
      | some r => exact hvb0
      | none => exact hvb0
    · cases hl : lastRecord instances v with
      | some r => rfl
      | none => rfl
    · intro r hl
      simp only [hl]
      exact ⟨rfl, rfl⟩
    · intro hl
      simp only [hl]
      exact hfresh vb0 hmem

theorem ballotAccumulatorFromData_restores_witness :
    NewBallotAccumulator soloTxn = .ok soloBa0 ∧
    BallotAccumulatorFromData soloTxn (some scenarioOutcome) [5, 4] [soloRecord] = .ok
      { txn := soloTxn,
        vUUIdToBallots := [{ vUUId := 10, result := some soloInst.accepted,
                             rmToBallot := [{ instanceRMId := 1, ballot := soloInst.accepted,
                                              roundNumber := 4 }],
                             voters := 1 }],
        outcome := some scenarioOutcome, subscribers := [5, 4], incompleteVars := 0,
        dirty := false } ∧
    lastRecord [soloRecord] soloRecord.varId = some soloRecord :=
  ⟨rfl, rfl,
   (ballotAccumulatorFromData_restores soloTxn soloBa0 (some scenarioOutcome) [5, 4]
      [soloRecord] rfl).2.2.2 (by decide) soloRecord (List.mem_cons_self _ _)⟩

/-- Counterexample to C20 as stated: one action and one persisted record, so
the numbers agree, but the record names variable 11, which the transaction
does not have; BallotAccumulatorFromData fails hard instead of returning. -/
theorem ballotAccumulatorFromData_counterexample :
    soloTxn.actions.length = [strayRecord].length ∧
    BallotAccumulatorFromData soloTxn none [] [strayRecord]
      = .error Failure.nilDereference :=
  ⟨rfl, rfl⟩


/-! ## The reducer, the bad-read table and the wire records: lemmas and theorems -/

theorem combineSwitch_badRead_deadlock (cur : varBallotReducer) (rmBal : rmBallot)
    (hc : cur.Vote = Vote.AbortBadRead) (hn : rmBal.ballot.vote = Vote.AbortDeadlock)
    (hlen : VectorClock.Len rmBal.ballot.clock ≠ 0) :
    varBallotReducer.combineSwitch cur rmBal
      = if VectorClock.At rmBal.ballot.clock cur.vUUId < VectorClock.At cur.Clock cur.vUUId
        then { cur with Clock := VectorClock.MergeInMax cur.Clock rmBal.ballot.clock }
        else { cur with Vote := Vote.AbortDeadlock, VoteCap := rmBal.ballot.voteCap,
                        Clock := VectorClock.MergeInMax cur.Clock rmBal.ballot.clock } := by
  obtain ⟨v, cv, cc, ck, cs, cb⟩ := cur
  obtain ⟨rm, ⟨nv, nc, nk, ns⟩, rn⟩ := rmBal
  simp only at hc hn hlen
  subst hc hn
  simp [varBallotReducer.combineSwitch, hlen]

theorem combineSwitch_deadlock_badRead (cur : varBallotReducer) (rmBal : rmBallot)
    (hc : cur.Vote = Vote.AbortDeadlock) (hlen : VectorClock.Len cur.Clock ≠ 0)
    (hn : rmBal.ballot.vote = Vote.AbortBadRead) :
    varBallotReducer.combineSwitch cur rmBal
      = if VectorClock.At rmBal.ballot.clock cur.vUUId > VectorClock.At cur.Clock cur.vUUId
        then { cur with Vote := Vote.AbortBadRead, VoteCap := rmBal.ballot.voteCap,
                        Clock := VectorClock.MergeInMax cur.Clock rmBal.ballot.clock }
        else { cur with Clock := VectorClock.MergeInMax cur.Clock rmBal.ballot.clock } := by
  obtain ⟨v, cv, cc, ck, cs, cb⟩ := cur
  obtain ⟨rm, ⟨nv, nc, nk, ns⟩, rn⟩ := rmBal
  simp only at hc hn hlen
  subst hc hn
  simp [varBallotReducer.combineSwitch, hlen]

/-- C21: combineVote of a current AbortBadRead with a new AbortDeadlock whose
clock is not empty returns, and of a current AbortDeadlock whose clock is not
empty with a new AbortBadRead returns whenever adding the new ballot to the
bad-reads table does. In both roles the resulting vote is AbortDeadlock if and
only if the clock of the deadlock side at the variable is at least that of
the bad-read side, and AbortBadRead otherwise; the resulting clock is the
element-wise maximum of the two clocks. -/
theorem combineVote_badRead_deadlock (cur : varBallotReducer) (rmBal : rmBallot) :
    (cur.Vote = Vote.AbortBadRead → rmBal.ballot.vote = Vote.AbortDeadlock →
      VectorClock.Len rmBal.ballot.clock ≠ 0 →
      ∃ cur1, cur.combineVote rmBal = .ok cur1 ∧
        (cur1.Vote = Vote.AbortDeadlock ↔
          VectorClock.At cur.Clock cur.vUUId ≤ VectorClock.At rmBal.ballot.clock cur.vUUId) ∧
        (cur1.Vote = Vote.AbortBadRead ↔
          VectorClock.At rmBal.ballot.clock cur.vUUId < VectorClock.At cur.Clock cur.vUUId) ∧
        ∀ w, VectorClock.At cur1.Clock w
          = max (VectorClock.At cur.Clock w) (VectorClock.At rmBal.ballot.clock w)) ∧
    (cur.Vote = Vote.AbortDeadlock → VectorClock.Len cur.Clock ≠ 0 →
      rmBal.ballot.vote = Vote.AbortBadRead →
      (∀ e, badReads.combine cur.badReads rmBal = .error e → cur.combineVote rmBal = .error e) ∧
      ∀ br, badReads.combine cur.badReads rmBal = .ok br →
        ∃ cur1, cur.combineVote rmBal = .ok cur1 ∧
          (cur1.Vote = Vote.AbortDeadlock ↔
            VectorClock.At rmBal.ballot.clock cur.vUUId ≤ VectorClock.At cur.Clock cur.vUUId) ∧
          (cur1.Vote = Vote.AbortBadRead ↔
            VectorClock.At cur.Clock cur.vUUId < VectorClock.At rmBal.ballot.clock cur.vUUId) ∧
          ∀ w, VectorClock.At cur1.Clock w
            = max (VectorClock.At cur.Clock w) (VectorClock.At rmBal.ballot.clock w)) := by
  constructor
  · intro hc hn hlen
    have hv : ¬ rmBal.ballot.vote = Vote.AbortBadRead := by rw [hn]; decide
    refine ⟨_, by unfold varBallotReducer.combineVote; rw [if_neg hv], ?_⟩
    rw [combineSwitch_badRead_deadlock cur rmBal hc hn hlen]
    by_cases hlt : VectorClock.At rmBal.ballot.clock cur.vUUId < VectorClock.At cur.Clock cur.vUUId
    · rw [if_pos hlt]
      refine ⟨?_, ?_, fun w => VectorClock.At_MergeInMax _ _ w⟩
      · simp only [hc]
        constructor
        · intro h; cases h
        · intro h; omega
      · simp only [hc]
        exact ⟨fun _ => hlt, fun _ => trivial⟩
    · rw [if_neg hlt]
      refine ⟨?_, ?_, fun w => VectorClock.At_MergeInMax _ _ w⟩
      · exact ⟨fun _ => Nat.le_of_not_lt hlt, fun _ => rfl⟩
      · constructor
        · intro h; cases h
        · intro h; exact absurd h hlt
  · intro hc hlen hn
    constructor
    · intro e he
      unfold varBallotReducer.combineVote
      rw [if_pos hn, he]
    · intro br hbr
      refine ⟨_, by unfold varBallotReducer.combineVote; rw [if_pos hn, hbr], ?_⟩
      rw [combineSwitch_deadlock_badRead { cur with badReads := br } rmBal hc hlen hn]
      by_cases hgt : VectorClock.At rmBal.ballot.clock cur.vUUId
          > VectorClock.At cur.Clock cur.vUUId
      · rw [if_pos hgt]
        refine ⟨?_, ?_, fun w => VectorClock.At_MergeInMax _ _ w⟩
        · constructor
          · intro h; cases h
          · intro h; omega
        · exact ⟨fun _ => hgt, fun _ => rfl⟩
      · rw [if_neg hgt]
        refine ⟨?_, ?_, fun w => VectorClock.At_MergeInMax _ _ w⟩
        · simp only [hc]
          exact ⟨fun _ => Nat.le_of_not_lt hgt, fun _ => trivial⟩
        · simp only [hc]
          constructor
          · intro h; cases h
          · intro h; exact absurd h hgt

theorem combineVote_badRead_deadlock_witness :
    VectorClock.At badReadReducer.Clock 10 = 5 ∧
    VectorClock.At staleDeadlock.ballot.clock 10 = 4 ∧
    ∃ cur1, badReadReducer.combineVote staleDeadlock = .ok cur1 ∧
      (cur1.Vote = Vote.AbortDeadlock ↔
        VectorClock.At badReadReducer.Clock badReadReducer.vUUId
          ≤ VectorClock.At staleDeadlock.ballot.clock badReadReducer.vUUId) ∧
      (cur1.Vote = Vote.AbortBadRead ↔
        VectorClock.At staleDeadlock.ballot.clock badReadReducer.vUUId
          < VectorClock.At badReadReducer.Clock badReadReducer.vUUId) ∧
      ∀ w, VectorClock.At cur1.Clock w
        = max (VectorClock.At badReadReducer.Clock w)
            (VectorClock.At staleDeadlock.ballot.clock w) :=
  ⟨by decide, by decide,
   (combineVote_badRead_deadlock badReadReducer staleDeadlock).1 rfl rfl (by decide)⟩

theorem u64dec_pos (c : Nat) (h0 : 0 < c) (h1 : c < 18446744073709551616) :
    u64dec c = c - 1 := by
  unfold u64dec
  omega

/-- C22: when the table has no entry for the variable of an action,
badReads.combine adds one at the end of the table. For a read-only action
whose witness clock element c is positive it records the version the action
read and c - 1; for any other action (a write of any kind) it records the
TxnId of the witness ballot and c. -/
theorem combineAction_new_entry (br : badReads) (rmBal : rmBallot) (action : Action)
    (hno : br.has action.varId = false) :
    (IsReadOnly action = true → 0 < witnessClockElem rmBal action →
      badReads.combineAction br rmBal action = .ok
        (br ++ [{ rmBallot := rmBal, vUUId := action.varId, txnId := action.existingRead,
                  clockElem := witnessClockElem rmBal action - 1, action := action }])) ∧
    (IsReadOnly action = false →
      badReads.combineAction br rmBal action = .ok
        (br ++ [{ rmBallot := rmBal, vUUId := action.varId,
                  txnId := rmBal.ballot.voteCap.txnId,
                  clockElem := witnessClockElem rmBal action, action := action }])) := by
  unfold badReads.has at hno
  unfold witnessClockElem
  constructor
  · intro hro hpos
    unfold badReads.combineAction
    simp only [hno, hro, Bool.false_eq_true, if_false, if_true]
    rw [if_neg (by omega)]
  · intro hro
    unfold badReads.combineAction
    simp only [hno, hro, Bool.false_eq_true, if_false]

theorem combineAction_new_entry_witness :
    NewBadReads.has readOf7.varId = false ∧
    witnessClockElem firstReadRmBallot readOf7 = 3 ∧
    badReads.combineAction NewBadReads firstReadRmBallot readOf7
      = .ok (NewBadReads ++
          [{ rmBallot := firstReadRmBallot, vUUId := readOf7.varId,
             txnId := readOf7.existingRead,
             clockElem := witnessClockElem firstReadRmBallot readOf7 - 1,
             action := readOf7 }]) :=
  ⟨rfl, by decide,
   (combineAction_new_entry NewBadReads firstReadRmBallot readOf7 rfl).1 rfl (by decide)⟩

theorem combine_both_read (bra : badReadAction) (newAction : Action) (rmBal : rmBallot)
    (txnId clockElem : Nat) (h1 : IsReadOnly bra.action = true)
    (h2 : IsReadOnly newAction = true) :
    bra.combine newAction rmBal txnId clockElem
      = if pairLt (bra.clockElem, bra.txnId) (u64dec clockElem, newAction.existingRead)
        then bra.set newAction rmBal newAction.existingRead (u64dec clockElem) else bra := by
  unfold badReadAction.combine pairLt
  simp only [h1, h2, Bool.and_self, if_true]
  by_cases hc : bra.clockElem < u64dec clockElem ∨
      (bra.clockElem = u64dec clockElem ∧ bra.txnId < newAction.existingRead)
  · rw [if_pos hc, if_pos]
    rcases hc with hc | hc
    · simp [hc]
    · simp [hc.1, hc.2]
  · rw [if_neg hc, if_neg]
    intro h
    apply hc
    simp only [Bool.or_eq_true, decide_eq_true_eq, Bool.and_eq_true, beq_iff_eq, gt_iff_lt] at h
    rcases h with h | h
    · exact Or.inl h
    · exact Or.inr ⟨h.1.symm, h.2⟩

theorem combine_both_write (bra : badReadAction) (newAction : Action) (rmBal : rmBallot)
    (txnId clockElem : Nat) (h1 : IsReadOnly bra.action = false)
    (h2 : IsReadOnly newAction = false) :
    bra.combine newAction rmBal txnId clockElem
      = if pairLt (bra.clockElem, bra.txnId) (clockElem, txnId)
        then bra.set newAction rmBal txnId clockElem else bra := by
  unfold badReadAction.combine pairLt
  simp only [h1, h2, Bool.and_self, Bool.false_eq_true, if_false, Bool.not_false, if_true]
  by_cases hc : bra.clockElem < clockElem ∨ (bra.clockElem = clockElem ∧ bra.txnId < txnId)
  · rw [if_pos hc, if_pos]
    rcases hc with hc | hc
    · simp [hc]
    · simp [hc.1, hc.2]
  · rw [if_neg hc, if_neg]
    intro h
    apply hc
    simp only [Bool.or_eq_true, decide_eq_true_eq, Bool.and_eq_true, beq_iff_eq, gt_iff_lt] at h
    rcases h with h | h
    · exact Or.inl h
    · exact Or.inr ⟨h.1.symm, h.2⟩

theorem combine_read_write (bra : badReadAction) (newAction : Action) (rmBal : rmBallot)
    (txnId clockElem : Nat) (h1 : IsReadOnly bra.action = true)
    (h2 : IsReadOnly newAction = false) :
    bra.combine newAction rmBal txnId clockElem
      = if bra.txnId = txnId ∨ bra.clockElem < clockElem
        then bra.set newAction rmBal txnId clockElem else bra := by
  unfold badReadAction.combine
  simp only [h1, h2, Bool.and_false, Bool.false_eq_true, if_false, Bool.not_true,
    Bool.false_and, if_true]
  by_cases he : bra.txnId = txnId
  · simp [he]
  · by_cases hc : bra.clockElem < clockElem
    · simp [he, hc]
    · simp [he, hc]

theorem combine_write_read (bra : badReadAction) (newAction : Action) (rmBal : rmBallot)
    (txnId clockElem : Nat) (h1 : IsReadOnly bra.action = false)
    (h2 : IsReadOnly newAction = true) :
    bra.combine newAction rmBal txnId clockElem
      = if bra.txnId = newAction.existingRead then bra
        else if pairLt (bra.clockElem, bra.txnId) (u64dec clockElem, newAction.existingRead)
        then bra.set newAction rmBal newAction.existingRead (u64dec clockElem) else bra := by
  unfold badReadAction.combine pairLt
  simp only [h1, h2, Bool.false_and, Bool.false_eq_true, if_false, Bool.not_false,
    Bool.not_true, Bool.and_false]
  by_cases he : bra.txnId = newAction.existingRead
  · simp [he]
  · simp only [ne_eq, he, not_false_eq_true, if_true, if_false]
    by_cases hc : bra.clockElem < u64dec clockElem ∨
        (bra.clockElem = u64dec clockElem ∧ bra.txnId < newAction.existingRead)
    · rw [if_pos hc, if_pos]
      rcases hc with hc | hc
      · simp [hc]
      · simp [hc.1, hc.2]
    · rw [if_neg hc, if_neg]
      intro h
      apply hc
      simp only [Bool.or_eq_true, decide_eq_true_eq, Bool.and_eq_true, beq_iff_eq,
        gt_iff_lt] at h
      rcases h with h | h
      · exact Or.inl h
      · exact Or.inr ⟨h.1.symm, h.2⟩

/-- C23: when the entry and the incoming action are both read-only,
badReadAction.combine replaces the entry (witness ballot, txnId, clockElem and
action) if and only if the entry's pair (clockElem, txnId) is strictly below
(witness clockElem - 1, version read) in lexicographic order; when neither is
read-only, if and only if it is strictly below (witness clockElem, witness
TxnId); otherwise the entry is unchanged. The decrement is the uint64 one: it
is clockElem - 1 for a positive clock element. -/
theorem combine_same_kind (bra : badReadAction) (newAction : Action) (rmBal : rmBallot)
    (txnId clockElem : Nat) :
    (IsReadOnly bra.action = true → IsReadOnly newAction = true →
      bra.combine newAction rmBal txnId clockElem
        = if pairLt (bra.clockElem, bra.txnId) (u64dec clockElem, newAction.existingRead)
          then bra.set newAction rmBal newAction.existingRead (u64dec clockElem) else bra) ∧
    (IsReadOnly bra.action = false → IsReadOnly newAction = false →
      bra.combine newAction rmBal txnId clockElem
        = if pairLt (bra.clockElem, bra.txnId) (clockElem, txnId)
          then bra.set newAction rmBal txnId clockElem else bra) ∧
    (0 < clockElem → clockElem < 18446744073709551616 → u64dec clockElem = clockElem - 1) ∧
    (∀ newTxnId newClockElem,
      (bra.set newAction rmBal newTxnId newClockElem).rmBallot = rmBal ∧
      (bra.set newAction rmBal newTxnId newClockElem).vUUId = bra.vUUId ∧
      (bra.set newAction rmBal newTxnId newClockElem).txnId = newTxnId ∧
      (bra.set newAction rmBal newTxnId newClockElem).clockElem = newClockElem ∧
      (bra.set newAction rmBal newTxnId newClockElem).action = newAction) := by
  refine ⟨?_, ?_, u64dec_pos clockElem, fun _ _ => ⟨rfl, rfl, rfl, rfl, rfl⟩⟩
  · intro h1 h2
    unfold badReadAction.combine pairLt
    simp only [h1, h2, Bool.and_self, if_true]
    by_cases hc : bra.clockElem < u64dec clockElem ∨
        (bra.clockElem = u64dec clockElem ∧ bra.txnId < newAction.existingRead)
    · rw [if_pos hc, if_pos]
      rcases hc with hc | hc
      · simp [hc]
      · simp [hc.1, hc.2]
    · rw [if_neg hc, if_neg]
      intro h
      apply hc
      simp only [Bool.or_eq_true, decide_eq_true_eq, Bool.and_eq_true, beq_iff_eq, gt_iff_lt] at h
      rcases h with h | h
      · exact Or.inl h
      · exact Or.inr ⟨h.1.symm, h.2⟩
  · intro h1 h2
    unfold badReadAction.combine pairLt
    simp only [h1, h2, Bool.and_self, Bool.false_eq_true, if_false, Bool.not_false, if_true]
    by_cases hc : bra.clockElem < clockElem ∨ (bra.clockElem = clockElem ∧ bra.txnId < txnId)
    · rw [if_pos hc, if_pos]
      rcases hc with hc | hc
      · simp [hc]
      · simp [hc.1, hc.2]
    · rw [if_neg hc, if_neg]
      intro h
      apply hc
      simp only [Bool.or_eq_true, decide_eq_true_eq, Bool.and_eq_true, beq_iff_eq, gt_iff_lt] at h
      rcases h with h | h
      · exact Or.inl h
      · exact Or.inr ⟨h.1.symm, h.2⟩

theorem combine_same_kind_witness :
    readEntry.combine readOf8 firstReadRmBallot 20 3
      = (if pairLt (readEntry.clockElem, readEntry.txnId) (u64dec 3, readOf8.existingRead)
         then readEntry.set readOf8 firstReadRmBallot readOf8.existingRead (u64dec 3)
         else readEntry) ∧
    pairLt (readEntry.clockElem, readEntry.txnId) (u64dec 3, readOf8.existingRead) :=
  ⟨(combine_same_kind readEntry readOf8 firstReadRmBallot 20 3).1 rfl rfl, by decide⟩

/-- C24: when the entry is read-only and the incoming action is not,
badReadAction.combine replaces the entry if and only if the witness TxnId
equals the entry's txnId (the version read) or the witness clockElem is
strictly greater than the entry's. When the entry is not read-only and the
incoming action is, the entry is kept if the version read equals the entry's
txnId, and otherwise replaced if and only if the entry's pair (clockElem,
txnId) is strictly below (witness clockElem - 1, version read) in
lexicographic order, the decrement being the uint64 one. A replaced entry
holds the incoming witness ballot, action, txnId and clockElem and keeps its
variable; an entry that is kept is unchanged. -/
theorem combine_mixed_kind (bra : badReadAction) (newAction : Action) (rmBal : rmBallot)
    (txnId clockElem : Nat) :
    (IsReadOnly bra.action = true → IsReadOnly newAction = false →
      bra.combine newAction rmBal txnId clockElem
        = if bra.txnId = txnId ∨ bra.clockElem < clockElem
          then { rmBallot := rmBal, vUUId := bra.vUUId, txnId := txnId,
                 clockElem := clockElem, action := newAction }
          else bra) ∧
    (IsReadOnly bra.action = false → IsReadOnly newAction = true →
      bra.combine newAction rmBal txnId clockElem
        = if bra.txnId = newAction.existingRead then bra
          else if pairLt (bra.clockElem, bra.txnId) (u64dec clockElem, newAction.existingRead)
          then { rmBallot := rmBal, vUUId := bra.vUUId, txnId := newAction.existingRead,
                 clockElem := u64dec clockElem, action := newAction }
          else bra) ∧
    (0 < clockElem → clockElem < 18446744073709551616 → u64dec clockElem = clockElem - 1) ∧
    (∀ newTxnId newClockElem,
      (bra.set newAction rmBal newTxnId newClockElem).rmBallot = rmBal ∧
      (bra.set newAction rmBal newTxnId newClockElem).vUUId = bra.vUUId ∧
      (bra.set newAction rmBal newTxnId newClockElem).txnId = newTxnId ∧
      (bra.set newAction rmBal newTxnId newClockElem).clockElem = newClockElem ∧
      (bra.set newAction rmBal newTxnId newClockElem).action = newAction) := by
  refine ⟨?_, ?_, u64dec_pos clockElem, fun _ _ => ⟨rfl, rfl, rfl, rfl, rfl⟩⟩
  · intro h1 h2
    rw [combine_read_write bra newAction rmBal txnId clockElem h1 h2]
    rfl
  · intro h1 h2
    rw [combine_write_read bra newAction rmBal txnId clockElem h1 h2]
    rfl

/-- Witness of C24: a write by transaction 7, the version the entry read,
replaces the read entry although its clock element 1 is below the entry's 2;
a read of version 7 leaves the entry of a write by transaction 7 alone. -/
theorem combine_mixed_kind_witness :
    readEntry.combine writeOf10 firstReadRmBallot 7 1
      = { rmBallot := firstReadRmBallot, vUUId := 10, txnId := 7, clockElem := 1,
          action := writeOf10 } ∧
    readEntry.combine writeOf10 firstReadRmBallot 7 1 ≠ readEntry ∧
    writeEntry.combine readOf7 firstReadRmBallot 20 9 = writeEntry :=
  ⟨((combine_mixed_kind readEntry writeOf10 firstReadRmBallot 7 1).1 rfl rfl).trans rfl,
   by decide,
   ((combine_mixed_kind writeEntry readOf7 firstReadRmBallot 20 9).2.1 rfl rfl).trans rfl⟩

theorem combineAction_first (c : Candidate) (hpos : 0 < c.clockElem) :
    badReads.combineAction NewBadReads c.rmBal c.action = .ok [c.entry] := by
  unfold badReads.combineAction Candidate.entry Candidate.effClock Candidate.effTxnId
  unfold Candidate.clockElem witnessClockElem at *
  by_cases hro : IsReadOnly c.action = true
  · simp only [NewBadReads, List.any_nil, Bool.false_eq_true, if_false, hro, if_true]
    rw [if_neg (by omega)]
    rfl
  · simp only [NewBadReads, List.any_nil, Bool.false_eq_true, if_false, hro]
    rfl

theorem combineAction_second (a b : Candidate) (hvar : a.action.varId = b.action.varId) :
    badReads.combineAction [a.entry] b.rmBal b.action
      = .ok [a.entry.combine b.action b.rmBal b.rmBal.ballot.voteCap.txnId b.clockElem] := by
  unfold badReads.combineAction
  have h : ([a.entry] : badReads).any (fun bra => bra.vUUId == b.action.varId) = true := by
    simp [Candidate.entry, hvar]
  simp only [h, if_true]
  have h2 : a.entry.vUUId = b.action.varId := hvar
  simp only [badReads.modify, h2, if_true]
  rfl

theorem insertBoth_eq (a b : Candidate) (hvar : a.action.varId = b.action.varId)
    (hpos : 0 < a.clockElem) :
    insertBoth a b
      = .ok [a.entry.combine b.action b.rmBal b.rmBal.ballot.voteCap.txnId b.clockElem] := by
  unfold insertBoth
  rw [combineAction_first a hpos]
  exact combineAction_second a b hvar

theorem entry_set (a b : Candidate) (hvar : a.action.varId = b.action.varId) :
    a.entry.set b.action b.rmBal b.effTxnId b.effClock = b.entry := by
  unfold badReadAction.set Candidate.entry
  simp [hvar]

/-- The entry left by the first candidate after the second was combined in,
in terms of the effective pairs. -/
theorem entry_combine (a b : Candidate) (hvar : a.action.varId = b.action.varId)
    (hb1 : 0 < b.clockElem) (hb2 : b.clockElem < 18446744073709551616) :
    a.entry.combine b.action b.rmBal b.rmBal.ballot.voteCap.txnId b.clockElem
      = if IsReadOnly a.action = IsReadOnly b.action then
          (if pairLt (a.effClock, a.effTxnId) (b.effClock, b.effTxnId) then b.entry else a.entry)
        else if IsReadOnly a.action = true then
          (if a.effTxnId = b.effTxnId ∨ a.effClock < b.effClock then b.entry else a.entry)
        else
          (if a.effTxnId = b.effTxnId then a.entry
           else if pairLt (a.effClock, a.effTxnId) (b.effClock, b.effTxnId) then b.entry
           else a.entry) := by
  have hdec := u64dec_pos b.clockElem hb1 hb2
  have hc : a.entry.clockElem = a.effClock := rfl
  have ht : a.entry.txnId = a.effTxnId := rfl
  by_cases ha : IsReadOnly a.action = true
  · by_cases hb : IsReadOnly b.action = true
    · have e1 : b.effClock = u64dec b.clockElem := by simp [Candidate.effClock, hb, hdec]
      have e2 : b.effTxnId = b.action.existingRead := by simp [Candidate.effTxnId, hb]
      rw [combine_both_read a.entry b.action b.rmBal _ _ ha hb, ← e1, ← e2,
        entry_set a b hvar, hc, ht]
      simp only [ha, hb, if_true]
    · have hb' : IsReadOnly b.action = false := by simpa using hb
      have e1 : b.effClock = b.clockElem := by simp [Candidate.effClock, hb']
      have e2 : b.effTxnId = b.rmBal.ballot.voteCap.txnId := by simp [Candidate.effTxnId, hb']
      rw [combine_read_write a.entry b.action b.rmBal _ _ ha hb', ← e1, ← e2,
        entry_set a b hvar, hc, ht]
      simp only [ha, hb', Bool.true_eq_false, if_false, if_true]
  · have ha' : IsReadOnly a.action = false := by simpa using ha
    by_cases hb : IsReadOnly b.action = true
    · have e1 : b.effClock = u64dec b.clockElem := by simp [Candidate.effClock, hb, hdec]
      have e2 : b.effTxnId = b.action.existingRead := by simp [Candidate.effTxnId, hb]
      rw [combine_write_read a.entry b.action b.rmBal _ _ ha' hb, ← e1, ← e2,
        entry_set a b hvar, hc, ht]
      simp only [ha', hb, Bool.false_eq_true, if_false]
    · have hb' : IsReadOnly b.action = false := by simpa using hb
      have e1 : b.effClock = b.clockElem := by simp [Candidate.effClock, hb']
      have e2 : b.effTxnId = b.rmBal.ballot.voteCap.txnId := by simp [Candidate.effTxnId, hb']
      rw [combine_both_write a.entry b.action b.rmBal _ _ ha' hb', ← e1, ← e2,
        entry_set a b hvar, hc, ht]
      simp only [ha', hb', if_true]

theorem insertBoth_tieBreak (a b : Candidate) (hvar : a.action.varId = b.action.varId)
    (ha1 : 0 < a.clockElem) (hb1 : 0 < b.clockElem) (hb2 : b.clockElem < 18446744073709551616) :
    insertBoth a b = .ok [tieBreak (IsReadOnly a.action) (IsReadOnly b.action)
      a.effClock a.effTxnId b.effClock b.effTxnId a.entry b.entry] := by
  rw [insertBoth_eq a b hvar ha1, entry_combine a b hvar hb1 hb2]
  rfl

theorem tieBreak_firstStays {α : Type} (ra rb : Bool) (ca ta cb tb : Nat) (x y : α)
    (h : (ra = rb ∧ ca = cb ∧ ta = tb) ∨ (ra = true ∧ rb = false ∧ ca = cb ∧ ta < tb) ∨
      (ra = false ∧ rb = true ∧ ca = cb ∧ tb < ta)) :
    tieBreak ra rb ca ta cb tb x y = x := by
  unfold tieBreak pairLt
  rcases h with ⟨h1, h2, h3⟩ | ⟨h1, h2, h3, h4⟩ | ⟨h1, h2, h3, h4⟩
  · subst h1 h2 h3
    simp
  · subst h1 h2 h3
    have : ¬ ta = tb := by omega
    simp [this]
  · subst h1 h2 h3
    have h5 : ¬ ta = tb := by omega
    have h6 : ¬ ta < tb := by omega
    simp [h5, h6]

theorem tieBreak_comm {α : Type} (ra rb : Bool) (ca ta cb tb : Nat) (x y : α)
    (h : ¬ ((ra = rb ∧ ca = cb ∧ ta = tb) ∨ (ra = true ∧ rb = false ∧ ca = cb ∧ ta < tb) ∨
      (ra = false ∧ rb = true ∧ ca = cb ∧ tb < ta))) :
    tieBreak ra rb ca ta cb tb x y = tieBreak rb ra cb tb ca ta y x := by
  unfold tieBreak pairLt
  cases ra <;> cases rb <;> simp only [Bool.false_eq_true, Bool.true_eq_false, if_true, if_false,
    true_and, false_and, and_false, or_false, false_or, not_true_eq_false, not_false_eq_true,
    reduceCtorEq] at h ⊢
  · rcases Nat.lt_trichotomy ca cb with h1 | h1 | h1
    · have : ¬ cb < ca := by omega
      have h2 : ¬ cb = ca := by omega
      simp [h1, this, h2]
    · subst h1
      rcases Nat.lt_trichotomy ta tb with h2 | h2 | h2
      · have : ¬ tb < ta := by omega
        simp [h2, this]
      · exact absurd (And.intro (rfl : ca = ca) h2) h
      · have : ¬ ta < tb := by omega
        simp [h2, this]
    · have : ¬ ca < cb := by omega
      have h2 : ¬ ca = cb := by omega
      simp [h1, this, h2]
  · by_cases ht : ta = tb
    · subst ht
      simp
    · have ht2 : ¬ tb = ta := fun h3 => ht h3.symm
      simp only [ht, ht2, if_false, false_or]
      rcases Nat.lt_trichotomy ca cb with h1 | h1 | h1
      · have : ¬ cb < ca := by omega
        simp [h1, this]
      · subst h1
        have h3 : ¬ tb < ta := by
          intro h4
          exact h ⟨rfl, h4⟩
        have h4 : ta < tb := by omega
        simp [h4]
      · have : ¬ ca < cb := by omega
        have h2 : ¬ ca = cb := by omega
        simp [h1, this, h2]
  · by_cases ht : ta = tb
    · subst ht
      simp
    · have ht2 : ¬ tb = ta := fun h3 => ht h3.symm
      simp only [ht, ht2, if_false, false_or]
      rcases Nat.lt_trichotomy ca cb with h1 | h1 | h1
      · have : ¬ cb < ca := by omega
        have h2 : ¬ cb = ca := by omega
        simp [h1, this, h2]
      · subst h1
        have h3 : ¬ ta < tb := by
          intro h4
          exact h ⟨rfl, h4⟩
        have h4 : tb < ta := by omega
        simp [h4, h3]
      · have : ¬ ca < cb := by omega
        simp [h1, this]
  · rcases Nat.lt_trichotomy ca cb with h1 | h1 | h1
    · have : ¬ cb < ca := by omega
      have h2 : ¬ cb = ca := by omega
      simp [h1, this, h2]
    · subst h1
      rcases Nat.lt_trichotomy ta tb with h2 | h2 | h2
      · have : ¬ tb < ta := by omega
        simp [h2, this]
      · exact absurd (And.intro (rfl : ca = ca) h2) h
      · have : ¬ ta < tb := by omega
        simp [h2, this]
    · have : ¬ ca < cb := by omega
      have h2 : ¬ ca = cb := by omega
      simp [h1, this, h2]

theorem firstStays_symm (a b : Candidate) (h : a.firstStays b) : b.firstStays a := by
  unfold Candidate.firstStays at h ⊢
  rcases h with ⟨h1, h2, h3⟩ | ⟨h1, h2, h3, h4⟩ | ⟨h1, h2, h3, h4⟩
  · exact Or.inl ⟨h1.symm, h2.symm, h3.symm⟩
  · exact Or.inr (Or.inr ⟨h2, h1, h3.symm, h4⟩)
  · exact Or.inr (Or.inl ⟨h2, h1, h3.symm, h4⟩)

theorem tieBreak_either {α : Type} (ra rb : Bool) (ca ta cb tb : Nat) (x y : α) :
    tieBreak ra rb ca ta cb tb x y = x ∨ tieBreak ra rb ca ta cb tb x y = y := by
  unfold tieBreak
  split_ifs <;> simp

/-- C25, as amended: for two bad-read candidates for the same variable, each
with a positive witness clock element, inserting them into the empty table in
either order returns a table with one entry. The entry is the same in both
orders unless the candidates are of the same kind (both read-only, or both
writes) with the same effective pair (clockElem, txnId), or one is read-only
and the other a write with the same effective clock element and the version
read is below the TxnId of the write; in those cases the candidate inserted
first stays. -/
theorem insertBoth_order (a b : Candidate) (hvar : a.action.varId = b.action.varId)
    (ha1 : 0 < a.clockElem) (ha2 : a.clockElem < 18446744073709551616)
    (hb1 : 0 < b.clockElem) (hb2 : b.clockElem < 18446744073709551616) :
    (a.firstStays b ↔ b.firstStays a) ∧
    (a.firstStays b → insertBoth a b = .ok [a.entry] ∧ insertBoth b a = .ok [b.entry]) ∧
    (¬ a.firstStays b → insertBoth a b = insertBoth b a ∧
      (insertBoth a b = .ok [a.entry] ∨ insertBoth a b = .ok [b.entry])) := by
  have hab := insertBoth_tieBreak a b hvar ha1 hb1 hb2
  have hba := insertBoth_tieBreak b a hvar.symm hb1 ha1 ha2
  refine ⟨⟨firstStays_symm a b, firstStays_symm b a⟩, ?_, ?_⟩
  · intro h
    have h' := firstStays_symm a b h
    rw [hab, hba, tieBreak_firstStays _ _ _ _ _ _ _ _ h, tieBreak_firstStays _ _ _ _ _ _ _ _ h']
    exact ⟨rfl, rfl⟩
  · intro h
    rw [hab, hba, tieBreak_comm _ _ _ _ _ _ _ _ h]
    refine ⟨rfl, ?_⟩
    rcases tieBreak_either (IsReadOnly b.action) (IsReadOnly a.action) b.effClock b.effTxnId
      a.effClock a.effTxnId b.entry a.entry with h1 | h1
    · exact Or.inr (by rw [h1])
    · exact Or.inl (by rw [h1])

theorem insertBoth_order_witness :
    ¬ readCandidate.firstStays laterWriteCandidate ∧
    insertBoth readCandidate laterWriteCandidate
      = insertBoth laterWriteCandidate readCandidate ∧
    (insertBoth readCandidate laterWriteCandidate = .ok [readCandidate.entry] ∨
      insertBoth readCandidate laterWriteCandidate = .ok [laterWriteCandidate.entry]) :=
  ⟨by decide,
   (insertBoth_order readCandidate laterWriteCandidate rfl
      (by decide) (by decide) (by decide) (by decide)).2.2 (by decide)⟩

/-- Counterexample to C25 as stated: a read of version 5 witnessed at clock
element 4 and a write by transaction 7 witnessed at clock element 3, both for variable
10. Inserted read first, the table keeps the read; inserted write
first, it keeps the write. -/
theorem insertBoth_order_counterexample :
    readCandidate.action.varId = writeCandidate.action.varId ∧
    0 < readCandidate.clockElem ∧ 0 < writeCandidate.clockElem ∧
    insertBoth readCandidate writeCandidate = .ok [readCandidate.entry] ∧
    insertBoth writeCandidate readCandidate = .ok [writeCandidate.entry] ∧
    readCandidate.entry.txnId = 5 ∧ writeCandidate.entry.txnId = 7 :=
  ⟨rfl, by decide, by decide, rfl, rfl, rfl, rfl⟩

theorem AddToSeg_eq (br : badReads) :
    br.AddToSeg = (badReads.groupByTxnId br []).map groupUpdate := rfl

theorem lookupGroup_map (groups : List (Nat × List badReadAction)) (bra : badReadAction)
    (t : Nat) :
    lookupGroup (groups.map (fun g => if g.1 = bra.txnId then (g.1, g.2 ++ [bra]) else g)) t
      = if bra.txnId = t ∧ groups.any (fun g => g.1 == bra.txnId) = true
        then lookupGroup groups t ++ [bra] else lookupGroup groups t := by
  unfold lookupGroup
  induction groups with
  | nil => simp
  | cons g rest ih =>
    by_cases hb : g.1 = bra.txnId
    · rw [List.map_cons, if_pos hb]
      by_cases hg : g.1 = t
      · have hbt : bra.txnId = t := by rw [← hb, hg]
        have h1 : ((g.1, g.2 ++ [bra]).1 == t) = true := by simp [hg]
        have h2 : (g.1 == t) = true := by simp [hg]
        have h3 : (g.1 == bra.txnId) = true := by simp [hb]
        simp only [List.find?_cons, h1, h2, List.any_cons, h3, Bool.true_or, hbt, and_self,
          if_true]
      · have hbt : ¬ bra.txnId = t := by
          intro h; apply hg; rw [hb, h]
        have h1 : ((g.1, g.2 ++ [bra]).1 == t) = false := by simp [hg]
        have h2 : (g.1 == t) = false := by simp [hg]
        simp only [List.find?_cons, h1, h2, hbt, false_and, if_false]
        simp only [hbt, false_and, if_false] at ih
        exact ih
    · rw [List.map_cons, if_neg hb]
      have h3 : (g.1 == bra.txnId) = false := by simp [hb]
      by_cases hg : g.1 = t
      · have hbt : ¬ bra.txnId = t := by
          intro h; apply hb; rw [hg, h]
        have h2 : (g.1 == t) = true := by simp [hg]
        simp only [List.find?_cons, h2, hbt, false_and, if_false]
      · have h2 : (g.1 == t) = false := by simp [hg]
        simp only [List.find?_cons, h2, List.any_cons, h3, Bool.false_or]
        exact ih

theorem lookupGroup_append_new (groups : List (Nat × List badReadAction)) (bra : badReadAction)
    (t : Nat) (hnew : groups.any (fun g => g.1 == bra.txnId) = false) :
    lookupGroup (groups ++ [(bra.txnId, [bra])]) t
      = if bra.txnId = t then [bra] else lookupGroup groups t := by
  unfold lookupGroup
  induction groups with
  | nil =>
    by_cases h : bra.txnId = t
    · simp [h]
    · simp [h]
  | cons g rest ih =>
    simp only [List.any_cons, Bool.or_eq_false_iff] at hnew
    have hgb : ¬ g.1 = bra.txnId := by simpa using hnew.1
    by_cases hg : g.1 = t
    · have hbt : ¬ bra.txnId = t := by
        intro h; apply hgb; rw [hg, h]
      simp [List.find?_cons, hg, hbt]
    · have hne : (g.1 == t) = false := by simp [hg]
      simp only [List.cons_append, List.find?_cons, hne]
      exact ih hnew.2

theorem lookupGroup_none (groups : List (Nat × List badReadAction)) (t : Nat)
    (h : groups.any (fun g => g.1 == t) = false) : lookupGroup groups t = [] := by
  unfold lookupGroup
  have : groups.find? (fun g => g.1 == t) = none := by
    rw [List.find?_eq_none]
    intro x hx hxt
    have hh : groups.any (fun g => g.1 == t) = true := List.any_eq_true.mpr ⟨x, hx, hxt⟩
    rw [h] at hh
    cases hh
  rw [this]

/-- The first loop of AddToSeg: the keys stay distinct, they are the keys it
started with and the txnIds of the entries, and the group of a key is the
group it started with followed by the entries recorded under the key. -/
theorem groupByTxnId_spec (l : List badReadAction) (groups : List (Nat × List badReadAction))
    (hnd : (groups.map Prod.fst).Nodup) :
    ((badReads.groupByTxnId l groups).map Prod.fst).Nodup ∧
    (∀ t, t ∈ (badReads.groupByTxnId l groups).map Prod.fst
      ↔ t ∈ groups.map Prod.fst ∨ t ∈ l.map (fun bra => bra.txnId)) ∧
    (∀ g ∈ badReads.groupByTxnId l groups,
      g.2 = lookupGroup groups g.1 ++ l.filter (fun bra => bra.txnId == g.1)) := by
  induction l generalizing groups with
  | nil =>
    refine ⟨hnd, fun t => by simp [badReads.groupByTxnId], ?_⟩
    intro g hg
    simp only [badReads.groupByTxnId] at hg
    simp only [List.filter_nil, List.append_nil]
    unfold lookupGroup
    obtain ⟨i, hi, hgi⟩ := List.getElem_of_mem hg
    have hfind : groups.find? (fun x => x.1 == g.1) = some g := by
      clear hgi hi i
      induction groups with
      | nil => cases hg
      | cons x rest ih =>
        rw [List.map_cons, List.nodup_cons] at hnd
        rcases List.mem_cons.mp hg with h | h
        · subst h; simp
        · have hx : ¬ x.1 = g.1 := by
            intro hx
            apply hnd.1
            rw [hx]
            exact List.mem_map_of_mem Prod.fst h
          simp only [List.find?_cons]
          have : (x.1 == g.1) = false := by simp [hx]
          rw [this]
          exact ih hnd.2 h
    rw [hfind]
  | cons bra rest ih =>
    by_cases hany : groups.any (fun g => g.1 == bra.txnId) = true
    · have hkeys : (groups.map (fun g => if g.1 = bra.txnId then (g.1, g.2 ++ [bra]) else g)).map
          Prod.fst = groups.map Prod.fst := by
        rw [List.map_map]
        apply List.map_congr_left
        intro g _
        simp only [Function.comp]
        split_ifs <;> rfl
      have hmem : bra.txnId ∈ groups.map Prod.fst := by
        obtain ⟨g, hg, hgt⟩ := List.any_eq_true.mp hany
        have : g.1 = bra.txnId := by simpa using hgt
        rw [← this]
        exact List.mem_map_of_mem Prod.fst hg
      obtain ⟨h1, h2, h3⟩ := ih _ (by rw [hkeys]; exact hnd)
      rw [badReads.groupByTxnId, if_pos hany]
      refine ⟨h1, fun t => ?_, fun g hg => ?_⟩
      · rw [h2 t, hkeys, List.map_cons, List.mem_cons]
        constructor
        · rintro (h | h)
          · exact Or.inl h
          · exact Or.inr (Or.inr h)
        · rintro (h | h | h)
          · exact Or.inl h
          · exact Or.inl (h ▸ hmem)
          · exact Or.inr h
      · rw [h3 g hg, lookupGroup_map]
        by_cases hbt : bra.txnId = g.1
        · rw [if_pos ⟨hbt, hany⟩, List.filter_cons]
          have : (bra.txnId == g.1) = true := by simp [hbt]
          rw [if_pos this]
          simp
        · rw [if_neg (fun h => hbt h.1), List.filter_cons]
          have : ¬ (bra.txnId == g.1) = true := by simp [hbt]
          rw [if_neg this]
    · have hany' : groups.any (fun g => g.1 == bra.txnId) = false := by
        rw [Bool.not_eq_true] at hany; exact hany
      have hnot : bra.txnId ∉ groups.map Prod.fst := by
        intro hmem
        obtain ⟨g, hg, hgt⟩ := List.mem_map.mp hmem
        have hh : groups.any (fun g => g.1 == bra.txnId) = true :=
          List.any_eq_true.mpr ⟨g, hg, by simp [hgt]⟩
        rw [hany'] at hh
        cases hh
      have hnd2 : ((groups ++ [(bra.txnId, [bra])]).map Prod.fst).Nodup := by
        rw [List.map_append, List.nodup_append]
        refine ⟨hnd, List.nodup_singleton _, ?_⟩
        intro a ha hb
        simp only [List.map_cons, List.map_nil, List.mem_singleton] at hb
        rw [hb] at ha
        exact hnot ha
      obtain ⟨h1, h2, h3⟩ := ih _ hnd2
      rw [badReads.groupByTxnId, if_neg hany]
      refine ⟨h1, fun t => ?_, fun g hg => ?_⟩
      · rw [h2 t]
        simp only [List.map_append, List.mem_append, List.map_cons, List.map_nil, List.mem_cons,
          List.mem_singleton, List.not_mem_nil, or_false]
        tauto
      · rw [h3 g hg, lookupGroup_append_new groups bra g.1 hany']
        by_cases hbt : bra.txnId = g.1
        · rw [if_pos hbt, List.filter_cons]
          have : (bra.txnId == g.1) = true := by simp [hbt]
          rw [if_pos this, lookupGroup_none groups g.1 (by rw [← hbt]; exact hany')]
          simp
        · rw [if_neg hbt, List.filter_cons]
          have : ¬ (bra.txnId == g.1) = true := by simp [hbt]
          rw [if_neg this]

theorem SetVarIdMax_new (vc : VectorClock) (k n : Nat) (h : k ∉ vc.map Prod.fst) :
    VectorClock.SetVarIdMax vc k n = vc ++ [(k, n)] := by
  induction vc with
  | nil => rfl
  | cons e rest ih =>
    obtain ⟨k1, m⟩ := e
    simp only [List.map_cons, List.mem_cons, not_or] at h
    have hk : ¬ k1 = k := fun h1 => h.1 h1.symm
    rw [VectorClock.SetVarIdMax, if_neg hk, ih h.2]
    rfl

theorem groupClock_spec (g : List badReadAction) (acc : VectorClock)
    (hnd : (acc.map Prod.fst ++ g.map (fun bra => bra.vUUId)).Nodup) :
    g.foldl (fun clock bra => VectorClock.SetVarIdMax clock bra.vUUId bra.clockElem) acc
      = acc ++ g.map (fun bra => (bra.vUUId, bra.clockElem)) := by
  induction g generalizing acc with
  | nil => simp
  | cons bra rest ih =>
    have hnew : bra.vUUId ∉ acc.map Prod.fst := by
      intro hmem
      rw [List.nodup_append] at hnd
      exact hnd.2.2 hmem (List.mem_cons_self _ _)
    rw [List.foldl_cons, SetVarIdMax_new acc bra.vUUId bra.clockElem hnew, ih]
    · simp
    · simp only [List.map_append, List.map_cons, List.map_nil, List.append_assoc,
        List.singleton_append]
      simpa using hnd

theorem groupOf_nodup (br : badReads) (t : Nat)
    (hnd : (br.map (fun bra => bra.vUUId)).Nodup) :
    ((br.groupOf t).map (fun bra => bra.vUUId)).Nodup := by
  unfold badReads.groupOf
  exact (List.Sublist.map _ (List.filter_sublist br)).nodup hnd

/-- C26: for a table with one entry per variable, AddToSeg emits one Update
per txnId recorded in the table and no other, no two with the same txnId. The
actions of an Update are those of the entries recorded under its txnId, one
per entry and in table order, and its clock has exactly the variables of
those entries as keys, each with the clockElem of its entry; so every entry is
in the Update of its txnId, and no other Update has an entry for its variable.
The action of a read-only entry and of a value-less write has a missing
value; that of a create, write or read-write entry is a write with the value
and references of the original. -/
theorem addToSeg_groups (br : badReads) (hnd : (br.map (fun bra => bra.vUUId)).Nodup) :
    ((br.AddToSeg).map (fun u => u.txnId)).Nodup ∧
    (∀ t, t ∈ (br.AddToSeg).map (fun u => u.txnId) ↔ t ∈ br.map (fun bra => bra.txnId)) ∧
    (∀ u ∈ br.AddToSeg,
      u.actions = (br.groupOf u.txnId).map badReadAction.toUpdateAction ∧
      u.clock = (br.groupOf u.txnId).map (fun bra => (bra.vUUId, bra.clockElem)) ∧
      ∀ bra ∈ br.groupOf u.txnId, VectorClock.At u.clock bra.vUUId = bra.clockElem) ∧
    (∀ bra ∈ br, ∃ u ∈ br.AddToSeg, u.txnId = bra.txnId ∧ bra ∈ br.groupOf u.txnId ∧
      ∀ u1 ∈ br.AddToSeg, (∃ bra1 ∈ br.groupOf u1.txnId, bra1.vUUId = bra.vUUId) → u1 = u) ∧
    (∀ bra : badReadAction,
      (bra.toUpdateAction).varId = bra.action.varId ∧
      (IsReadOnly bra.action = true → (bra.toUpdateAction).value = ActionValue.missing) ∧
      (bra.action.value = ActionValue.missing →
        (bra.toUpdateAction).value = ActionValue.missing) ∧
      (∀ value refs, bra.action.value = ActionValue.create value refs →
        (bra.toUpdateAction).value = ActionValue.write value refs) ∧
      (∀ value refs, bra.action.value = ActionValue.write value refs →
        (bra.toUpdateAction).value = ActionValue.write value refs) ∧
      (∀ version value refs, bra.action.value = ActionValue.readWrite version value refs →
        (bra.toUpdateAction).value = ActionValue.write value refs)) := by
  obtain ⟨h1, h2, h3⟩ := groupByTxnId_spec br [] List.nodup_nil
  have hkeys : (br.AddToSeg).map (fun u => u.txnId)
      = (badReads.groupByTxnId br []).map Prod.fst := by
    rw [AddToSeg_eq, List.map_map]
    rfl
  have hgroup : ∀ g ∈ badReads.groupByTxnId br [], g.2 = br.groupOf g.1 := by
    intro g hg
    rw [h3 g hg]
    rfl
  have hupd : ∀ u ∈ br.AddToSeg,
      u.actions = (br.groupOf u.txnId).map badReadAction.toUpdateAction ∧
      u.clock = (br.groupOf u.txnId).map (fun bra => (bra.vUUId, bra.clockElem)) := by
    intro u hu
    rw [AddToSeg_eq] at hu
    obtain ⟨g, hg, hgu⟩ := List.mem_map.mp hu
    subst hgu
    have hg2 := hgroup g hg
    refine ⟨?_, ?_⟩
    · show g.2.map badReadAction.toUpdateAction = _
      rw [hg2]; rfl
    · show g.2.foldl _ NewVectorClock = _
      rw [hg2]
      have := groupClock_spec (br.groupOf g.1) [] (by simpa using groupOf_nodup br g.1 hnd)
      simpa using this
  have hmemgroup : ∀ bra t, bra ∈ br.groupOf t ↔ bra ∈ br ∧ bra.txnId = t := by
    intro bra t
    unfold badReads.groupOf
    rw [List.mem_filter]
    simp
  have hinj : ∀ u ∈ br.AddToSeg, ∀ u1 ∈ br.AddToSeg, u1.txnId = u.txnId → u1 = u := by
    intro u hu u1 hu1 heq
    have hnd1 : ((br.AddToSeg).map (fun u => u.txnId)).Nodup := by rw [hkeys]; exact h1
    exact List.inj_on_of_nodup_map hnd1 hu1 hu heq
  have hvar : ∀ x ∈ br, ∀ y ∈ br, x.vUUId = y.vUUId → x = y :=
    fun x hx y hy h => List.inj_on_of_nodup_map hnd hx hy h
  refine ⟨by rw [hkeys]; exact h1, fun t => by rw [hkeys, h2 t]; simp, ?_, ?_, ?_⟩
  · intro u hu
    obtain ⟨ha, hc⟩ := hupd u hu
    refine ⟨ha, hc, ?_⟩
    intro bra hbra
    rw [hc]
    have hndg := groupOf_nodup br u.txnId hnd
    generalize br.groupOf u.txnId = grp at hbra hndg
    induction grp with
    | nil => cases hbra
    | cons x rest ih =>
      rw [List.map_cons, List.nodup_cons] at hndg
      rw [List.map_cons, VectorClock.At_cons]
      rcases List.mem_cons.mp hbra with h | h
      · subst h
        have hrest : VectorClock.At (rest.map (fun bra => (bra.vUUId, bra.clockElem))) bra.vUUId
            = 0 := by
          have hnot := hndg.1
          clear ih hbra hndg
          induction rest with
          | nil => rfl
          | cons y rest2 ih2 =>
            simp only [List.map_cons, List.mem_cons, not_or] at hnot
            rw [List.map_cons, VectorClock.At_cons]
            have : ¬ y.vUUId = bra.vUUId := fun h => hnot.1 h.symm
            simp only [this, if_false]
            exact ih2 hnot.2
        simp [hrest]
      · have hne : ¬ x.vUUId = bra.vUUId := by
          intro heq
          apply hndg.1
          rw [heq]
          exact List.mem_map_of_mem (fun bra => bra.vUUId) h
        simp only [hne, if_false]
        exact ih h hndg.2
  · intro bra hbra
    have ht : bra.txnId ∈ (br.AddToSeg).map (fun u => u.txnId) := by
      rw [hkeys, h2]
      exact Or.inr (List.mem_map_of_mem (fun bra => bra.txnId) hbra)
    obtain ⟨u, hu, hut⟩ := List.mem_map.mp ht
    refine ⟨u, hu, hut, (hmemgroup bra u.txnId).mpr ⟨hbra, hut.symm⟩, ?_⟩
    rintro u1 hu1 ⟨bra1, hb1, hv1⟩
    obtain ⟨hb1mem, hb1t⟩ := (hmemgroup bra1 u1.txnId).mp hb1
    have : bra1 = bra := hvar bra1 hb1mem bra hbra hv1
    subst this
    exact hinj u hu u1 hu1 (by rw [← hb1t, hut])
  · intro bra
    refine ⟨?_, ?_, ?_, ?_, ?_, ?_⟩
    · unfold badReadAction.toUpdateAction
      split_ifs
      · rfl
      · split <;> rfl
      · rfl
    · intro h
      unfold badReadAction.toUpdateAction
      rw [if_pos h]
    · intro h
      unfold badReadAction.toUpdateAction IsReadOnly IsWriteWithValue
      rw [h]
      rfl
    · intro value refs h
      unfold badReadAction.toUpdateAction IsReadOnly IsWriteWithValue
      rw [h]
      rfl
    · intro value refs h
      unfold badReadAction.toUpdateAction IsReadOnly IsWriteWithValue
      rw [h]
      rfl
    · intro version value refs h
      unfold badReadAction.toUpdateAction IsReadOnly IsWriteWithValue
      rw [h]
      rfl

theorem addToSeg_groups_witness :
    (threeEntryTable.map (fun bra => bra.vUUId)).Nodup ∧
    threeEntryTable.AddToSeg
      = [{ txnId := 5,
           actions := [{ varId := 10, value := ActionValue.missing },
                       { varId := 12, value := ActionValue.write 8 9 }],
           clock := [(10, 3), (12, 4)] },
         { txnId := 7, actions := [{ varId := 11, value := ActionValue.missing }],
           clock := [(11, 2)] }] ∧
    ((threeEntryTable.AddToSeg).map (fun u => u.txnId)).Nodup ∧
    (∀ t, t ∈ (threeEntryTable.AddToSeg).map (fun u => u.txnId)
      ↔ t ∈ threeEntryTable.map (fun bra => bra.txnId)) :=
  ⟨by decide, rfl, (addToSeg_groups threeEntryTable (by decide)).1,
   (addToSeg_groups threeEntryTable (by decide)).2.1⟩

theorem SetVarIdMax_ne_nil (vc : VectorClock) (k n : Nat) :
    VectorClock.SetVarIdMax vc k n ≠ [] := by
  cases vc with
  | nil => simp [VectorClock.SetVarIdMax]
  | cons e rest =>
    obtain ⟨k1, m⟩ := e
    unfold VectorClock.SetVarIdMax
    split_ifs <;> simp

theorem MergeInMax_eq_nil (a b : VectorClock) :
    VectorClock.MergeInMax a b = [] ↔ a = [] ∧ b = [] := by
  unfold VectorClock.MergeInMax
  induction b generalizing a with
  | nil => simp
  | cons e rest ih =>
    rw [List.foldl_cons, ih]
    constructor
    · intro h
      exact absurd h.1 (SetVarIdMax_ne_nil a e.1 e.2)
    · intro h
      cases h.2

theorem clockView_nil (v w : Nat) : clockView v w [] = none := rfl

theorem clockView_MergeInMax (v w : Nat) (a b : VectorClock) :
    clockView v w (VectorClock.MergeInMax a b) = viewMerge (clockView v w a) (clockView v w b) := by
  unfold clockView
  by_cases ha : a = []
  · by_cases hb : b = []
    · subst ha hb
      rfl
    · have hm : ¬ VectorClock.MergeInMax a b = [] := fun h =>
        hb ((MergeInMax_eq_nil a b).mp h).2
      rw [if_neg hm, if_pos ha, if_neg hb]
      subst ha
      simp [viewMerge, VectorClock.At_MergeInMax, VectorClock.At_nil]
  · have hm : ¬ VectorClock.MergeInMax a b = [] := fun h =>
      ha ((MergeInMax_eq_nil a b).mp h).1
    rw [if_neg hm, if_neg ha]
    by_cases hb : b = []
    · subst hb
      simp [viewMerge, VectorClock.At_MergeInMax, VectorClock.At_nil]
    · rw [if_neg hb]
      simp [viewMerge, VectorClock.At_MergeInMax]

theorem viewAt_clockView (v w : Nat) (c : VectorClock) :
    viewAt (clockView v w c) = VectorClock.At c v := by
  unfold clockView viewAt
  by_cases hc : c = []
  · subst hc; rfl
  · rw [if_neg hc]

theorem clockView_eq_none (v w : Nat) (c : VectorClock) :
    clockView v w c = none ↔ VectorClock.Len c = 0 := by
  rw [VectorClock.Len_eq_zero]
  unfold clockView
  by_cases hc : c = []
  · simp [hc]
  · simp [hc]

theorem view_combineSwitch (w : Nat) (cur : varBallotReducer) (rmBal : rmBallot) :
    (varBallotReducer.combineSwitch cur rmBal).view w
      = viewSwitch (cur.view w) (rmBal.view cur.vUUId w) := by
  obtain ⟨v, cv, cc, ck, cs, cb⟩ := cur
  obtain ⟨rm, ⟨nv, nc, nk, ns⟩, rn⟩ := rmBal
  have e1 : ∀ c, (VectorClock.Len c = 0) = (clockView v w c = none) :=
    fun c => propext (clockView_eq_none v w c).symm
  have e2 : ∀ c, VectorClock.At c v = viewAt (clockView v w c) :=
    fun c => (viewAt_clockView v w c).symm
  unfold varBallotReducer.combineSwitch viewSwitch varBallotReducer.view rmBallot.view
  simp only [e1, e2 ck, e2 nk]
  cases cv <;> cases nv <;>
    simp only [true_and, false_and, and_true, and_false, if_true, if_false, reduceCtorEq,
      and_self] <;>
    (try split_ifs) <;> simp only [clockView_MergeInMax]

theorem viewSwitch_syn_new (z : Vote × Option (Nat × Nat)) :
    viewSwitch z (Vote.AbortDeadlock, none) = (Vote.AbortDeadlock, none) := by
  obtain ⟨zv, zc⟩ := z
  cases zv <;> rcases zc with _ | p <;> simp [viewSwitch]

theorem viewSwitch_syn_cur (x : Vote × Option (Nat × Nat)) :
    viewSwitch (Vote.AbortDeadlock, none) x = (Vote.AbortDeadlock, none) := by
  obtain ⟨xv, xc⟩ := x
  cases xv <;> simp [viewSwitch]

theorem viewSwitch_commit_commit (zc xc : Option (Nat × Nat)) :
    viewSwitch (Vote.Commit, zc) (Vote.Commit, xc) = (Vote.Commit, viewMerge zc xc) := by
  simp [viewSwitch]

theorem viewSwitch_commit_other (zc : Option (Nat × Nat)) (x : Vote × Option (Nat × Nat))
    (hx : x.1 ≠ Vote.Commit) : viewSwitch (Vote.Commit, zc) x = x := by
  obtain ⟨xv, xc⟩ := x
  cases xv
  · exact absurd rfl hx
  · simp [viewSwitch]
  · rcases xc with _ | p <;> simp [viewSwitch]

theorem viewSwitch_other_commit (z : Vote × Option (Nat × Nat)) (xc : Option (Nat × Nat))
    (hz : z.1 ≠ Vote.Commit) : viewSwitch z (Vote.Commit, xc) = z := by
  obtain ⟨zv, zc⟩ := z
  cases zv
  · exact absurd rfl hz
  · simp [viewSwitch]
  · rcases zc with _ | p <;> simp [viewSwitch]

theorem viewMerge_comm (a b : Option (Nat × Nat)) : viewMerge a b = viewMerge b a := by
  rcases a with _ | p <;> rcases b with _ | q <;> simp [viewMerge, Nat.max_comm]

theorem viewMerge_right_comm (a b c : Option (Nat × Nat)) :
    viewMerge (viewMerge a b) c = viewMerge (viewMerge a c) b := by
  rcases a with _ | p <;> rcases b with _ | q <;> rcases c with _ | r <;>
    simp only [viewMerge, Option.some.injEq, Prod.mk.injEq] <;> omega

theorem viewAt_viewMerge (a b : Option (Nat × Nat)) :
    viewAt (viewMerge a b) = max (viewAt a) (viewAt b) := by
  rcases a with _ | p <;> rcases b with _ | q <;> simp [viewMerge, viewAt]

theorem viewMerge_eq_none (a b : Option (Nat × Nat)) :
    viewMerge a b = none ↔ a = none ∧ b = none := by
  rcases a with _ | p <;> rcases b with _ | q <;> simp [viewMerge]

theorem viewSwitch_abort_abort (z x : Vote × Option (Nat × Nat)) (hz : viewAbort z)
    (hx : viewAbort x) :
    viewSwitch z x = (abortVote z.1 (viewAt z.2) x.1 (viewAt x.2), viewMerge z.2 x.2) ∧
    viewAbort (abortVote z.1 (viewAt z.2) x.1 (viewAt x.2), viewMerge z.2 x.2) := by
  obtain ⟨zv, zc⟩ := z
  obtain ⟨xv, xc⟩ := x
  unfold viewAbort viewSynthetic at hz hx ⊢
  simp only [ne_eq, not_and] at hz hx ⊢
  cases zv
  · exact absurd rfl hz.1
  · cases xv
    · exact absurd rfl hx.1
    · simp [viewSwitch, abortVote]
    · have hxc : ¬ xc = none := hx.2 rfl
      simp only [viewSwitch, abortVote, reduceCtorEq, false_and, if_false, hxc, and_false,
        true_and, and_self, if_true]
      by_cases hlt : viewAt xc < viewAt zc
      · simp [hlt]
      · simp [hlt, viewMerge_eq_none, hxc]
  · have hzc : ¬ zc = none := hz.2 rfl
    cases xv
    · exact absurd rfl hx.1
    · simp only [viewSwitch, abortVote, reduceCtorEq, false_and, if_false, hzc, and_false,
        true_and, and_self, if_true]
      by_cases hgt : viewAt xc > viewAt zc
      · simp [hgt]
      · simp [hgt, viewMerge_eq_none, hzc]
    · have hxc : ¬ xc = none := hx.2 rfl
      simp [viewSwitch, abortVote, hzc, hxc, viewMerge_eq_none]

theorem abortVote_right_comm (zv xv yv : Vote) (zm xm ym : Nat) (hz : zv ≠ Vote.Commit)
    (hx : xv ≠ Vote.Commit) (hy : yv ≠ Vote.Commit) :
    abortVote (abortVote zv zm xv xm) (max zm xm) yv ym
      = abortVote (abortVote zv zm yv ym) (max zm ym) xv xm := by
  cases zv <;> cases xv <;> cases yv <;>
    first
    | exact absurd rfl hz
    | exact absurd rfl hx
    | exact absurd rfl hy
    | (simp only [abortVote] <;> (try split_ifs) <;> (try simp only [abortVote]) <;>
        (try omega))

theorem abortVote_comm (xv yv : Vote) (xm ym : Nat) (hx : xv ≠ Vote.Commit)
    (hy : yv ≠ Vote.Commit) :
    abortVote xv xm yv ym = abortVote yv ym xv xm := by
  cases xv <;> cases yv <;>
    first
    | exact absurd rfl hx
    | exact absurd rfl hy
    | simp only [abortVote]

theorem view_kinds (p : Vote × Option (Nat × Nat)) :
    p.1 = Vote.Commit ∨ viewSynthetic p ∨ viewAbort p := by
  by_cases h1 : p.1 = Vote.Commit
  · exact Or.inl h1
  · by_cases h2 : viewSynthetic p
    · exact Or.inr (Or.inl h2)
    · exact Or.inr (Or.inr ⟨h1, h2⟩)

theorem viewSwitch_of_synthetic_new (z x : Vote × Option (Nat × Nat)) (hx : viewSynthetic x) :
    viewSwitch z x = (Vote.AbortDeadlock, none) := by
  obtain ⟨xv, xc⟩ := x
  obtain ⟨h1, h2⟩ := hx
  simp only at h1 h2
  subst h1 h2
  exact viewSwitch_syn_new z

theorem viewSwitch_of_synthetic_cur (z x : Vote × Option (Nat × Nat)) (hz : viewSynthetic z) :
    viewSwitch z x = (Vote.AbortDeadlock, none) := by
  obtain ⟨zv, zc⟩ := z
  obtain ⟨h1, h2⟩ := hz
  simp only at h1 h2
  subst h1 h2
  exact viewSwitch_syn_cur x

theorem viewSwitch_right_comm_syn (z x y : Vote × Option (Nat × Nat)) (hz : viewSynthetic z) :
    viewSwitch (viewSwitch z x) y = viewSwitch (viewSwitch z y) x := by
  obtain ⟨zv, zc⟩ := z
  obtain ⟨h1, h2⟩ := hz
  simp only at h1 h2
  subst h1 h2
  simp only [viewSwitch_syn_cur]

/-- The switch of combineVote, on votes and clock views, gives the same state
for two ballots in either order. -/
theorem viewSwitch_right_comm (z x y : Vote × Option (Nat × Nat)) :
    viewSwitch (viewSwitch z x) y = viewSwitch (viewSwitch z y) x := by
  rcases view_kinds x with hx | hx | hx
  · rcases view_kinds y with hy | hy | hy
    · -- both commits
      obtain ⟨xv, xc⟩ := x
      obtain ⟨yv, yc⟩ := y
      simp only at hx hy
      subst hx hy
      rcases view_kinds z with hz | hz | hz
      · obtain ⟨zv, zc⟩ := z
        simp only at hz
        subst hz
        rw [viewSwitch_commit_commit, viewSwitch_commit_commit, viewSwitch_commit_commit,
          viewSwitch_commit_commit, viewMerge_right_comm]
      · exact viewSwitch_right_comm_syn z _ _ hz
      · rw [viewSwitch_other_commit z xc hz.1, viewSwitch_other_commit z yc hz.1,
          viewSwitch_other_commit z xc hz.1]
    · rw [viewSwitch_of_synthetic_new _ y hy, viewSwitch_of_synthetic_new z y hy,
        viewSwitch_syn_cur]
    · -- x commit, y abort
      obtain ⟨xv, xc⟩ := x
      simp only at hx
      subst hx
      rcases view_kinds z with hz | hz | hz
      · obtain ⟨zv, zc⟩ := z
        simp only at hz
        subst hz
        rw [viewSwitch_commit_commit, viewSwitch_commit_other _ y hy.1,
          viewSwitch_commit_other _ y hy.1, viewSwitch_other_commit y xc hy.1]
      · exact viewSwitch_right_comm_syn z _ _ hz
      · rw [viewSwitch_other_commit z xc hz.1]
        obtain ⟨h1, h2⟩ := viewSwitch_abort_abort z y hz hy
        rw [viewSwitch_other_commit _ xc (by rw [h1]; exact h2.1)]
  · rw [viewSwitch_of_synthetic_new z x hx, viewSwitch_syn_cur,
      viewSwitch_of_synthetic_new _ x hx]
  · rcases view_kinds y with hy | hy | hy
    · -- x abort, y commit
      obtain ⟨yv, yc⟩ := y
      simp only at hy
      subst hy
      rcases view_kinds z with hz | hz | hz
      · obtain ⟨zv, zc⟩ := z
        simp only at hz
        subst hz
        rw [viewSwitch_commit_commit, viewSwitch_commit_other _ x hx.1,
          viewSwitch_commit_other _ x hx.1, viewSwitch_other_commit x yc hx.1]
      · exact viewSwitch_right_comm_syn z _ _ hz
      · rw [viewSwitch_other_commit z yc hz.1]
        obtain ⟨h1, h2⟩ := viewSwitch_abort_abort z x hz hx
        rw [viewSwitch_other_commit _ yc (by rw [h1]; exact h2.1)]
    · rw [viewSwitch_of_synthetic_new _ y hy, viewSwitch_of_synthetic_new z y hy,
        viewSwitch_syn_cur]
    · -- both aborts
      rcases view_kinds z with hz | hz | hz
      · obtain ⟨zv, zc⟩ := z
        simp only at hz
        subst hz
        rw [viewSwitch_commit_other _ x hx.1, viewSwitch_commit_other _ y hy.1,
          (viewSwitch_abort_abort x y hx hy).1, (viewSwitch_abort_abort y x hy hx).1,
          abortVote_comm x.1 y.1 _ _ hx.1 hy.1, viewMerge_comm]
      · exact viewSwitch_right_comm_syn z _ _ hz
      · obtain ⟨h1, h2⟩ := viewSwitch_abort_abort z x hz hx
        obtain ⟨h3, h4⟩ := viewSwitch_abort_abort z y hz hy
        rw [h1, h3, (viewSwitch_abort_abort _ y h2 hy).1, (viewSwitch_abort_abort _ x h4 hx).1]
        simp only [viewAt_viewMerge]
        rw [abortVote_right_comm z.1 x.1 y.1 _ _ _ hz.1 hx.1 hy.1, viewMerge_right_comm]

theorem view_foldl (w : Nat) (l : List rmBallot) (cur : varBallotReducer) :
    (l.foldl varBallotReducer.combineSwitch cur).view w
      = (l.map (rmBallot.view cur.vUUId w)).foldl viewSwitch (cur.view w) := by
  induction l generalizing cur with
  | nil => rfl
  | cons rmBal rest ih =>
    rw [List.foldl_cons, ih, combineSwitch_vUUId, view_combineSwitch]
    rfl

theorem view_foldl_perm (w : Nat) (l l1 : List rmBallot) (cur : varBallotReducer)
    (hp : l1.Perm l) :
    (l1.foldl varBallotReducer.combineSwitch cur).view w
      = (l.foldl varBallotReducer.combineSwitch cur).view w := by
  rw [view_foldl, view_foldl]
  exact List.Perm.foldl_eq' (hp.map _) (fun x _ y _ z => viewSwitch_right_comm z x y) _

theorem clockView_At (v w : Nat) (a b : VectorClock) (h : clockView v w a = clockView v w b) :
    VectorClock.At a w = VectorClock.At b w ∧ (a = [] ↔ b = []) := by
  unfold clockView at h
  by_cases ha : a = []
  · by_cases hb : b = []
    · subst ha hb
      exact ⟨rfl, Iff.rfl⟩
    · rw [if_pos ha, if_neg hb] at h
      cases h
  · by_cases hb : b = []
    · rw [if_neg ha, if_pos hb] at h
      cases h
    · rw [if_neg ha, if_neg hb] at h
      simp only [Option.some.injEq, Prod.mk.injEq] at h
      exact ⟨h.2, ⟨fun h1 => absurd h1 ha, fun h1 => absurd h1 hb⟩⟩

/-- C27, as amended: for a list of per-RM ballots of a variable and a
permutation of it, whenever CalculateResult returns for both orders the two
results have the same vote and, element by element, the same clock (and the
one clock is empty exactly if the other is); it returns for both orders when
no read-only bad read of the list has clock element 0. The result it stores is
the fold of the switch of combineVote from {Commit, empty clock}, whose vote
and clock are the same for both orders whether CalculateResult returns or
not. -/
theorem reduced_order (vb vb1 : varBallot) (hv : vb1.vUUId = vb.vUUId)
    (hp : vb1.rmToBallot.Perm vb.rmToBallot) :
    vb1.reduced.vote = vb.reduced.vote ∧
    (∀ w, VectorClock.At vb1.reduced.clock w = VectorClock.At vb.reduced.clock w) ∧
    (vb1.reduced.clock = [] ↔ vb.reduced.clock = []) ∧
    (∀ br clock subs br1 clock1 subs1 res res1,
      vb.CalculateResult br clock subs = .ok res →
      vb1.CalculateResult br1 clock1 subs1 = .ok res1 →
      ∃ r r1, res.1.result = some r ∧ res1.1.result = some r1 ∧ r1.vote = r.vote ∧
        (∀ w, VectorClock.At r1.clock w = VectorClock.At r.clock w) ∧
        (r1.clock = [] ↔ r.clock = [])) ∧
    (∀ br clock subs res, vb.CalculateResult br clock subs = .ok res →
      res.1.result = some vb.reduced) ∧
    (∀ br clock subs res, vb1.CalculateResult br clock subs = .ok res →
      res.1.result = some vb1.reduced) ∧
    (noZeroClockRead vb.rmToBallot → ∀ br clock subs,
      (∃ res, vb.CalculateResult br clock subs = .ok res) ∧
      (∃ res, vb1.CalculateResult br clock subs = .ok res)) := by
  have hview : ∀ w, (vb1.rmToBallot.foldl varBallotReducer.combineSwitch
        (newReducer vb1.vUUId [])).view w
      = (vb.rmToBallot.foldl varBallotReducer.combineSwitch (newReducer vb.vUUId [])).view w := by
    intro w
    rw [hv]
    exact view_foldl_perm w vb.rmToBallot vb1.rmToBallot _ hp
  have hvu : ∀ (l : List rmBallot) (cur : varBallotReducer),
      (l.foldl varBallotReducer.combineSwitch cur).vUUId = cur.vUUId := by
    intro l
    induction l with
    | nil => intro cur; rfl
    | cons x rest ih =>
      intro cur
      rw [List.foldl_cons, ih, combineSwitch_vUUId]
  have hres : ∀ (x : varBallot) br clock subs res, x.CalculateResult br clock subs = .ok res →
      res.1.result = some x.reduced := by
    intro x br clock subs res h
    obtain ⟨x1, br1, clock1, subs1⟩ := res
    rw [(CalculateResult_ok x x1 br br1 clock clock1 subs subs1 h).1]
  have hvote : vb1.reduced.vote = vb.reduced.vote := congrArg Prod.fst (hview 0)
  have hat : ∀ w, VectorClock.At vb1.reduced.clock w = VectorClock.At vb.reduced.clock w := by
    intro w
    have h := congrArg Prod.snd (hview w)
    simp only [varBallotReducer.view, hvu] at h
    have hv1 : (newReducer vb1.vUUId []).vUUId = vb.vUUId := hv
    have hv2 : (newReducer vb.vUUId []).vUUId = vb.vUUId := rfl
    rw [hv1, hv2] at h
    exact (clockView_At _ w _ _ h).1
  have hnil : vb1.reduced.clock = [] ↔ vb.reduced.clock = [] := by
    have h := congrArg Prod.snd (hview 0)
    simp only [varBallotReducer.view, hvu] at h
    have hv1 : (newReducer vb1.vUUId []).vUUId = vb.vUUId := hv
    have hv2 : (newReducer vb.vUUId []).vUUId = vb.vUUId := rfl
    rw [hv1, hv2] at h
    exact (clockView_At _ 0 _ _ h).2
  refine ⟨hvote, hat, hnil, ?_, hres vb, hres vb1, ?_⟩
  · intro br clock subs br1 clock1 subs1 res res1 h h1
    exact ⟨vb.reduced, vb1.reduced, hres vb _ _ _ _ h, hres vb1 _ _ _ _ h1, hvote, hat, hnil⟩
  · intro hz br clock subs
    have hz1 : noZeroClockRead vb1.rmToBallot := fun r hr => hz r (hp.subset hr)
    obtain ⟨a, b, c, h1⟩ := CalculateResult_returns vb br clock subs hz
    obtain ⟨a1, b1, c1, h2⟩ := CalculateResult_returns vb1 br clock subs hz1
    exact ⟨⟨_, h1⟩, ⟨_, h2⟩⟩

/-- Witness of C27 on the three votes (a commit, a bad read with clock element
5, a deadlock with clock element 4): CalculateResult returns for both orders,
with the vote AbortBadRead and the same clock. -/
theorem reduced_order_witness :
    threeVotesShuffled.rmToBallot.Perm threeVotes.rmToBallot ∧
    noZeroClockRead threeVotes.rmToBallot ∧
    threeVotes.reduced.vote = Vote.AbortBadRead ∧
    threeVotesShuffled.reduced.vote = threeVotes.reduced.vote ∧
    (∀ w, VectorClock.At threeVotesShuffled.reduced.clock w
      = VectorClock.At threeVotes.reduced.clock w) ∧
    ((∃ res, threeVotes.CalculateResult NewBadReads NewVectorClock [] = .ok res) ∧
     (∃ res, threeVotesShuffled.CalculateResult NewBadReads NewVectorClock [] = .ok res)) :=
  ⟨by decide, by unfold noZeroClockRead; decide, rfl,
   (reduced_order threeVotes threeVotesShuffled rfl (by decide)).1,
   (reduced_order threeVotes threeVotesShuffled rfl (by decide)).2.1,
   (reduced_order threeVotes threeVotesShuffled rfl (by decide)).2.2.2.2.2.2
     (by unfold noZeroClockRead; decide)
     NewBadReads NewVectorClock []⟩

/-- Counterexample to C27 as stated: the bad read of variable 10 with clock
element 3 and the bad read of variable 10 with clock element 0. With the
zero-clock read last CalculateResult returns, with the vote AbortBadRead; with
it first CalculateResult fails hard and yields no vote and no clock. -/
theorem reduced_order_counterexample :
    zeroReadFirst.vUUId = zeroReadLast.vUUId ∧
    zeroReadFirst.rmToBallot.Perm zeroReadLast.rmToBallot ∧
    zeroReadLast.CalculateResult NewBadReads NewVectorClock []
      = .ok ({ zeroReadLast with result := some zeroReadLast.reduced },
             wrappedReadTable, NewVectorClock, []) ∧
    zeroReadLast.reduced.vote = Vote.AbortBadRead ∧
    zeroReadLast.reduced.clock = [(10, 3), (11, 4)] ∧
    zeroReadFirst.CalculateResult NewBadReads NewVectorClock []
      = .error Failure.zeroClockElem :=
  ⟨rfl, List.Perm.swap _ _ _, rfl, rfl, rfl, rfl⟩

theorem received_length_ge (vb : varBallot) (rm : Nat) (inst : Instance) :
    vb.rmToBallot.length ≤ (vb.received rm inst).rmToBallot.length := by
  by_cases h : rm ∈ rmIds vb.rmToBallot
  · rw [(received_old vb rm inst h).2.1]
  · rw [(received_new vb rm inst h).2.1]
    omega

/-- C28: for an accumulator built by NewBallotAccumulator and fed only by
BallotReceived, after every call the cached result of each variable is either
nil or the ballot obtained by reducing the variable's current rmToBallot list
(so it has exactly that vote and that clock), and a cached result belongs to a
list that has reached `voters`. A further ballot for a variable with a cached
result, whether added or written over the ballot of its RM, leaves the result
nil and the accumulator dirty before determineOutcome runs. -/
theorem cached_result_current (txn : TxnReader) (ba0 ba : BallotAccumulator)
    (calls : List Call) (hnew : NewBallotAccumulator txn = .ok ba0)
    (hrun : ba0.runCalls calls = .ok ba) :
    (∀ vb ∈ ba.vUUIdToBallots, vb.result = none ∨
      ∃ r, vb.result = some r ∧ r = vb.reduced ∧ r.vote = vb.reduced.vote ∧
        r.clock = vb.reduced.clock ∧ vb.voters ≤ vb.rmToBallot.length) ∧
    (∀ (rm : Nat) (inst : Instance) (v : Nat) (vb : varBallot),
      mapGet ba.vUUIdToBallots v = some vb → vb.result ≠ none →
      ∃ ba1 vb1, ba.recordBallot rm inst v = .ok ba1 ∧
        mapGet ba1.vUUIdToBallots v = some vb1 ∧
        vb1.rmToBallot = vb.receivedList rm inst ∧ vb1.result = none ∧ ba1.dirty = true) := by
  obtain ⟨d, hinv, _, _⟩ := reachable_Inv txn ba0 ba calls hnew hrun
  obtain ⟨_, _, hwf, _⟩ := hinv
  constructor
  · intro vb hvb
    cases hr : vb.result with
    | none => exact Or.inl rfl
    | some r =>
      obtain ⟨h1, h2⟩ := (hwf vb hvb).2.2 r hr
      exact Or.inr ⟨r, rfl, h2, by rw [h2], by rw [h2], h1⟩
  · intro rm inst v vb hg hres
    have hmem : vb ∈ ba.vUUIdToBallots := List.mem_of_find?_eq_some hg
    have hv : vb.vUUId = v := by
      have := List.find?_some hg
      simpa using this
    obtain ⟨r, hr⟩ := Option.ne_none_iff_exists'.mp hres
    have hlen : vb.voters ≤ vb.rmToBallot.length := ((hwf vb hmem).2.2 r hr).1
    have hlen1 : vb.voters ≤ (vb.received rm inst).rmToBallot.length :=
      Nat.le_trans hlen (received_length_ge vb rm inst)
    refine ⟨_, vb.received rm inst, recordBallot_ok ba rm inst v vb hg, ?_,
      received_list vb rm inst, received_result_none vb rm inst hlen1, ?_⟩
    · show mapGet (mapSet ba.vUUIdToBallots (vb.received rm inst)) v = _
      rw [mapGet_mapSet, if_pos]
      rw [(received_fields vb rm inst).1, hv]
    · show (ba.dirty || decide (vb.voters ≤ (vb.received rm inst).rmToBallot.length)) = true
      simp [hlen1]

theorem cached_result_current_witness :
    NewBallotAccumulator scenarioTxn = .ok scenarioBa0 ∧
    scenarioBa0.runCalls [scenarioCall1, scenarioCall2] = .ok scenarioBa2 ∧
    (∀ vb ∈ scenarioBa2.vUUIdToBallots, vb.result = none ∨
      ∃ r, vb.result = some r ∧ r = vb.reduced ∧ r.vote = vb.reduced.vote ∧
        r.clock = vb.reduced.clock ∧ vb.voters ≤ vb.rmToBallot.length) ∧
    (∃ vb ∈ scenarioBa2.vUUIdToBallots, vb.result ≠ none) :=
  ⟨rfl, rfl,
   (cached_result_current scenarioTxn scenarioBa0 scenarioBa2 [scenarioCall1, scenarioCall2]
      rfl rfl).1,
   by decide⟩

theorem overwrite_rounds (rm : Nat) (b : Ballot) (l l1 : List rmBallot)
    (h : rmBallots.overwrite rm b l = some l1) :
    l1.map (fun rmBal => rmBal.roundNumber) = l.map (fun rmBal => rmBal.roundNumber) ∧
    (∀ rm1, heldRound l1 rm1 = heldRound l rm1) := by
  unfold heldRound
  induction l generalizing l1 with
  | nil => simp [rmBallots.overwrite] at h
  | cons r rest ih =>
    simp only [rmBallots.overwrite] at h
    by_cases hr : r.instanceRMId = rm
    · rw [if_pos hr] at h
      injection h with h
      subst h
      refine ⟨by simp, ?_⟩
      intro rm1
      by_cases h1 : r.instanceRMId = rm1
      · simp [List.find?_cons, h1]
      · have hne : (r.instanceRMId == rm1) = false := by simp [h1]
        simp only [List.find?_cons, hne]
    · rw [if_neg hr] at h
      cases ho : rmBallots.overwrite rm b rest with
      | none => rw [ho] at h; cases h
      | some l2 =>
        rw [ho] at h
        injection h with h
        subst h
        obtain ⟨i1, i3⟩ := ih l2 ho
        refine ⟨by simp [i1], ?_⟩
        intro rm1
        by_cases h1 : r.instanceRMId = rm1
        · simp [List.find?_cons, h1]
        · have hne : (r.instanceRMId == rm1) = false := by simp [h1]
          have := i3 rm1
          simp only [List.find?_cons, hne]
          exact this

theorem heldRound_eq_some (l : List rmBallot) (hn : (rmIds l).Nodup) (rm : Nat) (n : Nat) :
    heldRound l rm = some n ↔ ∃ r ∈ l, r.instanceRMId = rm ∧ r.roundNumber = n := by
  unfold heldRound
  induction l with
  | nil => simp
  | cons x rest ih =>
    have hn1 : (rmIds rest).Nodup := (List.nodup_cons.mp hn).2
    have hx : x.instanceRMId ∉ rmIds rest := (List.nodup_cons.mp hn).1
    by_cases h : x.instanceRMId = rm
    · simp only [List.find?_cons, h, beq_self_eq_true, Option.map_some', Option.some.injEq,
        List.mem_cons]
      constructor
      · intro hb; exact ⟨x, Or.inl rfl, h, hb⟩
      · rintro ⟨r, hr | hr, h1, h2⟩
        · subst hr; exact h2
        · exfalso
          apply hx
          rw [h, ← h1]
          exact List.mem_map_of_mem _ hr
    · have hne : (x.instanceRMId == rm) = false := by simp [h]
      simp only [List.find?_cons, hne, List.mem_cons]
      rw [ih hn1]
      constructor
      · rintro ⟨r, hr, h1⟩; exact ⟨r, Or.inr hr, h1⟩
      · rintro ⟨r, hr | hr, h1, h2⟩
        · subst hr; exact absurd h1 h
        · exact ⟨r, hr, h1, h2⟩

theorem heldRound_perm (l l1 : List rmBallot) (hp : l1.Perm l) (hn : (rmIds l).Nodup)
    (rm : Nat) : heldRound l1 rm = heldRound l rm := by
  have hn1 : (rmIds l1).Nodup := (hp.map _).nodup_iff.mpr hn
  apply Option.ext
  intro b
  simp only [Option.mem_def]
  rw [heldRound_eq_some l1 hn1, heldRound_eq_some l hn]
  constructor
  · rintro ⟨r, hr, h⟩; exact ⟨r, hp.mem_iff.mp hr, h⟩
  · rintro ⟨r, hr, h⟩; exact ⟨r, hp.mem_iff.mpr hr, h⟩

theorem heldRound_append_new (l : List rmBallot) (r : rmBallot) (hr : r.instanceRMId ∉ rmIds l)
    (rm1 : Nat) :
    heldRound (l ++ [r]) rm1
      = if rm1 = r.instanceRMId then some r.roundNumber else heldRound l rm1 := by
  unfold heldRound
  induction l with
  | nil =>
    by_cases h : rm1 = r.instanceRMId
    · subst h; simp [List.find?_cons]
    · have h2 : ¬ r.instanceRMId = rm1 := fun h3 => h h3.symm
      simp [List.find?_cons, h, h2]
  | cons x rest ih =>
    have hx : r.instanceRMId ≠ x.instanceRMId := by
      intro h; apply hr; rw [h]; unfold rmIds; simp
    have hrest : r.instanceRMId ∉ rmIds rest := by
      intro h; apply hr; unfold rmIds at h ⊢; simp only [List.map_cons, List.mem_cons]; exact Or.inr h
    by_cases h : x.instanceRMId = rm1
    · have h2 : rm1 ≠ r.instanceRMId := by rw [← h]; exact fun h3 => hx h3.symm
      simp [List.find?_cons, h, h2]
    · have hne : (x.instanceRMId == rm1) = false := by simp [h]
      simp only [List.cons_append, List.find?_cons, hne]
      exact ih hrest

theorem heldRound_none (l : List rmBallot) (rm : Nat) :
    heldRound l rm = none ↔ rm ∉ rmIds l := by
  unfold heldRound rmIds
  induction l with
  | nil => simp
  | cons x rest ih =>
    by_cases h : x.instanceRMId = rm
    · simp [List.find?_cons, h]
    · have hne : (x.instanceRMId == rm) = false := by simp [h]
      have h2 : ¬ rm = x.instanceRMId := fun h3 => h h3.symm
      simp only [List.find?_cons, hne, List.map_cons, List.mem_cons, not_or]
      rw [ih]
      exact ⟨fun h3 => ⟨h2, h3⟩, fun h3 => h3.2⟩

/-- The round numbers after a BallotReceived for the variable: an RM the list
already holds keeps its round number, a new RM gets the accepted round. -/
theorem received_round (vb : varBallot) (rm : Nat) (inst : Instance)
    (hn : (rmIds vb.rmToBallot).Nodup) (rm1 : Nat) :
    heldRound (vb.received rm inst).rmToBallot rm1
      = match heldRound vb.rmToBallot rm1 with
        | some n => some n
        | none => if rm1 = rm then some inst.acceptedNum else none := by
  by_cases h : rm ∈ rmIds vb.rmToBallot
  · have h1 : heldRound (vb.received rm inst).rmToBallot rm1 = heldRound vb.rmToBallot rm1 := by
      rw [received_list]
      unfold varBallot.receivedList
      cases ho : rmBallots.overwrite rm inst.accepted vb.rmToBallot with
      | none => exact absurd h ((overwrite_none _ _ _).mp ho)
      | some l => exact (overwrite_rounds _ _ _ _ ho).2 rm1
    rw [h1]
    cases hh : heldRound vb.rmToBallot rm1 with
    | some n => rfl
    | none =>
      have h2 := (heldRound_none _ _).mp hh
      have h3 : rm1 ≠ rm := fun h4 => h2 (h4 ▸ h)
      simp [h3]
  · obtain ⟨hp, _, _⟩ := received_new vb rm inst h
    have hn2 := rmIds_append_new vb.rmToBallot (newRmBallot rm inst) hn h
    rw [heldRound_perm _ _ hp hn2, heldRound_append_new _ _ h]
    by_cases h1 : rm1 = rm
    · subst h1
      rw [(heldRound_none _ _).mpr h]
      simp [newRmBallot]
    · have h2 : ¬ rm1 = (newRmBallot rm inst).instanceRMId := h1
      rw [if_neg h2]
      cases heldRound vb.rmToBallot rm1 <;> simp [h1]

theorem determineOutcome_roundFor (ba ba1 : BallotAccumulator) (out : Option Outcome)
    (subs : List Nat) (h : ba.determineOutcome = .ok (ba1, out, subs)) (v rm : Nat) :
    roundFor ba1.vUUIdToBallots v rm = roundFor ba.vUUIdToBallots v rm := by
  unfold roundFor
  rw [(determineOutcome_heldFor ba ba1 out subs h v rm).2.2]
  cases mapGet ba.vUUIdToBallots v <;> rfl

/-- One BallotReceived call: a round number the map holds stays; the pair of
the call, when it held none, gets the accepted round of the call. -/
theorem BallotReceived_roundFor (ba ba2 : BallotAccumulator) (keys : List Nat) (d : Nat)
    (c : Call) (out : Option Outcome) (subs : List Nat) (hinv : ba.Inv keys d)
    (h : ba.BallotReceived c.instanceRMId c.inst c.vUUId = .ok (ba2, out, subs)) (v rm : Nat) :
    roundFor ba2.vUUIdToBallots v rm
      = match roundFor ba.vUUIdToBallots v rm with
        | some n => some n
        | none => if c.vUUId = v ∧ c.instanceRMId = rm then some c.inst.acceptedNum else none := by
  obtain ⟨ba1, hrec, hdet⟩ := BallotReceived_split _ _ _ _ _ _ _ h
  rw [determineOutcome_roundFor ba1 ba2 out subs hdet v rm]
  cases hg : mapGet ba.vUUIdToBallots c.vUUId with
  | none => rw [recordBallot_none ba _ _ _ hg] at hrec; cases hrec
  | some vb =>
    rw [recordBallot_ok ba _ _ _ vb hg] at hrec
    injection hrec with hrec
    subst hrec
    obtain ⟨hmem, hv⟩ := mapGet_some _ _ _ hg
    obtain ⟨rv, _, _⟩ := received_fields vb c.instanceRMId c.inst
    have hwf : vb.WF := hinv.2.2.1 vb hmem
    show roundFor (mapSet ba.vUUIdToBallots (vb.received c.instanceRMId c.inst)) v rm = _
    unfold roundFor
    rw [mapGet_mapSet, rv, hv]
    by_cases hcv : c.vUUId = v
    · rw [if_pos hcv, ← hcv, hg]
      dsimp only
      rw [received_round vb _ _ hwf.1 rm]
      cases heldRound vb.rmToBallot rm with
      | some n => rfl
      | none =>
        dsimp only
        by_cases hrm : rm = c.instanceRMId
        · subst hrm; simp
        · have : ¬ c.instanceRMId = rm := fun h1 => hrm h1.symm
          simp [hrm, this]
    · rw [if_neg hcv]
      cases mapGet ba.vUUIdToBallots v with
      | none => simp [hcv]
      | some vb1 =>
        dsimp only
        cases heldRound vb1.rmToBallot rm <;> simp [hcv]

theorem runCalls_roundFor (calls : List Call) (ba ba1 : BallotAccumulator) (keys : List Nat)
    (d : Nat) (hinv : ba.Inv keys d) (h : ba.runCalls calls = .ok ba1) (v rm : Nat) :
    roundFor ba1.vUUIdToBallots v rm
      = match roundFor ba.vUUIdToBallots v rm with
        | some n => some n
        | none => firstRound calls v rm := by
  induction calls generalizing ba with
  | nil =>
    simp only [BallotAccumulator.runCalls] at h
    injection h with h
    subst h
    cases roundFor ba.vUUIdToBallots v rm <;> rfl
  | cons c rest ih =>
    simp only [BallotAccumulator.runCalls] at h
    cases hb : ba.BallotReceived c.instanceRMId c.inst c.vUUId with
    | error e => rw [hb] at h; cases h
    | ok res =>
      obtain ⟨ba2, out, subs⟩ := res
      rw [hb] at h
      have hinv2 := BallotReceived_Inv ba ba2 keys d _ _ _ out subs hinv hb
      rw [ih ba2 hinv2 h, BallotReceived_roundFor ba ba2 keys d c out subs hinv hb v rm]
      simp only [firstRound]
      cases roundFor ba.vUUIdToBallots v rm with
      | some n => rfl
      | none =>
        dsimp only
        split_ifs <;> rfl

theorem roundFor_fresh (m : List varBallot) (h : ∀ vb ∈ m, vb.fresh) (v rm : Nat) :
    roundFor m v rm = none := by
  unfold roundFor
  cases hg : mapGet m v with
  | none => rfl
  | some vb =>
    obtain ⟨hvb, _⟩ := mapGet_some _ _ _ hg
    dsimp only
    rw [(h vb hvb).1]
    rfl

/-- What the outer loop of AddInstancesToSeg returns: one record per varBallot,
in order, with the round number and the ballot of each rmBallot side by side. -/
theorem addInstancesLoop_ok (size : Int) (l : List varBallot) (idx : Nat)
    (recs : List InstancesForVar) (h : addInstancesLoop size idx l = .ok recs) :
    List.Forall₂ (fun (vb : varBallot) (r : InstancesForVar) =>
      r.varId = vb.vUUId ∧ vb.result = some r.result ∧
      r.instances = vb.rmToBallot.map rmBallot.toAcceptedInstance) l recs := by
  induction l generalizing idx recs with
  | nil =>
    simp only [addInstancesLoop] at h
    injection h with h
    subst h
    exact List.Forall₂.nil
  | cons vb rest ih =>
    simp only [addInstancesLoop] at h
    split_ifs at h with hlt
    cases hr : vb.result with
    | none => simp [varBallot.toInstancesForVar, hr] at h
    | some r =>
      simp only [varBallot.toInstancesForVar, hr] at h
      cases hl : addInstancesLoop size (idx + 1) rest with
      | error e => simp [hl] at h
      | ok rs =>
        simp only [hl] at h
        injection h with h
        subst h
        exact List.Forall₂.cons ⟨rfl, hr, rfl⟩ (ih (idx + 1) rs hl)

/-- The outer loop of AddInstancesToSeg returns when the list has a slot for
every varBallot and every varBallot has a result. -/
theorem addInstancesLoop_returns (size : Int) (l : List varBallot) (idx : Nat)
    (hsize : ((idx + l.length : Nat) : Int) ≤ size) (hres : ∀ vb ∈ l, vb.result ≠ none) :
    ∃ recs, addInstancesLoop size idx l = .ok recs ∧ recs.length = l.length := by
  induction l generalizing idx with
  | nil => exact ⟨[], rfl, rfl⟩
  | cons vb rest ih =>
    have hlt : (idx : Int) < size := by
      simp only [List.length_cons] at hsize
      omega
    have hsz : ((idx + 1 + rest.length : Nat) : Int) ≤ size := by
      simp only [List.length_cons] at hsize
      have : idx + 1 + rest.length = idx + (rest.length + 1) := by omega
      rw [this]; exact hsize
    obtain ⟨rs, hrs, hlen⟩ := ih (idx + 1) hsz (fun x hx => hres x (List.mem_cons_of_mem _ hx))
    obtain ⟨r, hr⟩ := Option.ne_none_iff_exists'.mp (hres vb (List.mem_cons_self _ _))
    refine ⟨⟨vb.vUUId, vb.rmToBallot.map rmBallot.toAcceptedInstance, r⟩ :: rs, ?_, by simp [hlen]⟩
    simp only [addInstancesLoop, if_pos hlt, varBallot.toInstancesForVar, hr, hrs]

/-- C29: for an accumulator built by NewBallotAccumulator and fed by
BallotReceived: a call whose RM the variable already has an entry for replaces
only the ballot of that entry (the RMIds and the round numbers of the list stay
as they are, whatever the acceptedNum of the new instance), so the round number
held for a variable and an RM is the acceptedNum of the first call for that
pair. AddInstancesToSeg, when it returns, writes for every rmBallot its
roundNumber beside its ballot, and it returns once no variable is incomplete
and every variable has a result. In the scenario where RM 2 sends a round-1
ballot and later a round-2 ballot, the record written for RM 2 has round
number 1 beside the ballot accepted in round 2. -/
theorem round_of_first_ballot (txn : TxnReader) (ba0 ba : BallotAccumulator)
    (calls : List Call) (hnew : NewBallotAccumulator txn = .ok ba0)
    (hrun : ba0.runCalls calls = .ok ba) :
    (∀ (c : Call) (vb : varBallot), mapGet ba.vUUIdToBallots c.vUUId = some vb →
      c.instanceRMId ∈ rmIds vb.rmToBallot →
      ∃ ba1 vb1, ba.recordBallot c.instanceRMId c.inst c.vUUId = .ok ba1 ∧
        mapGet ba1.vUUIdToBallots c.vUUId = some vb1 ∧
        rmIds vb1.rmToBallot = rmIds vb.rmToBallot ∧
        vb1.rmToBallot.map (fun rmBal => rmBal.roundNumber)
          = vb.rmToBallot.map (fun rmBal => rmBal.roundNumber) ∧
        (∀ rm1, heldBallot vb1.rmToBallot rm1
          = if rm1 = c.instanceRMId then some c.inst.accepted
            else heldBallot vb.rmToBallot rm1)) ∧
    (∀ v rm, roundFor ba.vUUIdToBallots v rm = firstRound calls v rm) ∧
    (∀ recs, ba.AddInstancesToSeg = .ok recs →
      ∃ instances : List InstancesForVar, recs = instances.map some
            ++ List.replicate (recs.length - instances.length) none ∧
        List.Forall₂ (fun (vb : varBallot) (r : InstancesForVar) =>
          r.varId = vb.vUUId ∧ vb.result = some r.result ∧
          r.instances = vb.rmToBallot.map rmBallot.toAcceptedInstance)
          ba.vUUIdToBallots instances) ∧
    (ba.incompleteVars = 0 → (∀ vb ∈ ba.vUUIdToBallots, vb.result ≠ none) →
      ∃ instances : List InstancesForVar, ba.AddInstancesToSeg = .ok (instances.map some) ∧
        instances.length = ba.vUUIdToBallots.length) ∧
    (scenarioBa0.runCalls [scenarioCall1, scenarioCall2, laterCall2] = .ok laterBa3 ∧
      laterBa3.AddInstancesToSeg = .ok [some laterRecord] ∧
      laterRecord.instances.map (fun a => (a.rmId, a.roundNumber, a.ballot))
        = [(1, 1, scenarioBallot1), (2, 1, laterCall2.inst.accepted)] ∧
      laterCall2.inst.acceptedNum = 2) := by
  obtain ⟨d, hinv0, hfresh, _⟩ := NewBallotAccumulator_Inv txn ba0 hnew
  have hinv := runCalls_Inv calls ba0 ba _ d hinv0 hrun
  refine ⟨?_, ?_, ?_, ?_, ⟨rfl, rfl, rfl, rfl⟩⟩
  · intro c vb hg hmem
    obtain ⟨_, hv⟩ := mapGet_some _ _ _ hg
    obtain ⟨rv, _, _⟩ := received_fields vb c.instanceRMId c.inst
    obtain ⟨o1, _, o3⟩ := received_old vb c.instanceRMId c.inst hmem
    refine ⟨_, vb.received c.instanceRMId c.inst, recordBallot_ok ba _ _ _ vb hg, ?_, o1, ?_, o3⟩
    · show mapGet (mapSet ba.vUUIdToBallots (vb.received c.instanceRMId c.inst)) c.vUUId = _
      rw [mapGet_mapSet, if_pos]
      rw [rv, hv]
    · rw [received_list]
      unfold varBallot.receivedList
      cases ho : rmBallots.overwrite c.instanceRMId c.inst.accepted vb.rmToBallot with
      | none => exact absurd hmem ((overwrite_none _ _ _).mp ho)
      | some l => exact (overwrite_rounds _ _ _ _ ho).1
  · intro v rm
    rw [runCalls_roundFor calls ba0 ba _ d hinv0 hrun v rm, roundFor_fresh _ hfresh]
  · intro recs hrecs
    unfold BallotAccumulator.AddInstancesToSeg at hrecs
    dsimp only at hrecs
    cases hl : addInstancesLoop ((ba.vUUIdToBallots.length : Int) - ba.incompleteVars) 0
        ba.vUUIdToBallots with
    | error e => rw [hl] at hrecs; cases hrecs
    | ok instances =>
      rw [hl] at hrecs
      injection hrecs with hrecs
      refine ⟨instances, ?_, addInstancesLoop_ok _ _ _ _ hl⟩
      rw [← hrecs]
      simp
  · intro hinc hres
    obtain ⟨instances, hl, hlen⟩ := addInstancesLoop_returns
      ((ba.vUUIdToBallots.length : Int) - ba.incompleteVars) ba.vUUIdToBallots 0
      (by rw [hinc]; simp) hres
    refine ⟨instances, ?_, hlen⟩
    unfold BallotAccumulator.AddInstancesToSeg
    dsimp only
    rw [hl, hinc]
    simp [hlen]

theorem round_of_first_ballot_witness :
    NewBallotAccumulator scenarioTxn = .ok scenarioBa0 ∧
    scenarioBa0.runCalls [scenarioCall1, scenarioCall2, laterCall2] = .ok laterBa3 ∧
    (∀ v rm, roundFor laterBa3.vUUIdToBallots v rm
      = firstRound [scenarioCall1, scenarioCall2, laterCall2] v rm) ∧
    roundFor laterBa3.vUUIdToBallots 10 2 = some scenarioCall1.inst.acceptedNum ∧
    heldFor laterBa3.vUUIdToBallots 10 2 = some laterCall2.inst.accepted :=
  ⟨rfl, rfl,
   (round_of_first_ballot scenarioTxn scenarioBa0 laterBa3
      [scenarioCall1, scenarioCall2, laterCall2] rfl rfl).2.1,
   rfl, rfl⟩

end Paxos

namespace TxnEngine

/-! ## Persistence of a variable: lemmas and theorems -/

theorem maybeWriteFrame_busy (v : Var) (k : continuation) (f : frame) (action : localAction)
    (positions : Option (List Nat)) (h : v.writeInProgress = some k) :
    v.maybeWriteFrame f action positions
      = .ok { v with writeInProgress := some (continuation.writeFrame f action positions) } := by
  unfold Var.maybeWriteFrame
  rw [h]

theorem maybeWriteFrame_free (v : Var) (f : frame) (action : localAction)
    (positions : Option (List Nat)) (oldVarCap : VarCap) (frameTxnId : Nat)
    (h : v.writeInProgress = none) (hc : v.varCap = some oldVarCap)
    (hf : f.frameTxnId = some frameTxnId) :
    v.maybeWriteFrame f action positions
      = .ok (v.launch (launchedRecord oldVarCap f frameTxnId positions)
              (launchedWrite v oldVarCap f frameTxnId action positions)) := by
  unfold Var.maybeWriteFrame
  rw [h, hc, hf]
  rfl

theorem inFlight_nil_of_free (v : Var) (hinv : v.Inv) (h : v.writeInProgress = none) :
    v.inFlight = [] := by
  obtain ⟨_, h1, h2, _⟩ := hinv
  have : ¬ v.inFlight.length = 1 := fun hc => by
    have := h2.mpr hc
    rw [h] at this
    cases this
  exact List.length_eq_zero.mp (by omega)

theorem maybeWriteFrame_Inv (v : Var) (f : frame) (action : localAction)
    (positions : Option (List Nat)) (hinv : v.Inv) (hf : f.frameTxnId.isSome = true) :
    ∃ v1, v.maybeWriteFrame f action positions = .ok v1 ∧ v1.Inv ∧
      v1.positions = v.positions ∧ v1.curFrame = v.curFrame ∧
      v1.curFrameOnDisk = v.curFrameOnDisk := by
  cases hw : v.writeInProgress with
  | some k =>
    refine ⟨_, maybeWriteFrame_busy v k f action positions hw, ?_, rfl, rfl, rfl⟩
    obtain ⟨h0, h1, h2, _⟩ := hinv
    refine ⟨h0, h1, ?_, ?_⟩
    · have := h2.mp (by rw [hw]; rfl)
      exact ⟨fun _ => this, fun _ => rfl⟩
    · intro f1 a1 p1 heq
      simp only [Option.some.injEq, continuation.writeFrame.injEq] at heq
      rw [← heq.1]; exact hf
  | none =>
    have hnil := inFlight_nil_of_free v hinv hw
    obtain ⟨oldVarCap, hc⟩ := Option.isSome_iff_exists.mp hinv.1
    obtain ⟨frameTxnId, hft⟩ := Option.isSome_iff_exists.mp hf
    refine ⟨_, maybeWriteFrame_free v f action positions oldVarCap frameTxnId hw hc hft,
      ?_, rfl, rfl, rfl⟩
    refine ⟨rfl, ?_, ?_, ?_⟩
    · simp [Var.launch, hnil]
    · simp [Var.launch, hnil]
    · intro f1 a1 p1 heq
      simp [Var.launch] at heq

theorem writeCompleted_Inv (v : Var) (hinv : v.Inv) :
    (v.inFlight = [] → v.writeCompleted = .error Failure.noWriteInFlight) ∧
    (v.inFlight ≠ [] → ∃ v1, v.writeCompleted = .ok v1 ∧ v1.Inv ∧ v1.positions = v.positions ∧
      v1.curFrame = v.curFrame) := by
  constructor
  · intro h
    unfold Var.writeCompleted
    rw [h]
  · intro h
    obtain ⟨h0, h1, h2, h3⟩ := hinv
    cases hl : v.inFlight with
    | nil => exact absurd hl h
    | cons write rest =>
      have hrest : rest = [] := by
        rw [hl] at h1
        simp only [List.length_cons] at h1
        exact List.length_eq_zero.mp (by omega)
      subst hrest
      have hsome : v.writeInProgress.isSome = true := h2.mpr (by rw [hl]; rfl)
      obtain ⟨k, hk⟩ := Option.isSome_iff_exists.mp hsome
      unfold Var.writeCompleted
      rw [hl]
      simp only [hk]
      cases k with
      | makeInactive =>
        refine ⟨_, rfl, ?_, rfl, rfl⟩
        refine ⟨h0, by simp [Var.maybeMakeInactive], by simp [Var.maybeMakeInactive], ?_⟩
        intro f1 a1 p1 heq
        simp [Var.maybeMakeInactive] at heq
      | writeFrame f action positions =>
        have hf := h3 f action positions hk
        have hinv1 : Var.Inv { v with inFlight := [], curFrameOnDisk := some write.f,
                                      writeInProgress := none } := by
          refine ⟨h0, by simp, by simp, ?_⟩
          intro f1 a1 p1 heq
          simp at heq
        obtain ⟨v1, e1, e2, e3, e4, _⟩ := maybeWriteFrame_Inv _ f action positions hinv1 hf
        exact ⟨v1, e1, e2, e3, e4⟩

theorem SetCurFrame_Inv (v : Var) (f : frame) (action : localAction)
    (positions : Option (List Nat)) (hinv : v.Inv) (hf : f.frameTxnId.isSome = true) :
    ∃ v1, v.SetCurFrame f action positions = .ok v1 ∧ v1.Inv := by
  unfold Var.SetCurFrame
  cases positions with
  | none =>
    obtain ⟨v1, h1, h2, _⟩ := maybeWriteFrame_Inv { v with curFrame := some f } f action none
      hinv hf
    exact ⟨v1, h1, h2⟩
  | some p =>
    obtain ⟨v1, h1, h2, _⟩ := maybeWriteFrame_Inv
      { v with curFrame := some f, positions := some p } f action (some p) hinv hf
    exact ⟨v1, h1, h2⟩

theorem step_Inv (v : Var) (e : Event) (hinv : v.Inv) (he : e.hasTxnId = true) :
    (∃ v1, v.step e = .ok v1 ∧ v1.Inv) ∨
    (e = Event.writeCompleted ∧ v.inFlight = [] ∧ v.step e = .error Failure.noWriteInFlight) := by
  cases e with
  | setCurFrame f action positions =>
    exact Or.inl (SetCurFrame_Inv v f action positions hinv he)
  | maybeWriteFrame f action positions =>
    obtain ⟨v1, h1, h2, _⟩ := maybeWriteFrame_Inv v f action positions hinv he
    exact Or.inl ⟨v1, h1, h2⟩
  | writeCompleted =>
    by_cases h : v.inFlight = []
    · exact Or.inr ⟨rfl, h, (writeCompleted_Inv v hinv).1 h⟩
    · obtain ⟨v1, h1, h2, _⟩ := (writeCompleted_Inv v hinv).2 h
      exact Or.inl ⟨v1, h1, h2⟩

theorem run_Inv (events : List Event) (v : Var) (hinv : v.Inv)
    (hev : ∀ e ∈ events, e.hasTxnId = true) :
    (∃ v1, v.run events = .ok v1 ∧ v1.Inv) ∨ v.run events = .error Failure.noWriteInFlight := by
  induction events generalizing v with
  | nil => exact Or.inl ⟨v, rfl, hinv⟩
  | cons e rest ih =>
    rcases step_Inv v e hinv (hev e (List.mem_cons_self _ _)) with ⟨v1, h1, h2⟩ | ⟨_, _, h⟩
    · simp only [Var.run, h1]
      exact ih v1 h2 (fun x hx => hev x (List.mem_cons_of_mem _ hx))
    · simp only [Var.run, h]
      exact Or.inr trivial

theorem NewVar_Inv (uuid : Nat) : (NewVar uuid).Inv := by
  refine ⟨rfl, by simp [NewVar, newVar], by simp [NewVar, newVar], ?_⟩
  intro f a p h
  simp [NewVar, newVar] at h

theorem VarFromData_Inv (data : Option VarCap) (txnOnDisk : Option Nat) (v : Var)
    (h : VarFromData data txnOnDisk = some v) : v.Inv := by
  unfold VarFromData at h
  cases data with
  | none => cases h
  | some varCap =>
    cases txnOnDisk with
    | none => cases h
    | some bytes =>
      simp only [Option.some.injEq] at h
      subst h
      by_cases hp : varCap.positions.length ≠ 0
      · simp only [if_pos hp]
        refine ⟨rfl, by simp [newVar], by simp [newVar], ?_⟩
        intro f a p h
        simp [newVar] at h
      · simp only [if_neg hp]
        refine ⟨rfl, by simp [newVar], by simp [newVar], ?_⟩
        intro f a p h
        simp [newVar] at h

/-- C14: from a variable built by NewVar or VarFromData, every sequence of
SetCurFrame calls, maybeWriteFrame calls and write completions (for frames
with a TxnId) either runs to its end without a panic or stops at a completion
that cannot happen because no write is in flight. In the state reached at most
one storage write is in flight and writeInProgress is non-nil exactly while
one is; a further maybeWriteFrame returns, and it launches a storage write
(exactly one) if writeInProgress is nil and none otherwise. -/
theorem one_write_in_flight (v0 : Var) (events : List Event)
    (hinit : (∃ uuid, v0 = NewVar uuid) ∨
      (∃ data txnOnDisk, VarFromData data txnOnDisk = some v0))
    (hev : ∀ e ∈ events, e.hasTxnId = true) :
    (∃ v, v0.run events = .ok v ∧ v.inFlight.length ≤ 1 ∧
      (v.writeInProgress.isSome = true ↔ v.inFlight.length = 1) ∧
      ∀ (f : frame) (action : localAction) (positions : Option (List Nat)),
        f.frameTxnId.isSome = true →
        ∃ v1, v.maybeWriteFrame f action positions = .ok v1 ∧
          (v.writeInProgress = none →
            ∃ write, v1.launched = v.launched ++ [write] ∧ v1.inFlight = [write] ∧ write.f = f) ∧
          (v.writeInProgress ≠ none →
            v1.launched = v.launched ∧ v1.inFlight = v.inFlight)) ∨
    v0.run events = .error Failure.noWriteInFlight := by
  have hinv0 : v0.Inv := by
    rcases hinit with ⟨uuid, h⟩ | ⟨data, txnOnDisk, h⟩
    · rw [h]; exact NewVar_Inv uuid
    · exact VarFromData_Inv data txnOnDisk v0 h
  rcases run_Inv events v0 hinv0 hev with ⟨v, hrun, hinv⟩ | h
  · refine Or.inl ⟨v, hrun, hinv.2.1, hinv.2.2.1, ?_⟩
    intro f action positions hf
    cases hw : v.writeInProgress with
    | some k =>
      refine ⟨_, maybeWriteFrame_busy v k f action positions hw, ?_, fun _ => ⟨rfl, rfl⟩⟩
      intro hc; cases hc
    | none =>
      have hnil := inFlight_nil_of_free v hinv hw
      obtain ⟨oldVarCap, hc⟩ := Option.isSome_iff_exists.mp hinv.1
      obtain ⟨frameTxnId, hft⟩ := Option.isSome_iff_exists.mp hf
      refine ⟨_, maybeWriteFrame_free v f action positions oldVarCap frameTxnId hw hc hft,
        fun _ => ⟨launchedWrite v oldVarCap f frameTxnId action positions, rfl, ?_, rfl⟩,
        fun hne => absurd rfl hne⟩
      simp [Var.launch, hnil]
  · exact Or.inr h

theorem one_write_in_flight_witness :
    (∀ e ∈ coalescedEvents, e.hasTxnId = true) ∧
    (∃ v, (NewVar 1).run coalescedEvents = .ok v ∧ v.inFlight = [] ∧
      v.writeInProgress = none ∧ v.curFrameOnDisk = some (frameOf 3) ∧ v.launched.length = 2) ∧
    ((∃ v, (NewVar 1).run coalescedEvents = .ok v ∧ v.inFlight.length ≤ 1 ∧
      (v.writeInProgress.isSome = true ↔ v.inFlight.length = 1) ∧
      ∀ (f : frame) (action : localAction) (positions : Option (List Nat)),
        f.frameTxnId.isSome = true →
        ∃ v1, v.maybeWriteFrame f action positions = .ok v1 ∧
          (v.writeInProgress = none →
            ∃ write, v1.launched = v.launched ++ [write] ∧ v1.inFlight = [write] ∧ write.f = f) ∧
          (v.writeInProgress ≠ none →
            v1.launched = v.launched ∧ v1.inFlight = v.inFlight)) ∨
    (NewVar 1).run coalescedEvents = .error Failure.noWriteInFlight) :=
  ⟨by decide, ⟨_, rfl, rfl, rfl, rfl, rfl⟩,
   one_write_in_flight (NewVar 1) coalescedEvents (Or.inl ⟨1, rfl⟩) (by decide)⟩

theorem writeFrames_busy (init : List (frame × localAction × Option (List Nat))) (v : Var)
    (k : continuation) (fn : frame) (an : localAction) (pn : Option (List Nat))
    (h : v.writeInProgress = some k) :
    v.writeFrames (init ++ [(fn, an, pn)])
      = .ok { v with writeInProgress := some (continuation.writeFrame fn an pn) } := by
  induction init generalizing v k with
  | nil =>
    show Var.writeFrames v [(fn, an, pn)] = _
    simp only [Var.writeFrames, maybeWriteFrame_busy v k fn an pn h]
  | cons c rest ih =>
    obtain ⟨f, a, p⟩ := c
    show Var.writeFrames v ((f, a, p) :: (rest ++ [(fn, an, pn)])) = _
    simp only [Var.writeFrames, maybeWriteFrame_busy v k f a p h]
    rw [ih _ (continuation.writeFrame f a p) rfl]

/-- C15: with one storage write in flight (and so writeInProgress non-nil),
maybeWriteFrame calls for frames f1, ..., fn, in that order, all return and
launch no write; when the write in flight completes, exactly one further
storage write is launched, and it is for fn; when that one completes no
further write is launched, nothing stays in flight, and curFrameOnDisk is
fn. -/
theorem latest_intent_wins (v : Var) (write : storageWrite)
    (init : List (frame × localAction × Option (List Nat))) (fn : frame) (an : localAction)
    (pn : Option (List Nat)) (hcap : v.varCap.isSome = true)
    (hwip : v.writeInProgress.isSome = true) (hfl : v.inFlight = [write])
    (hfn : fn.frameTxnId.isSome = true) :
    ∃ v1 v2 v3 next,
      v.writeFrames (init ++ [(fn, an, pn)]) = .ok v1 ∧
      v1.inFlight = [write] ∧ v1.launched = v.launched ∧
      v1.writeCompleted = .ok v2 ∧
      v2.launched = v.launched ++ [next] ∧ v2.inFlight = [next] ∧ next.f = fn ∧
      v2.curFrameOnDisk = some write.f ∧
      v2.writeCompleted = .ok v3 ∧
      v3.launched = v.launched ++ [next] ∧ v3.inFlight = [] ∧
      v3.writeInProgress = none ∧ v3.curFrameOnDisk = some fn := by
  obtain ⟨k, hk⟩ := Option.isSome_iff_exists.mp hwip
  obtain ⟨oldVarCap, hc⟩ := Option.isSome_iff_exists.mp hcap
  obtain ⟨frameTxnId, hft⟩ := Option.isSome_iff_exists.mp hfn
  have h1 := writeFrames_busy init v k fn an pn hk
  have h2 : Var.writeCompleted { v with writeInProgress := some (continuation.writeFrame fn an pn) }
      = Var.maybeWriteFrame { v with inFlight := [], curFrameOnDisk := some write.f,
                                     writeInProgress := none } fn an pn := by
    unfold Var.writeCompleted
    simp only [hfl]
    rfl
  have h3 := maybeWriteFrame_free { v with inFlight := [], curFrameOnDisk := some write.f,
                                           writeInProgress := none } fn an pn oldVarCap frameTxnId
    rfl hc hft
  refine ⟨_, _, _, _, h1, hfl, rfl, h2.trans h3, rfl, rfl, rfl, rfl, rfl, rfl, rfl, rfl, rfl⟩

theorem latest_intent_wins_witness :
    busyVar.varCap.isSome = true ∧ busyVar.writeInProgress.isSome = true ∧
    (NewVar 1).SetCurFrame (frameOf 1) (actionOf 1) none = .ok busyVar ∧
    ∃ v1 v2 v3 next,
      busyVar.writeFrames ([(frameOf 2, actionOf 2, none)] ++ [(frameOf 3, actionOf 3, none)])
        = .ok v1 ∧
      v1.inFlight = busyVar.inFlight ∧ v1.launched = busyVar.launched ∧
      v1.writeCompleted = .ok v2 ∧
      v2.launched = busyVar.launched ++ [next] ∧ v2.inFlight = [next] ∧ next.f = frameOf 3 ∧
      v2.curFrameOnDisk = some (frameOf 1) ∧
      v2.writeCompleted = .ok v3 ∧
      v3.launched = busyVar.launched ++ [next] ∧ v3.inFlight = [] ∧
      v3.writeInProgress = none ∧ v3.curFrameOnDisk = some (frameOf 3) :=
  ⟨rfl, rfl, rfl,
   latest_intent_wins busyVar _ [(frameOf 2, actionOf 2, none)] (frameOf 3) (actionOf 3) none
     rfl rfl rfl rfl⟩

/-- C16: the record of every storage write maybeWriteFrame launches carries
the TxnId and the two clocks of the frame being written, and as positions the
`positions` argument of the call or, when that is nil, the positions of the
previous record, not the variable's current positions. In the scenario "stale
positions" the intent that carried positions [2] is overwritten by an intent
with nil positions, and the record launched for frame 3 has positions [1]
while the variable's positions are [2]. -/
theorem record_positions_stale :
    (∀ (v v1 : Var) (f : frame) (action : localAction) (positions : Option (List Nat))
        (oldVarCap : VarCap),
      v.writeInProgress = none → v.varCap = some oldVarCap →
      v.maybeWriteFrame f action positions = .ok v1 →
      ∃ write, v1.launched = v.launched ++ [write] ∧ write.f = f ∧
        f.frameTxnId = some write.varData.writeTxnId ∧
        write.varData.writeTxnClock = f.frameTxnClock ∧
        write.varData.writesClock = f.frameWritesClock ∧
        write.varData.positions = recordPositions positions oldVarCap ∧
        v1.varCap = some write.varData) ∧
    (NewVar 1).run stalePositionsEvents = .ok stalePositionsVar ∧
    stalePositionsVar.positions = some [2] ∧
    stalePositionsVar.launched.getLast?.map (fun write => write.varData.positions) = some [1] ∧
    stalePositionsVar.launched.getLast?.map (fun write => write.f) = some (frameOf 3) ∧
    VarFromData (some stalePositionsRecord) (some 103)
      = some { newVar 1 with positions := some [1], curFrame := some (frameOf 3),
                             curFrameOnDisk := some (frameOf 3),
                             varCap := some stalePositionsRecord } := by
  refine ⟨?_, rfl, rfl, rfl, rfl, rfl⟩
  intro v v1 f action positions oldVarCap hw hc h
  cases hft : f.frameTxnId with
  | none =>
    unfold Var.maybeWriteFrame at h
    rw [hw, hc, hft] at h
    cases h
  | some frameTxnId =>
    rw [maybeWriteFrame_free v f action positions oldVarCap frameTxnId hw hc hft] at h
    injection h with h
    subst h
    exact ⟨_, rfl, rfl, rfl, rfl, rfl, rfl, rfl⟩

end TxnEngine

namespace Network

/-! ## The topology writer: lemmas and theorems -/

theorem placeRMs_active_length (self : Nat) (conns : Conns) (capActive : Nat) (l : List Nat)
    (activeRMs passiveRMs : List Nat) (h : activeRMs.length ≤ capActive) :
    (placeRMs self conns capActive l (activeRMs, passiveRMs)).1.length
      = min capActive (activeRMs.length
          + (l.filter (fun rmId => rmId != self && conns.found rmId)).length) := by
  induction l generalizing activeRMs passiveRMs with
  | nil => simp [placeRMs, h]
  | cons rmId rest ih =>
    by_cases hs : rmId = self
    · simp only [placeRMs, hs, if_true]
      rw [ih activeRMs passiveRMs h]
      simp
    · by_cases hf : conns.found rmId = true
      · have hflt : (rmId != self && conns.found rmId) = true := by simp [hs, hf]
        by_cases hl : activeRMs.length < capActive
        · have hc : (conns.found rmId && decide (activeRMs.length < capActive)) = true := by
            simp [hf, hl]
          rw [placeRMs, if_neg hs, if_pos hc, ih (activeRMs ++ [rmId]) passiveRMs (by simp; omega)]
          simp only [List.filter_cons, hflt, if_true, List.length_append, List.length_cons,
            List.length_nil]
          congr 1
          omega
        · have hc : ¬ (conns.found rmId && decide (activeRMs.length < capActive)) = true := by
            simp [hl]
          rw [placeRMs, if_neg hs, if_neg hc, ih activeRMs (passiveRMs ++ [rmId]) h]
          simp only [List.filter_cons, hflt, if_true, List.length_cons]
          have hcap : activeRMs.length = capActive := by omega
          rw [hcap]
          simp
      · have hf2 : conns.found rmId = false := by simpa using hf
        have hflt : (rmId != self && conns.found rmId) = false := by simp [hf2]
        have hc : ¬ (conns.found rmId && decide (activeRMs.length < capActive)) = true := by
          simp [hf2]
        rw [placeRMs, if_neg hs, if_neg hc, ih activeRMs (passiveRMs ++ [rmId]) h]
        simp only [List.filter_cons, hflt]
        simp

theorem maybeStartWrite_remote (tw : TopologyWriter) (conns : Conns) (remoteTopology : Topology)
    (hfin : tw.finished = false)
    (hrem : tw.connectionManager.remoteTopology = some remoteTopology) :
    tw.maybeStartWrite conns
      = if (allRMsWithSelf tw.connectionManager.RMId remoteTopology).length < remoteTopology.fInc
        then .error Failure.negativeCap
        else if (placeRMs tw.connectionManager.RMId conns remoteTopology.fInc
                  (allRMsWithSelf tw.connectionManager.RMId remoteTopology)
                  (initialPlaced tw.connectionManager.RMId remoteTopology)).1.length
                < remoteTopology.fInc
        then .ok (tw, false, none)
        else .ok ({ tw with finished := true }, true,
          some { toWrite := { remoteTopology with
                              AllRMs := allRMsWithSelf tw.connectionManager.RMId remoteTopology },
                 fInc := remoteTopology.fInc,
                 activeRMs := (placeRMs tw.connectionManager.RMId conns remoteTopology.fInc
                   (allRMsWithSelf tw.connectionManager.RMId remoteTopology)
                   (initialPlaced tw.connectionManager.RMId remoteTopology)).1,
                 passiveRMs := (placeRMs tw.connectionManager.RMId conns remoteTopology.fInc
                   (allRMsWithSelf tw.connectionManager.RMId remoteTopology)
                   (initialPlaced tw.connectionManager.RMId remoteTopology)).2 }) := by
  unfold TopologyWriter.maybeStartWrite allRMsWithSelf initialPlaced
  simp only [hfin, hrem, Bool.false_eq_true, if_false, Topology.Clone]
  by_cases hs : remoteTopology.AllRMs.contains tw.connectionManager.RMId = true
  · simp only [hs, if_true]
  · simp only [hs, if_false]
    rfl

theorem initialPlaced_length (self : Nat) (remoteTopology : Topology) :
    (initialPlaced self remoteTopology).1.length
      = if remoteTopology.AllRMs.contains self then 1 else 0 := by
  unfold initialPlaced
  by_cases hs : remoteTopology.AllRMs.contains self = true
  · rw [if_pos hs, if_pos hs]; rfl
  · rw [if_neg hs, if_neg hs]; rfl

theorem fInc_pos (topology : Topology) : 1 ≤ topology.fInc := by
  unfold Topology.fInc
  omega

theorem placeable_le (self : Nat) (conns : Conns) (remoteTopology : Topology) :
    placeable self conns remoteTopology ≤ (allRMsWithSelf self remoteTopology).length := by
  unfold placeable allRMsWithSelf
  by_cases hs : remoteTopology.AllRMs.contains self = true
  · simp only [hs, if_true]
    have hmem : self ∈ remoteTopology.AllRMs := by simpa using hs
    have : (remoteTopology.AllRMs.filter (fun rmId => rmId != self && conns.found rmId)).length
        < remoteTopology.AllRMs.length := by
      apply List.length_filter_lt_length_iff_exists.mpr
      exact ⟨self, hmem, by simp⟩
    omega
  · simp only [hs, if_false]
    have := List.length_filter_le (fun rmId => rmId != self && conns.found rmId)
      (remoteTopology.AllRMs ++ [self])
    simp only [Bool.false_eq_true, if_false]
    omega

/-- C17: an unfinished maybeStartWrite with fewer than fInc RMs to place in the
active set returns with the writer unchanged, no sender removed and no write
started when there is no remote topology, and when the remote AllRMs (with
self added) has at least fInc members; but when it has fewer than fInc
members, `make` is given the negative capacity `len(AllRMs) - fInc` and the
call panics, as for the writer shortRemoteWriter with no connection. -/
theorem maybeStartWrite_short_topology (tw : TopologyWriter) (conns : Conns) :
    (tw.finished = false → tw.connectionManager.remoteTopology = none →
      conns.length < tw.toWrite.fInc →
      tw.maybeStartWrite conns = .ok (tw, false, none)) ∧
    (∀ remoteTopology, tw.finished = false →
      tw.connectionManager.remoteTopology = some remoteTopology →
      remoteTopology.fInc ≤ (allRMsWithSelf tw.connectionManager.RMId remoteTopology).length →
      placeable tw.connectionManager.RMId conns remoteTopology < remoteTopology.fInc →
      tw.maybeStartWrite conns = .ok (tw, false, none)) ∧
    (∀ remoteTopology, tw.finished = false →
      tw.connectionManager.remoteTopology = some remoteTopology →
      (allRMsWithSelf tw.connectionManager.RMId remoteTopology).length < remoteTopology.fInc →
      placeable tw.connectionManager.RMId conns remoteTopology < remoteTopology.fInc ∧
      tw.maybeStartWrite conns = .error Failure.negativeCap) ∧
    shortRemoteWriter.finished = false ∧
    shortRemoteWriter.maybeStartWrite [] = .error Failure.negativeCap := by
  refine ⟨?_, ?_, ?_, rfl, rfl⟩
  · intro hfin hrem hlt
    unfold TopologyWriter.maybeStartWrite
    simp only [hfin, hrem, hlt, if_true, Bool.false_eq_true, if_false]
  · intro remoteTopology hfin hrem hlen hpl
    rw [maybeStartWrite_remote tw conns remoteTopology hfin hrem, if_neg (by omega)]
    have hle : (initialPlaced tw.connectionManager.RMId remoteTopology).1.length
        ≤ remoteTopology.fInc := by
      rw [initialPlaced_length]
      have := fInc_pos remoteTopology
      split_ifs <;> omega
    have hlen2 := placeRMs_active_length tw.connectionManager.RMId conns remoteTopology.fInc
      (allRMsWithSelf tw.connectionManager.RMId remoteTopology)
      (initialPlaced tw.connectionManager.RMId remoteTopology).1
      (initialPlaced tw.connectionManager.RMId remoteTopology).2 hle
    rw [initialPlaced_length] at hlen2
    unfold placeable at hpl
    rw [if_pos]
    rw [hlen2]
    omega
  · intro remoteTopology hfin hrem hlen
    refine ⟨?_, ?_⟩
    · have := placeable_le tw.connectionManager.RMId conns remoteTopology
      omega
    · rw [maybeStartWrite_remote tw conns remoteTopology hfin hrem, if_pos hlen]

/-- C18, as amended: when lc.RunTransaction returns a result and no error,
AddSelfToTopology returns, on Commit, the submitted topology with DBVersion
set to the result's TxnId and restart = false; on Abort/Resubmit, a nil
topology with restart = true and no error; on Abort/Rerun with exactly one
update that has one or two actions, whose first action on TopologyVarUUId is a
write with at most one reference, and whose value deserialises, the
deserialised topology with restart = false if the local RMId is in its AllRMs
and restart = true otherwise. On Abort/Rerun it returns a nil topology,
restart = false and an error when the number of updates is not one, when the
update has neither one nor two actions, when no action is on TopologyVarUUId,
when the first such action is not a write, when the write has more than one
reference, and when deserialising fails. -/
theorem addSelfToTopology_outcome (cm : ConnectionManager) (topology : Topology)
    (deserialize : Nat → Option VarIdPos → List Nat → Except Nat Topology) :
    (∀ txnId, AddSelfToTopology cm topology deserialize (some (Outcome.commit txnId)) none
      = (some { topology with DBVersion := txnId }, false, none)) ∧
    (∀ txnId, AddSelfToTopology cm topology deserialize (some (Outcome.abortResubmit txnId)) none
      = (none, true, none)) ∧
    (∀ txnId update updateAction value refs topology1,
      (update.actions.length = 1 ∨ update.actions.length = 2) →
      update.actions.find? (fun action => action.varId == TopologyVarUUId) = some updateAction →
      updateAction.kind = ActionKind.write value refs → refs.length ≤ 1 →
      deserialize update.txnId refs.head? value = .ok topology1 →
      AddSelfToTopology cm topology deserialize (some (Outcome.abortRerun txnId [update])) none
        = (some topology1, decide (cm.RMId ∉ topology1.AllRMs), none)) ∧
    (∀ txnId updates, updates.length ≠ 1 →
      AddSelfToTopology cm topology deserialize (some (Outcome.abortRerun txnId updates)) none
        = (none, false, some (Error.updateCount updates.length))) ∧
    (∀ txnId update, update.actions.length ≠ 1 → update.actions.length ≠ 2 →
      AddSelfToTopology cm topology deserialize (some (Outcome.abortRerun txnId [update])) none
        = (none, false, some (Error.actionCount update.actions.length))) ∧
    (∀ txnId update, (update.actions.length = 1 ∨ update.actions.length = 2) →
      update.actions.find? (fun action => action.varId == TopologyVarUUId) = none →
      AddSelfToTopology cm topology deserialize (some (Outcome.abortRerun txnId [update])) none
        = (none, false, some Error.noTopologyAction)) ∧
    (∀ txnId update updateAction, (update.actions.length = 1 ∨ update.actions.length = 2) →
      update.actions.find? (fun action => action.varId == TopologyVarUUId) = some updateAction →
      (∀ value refs, updateAction.kind ≠ ActionKind.write value refs) →
      AddSelfToTopology cm topology deserialize (some (Outcome.abortRerun txnId [update])) none
        = (none, false, some Error.nonWriteAction)) ∧
    (∀ txnId update updateAction value refs,
      (update.actions.length = 1 ∨ update.actions.length = 2) →
      update.actions.find? (fun action => action.varId == TopologyVarUUId) = some updateAction →
      updateAction.kind = ActionKind.write value refs → 1 < refs.length →
      AddSelfToTopology cm topology deserialize (some (Outcome.abortRerun txnId [update])) none
        = (none, false, some (Error.wrongReferences refs.length))) ∧
    (∀ txnId update updateAction value refs code,
      (update.actions.length = 1 ∨ update.actions.length = 2) →
      update.actions.find? (fun action => action.varId == TopologyVarUUId) = some updateAction →
      updateAction.kind = ActionKind.write value refs → refs.length ≤ 1 →
      deserialize update.txnId refs.head? value = .error code →
      AddSelfToTopology cm topology deserialize (some (Outcome.abortRerun txnId [update])) none
        = (none, false, some (Error.deserialize code))) := by
  have hcount : ∀ update : Update, (update.actions.length = 1 ∨ update.actions.length = 2) →
      ¬ (update.actions.length ≠ 1 ∧ update.actions.length ≠ 2) := by
    intro update h hc
    rcases h with h | h
    · exact hc.1 h
    · exact hc.2 h
  refine ⟨fun _ => rfl, fun _ => rfl, ?_, ?_, ?_, ?_, ?_, ?_, ?_⟩
  · intro txnId update updateAction value refs topology1 hlen hfind hkind hrefs hdes
    simp only [AddSelfToTopology, if_neg (hcount update hlen), hfind, hkind,
      if_neg (Nat.not_lt.mpr hrefs), hdes]
    by_cases hc : topology1.AllRMs.contains cm.RMId = true
    · have hmem : cm.RMId ∈ topology1.AllRMs := by simpa using hc
      simp [hc, hmem]
    · have hmem : cm.RMId ∉ topology1.AllRMs := by simpa using hc
      simp [hc, hmem]
  · intro txnId updates hlen
    match updates, hlen with
    | [], _ => rfl
    | [u], h => exact absurd rfl h
    | _ :: _ :: _, _ => rfl
  · intro txnId update h1 h2
    simp only [AddSelfToTopology, if_pos (And.intro h1 h2)]
  · intro txnId update hlen hfind
    simp only [AddSelfToTopology, if_neg (hcount update hlen), hfind]
  · intro txnId update updateAction hlen hfind hkind
    simp only [AddSelfToTopology, if_neg (hcount update hlen), hfind]
  · intro txnId update updateAction value refs hlen hfind hkind hrefs
    simp only [AddSelfToTopology, if_neg (hcount update hlen), hfind, hkind, if_pos hrefs]
  · intro txnId update updateAction value refs code hlen hfind hkind hrefs hdes
    simp only [AddSelfToTopology, if_neg (hcount update hlen), hfind, hkind,
      if_neg (Nat.not_lt.mpr hrefs), hdes]

theorem addSelfToTopology_outcome_witness :
    AddSelfToTopology { RMId := 1, BootCount := 1, remoteTopology := none } rerunTopology
        rerunDeserialize (some oneActionRerun) none
      = (some rerunTopology, decide (1 ∉ rerunTopology.AllRMs), none) :=
  (addSelfToTopology_outcome { RMId := 1, BootCount := 1, remoteTopology := none }
      rerunTopology rerunDeserialize).2.2.1 8
    { txnId := 9, actions := [{ varId := TopologyVarUUId, kind := ActionKind.write [7] [] }] }
    { varId := TopologyVarUUId, kind := ActionKind.write [7] [] } [7] [] rerunTopology
    (Or.inl rfl) rfl rfl (by decide) rfl

/-- Counterexample to C18 as stated: an Abort/Rerun with exactly one update
that holds a write on TopologyVarUUId, whose value deserialises to a topology
with the local RM among its AllRMs; the update has three actions, and
AddSelfToTopology returns a nil topology and an error. -/
theorem addSelfToTopology_counterexample :
    rerunDeserialize 9 none [7] = .ok rerunTopology ∧ 1 ∈ rerunTopology.AllRMs ∧
    AddSelfToTopology { RMId := 1, BootCount := 1, remoteTopology := none } rerunTopology
        rerunDeserialize (some threeActionRerun) none
      = (none, false, some (Error.actionCount 3)) :=
  ⟨rfl, by decide, rfl⟩


/-! ## The started write and the allocations: lemmas and theorems -/

/-- The loop of maybeStartWrite places every RM other than the local one once:
the two lists together are the two initial lists and those RMs, up to order;
an RM it adds to the active list is not the local one and is in the connection
map; the active list keeps what it held. -/
theorem placeRMs_spec (self : Nat) (conns : Conns) (capActive : Nat) (l : List Nat)
    (activeRMs passiveRMs : List Nat) :
    ((placeRMs self conns capActive l (activeRMs, passiveRMs)).1
        ++ (placeRMs self conns capActive l (activeRMs, passiveRMs)).2).Perm
      (activeRMs ++ passiveRMs ++ l.filter (fun rmId => rmId != self)) ∧
    (∀ rmId ∈ (placeRMs self conns capActive l (activeRMs, passiveRMs)).1,
      rmId ∈ activeRMs ∨ (rmId ≠ self ∧ conns.found rmId = true)) ∧
    (∀ rmId ∈ activeRMs,
      rmId ∈ (placeRMs self conns capActive l (activeRMs, passiveRMs)).1) := by
  induction l generalizing activeRMs passiveRMs with
  | nil =>
    refine ⟨by simp [placeRMs], fun rmId hm => Or.inl hm, fun rmId hm => hm⟩
  | cons x rest ih =>
    by_cases hs : x = self
    · have hflt : (x != self) = false := by simp [hs]
      rw [placeRMs, if_pos hs, List.filter_cons, hflt]
      exact ih activeRMs passiveRMs
    · have hflt : (x != self) = true := by simp [hs]
      by_cases hc : (conns.found x && decide (activeRMs.length < capActive)) = true
      · rw [placeRMs, if_neg hs, if_pos hc, List.filter_cons, hflt]
        obtain ⟨i1, i2, i3⟩ := ih (activeRMs ++ [x]) passiveRMs
        have hf : conns.found x = true := by
          simp only [Bool.and_eq_true] at hc
          exact hc.1
        refine ⟨?_, ?_, ?_⟩
        · refine i1.trans ?_
          simp only [if_true, List.append_assoc, List.singleton_append]
          refine List.Perm.append_left _ ?_
          exact (@List.perm_middle _ x passiveRMs
            (rest.filter (fun rmId => rmId != self))).symm
        · intro rmId hm
          rcases i2 rmId hm with h1 | h1
          · rcases List.mem_append.mp h1 with h2 | h2
            · exact Or.inl h2
            · have : rmId = x := by simpa using h2
              subst this
              exact Or.inr ⟨hs, hf⟩
          · exact Or.inr h1
        · intro rmId hm
          exact i3 rmId (List.mem_append_left _ hm)
      · rw [placeRMs, if_neg hs, if_neg hc, List.filter_cons, hflt]
        obtain ⟨i1, i2, i3⟩ := ih activeRMs (passiveRMs ++ [x])
        refine ⟨?_, i2, i3⟩
        refine i1.trans ?_
        simp only [if_true, List.append_assoc, List.singleton_append]
        exact List.Perm.refl _

theorem allRMsWithSelf_nodup (self : Nat) (remoteTopology : Topology)
    (hnd : remoteTopology.AllRMs.Nodup) : (allRMsWithSelf self remoteTopology).Nodup := by
  unfold allRMsWithSelf
  by_cases hs : remoteTopology.AllRMs.contains self = true
  · rw [if_pos hs]; exact hnd
  · rw [if_neg hs]
    have hmem : self ∉ remoteTopology.AllRMs := by simpa using hs
    rw [List.nodup_append]
    refine ⟨hnd, List.nodup_singleton _, ?_⟩
    intro x hx hx1
    have : x = self := by simpa using hx1
    subst this
    exact hmem hx

/-- The initial lists and the members of AllRMs other than the local RM are,
up to order, AllRMs. -/
theorem initialPlaced_perm (self : Nat) (remoteTopology : Topology)
    (hnd : remoteTopology.AllRMs.Nodup) :
    ((initialPlaced self remoteTopology).1 ++ (initialPlaced self remoteTopology).2
        ++ (allRMsWithSelf self remoteTopology).filter (fun rmId => rmId != self)).Perm
      (allRMsWithSelf self remoteTopology) := by
  unfold initialPlaced allRMsWithSelf
  by_cases hs : remoteTopology.AllRMs.contains self = true
  · rw [if_pos hs, if_pos hs]
    have hmem : self ∈ remoteTopology.AllRMs := by simpa using hs
    rw [← List.Nodup.erase_eq_filter hnd self]
    exact (List.perm_cons_erase hmem).symm
  · rw [if_neg hs, if_neg hs]
    have hmem : self ∉ remoteTopology.AllRMs := by simpa using hs
    have h1 : remoteTopology.AllRMs.filter (fun rmId => rmId != self) = remoteTopology.AllRMs := by
      rw [List.filter_eq_self]
      intro x hx
      have : x ≠ self := fun h => hmem (h ▸ hx)
      simp [this]
    rw [List.filter_append, h1]
    simp only [List.nil_append, List.filter_cons, bne_self_eq_false, List.filter_nil,
      List.append_nil, List.singleton_append, Bool.false_eq_true, if_false]
    exact (List.perm_append_singleton self remoteTopology.AllRMs).symm

theorem bootCount_of_found (conns : Conns) (rmId : Nat) (h : conns.found rmId = true) :
    ∃ bootCount, conns.bootCount rmId = some bootCount := by
  unfold Conns.found at h
  unfold Conns.bootCount
  induction conns with
  | nil => simp at h
  | cons e rest ih =>
    by_cases he : e.1 = rmId
    · exact ⟨e.2, by simp [List.find?_cons, he]⟩
    · have hne : (e.1 == rmId) = false := by simp [he]
      simp only [List.any_cons, hne, Bool.false_or] at h
      obtain ⟨b, hb⟩ := ih h
      exact ⟨b, by simp only [List.find?_cons, hne]; exact hb⟩

/-- The inner loop of AddSelfToTopology returns one allocation per RM of its
list when the allocation list has a slot for each and, for the active list,
every RM has a connection. -/
theorem allocLoop_returns (conns : Conns) (size listIdx : Nat) (l : List Nat) (idx : Nat)
    (hsize : idx + l.length ≤ size)
    (hconn : listIdx = 0 → ∀ rmId ∈ l, conns.found rmId = true) :
    ∃ allocs, allocLoop conns size listIdx idx l = .ok allocs ∧
      allocs.map (fun alloc => alloc.rmId) = l ∧
      (∀ alloc ∈ allocs, alloc.actionIndices = [0] ∧
        (listIdx ≠ 0 → alloc.active = 0) ∧
        (listIdx = 0 → conns.bootCount alloc.rmId = some alloc.active)) := by
  induction l generalizing idx with
  | nil => exact ⟨[], rfl, rfl, by simp⟩
  | cons x rest ih =>
    simp only [List.length_cons] at hsize
    have hlt : idx < size := by omega
    obtain ⟨as, has, hmap, hall⟩ := ih (idx + 1) (by omega)
      (fun h0 r hr => hconn h0 r (List.mem_cons_of_mem _ hr))
    by_cases h0 : listIdx = 0
    · obtain ⟨b, hb⟩ := bootCount_of_found conns x (hconn h0 x (List.mem_cons_self _ _))
      refine ⟨{ rmId := x, active := b, actionIndices := [0] } :: as, ?_, by simp [hmap], ?_⟩
      · simp only [allocLoop, if_pos hlt, allocationFor, if_pos h0, hb, has]
      · intro alloc hm
        rcases List.mem_cons.mp hm with h1 | h1
        · subst h1
          exact ⟨rfl, fun h => absurd h0 h, fun _ => hb⟩
        · exact hall alloc h1
    · refine ⟨{ rmId := x, active := 0, actionIndices := [0] } :: as, ?_, by simp [hmap], ?_⟩
      · simp only [allocLoop, if_pos hlt, allocationFor, if_neg h0, has]
      · intro alloc hm
        rcases List.mem_cons.mp hm with h1 | h1
        · subst h1
          exact ⟨rfl, fun _ => rfl, fun h => absurd h h0⟩
        · exact hall alloc h1

/-- C30: when maybeStartWrite starts a write from a remote topology whose
AllRMs has no duplicates, toWrite.AllRMs is the remote AllRMs plus the local
RM; the active and the passive list are disjoint, and together they hold every
member of toWrite.AllRMs exactly once, so that their lengths add up to
`len(toWrite.AllRMs)`, the size of the allocation list of AddSelfToTopology;
the active list has exactly fInc members; the local RM is active if and only
if it was in the remote AllRMs; every other active RM is in the connection
map. The allocation loop of AddSelfToTopology then fills every slot of its
list, one allocation per RM in the order active, passive, provided the local
RM, when it is active, has a connection in the map as well. -/
theorem started_write_partition (tw tw1 : TopologyWriter) (conns : Conns)
    (remoteTopology : Topology) (removed : Bool) (w : StartedWrite)
    (hfin : tw.finished = false)
    (hrem : tw.connectionManager.remoteTopology = some remoteTopology)
    (hnd : remoteTopology.AllRMs.Nodup)
    (hstart : tw.maybeStartWrite conns = .ok (tw1, removed, some w)) :
    w.toWrite.AllRMs = allRMsWithSelf tw.connectionManager.RMId remoteTopology ∧
    w.activeRMs.Disjoint w.passiveRMs ∧
    (w.activeRMs ++ w.passiveRMs).Nodup ∧
    (w.activeRMs ++ w.passiveRMs).Perm w.toWrite.AllRMs ∧
    w.activeRMs.length + w.passiveRMs.length = w.toWrite.AllRMs.length ∧
    w.activeRMs.length = w.fInc ∧ w.fInc = w.toWrite.fInc ∧
    (tw.connectionManager.RMId ∈ w.activeRMs
      ↔ tw.connectionManager.RMId ∈ remoteTopology.AllRMs) ∧
    (∀ rmId ∈ w.activeRMs, rmId ≠ tw.connectionManager.RMId → conns.found rmId = true) ∧
    ((tw.connectionManager.RMId ∈ remoteTopology.AllRMs →
        conns.found tw.connectionManager.RMId = true) →
      ∃ allocs : List Allocation,
        AddSelfToTopology.allocs conns w.toWrite w.activeRMs w.passiveRMs
          = .ok (allocs.map some) ∧
        allocs.length = w.toWrite.AllRMs.length ∧
        allocs.map (fun alloc => alloc.rmId) = w.activeRMs ++ w.passiveRMs) := by
  rw [maybeStartWrite_remote tw conns remoteTopology hfin hrem] at hstart
  by_cases h1 : (allRMsWithSelf tw.connectionManager.RMId remoteTopology).length
      < remoteTopology.fInc
  · rw [if_pos h1] at hstart
    cases hstart
  rw [if_neg h1] at hstart
  by_cases h2 : (placeRMs tw.connectionManager.RMId conns remoteTopology.fInc
      (allRMsWithSelf tw.connectionManager.RMId remoteTopology)
      (initialPlaced tw.connectionManager.RMId remoteTopology)).1.length < remoteTopology.fInc
  · rw [if_pos h2] at hstart
    injection hstart with hstart
    simp only [Prod.mk.injEq] at hstart
    exact absurd hstart.2.2 (by simp)
  rw [if_neg h2] at hstart
  injection hstart with hstart
  simp only [Prod.mk.injEq, Option.some.injEq] at hstart
  obtain ⟨_, _, hw⟩ := hstart
  subst hw
  dsimp only
  have heta : ((initialPlaced tw.connectionManager.RMId remoteTopology).1,
      (initialPlaced tw.connectionManager.RMId remoteTopology).2)
        = initialPlaced tw.connectionManager.RMId remoteTopology := rfl
  have hspec := placeRMs_spec tw.connectionManager.RMId conns remoteTopology.fInc
    (allRMsWithSelf tw.connectionManager.RMId remoteTopology)
    (initialPlaced tw.connectionManager.RMId remoteTopology).1
    (initialPlaced tw.connectionManager.RMId remoteTopology).2
  rw [heta] at hspec
  obtain ⟨p1, p2, p3⟩ := hspec
  have hperm := p1.trans (initialPlaced_perm tw.connectionManager.RMId remoteTopology hnd)
  have hnodup := hperm.nodup_iff.mpr
    (allRMsWithSelf_nodup tw.connectionManager.RMId remoteTopology hnd)
  have hle : (initialPlaced tw.connectionManager.RMId remoteTopology).1.length
      ≤ remoteTopology.fInc := by
    rw [initialPlaced_length]
    have := fInc_pos remoteTopology
    split_ifs <;> omega
  have hlen := placeRMs_active_length tw.connectionManager.RMId conns remoteTopology.fInc
    (allRMsWithSelf tw.connectionManager.RMId remoteTopology)
    (initialPlaced tw.connectionManager.RMId remoteTopology).1
    (initialPlaced tw.connectionManager.RMId remoteTopology).2 hle
  rw [heta] at hlen
  have hact : (placeRMs tw.connectionManager.RMId conns remoteTopology.fInc
      (allRMsWithSelf tw.connectionManager.RMId remoteTopology)
      (initialPlaced tw.connectionManager.RMId remoteTopology)).1.length
        = remoteTopology.fInc := by
    have hmin := Nat.min_le_left remoteTopology.fInc
      ((initialPlaced tw.connectionManager.RMId remoteTopology).1.length
        + ((allRMsWithSelf tw.connectionManager.RMId remoteTopology).filter
            (fun rmId => rmId != tw.connectionManager.RMId && conns.found rmId)).length)
    omega
  have hinit : ∀ rmId, rmId ∈ (initialPlaced tw.connectionManager.RMId remoteTopology).1
      ↔ rmId = tw.connectionManager.RMId ∧ tw.connectionManager.RMId ∈ remoteTopology.AllRMs := by
    intro rmId
    unfold initialPlaced
    by_cases hs : remoteTopology.AllRMs.contains tw.connectionManager.RMId = true
    · have hmem : tw.connectionManager.RMId ∈ remoteTopology.AllRMs := by simpa using hs
      rw [if_pos hs]
      simp [hmem]
    · have hmem : tw.connectionManager.RMId ∉ remoteTopology.AllRMs := by simpa using hs
      rw [if_neg hs]
      simp [hmem]
  have hlens := hperm.length_eq
  rw [List.length_append] at hlens
  have hother : ∀ rmId ∈ (placeRMs tw.connectionManager.RMId conns remoteTopology.fInc
      (allRMsWithSelf tw.connectionManager.RMId remoteTopology)
      (initialPlaced tw.connectionManager.RMId remoteTopology)).1,
      rmId ≠ tw.connectionManager.RMId → conns.found rmId = true := by
    intro rmId hm hne
    rcases p2 rmId hm with h3 | h3
    · exact absurd ((hinit rmId).mp h3).1 hne
    · exact h3.2
  refine ⟨rfl, (List.nodup_append.mp hnodup).2.2, hnodup, hperm, hlens, hact, rfl, ?_, hother, ?_⟩
  · constructor
    · intro hm
      rcases p2 _ hm with h3 | h3
      · exact ((hinit _).mp h3).2
      · exact absurd rfl h3.1
    · intro hm
      exact p3 _ ((hinit _).mpr ⟨rfl, hm⟩)
  · intro hself
    have hconn : ∀ rmId ∈ (placeRMs tw.connectionManager.RMId conns remoteTopology.fInc
        (allRMsWithSelf tw.connectionManager.RMId remoteTopology)
        (initialPlaced tw.connectionManager.RMId remoteTopology)).1,
        conns.found rmId = true := by
      intro rmId hm
      by_cases hne : rmId = tw.connectionManager.RMId
      · rcases p2 rmId hm with h3 | h3
        · rw [hne]; exact hself ((hinit rmId).mp h3).2
        · exact h3.2
      · exact hother rmId hm hne
    obtain ⟨as, has, hamap, _⟩ := allocLoop_returns conns
      (allRMsWithSelf tw.connectionManager.RMId remoteTopology).length 0 _ 0
      (by omega) (fun _ => hconn)
    have halen : as.length = (placeRMs tw.connectionManager.RMId conns remoteTopology.fInc
        (allRMsWithSelf tw.connectionManager.RMId remoteTopology)
        (initialPlaced tw.connectionManager.RMId remoteTopology)).1.length := by
      rw [← hamap, List.length_map]
    obtain ⟨ps, hps, hpmap, _⟩ := allocLoop_returns conns
      (allRMsWithSelf tw.connectionManager.RMId remoteTopology).length 1
      (placeRMs tw.connectionManager.RMId conns remoteTopology.fInc
        (allRMsWithSelf tw.connectionManager.RMId remoteTopology)
        (initialPlaced tw.connectionManager.RMId remoteTopology)).2 as.length
      (by omega) (fun h => absurd h (by decide))
    have hplen : ps.length = (placeRMs tw.connectionManager.RMId conns remoteTopology.fInc
        (allRMsWithSelf tw.connectionManager.RMId remoteTopology)
        (initialPlaced tw.connectionManager.RMId remoteTopology)).2.length := by
      rw [← hpmap, List.length_map]
    refine ⟨as ++ ps, ?_, by rw [List.length_append]; omega, by rw [List.map_append, hamap, hpmap]⟩
    unfold AddSelfToTopology.allocs
    dsimp only
    rw [has]
    dsimp only
    rw [hps]
    dsimp only
    have hz : (allRMsWithSelf tw.connectionManager.RMId remoteTopology).length
        - (as.length + ps.length) = 0 := by omega
    rw [hz]
    simp

theorem started_write_partition_witness :
    joinedWriter.finished = false ∧
    joinedWriter.maybeStartWrite joinedConns
      = .ok ({ joinedWriter with finished := true }, true, some joinedWrite) ∧
    joinedWrite.activeRMs.Disjoint joinedWrite.passiveRMs ∧
    (joinedWrite.activeRMs ++ joinedWrite.passiveRMs).Perm joinedWrite.toWrite.AllRMs ∧
    joinedWrite.activeRMs.length = joinedWrite.fInc ∧
    AddSelfToTopology.allocs joinedConns joinedWrite.toWrite joinedWrite.activeRMs
        joinedWrite.passiveRMs
      = .ok [some { rmId := 1, active := 5, actionIndices := [0] },
             some { rmId := 2, active := 7, actionIndices := [0] },
             some { rmId := 3, active := 0, actionIndices := [0] }] :=
  have h := started_write_partition joinedWriter { joinedWriter with finished := true }
    joinedConns { Hosts := ["a", "b", "c"], AllRMs := [1, 2, 3], DBVersion := 5, Root := none,
                  Version := 1 } true joinedWrite rfl rfl (by decide) rfl
  ⟨rfl, rfl, h.2.1, h.2.2.2.1, h.2.2.2.2.2.1, rfl⟩

end Network

namespace Utils

/-! ## The one-shot sender: lemmas and theorems -/

theorem insertKey_spec (remaining : List Nat) (rmId : Nat) (h : remaining.Nodup) :
    (insertKey remaining rmId).Nodup ∧
    ∀ r, r ∈ insertKey remaining rmId ↔ r ∈ remaining ∨ r = rmId := by
  unfold insertKey
  by_cases hc : remaining.contains rmId = true
  · have hmem : rmId ∈ remaining := by simpa using hc
    rw [if_pos hc]
    refine ⟨h, fun r => ⟨Or.inl, ?_⟩⟩
    rintro (h1 | h1)
    · exact h1
    · rw [h1]; exact hmem
  · have hmem : rmId ∉ remaining := by simpa using hc
    rw [if_neg hc]
    refine ⟨?_, fun r => by simp⟩
    rw [List.nodup_append]
    refine ⟨h, List.nodup_singleton _, ?_⟩
    intro a ha hb
    rw [List.mem_singleton] at hb
    rw [hb] at ha
    exact hmem ha

theorem foldl_insertKey (recipients acc : List Nat) (h : acc.Nodup) :
    (recipients.foldl insertKey acc).Nodup ∧
    ∀ r, r ∈ recipients.foldl insertKey acc ↔ r ∈ acc ∨ r ∈ recipients := by
  induction recipients generalizing acc with
  | nil => exact ⟨h, fun r => by simp⟩
  | cons x rest ih =>
    obtain ⟨h1, h2⟩ := insertKey_spec acc x h
    obtain ⟨h3, h4⟩ := ih (insertKey acc x) h1
    refine ⟨h3, fun r => ?_⟩
    rw [List.foldl_cons, h4, h2, List.mem_cons]
    tauto

theorem NewOneShotSender_Inv (msg : List Nat) (R : List Nat) :
    (NewOneShotSender msg R).Inv R ∧ ∀ r, r ∈ (NewOneShotSender msg R).remaining ↔ r ∈ R := by
  obtain ⟨h1, h2⟩ := foldl_insertKey R [] List.nodup_nil
  refine ⟨⟨h1, List.nodup_nil, ?_, ?_, fun _ => rfl⟩, fun r => by rw [NewOneShotSender, h2]; simp⟩
  · intro r
    show r ∈ R ↔ r ∈ R.foldl insertKey [] ∨ r ∈ []
    rw [h2]; simp
  · intro r _ hs
    cases hs

theorem connectedLoop_spec (conns : List Nat) (l : List Nat) (oss : OneShotSender)
    (hn : oss.remaining.Nodup) :
    (connectedLoop conns l oss).remaining
      = oss.remaining.filter (fun r => !(decide (r ∈ l) && decide (r ∈ conns))) ∧
    (connectedLoop conns l oss).sent = oss.sent ++ l.filter (fun r => decide (r ∈ conns)) ∧
    (connectedLoop conns l oss).removed = oss.removed ∧
    (connectedLoop conns l oss).msg = oss.msg := by
  induction l generalizing oss with
  | nil => simp [connectedLoop]
  | cons x rest ih =>
    by_cases hm : x ∈ conns
    · have hc : conns.contains x = true := by simpa using hm
      rw [connectedLoop, if_pos hc]
      have hn1 : (oss.sendTo x).remaining.Nodup := hn.erase x
      obtain ⟨h1, h2, h3, h4⟩ := ih (oss.sendTo x) hn1
      refine ⟨?_, ?_, h3, h4⟩
      · rw [h1]
        show (oss.remaining.erase x).filter _ = _
        rw [hn.erase_eq_filter, List.filter_filter]
        apply List.filter_congr
        intro r _
        by_cases hrx : r = x
        · subst hrx; simp [hm]
        · simp [hrx]
      · rw [h2]
        show (oss.sent ++ [x]) ++ _ = _
        rw [List.filter_cons, if_pos (by simpa using hm)]
        simp
    · have hc : ¬ conns.contains x = true := by simpa using hm
      rw [connectedLoop, if_neg hc]
      obtain ⟨h1, h2, h3, h4⟩ := ih oss hn
      refine ⟨?_, ?_, h3, h4⟩
      · rw [h1]
        apply List.filter_congr
        intro r _
        by_cases hrx : r = x
        · subst hrx; simp [hm]
        · simp [hrx]
      · rw [h2, List.filter_cons, if_neg (by simpa using hm)]

theorem removeIfDone_fields (oss : OneShotSender) :
    oss.removeIfDone.remaining = oss.remaining ∧ oss.removeIfDone.sent = oss.sent ∧
    oss.removeIfDone.msg = oss.msg ∧
    oss.removeIfDone.removed = if oss.remaining = [] then oss.removed + 1 else oss.removed := by
  unfold OneShotSender.removeIfDone
  by_cases h : oss.remaining = []
  · simp [h]
  · have : ¬ oss.remaining.length = 0 := fun hc => h (List.length_eq_zero.mp hc)
    simp [h, this]

/-- What one event does to a sender that satisfies the invariant. -/
theorem step_spec (oss : OneShotSender) (R : List Nat) (e : Event) (hinv : oss.Inv R) :
    (oss.step e).Inv R ∧
    (∀ r, r ∈ (oss.step e).remaining ↔ r ∈ oss.remaining ∧ ¬ e.connects r) ∧
    (∀ r, r ∈ (oss.step e).sent ↔ r ∈ oss.sent ∨ (r ∈ oss.remaining ∧ e.connects r)) ∧
    (oss.step e).remaining.Sublist oss.remaining ∧
    (∃ new, (oss.step e).sent = oss.sent ++ new) ∧
    ((oss.step e).removed = oss.removed ∨
      ((oss.step e).remaining = [] ∧ (oss.step e).removed = oss.removed + 1)) ∧
    (oss.remaining ≠ [] → (oss.step e).remaining = [] →
      (oss.step e).removed = oss.removed + 1) ∧
    (oss.step e).msg = oss.msg := by
  obtain ⟨hn, hs, hR, hd, hrem⟩ := hinv
  cases e with
  | connectionLost rmId conns =>
    refine ⟨⟨hn, hs, hR, hd, hrem⟩, ?_, ?_, List.Sublist.refl _,
      ⟨[], (List.append_nil _).symm⟩, Or.inl rfl, ?_, rfl⟩
    · intro r; simp [OneShotSender.step, OneShotSender.ConnectionLost, Event.connects]
    · intro r; simp [OneShotSender.step, OneShotSender.ConnectionLost, Event.connects]
    · intro hne hnil; exact absurd hnil hne
  | connectedRMs conns =>
    obtain ⟨h1, h2, h3, h4⟩ := connectedLoop_spec conns oss.remaining oss hn
    obtain ⟨g1, g2, g3, g4⟩ := removeIfDone_fields (connectedLoop conns oss.remaining oss)
    have e1 : (oss.step (Event.connectedRMs conns)).remaining
        = oss.remaining.filter (fun r => !(decide (r ∈ oss.remaining) && decide (r ∈ conns))) := by
      show (connectedLoop conns oss.remaining oss).removeIfDone.remaining = _
      rw [g1, h1]
    have e2 : (oss.step (Event.connectedRMs conns)).sent
        = oss.sent ++ oss.remaining.filter (fun r => decide (r ∈ conns)) := by
      show (connectedLoop conns oss.remaining oss).removeIfDone.sent = _
      rw [g2, h2]
    have e3 : (oss.step (Event.connectedRMs conns)).removed
        = if (oss.step (Event.connectedRMs conns)).remaining = [] then oss.removed + 1
          else oss.removed := by
      show (connectedLoop conns oss.remaining oss).removeIfDone.removed = _
      rw [g4, h3, ← g1]
      rfl
    have m1 : ∀ r, r ∈ (oss.step (Event.connectedRMs conns)).remaining
        ↔ r ∈ oss.remaining ∧ ¬ r ∈ conns := by
      intro r
      rw [e1, List.mem_filter]
      simp
      tauto
    have m2 : ∀ r, r ∈ (oss.step (Event.connectedRMs conns)).sent
        ↔ r ∈ oss.sent ∨ (r ∈ oss.remaining ∧ r ∈ conns) := by
      intro r
      rw [e2, List.mem_append, List.mem_filter]
      simp
    refine ⟨⟨?_, ?_, ?_, ?_, ?_⟩, m1, m2, ?_, ⟨_, e2⟩, ?_, ?_, ?_⟩
    · rw [e1]; exact hn.filter _
    · rw [e2, List.nodup_append]
      refine ⟨hs, hn.filter _, ?_⟩
      intro a ha hb
      exact hd a (List.mem_filter.mp hb).1 ha
    · intro r
      rw [hR r, m1 r, m2 r]
      tauto
    · intro r hr hsent
      rw [m1] at hr
      rw [m2] at hsent
      rcases hsent with h | h
      · exact hd r hr.1 h
      · exact hr.2 h.2
    · intro hne
      rw [e3, if_neg hne]
      apply hrem
      intro hnil
      apply hne
      rw [e1, hnil]
      rfl
    · rw [e1]; exact List.filter_sublist _
    · by_cases hnil : (oss.step (Event.connectedRMs conns)).remaining = []
      · exact Or.inr ⟨hnil, by rw [e3, if_pos hnil]⟩
      · exact Or.inl (by rw [e3, if_neg hnil])
    · intro _ hnil
      rw [e3, if_pos hnil]
    · show (connectedLoop conns oss.remaining oss).removeIfDone.msg = _
      rw [g3, h4]
  | connectionEstablished rmId conns =>
    by_cases hm : rmId ∈ oss.remaining
    · have hc : oss.remaining.contains rmId = true := by simpa using hm
      obtain ⟨g1, g2, g3, g4⟩ := removeIfDone_fields (oss.sendTo rmId)
      have e0 : oss.step (Event.connectionEstablished rmId conns)
          = (oss.sendTo rmId).removeIfDone := by
        show oss.ConnectionEstablished rmId conns = _
        unfold OneShotSender.ConnectionEstablished
        rw [if_pos hc]
      have e1 : (oss.step (Event.connectionEstablished rmId conns)).remaining
          = oss.remaining.erase rmId := by rw [e0, g1]; rfl
      have e2 : (oss.step (Event.connectionEstablished rmId conns)).sent
          = oss.sent ++ [rmId] := by rw [e0, g2]; rfl
      have e3 : (oss.step (Event.connectionEstablished rmId conns)).removed
          = if (oss.step (Event.connectionEstablished rmId conns)).remaining = []
            then oss.removed + 1 else oss.removed := by
        rw [e1, e0, g4]; rfl
      have m1 : ∀ r, r ∈ (oss.step (Event.connectionEstablished rmId conns)).remaining
          ↔ r ∈ oss.remaining ∧ ¬ r = rmId := by
        intro r
        rw [e1, hn.mem_erase_iff]
        tauto
      have m2 : ∀ r, r ∈ (oss.step (Event.connectionEstablished rmId conns)).sent
          ↔ r ∈ oss.sent ∨ (r ∈ oss.remaining ∧ r = rmId) := by
        intro r
        rw [e2, List.mem_append, List.mem_singleton]
        constructor
        · rintro (h | h)
          · exact Or.inl h
          · exact Or.inr ⟨h ▸ hm, h⟩
        · rintro (h | h)
          · exact Or.inl h
          · exact Or.inr h.2
      refine ⟨⟨?_, ?_, ?_, ?_, ?_⟩, m1, m2, ?_, ⟨_, e2⟩, ?_, ?_, ?_⟩
      · rw [e1]; exact hn.erase _
      · rw [e2, List.nodup_append]
        refine ⟨hs, List.nodup_singleton _, ?_⟩
        intro a ha hb
        rw [List.mem_singleton] at hb
        rw [hb] at ha
        exact hd rmId hm ha
      · intro r
        rw [hR r, m1 r, m2 r]
        tauto
      · intro r hr hsent
        rw [m1] at hr
        rw [m2] at hsent
        rcases hsent with h | h
        · exact hd r hr.1 h
        · exact hr.2 h.2
      · intro hne
        rw [e3, if_neg hne]
        exact hrem (fun hnil => by rw [hnil] at hm; cases hm)
      · rw [e1]; exact List.erase_sublist _ _
      · by_cases hnil : (oss.step (Event.connectionEstablished rmId conns)).remaining = []
        · exact Or.inr ⟨hnil, by rw [e3, if_pos hnil]⟩
        · exact Or.inl (by rw [e3, if_neg hnil])
      · intro _ hnil
        rw [e3, if_pos hnil]
      · rw [e0, g3]; rfl
    · have hc : ¬ oss.remaining.contains rmId = true := by simpa using hm
      have e0 : oss.step (Event.connectionEstablished rmId conns) = oss := by
        show oss.ConnectionEstablished rmId conns = _
        unfold OneShotSender.ConnectionEstablished
        rw [if_neg hc]
      rw [e0]
      refine ⟨⟨hn, hs, hR, hd, hrem⟩, ?_, ?_, List.Sublist.refl _,
        ⟨[], (List.append_nil _).symm⟩, Or.inl rfl, ?_, rfl⟩
      · intro r
        simp only [Event.connects]
        constructor
        · intro h; exact ⟨h, fun hc2 => hm (hc2 ▸ h)⟩
        · intro h; exact h.1
      · intro r
        simp only [Event.connects]
        constructor
        · intro h; exact Or.inl h
        · rintro (h | h)
          · exact h
          · exact absurd (h.2 ▸ h.1) hm
      · intro hne hnil; exact absurd hnil hne

theorem run_spec (events : List Event) (oss : OneShotSender) (R : List Nat) (hinv : oss.Inv R) :
    (oss.run events).Inv R ∧
    (∀ r, r ∈ (oss.run events).sent
      ↔ r ∈ oss.sent ∨ (r ∈ oss.remaining ∧ ∃ e ∈ events, e.connects r)) ∧
    (∀ r, r ∈ (oss.run events).remaining
      ↔ r ∈ oss.remaining ∧ ∀ e ∈ events, ¬ e.connects r) ∧
    (oss.run events).msg = oss.msg := by
  induction events generalizing oss with
  | nil =>
    refine ⟨hinv, fun r => ?_, fun r => ?_, rfl⟩
    · simp [OneShotSender.run]
    · simp [OneShotSender.run]
  | cons e rest ih =>
    obtain ⟨h1, h2, h3, _, _, _, _, h4⟩ := step_spec oss R e hinv
    obtain ⟨g1, g2, g3, g4⟩ := ih (oss.step e) h1
    have hrun : oss.run (e :: rest) = (oss.step e).run rest := rfl
    rw [hrun]
    refine ⟨g1, fun r => ?_, fun r => ?_, by rw [g4, h4]⟩
    · rw [g2 r, h3 r, h2 r]
      simp only [List.mem_cons, exists_eq_or_imp]
      by_cases hc : e.connects r
      · simp [hc]
      · simp [hc]
    · rw [g3 r, h2 r]
      simp only [List.mem_cons, forall_eq_or_imp]
      tauto

/-- C19: for a OneShotSender created for the recipients R and every sequence
of ConnectedRMs, ConnectionLost and ConnectionEstablished events: no RM is
sent msg twice; only members of R are sent msg; a member of R has been sent
msg exactly if it appeared connected in some event so far (in the map of a
ConnectedRMs or as the RM of a ConnectionEstablished), and is in `remaining`
exactly if it has not. A further event sends msg to every remaining RM that
appears connected in it and takes it out of `remaining`, only extends the
sends, only shrinks `remaining`, and removes the sender from the publisher
only with `remaining` empty; the sender was not removed before `remaining` was
empty, and is removed in the event that empties it. -/
theorem oneShotSender_delivers (msg : List Nat) (R : List Nat) (events : List Event)
    (e : Event) :
    ((NewOneShotSender msg R).run events).sent.Nodup ∧
    (∀ r ∈ ((NewOneShotSender msg R).run events).sent, r ∈ R) ∧
    (∀ r, r ∈ ((NewOneShotSender msg R).run events).sent
      ↔ r ∈ R ∧ ∃ ev ∈ events, ev.connects r) ∧
    (∀ r, r ∈ ((NewOneShotSender msg R).run events).remaining
      ↔ r ∈ R ∧ ∀ ev ∈ events, ¬ ev.connects r) ∧
    (∀ r, r ∈ ((NewOneShotSender msg R).run events).remaining → e.connects r →
      r ∈ (((NewOneShotSender msg R).run events).step e).sent ∧
      r ∉ (((NewOneShotSender msg R).run events).step e).remaining) ∧
    (∃ new, (((NewOneShotSender msg R).run events).step e).sent
      = ((NewOneShotSender msg R).run events).sent ++ new ∧
      ∀ r ∈ new, r ∈ ((NewOneShotSender msg R).run events).remaining ∧ e.connects r) ∧
    (((NewOneShotSender msg R).run events).step e).remaining.Sublist
      ((NewOneShotSender msg R).run events).remaining ∧
    (((NewOneShotSender msg R).run events).remaining ≠ [] →
      ((NewOneShotSender msg R).run events).removed = 0) ∧
    (((NewOneShotSender msg R).run events).remaining ≠ [] →
      (((NewOneShotSender msg R).run events).step e).remaining = [] →
      (((NewOneShotSender msg R).run events).step e).removed = 1) ∧
    ((((NewOneShotSender msg R).run events).step e).removed
        ≠ ((NewOneShotSender msg R).run events).removed →
      (((NewOneShotSender msg R).run events).step e).remaining = []) ∧
    (((NewOneShotSender msg R).run events).step e).msg = msg := by
  obtain ⟨hinv0, hrem0⟩ := NewOneShotSender_Inv msg R
  obtain ⟨hinv, hsent, hremaining, hmsg⟩ := run_spec events (NewOneShotSender msg R) R hinv0
  obtain ⟨sinv, s1, s2, s3, ⟨new, s4⟩, s5, s6, s7⟩ :=
    step_spec ((NewOneShotSender msg R).run events) R e hinv
  have hsent0 : (NewOneShotSender msg R).sent = [] := rfl
  refine ⟨hinv.2.1, ?_, ?_, ?_, ?_, ⟨new, s4, ?_⟩, s3, hinv.2.2.2.2, ?_, ?_, ?_⟩
  · intro r hr
    exact (hinv.2.2.1 r).mpr (Or.inr hr)
  · intro r
    rw [hsent r, hsent0, hrem0 r]
    simp
  · intro r
    rw [hremaining r, hrem0 r]
  · intro r hr hc
    exact ⟨(s2 r).mpr (Or.inr ⟨hr, hc⟩), fun h => ((s1 r).mp h).2 hc⟩
  · intro r hr
    have hmem : r ∈ (((NewOneShotSender msg R).run events).step e).sent := by
      rw [s4]; exact List.mem_append_right _ hr
    rcases (s2 r).mp hmem with h | h
    · exfalso
      have hnd := sinv.2.1
      rw [s4, List.nodup_append] at hnd
      exact hnd.2.2 h hr
    · exact h
  · intro hne hnil
    rw [s6 hne hnil, hinv.2.2.2.2 hne]
  · intro hne
    rcases s5 with h | h
    · exact absurd h hne
    · exact h.1
  · rw [s7, hmsg]; rfl

theorem oneShotSender_delivers_witness :
    (((NewOneShotSender [42] [1, 2, 1]).run
        [Event.connectedRMs [2, 5], Event.connectionEstablished 3 [2, 3, 5]]).step
      (Event.connectionEstablished 1 [1, 2, 3, 5]))
      = { msg := [42], remaining := [], sent := [2, 1], removed := 1 } ∧
    (∀ r, r ∈ ((NewOneShotSender [42] [1, 2, 1]).run
        [Event.connectedRMs [2, 5], Event.connectionEstablished 3 [2, 3, 5]]).sent
      ↔ r ∈ [1, 2, 1] ∧ ∃ ev ∈ [Event.connectedRMs [2, 5],
          Event.connectionEstablished 3 [2, 3, 5]], ev.connects r) :=
  ⟨rfl,
   (oneShotSender_delivers [42] [1, 2, 1]
      [Event.connectedRMs [2, 5], Event.connectionEstablished 3 [2, 3, 5]]
      (Event.connectionEstablished 1 [1, 2, 3, 5])).2.2.1⟩

end Utils
